import Mathlib

/-!
# 2D collision resolution: a shallow embedding

Embedding of `collisionresfunc2d.cpp` (namespace `NCollisionResFunc2D`) and
`collisionmanifold.cpp` (class `CCollisionManifold`), and of the computation of the new
centre in `planetgenerator.cpp` (`CPlanetGenerator::Generate`).

The collision code is embedded twice.

* Over exact rationals (`ℚ`): the functions with `float` and `CWorldValue` values read as
  exact numbers.  The float literals of the source have the values binary32 gives them
  (`0.2f` is `13421773 / 2^26`, not `1/5`).  A float division by zero has no rational
  value, so every division goes through `fdiv`, which reports `Fault.divideByZero` for a
  zero divisor.
* Over IEEE 754 binary32 (`Binary32`, namespace `F32`): the same functions with every
  `+`, `-`, `*`, `/` rounded to nearest, ties to even, with signed zeros, subnormal
  numbers, infinities and NaN, evaluated in source order without fused operations.  A
  computation carries the sticky flag "some operation raised an IEEE exception (inexact,
  underflow, overflow, division by zero, invalid)" (`FloatM`).  A call that returns with
  the flag clear computed every intermediate value exactly, and then agrees with the
  embedding over `ℚ`.

Conventions common to both.

* Pointers that may be `NULL` are `Option`s; dereferencing `none` reports
  `Fault.nullPointer`.  Indexing a two-slot array outside `0..1` reports
  `Fault.outOfBounds`; a thrown `CCriticalException` is `Fault.criticalException`.
* The two sprites of a pair live in a `World`; a sprite pointer is a `SpriteRef`.
* Values of type `int` are integers; an `int` operation whose result leaves the 32-bit
  range reports `Fault.signedOverflow`.
-/

/-- Ways in which a call fails to return normally. -/
inductive Fault where
  | nullPointer
  | outOfBounds
  | divideByZero
  | criticalException
  | signedOverflow
  deriving DecidableEq, Repr

/-- The constant `FLT_MAX` of `<cfloat>`, that is `(2 - 2^-23) * 2^127`. -/
def FLT_MAX : ℚ := 340282346638528859811704183484516925440

/-- The constant `PERCENT` (0.2f) of collisionmanifold.cpp. -/
def PERCENT : ℚ := 13421773 / 67108864

/-- The constant `SLOP` (0.01f) of collisionmanifold.cpp. -/
def SLOP : ℚ := 5368709 / 536870912

/-- The constant `BIAS_RELATIVE` (0.95f) of collisionresfunc2d.cpp. -/
def BIAS_RELATIVE : ℚ := 15938355 / 16777216

/-- The constant `BIAS_ABSOLUTE` (0.01f) of collisionresfunc2d.cpp. -/
def BIAS_ABSOLUTE : ℚ := 5368709 / 536870912

/-- The constant `MIN_SEPARATION` (0.0001f) of collisionresfunc2d.cpp. -/
def MIN_SEPARATION : ℚ := 13743895 / 137438953472

/-- Float division: a zero divisor has no rational result. -/
def fdiv (a b : ℚ) : Except Fault ℚ :=
  if b = 0 then Except.error Fault.divideByZero else Except.ok (a / b)

/-- Dereference of a pointer that may be `NULL`. -/
def deref {α : Type} : Option α → Except Fault α
  | some a => Except.ok a
  | none => Except.error Fault.nullPointer

/-- Modelled from the spec: `CPoint` / `CWorldPoint` (common/point.h and
common/worldpoint.h are missing), the "Vector2 / Point" value type of the data model.
Only the `x` and `y` components are read by the 2D functions embedded here. -/
structure CPoint where
  x : ℚ
  y : ℚ
  deriving DecidableEq, Repr

namespace CPoint

instance : Add CPoint := ⟨fun a b => ⟨a.x + b.x, a.y + b.y⟩⟩
instance : Sub CPoint := ⟨fun a b => ⟨a.x - b.x, a.y - b.y⟩⟩
instance : Neg CPoint := ⟨fun a => ⟨-a.x, -a.y⟩⟩
instance : HMul CPoint ℚ CPoint := ⟨fun a k => ⟨a.x * k, a.y * k⟩⟩

/-- The point `(0, 0)` left by the default constructor. -/
def zero : CPoint := ⟨0, 0⟩

end CPoint

namespace NMathFunc

/-- Modelled from the spec: `NMathFunc::DotProduct2D` (utilities/mathfunc.h is missing),
the dot product of the `x`, `y` components. -/
def DotProduct2D (a b : CPoint) : ℚ := a.x * b.x + a.y * b.y

/-- Modelled from the spec: `NMathFunc::CrossProduct2D` on two vectors
(utilities/mathfunc.h is missing), the scalar 2D cross product. -/
def CrossProduct2D (a b : CPoint) : ℚ := a.x * b.y - a.y * b.x

/-- Modelled from the spec: `NMathFunc::CrossProduct2D` on a scalar and a vector
(utilities/mathfunc.h is missing): "angular velocity scalar × radius vector →
perpendicular vector". -/
def CrossProduct2DScalar (a : ℚ) (v : CPoint) : CPoint := ⟨-a * v.y, a * v.x⟩

end NMathFunc

open NMathFunc

/-- Modelled from the spec: `CEdge` (common/edge.h is missing): two vertex positions
and a precomputed normal. -/
structure CEdge where
  pVert0 : CPoint
  pVert1 : CPoint
  normal : CPoint
  deriving DecidableEq, Repr

/-- Modelled from the spec: `CCollisionBody` (common/collisionbody.h is missing): mass,
inverse mass, inertia, inverse inertia, restitution, velocities, and the position
correction written by `PositionalCorrection`. -/
structure CCollisionBody where
  mass : ℚ
  inverseMass : ℚ
  inertia : ℚ
  inverseInertia : ℚ
  restitution : ℚ
  velocity : CPoint
  angVelocity : ℚ
  positionCorrection : CPoint
  deriving DecidableEq, Repr

/-- Modelled from the spec: the polygon side of `CCollisionSprite2D` as the collision
functions use it (the class declaring `GetOuterEdge`, `GetSupportVert` and `GetBody`
is missing): the ordered outer edges, the vertices, and the body. -/
structure CCollisionSprite2D where
  outerEdge : List CEdge
  vert : List CPoint
  body : CCollisionBody
  deriving DecidableEq, Repr

/-- Modelled from the spec: `CSpriteGroup2D` (2d/spritegroup2d.h is missing): world
position, bounding radius and the collision sprite. -/
structure CSpriteGroup2D where
  pos : CPoint
  radius : ℚ
  collisionSprite : CCollisionSprite2D
  deriving DecidableEq, Repr

/-- Target of a `CSpriteGroup2D *`: one of the two sprites of the pair. -/
inductive SpriteRef where
  | A
  | B
  deriving DecidableEq, Repr

/-- The mutable state reachable through the sprite pointers. -/
structure World where
  spriteA : CSpriteGroup2D
  spriteB : CSpriteGroup2D
  deriving DecidableEq, Repr

namespace World

/-- Read through a sprite pointer. -/
def get (w : World) : SpriteRef → CSpriteGroup2D
  | SpriteRef.A => w.spriteA
  | SpriteRef.B => w.spriteB

/-- The body behind a sprite pointer (`GetCollisionSprite()->GetBody()`). -/
def body (w : World) (r : SpriteRef) : CCollisionBody := (w.get r).collisionSprite.body

/-- Overwrite the body behind a sprite pointer. -/
def setBody (w : World) (r : SpriteRef) (b : CCollisionBody) : World :=
  match r with
  | SpriteRef.A =>
    { w with spriteA := { w.spriteA with
        collisionSprite := { w.spriteA.collisionSprite with body := b } } }
  | SpriteRef.B =>
    { w with spriteB := { w.spriteB with
        collisionSprite := { w.spriteB.collisionSprite with body := b } } }

end World

/-- The class `CCollisionManifold` of collisionmanifold.h. -/
structure CCollisionManifold where
  pRefSprite : Option SpriteRef
  pIncSprite : Option SpriteRef
  penetration : ℚ
  normal : CPoint
  pRefEdge : Option CEdge
  pIncEdge : Option CEdge
  contactPoint0 : CPoint
  contactPoint1 : CPoint
  contactCount : Int
  deriving DecidableEq, Repr

namespace CCollisionManifold

/-- The constructor `CCollisionManifold::CCollisionManifold()`. -/
def ctor : CCollisionManifold :=
  { pRefSprite := none, pIncSprite := none, penetration := 0, normal := CPoint.zero,
    pRefEdge := none, pIncEdge := none, contactPoint0 := CPoint.zero,
    contactPoint1 := CPoint.zero, contactCount := 0 }

/-- Read of `contactPoint[i]`. -/
def contactPointAt (m : CCollisionManifold) (i : Int) : Except Fault CPoint :=
  if i = 0 then Except.ok m.contactPoint0
  else if i = 1 then Except.ok m.contactPoint1
  else Except.error Fault.outOfBounds

/-- Write of `contactPoint[i] = p`. -/
def setContactPoint (m : CCollisionManifold) (i : Int) (p : CPoint) :
    Except Fault CCollisionManifold :=
  if i = 0 then Except.ok { m with contactPoint0 := p }
  else if i = 1 then Except.ok { m with contactPoint1 := p }
  else Except.error Fault.outOfBounds

/-- Loop of `FindIncidentEdge` over the incident sprite's outer edges, carrying
`minValue` and `pIncEdge`. -/
def FindIncidentEdgeLoop (referenceNormal : CPoint) :
    List CEdge → ℚ → Option CEdge → ℚ × Option CEdge
  | [], minValue, pIncEdge => (minValue, pIncEdge)
  | pTmpEdge :: rest, minValue, pIncEdge =>
    let value := DotProduct2D referenceNormal pTmpEdge.normal
    if value < minValue then FindIncidentEdgeLoop referenceNormal rest value (some pTmpEdge)
    else FindIncidentEdgeLoop referenceNormal rest minValue pIncEdge

/-- The method `CCollisionManifold::FindIncidentEdge`. -/
def FindIncidentEdge (m : CCollisionManifold) (w : World) :
    Except Fault CCollisionManifold := do
  let pIncSprite ← deref m.pIncSprite
  let pIncColSprite := (w.get pIncSprite).collisionSprite
  let pRefEdge ← deref m.pRefEdge
  let referenceNormal := pRefEdge.normal
  let minValue := FLT_MAX
  let r := FindIncidentEdgeLoop referenceNormal pIncColSprite.outerEdge minValue m.pIncEdge
  pure { m with pIncEdge := r.2 }

/-- Division `correction /= s` of a point by a float. -/
def divPoint (p : CPoint) (s : ℚ) : Except Fault CPoint := do
  let x ← fdiv p.x s
  let y ← fdiv p.y s
  pure ⟨x, y⟩

/-- The method `CCollisionManifold::PositionalCorrection`. -/
def PositionalCorrection (m : CCollisionManifold) (w : World) : Except Fault World := do
  let pRefSprite ← deref m.pRefSprite
  let pIncSprite ← deref m.pIncSprite
  let correction := m.normal * PERCENT * max (m.penetration - SLOP) 0
  let correction ← divPoint correction
    ((w.body pRefSprite).inverseMass + (w.body pIncSprite).inverseMass)
  let w := w.setBody pRefSprite
    { w.body pRefSprite with
      positionCorrection := correction * -(w.body pRefSprite).inverseMass }
  let w := w.setBody pIncSprite
    { w.body pIncSprite with
      positionCorrection := correction * (w.body pIncSprite).inverseMass }
  pure w

/-- Loop of `ApplyImpulse`: `n` iterations are left, `i` is the loop index. -/
def ApplyImpulseLoop (m : CCollisionManifold) (pRefSprite pIncSprite : SpriteRef) :
    Nat → Int → World → Except Fault World
  | 0, _, w => Except.ok w
  | n + 1, i, w => do
    let contactPoint ← m.contactPointAt i
    let refRadius := contactPoint - (w.get pRefSprite).pos
    let incRadius := contactPoint - (w.get pIncSprite).pos
    let relVelocity :=
      (w.body pIncSprite).velocity
        + CrossProduct2DScalar (w.body pIncSprite).angVelocity incRadius
        - (w.body pRefSprite).velocity
        - CrossProduct2DScalar (w.body pRefSprite).angVelocity refRadius
    let contactVelocity := DotProduct2D relVelocity m.normal
    if contactVelocity > 0 then Except.ok w
    else do
      let refRadCrossN := CrossProduct2D refRadius m.normal
      let incRadCrossN := CrossProduct2D incRadius m.normal
      let invMassSum :=
        (w.body pRefSprite).inverseMass + (w.body pIncSprite).inverseMass
          + (refRadCrossN * refRadCrossN) * (w.body pRefSprite).inverseInertia
          + (incRadCrossN * incRadCrossN) * (w.body pIncSprite).inverseInertia
      let minRestitution :=
        min (w.body pRefSprite).restitution (w.body pIncSprite).restitution
      let impulse := -(1 + minRestitution) * contactVelocity
      let impulse ← fdiv impulse invMassSum
      let impulseVec := m.normal * impulse
      let velocityVec :=
        (w.body pRefSprite).velocity - impulseVec * (w.body pRefSprite).inverseMass
      let angVelocity :=
        (w.body pRefSprite).angVelocity
          - (w.body pRefSprite).inverseInertia * CrossProduct2D refRadius impulseVec
      let w := w.setBody pRefSprite
        { w.body pRefSprite with velocity := velocityVec, angVelocity := angVelocity }
      let velocityVec :=
        (w.body pIncSprite).velocity + impulseVec * (w.body pIncSprite).inverseMass
      let angVelocity :=
        (w.body pIncSprite).angVelocity
          + (w.body pIncSprite).inverseInertia * CrossProduct2D incRadius impulseVec
      let w := w.setBody pIncSprite
        { w.body pIncSprite with velocity := velocityVec, angVelocity := angVelocity }
      ApplyImpulseLoop m pRefSprite pIncSprite n (i + 1) w

/-- The method `CCollisionManifold::ApplyImpulse`. -/
def ApplyImpulse (m : CCollisionManifold) (w : World) : Except Fault World := do
  let pRefSprite ← deref m.pRefSprite
  let pIncSprite ← deref m.pIncSprite
  ApplyImpulseLoop m pRefSprite pIncSprite m.contactCount.toNat 0 w

end CCollisionManifold

/-- Scan of `GetSupportVert`: the first vertex of `v :: vs` with the greatest projection
on `dir`. -/
def supportOf (dir : CPoint) (v : CPoint) (vs : List CPoint) : CPoint :=
  vs.foldl (fun best u => if DotProduct2D u dir > DotProduct2D best dir then u else best) v

/-- Modelled from the spec: `CCollisionSprite2D::GetSupportVert` (its class is missing):
"the vertex of a polygon that is farthest along a given direction"; the first such
vertex in list order, and `NULL` for a sprite without vertices. -/
def CCollisionSprite2D.GetSupportVert (s : CCollisionSprite2D) (dir : CPoint) :
    Option CPoint :=
  match s.vert with
  | [] => none
  | v :: vs => some (supportOf dir v vs)

namespace NCollisionResFunc2D

/-- Loop of `GetCollisionManifold` over the outer edges of sprite A. -/
def GetCollisionManifoldLoop (pColSpriteB : CCollisionSprite2D) :
    List CEdge → CCollisionManifold → Except Fault CCollisionManifold
  | [], colMan => Except.ok colMan
  | edge :: rest, colMan => do
    let edgeNormal := edge.normal
    let pSupportVert ← deref (pColSpriteB.GetSupportVert (-edgeNormal))
    let pTmpVert := edge.pVert0
    let distance := DotProduct2D (pSupportVert - pTmpVert) edgeNormal
    if distance > colMan.penetration then
      GetCollisionManifoldLoop pColSpriteB rest
        { colMan with penetration := distance, pRefEdge := some edge }
    else GetCollisionManifoldLoop pColSpriteB rest colMan

/-- The function `GetCollisionManifold`. -/
def GetCollisionManifold (w : World) (pSpriteA pSpriteB : SpriteRef) :
    Except Fault CCollisionManifold :=
  let colMan := CCollisionManifold.ctor
  let pColSpriteA := (w.get pSpriteA).collisionSprite
  let pColSpriteB := (w.get pSpriteB).collisionSprite
  let colMan := { colMan with penetration := -FLT_MAX }
  GetCollisionManifoldLoop pColSpriteB pColSpriteA.outerEdge colMan

/-- Write of `clippedPoint[sp] = p` into the two-slot local array of `Clip`. -/
def setClipped (c : CPoint × CPoint) (sp : Nat) (p : CPoint) :
    Except Fault (CPoint × CPoint) :=
  match sp with
  | 0 => Except.ok (p, c.2)
  | 1 => Except.ok (c.1, p)
  | _ => Except.error Fault.outOfBounds

/-- The function `Clip`: returns the count `sp` and the two points left in `pIncVert`. -/
def Clip (sidePlaneNormal : CPoint) (side : ℚ) (pIncVert : CPoint × CPoint) :
    Except Fault (Nat × (CPoint × CPoint)) := do
  let sp : Nat := 0
  let clippedPoint : CPoint × CPoint := (pIncVert.1, pIncVert.2)
  let d1 := DotProduct2D pIncVert.1 sidePlaneNormal - side
  let d2 := DotProduct2D pIncVert.2 sidePlaneNormal - side
  let (sp, clippedPoint) ←
    if d1 ≤ 0 then do
      let c ← setClipped clippedPoint sp pIncVert.1
      pure (sp + 1, c)
    else pure (sp, clippedPoint)
  let (sp, clippedPoint) ←
    if d2 ≤ 0 then do
      let c ← setClipped clippedPoint sp pIncVert.2
      pure (sp + 1, c)
    else pure (sp, clippedPoint)
  let (sp, clippedPoint) ←
    if d1 * d2 < 0 then do
      let alpha ← fdiv d1 (d1 - d2)
      let c ← setClipped clippedPoint sp (pIncVert.1 + (pIncVert.2 - pIncVert.1) * alpha)
      pure (sp + 1, c)
    else pure (sp, clippedPoint)
  if sp = 3 then Except.error Fault.criticalException
  else pure (sp, clippedPoint)

/-- What a call of `ResolveCollision` leaves behind: the returned flag, the manifold
passed by reference, and the world. -/
structure ResolveResult where
  ret : Bool
  colMan : CCollisionManifold
  world : World
  deriving DecidableEq, Repr

/-- The last part of `ResolveCollision` ("Determine which of the possible contact points
are, in fact, contacting"): the two separation tests and the averaging. -/
def ResolveCollisionContacts (colMan : CCollisionManifold) (refC : ℚ)
    (possibleContact : CPoint × CPoint) : Except Fault CCollisionManifold := do
  let separation := DotProduct2D possibleContact.1 colMan.normal - refC
  let colMan ←
    if separation ≤ 0 then do
      let c ← colMan.setContactPoint colMan.contactCount possibleContact.1
      pure { c with penetration := -separation, contactCount := c.contactCount + 1 }
    else pure { colMan with penetration := 0 }
  let separation := DotProduct2D possibleContact.2 colMan.normal - refC
  let colMan ←
    if separation ≤ 0 then do
      let c ← colMan.setContactPoint colMan.contactCount possibleContact.2
      pure { c with penetration := c.penetration + -separation,
                    contactCount := c.contactCount + 1 }
    else pure colMan
  if colMan.contactCount = 2 then
    pure { colMan with penetration := colMan.penetration * (1 / 2) }
  else pure colMan

/-- The part of `ResolveCollision` after the reference sprite has been chosen:
incident edge, the two clips and the contact points. -/
def ResolveCollisionClip (w : World) (colMan : CCollisionManifold) :
    Except Fault ResolveResult := do
  let colMan ← colMan.FindIncidentEdge w
  let pRefEdge ← deref colMan.pRefEdge
  let colMan := { colMan with normal := pRefEdge.normal }
  let sidePlaneNormal : CPoint := ⟨colMan.normal.y, -colMan.normal.x⟩
  let refC := DotProduct2D pRefEdge.pVert0 colMan.normal
  let negSide := -DotProduct2D pRefEdge.pVert0 sidePlaneNormal
  let posSide := DotProduct2D pRefEdge.pVert1 sidePlaneNormal
  let pIncEdge ← deref colMan.pIncEdge
  let possibleContact : CPoint × CPoint := (pIncEdge.pVert0, pIncEdge.pVert1)
  let (n, possibleContact) ← Clip (-sidePlaneNormal) negSide possibleContact
  if n < 2 then pure ⟨false, colMan, w⟩
  else do
    let (n, possibleContact) ← Clip sidePlaneNormal posSide possibleContact
    if n < 2 then pure ⟨false, colMan, w⟩
    else do
      let colMan ← ResolveCollisionContacts colMan refC possibleContact
      pure ⟨true, colMan, w⟩

/-- The function `ResolveCollision`.  `BoxRadiiIntersect` is the bounding test of
utilities/collisionfunc2d.h, which is missing and is taken as a parameter. -/
def ResolveCollision (BoxRadiiIntersect : CPoint → ℚ → CPoint → ℚ → Bool) (w : World)
    (colMan : CCollisionManifold) (pSpriteA pSpriteB : SpriteRef) :
    Except Fault ResolveResult :=
  if (w.body pSpriteA).mass ≠ 0 ∨ (w.body pSpriteB).mass ≠ 0 then
    if BoxRadiiIntersect (w.get pSpriteA).pos (w.get pSpriteA).radius
        (w.get pSpriteB).pos (w.get pSpriteB).radius = true then do
      let colManA ← GetCollisionManifold w pSpriteA pSpriteB
      if colManA.penetration > 0 then pure ⟨false, colMan, w⟩
      else do
        let colManB ← GetCollisionManifold w pSpriteB pSpriteA
        if colManB.penetration > 0 then pure ⟨false, colMan, w⟩
        else
          if colManA.penetration ≥
              colManB.penetration * BIAS_RELATIVE + colManA.penetration * BIAS_ABSOLUTE then
            ResolveCollisionClip w
              { colManA with pRefSprite := some pSpriteA, pIncSprite := some pSpriteB }
          else
            ResolveCollisionClip w
              { colManB with pRefSprite := some pSpriteB, pIncSprite := some pSpriteA }
    else pure ⟨false, colMan, w⟩
  else pure ⟨false, colMan, w⟩

/-- Modelled from the spec: `CPoint::GetLengthSquared` (common/point.h is missing), the
squared length of the `x`, `y` components. -/
def GetLengthSquared (p : CPoint) : ℚ := p.x * p.x + p.y * p.y

/-- The search loop of `ApplyPointImpulse` over the outer edges, carrying `separation`
and `pEdge`; `none` is the early `return` of the loop. -/
def ApplyPointImpulseLoop (point : CPoint) (radius : ℚ) :
    List CEdge → ℚ → Option CEdge → Option (ℚ × Option CEdge)
  | [], separation, pEdge => some (separation, pEdge)
  | pTmpEdge :: rest, separation, pEdge =>
    let tmpSeparation := DotProduct2D (point - pTmpEdge.pVert0) pTmpEdge.normal
    if tmpSeparation > radius then none
    else if tmpSeparation > separation then
      ApplyPointImpulseLoop point radius rest tmpSeparation (some pTmpEdge)
    else ApplyPointImpulseLoop point radius rest separation pEdge

/-- The collision information of `ApplyPointImpulse` (`normal`, `contact`, `penetration`)
for the selected edge; `none` is one of the early `return`s.  `Normalize2D` is the
method of common/point.h, which is missing and is taken as a parameter. -/
def ApplyPointImpulseContact (Normalize2D : CPoint → Except Fault CPoint) (point : CPoint)
    (radius separation : ℚ) (pEdge : Option CEdge) :
    Except Fault (Option (CPoint × CPoint × ℚ)) := do
  if separation < MIN_SEPARATION then
    let edge ← deref pEdge
    let normal := -edge.normal
    let contact := point + normal * radius
    let penetration := radius
    pure (some (normal, contact, penetration))
  else
    let penetration := radius - separation
    let edge ← deref pEdge
    let dot0 := DotProduct2D (point - edge.pVert0) (edge.pVert1 - edge.pVert0)
    let dot1 := DotProduct2D (point - edge.pVert1) (edge.pVert0 - edge.pVert1)
    if dot0 ≤ 0 then
      if GetLengthSquared (point - edge.pVert0) > radius * radius then pure none
      else
        let normal ← Normalize2D (edge.pVert0 - point)
        pure (some (normal, edge.pVert0, penetration))
    else if dot1 ≤ 0 then
      if GetLengthSquared (point - edge.pVert1) > radius * radius then pure none
      else
        let normal ← Normalize2D (edge.pVert1 - point)
        pure (some (normal, edge.pVert1, penetration))
    else
      if DotProduct2D (point - edge.pVert0) edge.normal > radius then pure none
      else
        let normal := -edge.normal
        pure (some (normal, point + normal * radius, penetration))

/-- The function `ApplyPointImpulse`.  The local `pEdge` is declared without an initial
value; a read of it before the loop has assigned it is reported as `Fault.nullPointer`. -/
def ApplyPointImpulse (Normalize2D : CPoint → Except Fault CPoint) (point : CPoint)
    (radius inverseRadius force : ℚ) (w : World) (pSprite : SpriteRef)
    (diminishingForce : Bool) : Except Fault World := do
  let pColSprite := (w.get pSprite).collisionSprite
  match ApplyPointImpulseLoop point radius pColSprite.outerEdge (-FLT_MAX) none with
  | none => pure w
  | some (separation, pEdge) =>
    match ← ApplyPointImpulseContact Normalize2D point radius separation pEdge with
    | none => pure w
    | some (normal, contact, penetration) =>
      let impulseVec :=
        if diminishingForce = true then normal * force * penetration * inverseRadius
        else normal * force
      let velocityVec := (w.body pSprite).velocity + impulseVec * (w.body pSprite).inverseMass
      let angVelocity :=
        (w.body pSprite).angVelocity
          + (w.body pSprite).inverseInertia
            * CrossProduct2D (contact - (w.get pSprite).pos) impulseVec
      pure (w.setBody pSprite
        { w.body pSprite with velocity := velocityVec, angVelocity := angVelocity })

end NCollisionResFunc2D

/-! ## The sector grid of the planet generator (planetgenerator.cpp) -/

namespace CPlanetGenerator

/-- The least value of the 32-bit type `int`. -/
def INT_MIN : Int := -2147483648

/-- The greatest value of the 32-bit type `int`. -/
def INT_MAX : Int := 2147483647

/-- The result of an `int` operation whose mathematical value is `v`: a value outside the
range of `int` is a signed overflow, reported as `Fault.signedOverflow`. -/
def toInt (v : Int) : Except Fault Int :=
  if INT_MIN ≤ v ∧ v ≤ INT_MAX then Except.ok v else Except.error Fault.signedOverflow

/-- The function `abs` of `<cstdlib>` on `int`. -/
def absInt (v : Int) : Except Fault Int :=
  if v < 0 then toInt (-v) else Except.ok v

/-- The constant `PLANET_SECTOR_SIZE` of planetgenerator.cpp. -/
def PLANET_SECTOR_SIZE : Int := 121

/-- The block "If the remainder is greater than half the sector size rounded down, we add
or subtract 1 to the multiple" of `CPlanetGenerator::Generate`, which the source has once
for `x` and once for `y`: the new value of the multiple. -/
def adjustMult (mod mult newFocus : Int) : Except Fault Int :=
  if mod > (PLANET_SECTOR_SIZE >>> 1) then
    if newFocus < 0 then toInt (mult - 1) else toInt (mult + 1)
  else Except.ok mult

/-- The part of `CPlanetGenerator::Generate` that determines the new centre from the new
focus ("Determine the new center"): the `x` and `y` of `newCenter`.  `/` and `%` of C++
truncate towards zero. -/
def GenerateNewCenter (newFocusX newFocusY : Int) : Except Fault (Int × Int) := do
  let xMult := Int.tdiv newFocusX PLANET_SECTOR_SIZE
  let yMult := Int.tdiv newFocusY PLANET_SECTOR_SIZE
  let xMod := Int.tmod (← absInt newFocusX) PLANET_SECTOR_SIZE
  let yMod := Int.tmod (← absInt newFocusY) PLANET_SECTOR_SIZE
  let xMult ← adjustMult xMod xMult newFocusX
  let yMult ← adjustMult yMod yMult newFocusY
  let x ← toInt (xMult * PLANET_SECTOR_SIZE)
  let y ← toInt (yMult * PLANET_SECTOR_SIZE)
  pure (x, y)

end CPlanetGenerator

/-! ## The type `float`: IEEE 754 binary32 -/

/-- A value of the C++ type `float` (IEEE 754 binary32).  Every finite binary32 number is
an integer multiple of `2^-149`, the least positive one: `finite neg k` is the number
`(-1)^neg * k * 2^-149`, so `finite true 0` is `-0`.  The payload of a NaN is not kept. -/
inductive Binary32 where
  | finite (neg : Bool) (k : Nat)
  | inf (neg : Bool)
  | nan
  deriving DecidableEq, Repr

namespace Binary32

/-- Number of binary digits of `n`, for `n < 2^600`. -/
def bitLengthAux : Nat → Nat → Nat
  | 0, _ => 0
  | fuel + 1, n => if n = 0 then 0 else bitLengthAux fuel (n / 2) + 1

/-- Number of binary digits of `n` (`0` for `0`). -/
def bitLength (n : Nat) : Nat := bitLengthAux 600 n

/-- The least multiple of `2^-149` that is too large for binary32: `2^128`. -/
def overflowKey : Nat := 2 ^ 128 * 2 ^ 149

/-- Round to nearest, ties to even: the binary32 multiple of `2^-149` nearest to
`num / den * 2^-149`.  Below `2^24` every natural number stands for a binary32 number;
from there on the numbers with 24 significant binary digits do. -/
def roundKey (num den : Nat) : Nat :=
  let k0 := num / den
  let scale := if k0 < 2 ^ 24 then 1 else 1 <<< (bitLength k0 - 24)
  let mant := num / (den * scale)
  let rem := num % (den * scale)
  let mant :=
    if 2 * rem > den * scale ∨ (2 * rem = den * scale ∧ mant % 2 = 1) then mant + 1
    else mant
  mant * scale

/-- The binary32 result of an operation whose exact result is
`(-1)^neg * num / den * 2^-149`, with the flag that tells whether an IEEE exception
(inexact, underflow, overflow) was raised. -/
def round (neg : Bool) (num den : Nat) : Binary32 × Bool :=
  if roundKey num den ≥ overflowKey then (inf neg, true)
  else (finite neg (roundKey num den), decide (roundKey num den * den ≠ num))

/-- Sum of two binary32 values and whether the addition raised an IEEE exception. -/
def add : Binary32 → Binary32 → Binary32 × Bool
  | nan, _ => (nan, false)
  | _, nan => (nan, false)
  | inf a, inf b => if a = b then (inf a, false) else (nan, true)
  | inf a, finite _ _ => (inf a, false)
  | finite _ _, inf b => (inf b, false)
  | finite a j, finite b k =>
    if a = b then round a (j + k) 1
    else if j = k then (finite false 0, false)
    else if j > k then round a (j - k) 1
    else round b (k - j) 1

/-- Unary minus: the sign bit is flipped. -/
def neg : Binary32 → Binary32
  | finite a k => finite (!a) k
  | inf a => inf (!a)
  | nan => nan

/-- Difference of two binary32 values: `x - y` is `x + (-y)`. -/
def sub (x y : Binary32) : Binary32 × Bool := add x (neg y)

/-- Product of two binary32 values and whether it raised an IEEE exception. -/
def mul : Binary32 → Binary32 → Binary32 × Bool
  | nan, _ => (nan, false)
  | _, nan => (nan, false)
  | inf a, inf b => (inf (xor a b), false)
  | inf a, finite b k => if k = 0 then (nan, true) else (inf (xor a b), false)
  | finite a j, inf b => if j = 0 then (nan, true) else (inf (xor a b), false)
  | finite a j, finite b k => round (xor a b) (j * k) (2 ^ 149)

/-- Quotient of two binary32 values and whether it raised an IEEE exception. -/
def div : Binary32 → Binary32 → Binary32 × Bool
  | nan, _ => (nan, false)
  | _, nan => (nan, false)
  | inf _, inf _ => (nan, true)
  | inf a, finite b _ => (inf (xor a b), false)
  | finite a _, inf b => (finite (xor a b) 0, false)
  | finite a j, finite b k =>
    if k = 0 then (if j = 0 then (nan, true) else (inf (xor a b), true))
    else round (xor a b) (j * 2 ^ 149) k

/-- Place of a value in the order of the comparisons: `-0` and `+0` have the same place and
a NaN has none. -/
def rank : Binary32 → Option Int
  | finite a k => some (if a = true then -(k : Int) else (k : Int))
  | inf a => some (if a = true then -(overflowKey : Int) else (overflowKey : Int))
  | nan => none

/-- The comparison `x < y` of C++ on `float`: false when an operand is a NaN. -/
def lt (x y : Binary32) : Bool :=
  match rank x, rank y with
  | some a, some b => decide (a < b)
  | _, _ => false

/-- The comparison `x <= y` of C++ on `float`: false when an operand is a NaN. -/
def le (x y : Binary32) : Bool :=
  match rank x, rank y with
  | some a, some b => decide (a ≤ b)
  | _, _ => false

/-- The comparison `x == y` of C++ on `float`: false when an operand is a NaN, true for
`-0` and `+0`. -/
def eq (x y : Binary32) : Bool :=
  match rank x, rank y with
  | some a, some b => decide (a = b)
  | _, _ => false

/-- The comparison `x != y` of C++ on `float`: the negation of `x == y`. -/
def ne (x y : Binary32) : Bool := !eq x y

instance : LT Binary32 := ⟨fun x y => lt x y = true⟩
instance : LE Binary32 := ⟨fun x y => le x y = true⟩
instance (x y : Binary32) : Decidable (x < y) := inferInstanceAs (Decidable (lt x y = true))
instance (x y : Binary32) : Decidable (x ≤ y) := inferInstanceAs (Decidable (le x y = true))

/-- The binary32 number `m * 2^e`, for `-149 ≤ e` and `m < 2^24`. -/
def lit (m : Nat) (e : Int) : Binary32 := finite false (m * 2 ^ (e + 149).toNat)

instance : OfNat Binary32 0 := ⟨finite false 0⟩
instance : OfNat Binary32 1 := ⟨lit 1 0⟩

/-- The rational number a finite binary32 value stands for (`0` for infinities and NaN). -/
def toRat : Binary32 → ℚ
  | finite a k => (if a = true then -(k : ℚ) else (k : ℚ)) / 2 ^ 149
  | inf _ => 0
  | nan => 0

/-- The value is a finite number. -/
def IsFinite : Binary32 → Prop
  | finite _ _ => True
  | inf _ => False
  | nan => False

end Binary32

/-- Result of a computation on `float`s: a fault, or a value together with the sticky flag
that tells whether one of its float operations raised an IEEE exception (inexact,
underflow, overflow, division by zero, invalid). -/
def FloatM (α : Type) : Type := Except Fault (α × Bool)

namespace FloatM

/-- A value computed without any float operation. -/
def ret {α : Type} (a : α) : FloatM α := Except.ok (a, false)

/-- Sequencing: the flags of the two parts are or-ed. -/
def andThen {α β : Type} (c : FloatM α) (f : α → FloatM β) : FloatM β :=
  match c with
  | Except.error e => Except.error e
  | Except.ok (a, s) =>
    match f a with
    | Except.error e => Except.error e
    | Except.ok (b, t) => Except.ok (b, s || t)

instance : Monad FloatM where
  pure := ret
  bind := andThen

/-- A fault: the computation does not return. -/
def fault {α : Type} (e : Fault) : FloatM α := Except.error e

end FloatM

/-- Dereference of a pointer that may be `NULL`, inside a float computation. -/
def derefF {α : Type} : Option α → FloatM α
  | some a => FloatM.ret a
  | none => FloatM.fault Fault.nullPointer

/-- The operation `x + y` on `float`. -/
def fadd (x y : Binary32) : FloatM Binary32 := Except.ok (Binary32.add x y)

/-- The operation `x - y` on `float`. -/
def fsub (x y : Binary32) : FloatM Binary32 := Except.ok (Binary32.sub x y)

/-- The operation `x * y` on `float`. -/
def fmul (x y : Binary32) : FloatM Binary32 := Except.ok (Binary32.mul x y)

/-- The operation `x / y` on `float`: a zero divisor gives an infinity or a NaN. -/
def fquot (x y : Binary32) : FloatM Binary32 := Except.ok (Binary32.div x y)

/-! ## The collision code on `float` -/

namespace F32

/-- The constant `FLT_MAX` of `<cfloat>`: `(2^24 - 1) * 2^104`. -/
def FLT_MAX : Binary32 := Binary32.lit 16777215 104

/-- The constant `PERCENT` of collisionmanifold.cpp: the binary32 number `0.2f`. -/
def PERCENT : Binary32 := Binary32.lit 13421773 (-26)

/-- The constant `SLOP` of collisionmanifold.cpp: the binary32 number `0.01f`. -/
def SLOP : Binary32 := Binary32.lit 5368709 (-29)

/-- The constant `BIAS_RELATIVE` of collisionresfunc2d.cpp: the binary32 number `0.95f`. -/
def BIAS_RELATIVE : Binary32 := Binary32.lit 15938355 (-24)

/-- The constant `BIAS_ABSOLUTE` of collisionresfunc2d.cpp: the binary32 number `0.01f`. -/
def BIAS_ABSOLUTE : Binary32 := Binary32.lit 5368709 (-29)

/-- The constant `MIN_SEPARATION` of collisionresfunc2d.cpp: the binary32 number
`0.0001f`. -/
def MIN_SEPARATION : Binary32 := Binary32.lit 13743895 (-37)

/-- The function `std::max` on `float`: `(a < b) ? b : a`. -/
def fmax (a b : Binary32) : Binary32 := if a < b then b else a

/-- The function `std::min` on `float`: `(b < a) ? b : a`. -/
def fmin (a b : Binary32) : Binary32 := if b < a then b else a

/-- Modelled from the spec: `CPoint` / `CWorldPoint` with `float` components
(common/point.h and common/worldpoint.h are missing). -/
structure CPoint where
  x : Binary32
  y : Binary32
  deriving DecidableEq, Repr

namespace CPoint

/-- The operator `a + b` of `CPoint`. -/
def add (a b : CPoint) : FloatM CPoint := do
  let x ← fadd a.x b.x
  let y ← fadd a.y b.y
  pure ⟨x, y⟩

/-- The operator `a - b` of `CPoint`. -/
def sub (a b : CPoint) : FloatM CPoint := do
  let x ← fsub a.x b.x
  let y ← fsub a.y b.y
  pure ⟨x, y⟩

/-- The operator `-a` of `CPoint`. -/
def neg (a : CPoint) : CPoint := ⟨Binary32.neg a.x, Binary32.neg a.y⟩

/-- The operator `a * k` of `CPoint` with a `float`. -/
def mul (a : CPoint) (k : Binary32) : FloatM CPoint := do
  let x ← fmul a.x k
  let y ← fmul a.y k
  pure ⟨x, y⟩

/-- The operator `a /= k` of `CPoint` with a `float`. -/
def div (a : CPoint) (k : Binary32) : FloatM CPoint := do
  let x ← fquot a.x k
  let y ← fquot a.y k
  pure ⟨x, y⟩

/-- The point `(0, 0)` left by the default constructor. -/
def zero : CPoint := ⟨0, 0⟩

end CPoint

namespace NMathFunc

/-- Modelled from the spec: `NMathFunc::DotProduct2D` on `float` components
(utilities/mathfunc.h is missing): `a.x * b.x + a.y * b.y`. -/
def DotProduct2D (a b : CPoint) : FloatM Binary32 := do
  let px ← fmul a.x b.x
  let py ← fmul a.y b.y
  fadd px py

/-- Modelled from the spec: `NMathFunc::CrossProduct2D` on two vectors
(utilities/mathfunc.h is missing): `a.x * b.y - a.y * b.x`. -/
def CrossProduct2D (a b : CPoint) : FloatM Binary32 := do
  let p ← fmul a.x b.y
  let q ← fmul a.y b.x
  fsub p q

/-- Modelled from the spec: `NMathFunc::CrossProduct2D` on a scalar and a vector
(utilities/mathfunc.h is missing): `(-a * v.y, a * v.x)`. -/
def CrossProduct2DScalar (a : Binary32) (v : CPoint) : FloatM CPoint := do
  let x ← fmul (Binary32.neg a) v.y
  let y ← fmul a v.x
  pure ⟨x, y⟩

end NMathFunc

open NMathFunc

/-- Modelled from the spec: `CEdge` with `float` positions (common/edge.h is missing). -/
structure CEdge where
  pVert0 : CPoint
  pVert1 : CPoint
  normal : CPoint
  deriving DecidableEq, Repr

/-- Modelled from the spec: `CCollisionBody` with `float` members
(common/collisionbody.h is missing). -/
structure CCollisionBody where
  mass : Binary32
  inverseMass : Binary32
  inertia : Binary32
  inverseInertia : Binary32
  restitution : Binary32
  velocity : CPoint
  angVelocity : Binary32
  positionCorrection : CPoint
  deriving DecidableEq, Repr

/-- Modelled from the spec: the polygon side of `CCollisionSprite2D` (its class is
missing): the ordered outer edges, the vertices, and the body. -/
structure CCollisionSprite2D where
  outerEdge : List CEdge
  vert : List CPoint
  body : CCollisionBody
  deriving DecidableEq, Repr

/-- Modelled from the spec: `CSpriteGroup2D` (2d/spritegroup2d.h is missing): world
position, bounding radius and the collision sprite. -/
structure CSpriteGroup2D where
  pos : CPoint
  radius : Binary32
  collisionSprite : CCollisionSprite2D
  deriving DecidableEq, Repr

/-- The mutable state reachable through the sprite pointers. -/
structure World where
  spriteA : CSpriteGroup2D
  spriteB : CSpriteGroup2D
  deriving DecidableEq, Repr

namespace World

/-- Read through a sprite pointer. -/
def get (w : World) : SpriteRef → CSpriteGroup2D
  | SpriteRef.A => w.spriteA
  | SpriteRef.B => w.spriteB

/-- The body behind a sprite pointer (`GetCollisionSprite()->GetBody()`). -/
def body (w : World) (r : SpriteRef) : CCollisionBody := (w.get r).collisionSprite.body

/-- Overwrite the body behind a sprite pointer. -/
def setBody (w : World) (r : SpriteRef) (b : CCollisionBody) : World :=
  match r with
  | SpriteRef.A =>
    { w with spriteA := { w.spriteA with
        collisionSprite := { w.spriteA.collisionSprite with body := b } } }
  | SpriteRef.B =>
    { w with spriteB := { w.spriteB with
        collisionSprite := { w.spriteB.collisionSprite with body := b } } }

end World

/-- The class `CCollisionManifold` of collisionmanifold.h, with `float` members. -/
structure CCollisionManifold where
  pRefSprite : Option SpriteRef
  pIncSprite : Option SpriteRef
  penetration : Binary32
  normal : CPoint
  pRefEdge : Option CEdge
  pIncEdge : Option CEdge
  contactPoint0 : CPoint
  contactPoint1 : CPoint
  contactCount : Int
  deriving DecidableEq, Repr

namespace CCollisionManifold

/-- The constructor `CCollisionManifold::CCollisionManifold()`. -/
def ctor : CCollisionManifold :=
  { pRefSprite := none, pIncSprite := none, penetration := 0, normal := CPoint.zero,
    pRefEdge := none, pIncEdge := none, contactPoint0 := CPoint.zero,
    contactPoint1 := CPoint.zero, contactCount := 0 }

/-- Read of `contactPoint[i]`. -/
def contactPointAt (m : CCollisionManifold) (i : Int) : FloatM CPoint :=
  if i = 0 then FloatM.ret m.contactPoint0
  else if i = 1 then FloatM.ret m.contactPoint1
  else FloatM.fault Fault.outOfBounds

/-- Write of `contactPoint[i] = p`. -/
def setContactPoint (m : CCollisionManifold) (i : Int) (p : CPoint) :
    FloatM CCollisionManifold :=
  if i = 0 then FloatM.ret { m with contactPoint0 := p }
  else if i = 1 then FloatM.ret { m with contactPoint1 := p }
  else FloatM.fault Fault.outOfBounds

/-- Loop of `FindIncidentEdge` over the incident sprite's outer edges, carrying
`minValue` and `pIncEdge`. -/
def FindIncidentEdgeLoop (referenceNormal : CPoint) :
    List CEdge → Binary32 → Option CEdge → FloatM (Binary32 × Option CEdge)
  | [], minValue, pIncEdge => pure (minValue, pIncEdge)
  | pTmpEdge :: rest, minValue, pIncEdge => do
    let value ← DotProduct2D referenceNormal pTmpEdge.normal
    if value < minValue then FindIncidentEdgeLoop referenceNormal rest value (some pTmpEdge)
    else FindIncidentEdgeLoop referenceNormal rest minValue pIncEdge

/-- The method `CCollisionManifold::FindIncidentEdge`. -/
def FindIncidentEdge (m : CCollisionManifold) (w : World) : FloatM CCollisionManifold := do
  let pIncSprite ← derefF m.pIncSprite
  let pIncColSprite := (w.get pIncSprite).collisionSprite
  let pRefEdge ← derefF m.pRefEdge
  let referenceNormal := pRefEdge.normal
  let minValue := FLT_MAX
  let r ← FindIncidentEdgeLoop referenceNormal pIncColSprite.outerEdge minValue m.pIncEdge
  pure { m with pIncEdge := r.2 }

/-- The method `CCollisionManifold::PositionalCorrection`. -/
def PositionalCorrection (m : CCollisionManifold) (w : World) : FloatM World := do
  let pRefSprite ← derefF m.pRefSprite
  let pIncSprite ← derefF m.pIncSprite
  let correction ← m.normal.mul PERCENT
  let depth ← fsub m.penetration SLOP
  let correction ← correction.mul (fmax depth 0)
  let sum ← fadd (w.body pRefSprite).inverseMass (w.body pIncSprite).inverseMass
  let correction ← correction.div sum
  let refCorrection ← correction.mul (Binary32.neg (w.body pRefSprite).inverseMass)
  let w := w.setBody pRefSprite { w.body pRefSprite with positionCorrection := refCorrection }
  let incCorrection ← correction.mul (w.body pIncSprite).inverseMass
  let w := w.setBody pIncSprite { w.body pIncSprite with positionCorrection := incCorrection }
  pure w

/-- Loop of `ApplyImpulse`: `n` iterations are left, `i` is the loop index. -/
def ApplyImpulseLoop (m : CCollisionManifold) (pRefSprite pIncSprite : SpriteRef) :
    Nat → Int → World → FloatM World
  | 0, _, w => pure w
  | n + 1, i, w => do
    let contactPoint ← m.contactPointAt i
    let refRadius ← contactPoint.sub (w.get pRefSprite).pos
    let incRadius ← contactPoint.sub (w.get pIncSprite).pos
    let incSpin ← CrossProduct2DScalar (w.body pIncSprite).angVelocity incRadius
    let refSpin ← CrossProduct2DScalar (w.body pRefSprite).angVelocity refRadius
    let relVelocity ← (w.body pIncSprite).velocity.add incSpin
    let relVelocity ← relVelocity.sub (w.body pRefSprite).velocity
    let relVelocity ← relVelocity.sub refSpin
    let contactVelocity ← DotProduct2D relVelocity m.normal
    if contactVelocity > 0 then pure w
    else do
      let refRadCrossN ← CrossProduct2D refRadius m.normal
      let incRadCrossN ← CrossProduct2D incRadius m.normal
      let invMassSum ← fadd (w.body pRefSprite).inverseMass (w.body pIncSprite).inverseMass
      let refSq ← fmul refRadCrossN refRadCrossN
      let refTerm ← fmul refSq (w.body pRefSprite).inverseInertia
      let invMassSum ← fadd invMassSum refTerm
      let incSq ← fmul incRadCrossN incRadCrossN
      let incTerm ← fmul incSq (w.body pIncSprite).inverseInertia
      let invMassSum ← fadd invMassSum incTerm
      let minRestitution := fmin (w.body pRefSprite).restitution (w.body pIncSprite).restitution
      let onePlus ← fadd 1 minRestitution
      let impulse ← fmul (Binary32.neg onePlus) contactVelocity
      let impulse ← fquot impulse invMassSum
      let impulseVec ← m.normal.mul impulse
      let scaled ← impulseVec.mul (w.body pRefSprite).inverseMass
      let velocityVec ← (w.body pRefSprite).velocity.sub scaled
      let cross ← CrossProduct2D refRadius impulseVec
      let turn ← fmul (w.body pRefSprite).inverseInertia cross
      let angVelocity ← fsub (w.body pRefSprite).angVelocity turn
      let w := w.setBody pRefSprite
        { w.body pRefSprite with velocity := velocityVec, angVelocity := angVelocity }
      let scaled ← impulseVec.mul (w.body pIncSprite).inverseMass
      let velocityVec ← (w.body pIncSprite).velocity.add scaled
      let cross ← CrossProduct2D incRadius impulseVec
      let turn ← fmul (w.body pIncSprite).inverseInertia cross
      let angVelocity ← fadd (w.body pIncSprite).angVelocity turn
      let w := w.setBody pIncSprite
        { w.body pIncSprite with velocity := velocityVec, angVelocity := angVelocity }
      ApplyImpulseLoop m pRefSprite pIncSprite n (i + 1) w

/-- The method `CCollisionManifold::ApplyImpulse`. -/
def ApplyImpulse (m : CCollisionManifold) (w : World) : FloatM World := do
  let pRefSprite ← derefF m.pRefSprite
  let pIncSprite ← derefF m.pIncSprite
  ApplyImpulseLoop m pRefSprite pIncSprite m.contactCount.toNat 0 w

end CCollisionManifold

end F32

namespace F32

open NMathFunc

/-- Scan of `GetSupportVert`: the first vertex of `best :: rest` with the greatest
projection on `dir`. -/
def supportOf (dir : CPoint) : CPoint → List CPoint → FloatM CPoint
  | best, [] => pure best
  | best, u :: rest => do
    let du ← DotProduct2D u dir
    let db ← DotProduct2D best dir
    if du > db then supportOf dir u rest else supportOf dir best rest

/-- Modelled from the spec: `CCollisionSprite2D::GetSupportVert` (its class is missing):
"the vertex of a polygon that is farthest along a given direction"; the first such
vertex in list order, and `NULL` for a sprite without vertices. -/
def CCollisionSprite2D.GetSupportVert (s : CCollisionSprite2D) (dir : CPoint) :
    FloatM (Option CPoint) :=
  match s.vert with
  | [] => pure none
  | v :: vs => do
    let p ← supportOf dir v vs
    pure (some p)

namespace NCollisionResFunc2D

/-- Loop of `GetCollisionManifold` over the outer edges of sprite A. -/
def GetCollisionManifoldLoop (pColSpriteB : CCollisionSprite2D) :
    List CEdge → CCollisionManifold → FloatM CCollisionManifold
  | [], colMan => pure colMan
  | edge :: rest, colMan => do
    let edgeNormal := edge.normal
    let pSupportVert ← derefF (← pColSpriteB.GetSupportVert edgeNormal.neg)
    let pTmpVert := edge.pVert0
    let distance ← DotProduct2D (← pSupportVert.sub pTmpVert) edgeNormal
    if distance > colMan.penetration then
      GetCollisionManifoldLoop pColSpriteB rest
        { colMan with penetration := distance, pRefEdge := some edge }
    else GetCollisionManifoldLoop pColSpriteB rest colMan

/-- The function `GetCollisionManifold`. -/
def GetCollisionManifold (w : World) (pSpriteA pSpriteB : SpriteRef) :
    FloatM CCollisionManifold :=
  let colMan := CCollisionManifold.ctor
  let pColSpriteA := (w.get pSpriteA).collisionSprite
  let pColSpriteB := (w.get pSpriteB).collisionSprite
  let colMan := { colMan with penetration := Binary32.neg FLT_MAX }
  GetCollisionManifoldLoop pColSpriteB pColSpriteA.outerEdge colMan

/-- Write of `clippedPoint[sp] = p` into the two-slot local array of `Clip`. -/
def setClipped (c : CPoint × CPoint) (sp : Nat) (p : CPoint) : FloatM (CPoint × CPoint) :=
  match sp with
  | 0 => FloatM.ret (p, c.2)
  | 1 => FloatM.ret (c.1, p)
  | _ => FloatM.fault Fault.outOfBounds

/-- The function `Clip`: returns the count `sp` and the two points left in `pIncVert`. -/
def Clip (sidePlaneNormal : CPoint) (side : Binary32) (pIncVert : CPoint × CPoint) :
    FloatM (Nat × (CPoint × CPoint)) := do
  let sp : Nat := 0
  let clippedPoint : CPoint × CPoint := (pIncVert.1, pIncVert.2)
  let d1 ← fsub (← DotProduct2D pIncVert.1 sidePlaneNormal) side
  let d2 ← fsub (← DotProduct2D pIncVert.2 sidePlaneNormal) side
  let (sp, clippedPoint) ←
    if d1 ≤ 0 then do
      let c ← setClipped clippedPoint sp pIncVert.1
      pure (sp + 1, c)
    else pure (sp, clippedPoint)
  let (sp, clippedPoint) ←
    if d2 ≤ 0 then do
      let c ← setClipped clippedPoint sp pIncVert.2
      pure (sp + 1, c)
    else pure (sp, clippedPoint)
  let product ← fmul d1 d2
  let (sp, clippedPoint) ←
    if product < 0 then do
      let alpha ← fquot d1 (← fsub d1 d2)
      let step ← (← pIncVert.2.sub pIncVert.1).mul alpha
      let c ← setClipped clippedPoint sp (← pIncVert.1.add step)
      pure (sp + 1, c)
    else pure (sp, clippedPoint)
  if sp = 3 then FloatM.fault Fault.criticalException
  else pure (sp, clippedPoint)

/-- What a call of `ResolveCollision` leaves behind: the returned flag, the manifold
passed by reference, and the world. -/
structure ResolveResult where
  ret : Bool
  colMan : CCollisionManifold
  world : World
  deriving DecidableEq, Repr

/-- The last part of `ResolveCollision` ("Determine which of the possible contact points
are, in fact, contacting"): the two separation tests and the averaging. -/
def ResolveCollisionContacts (colMan : CCollisionManifold) (refC : Binary32)
    (possibleContact : CPoint × CPoint) : FloatM CCollisionManifold := do
  let separation ← fsub (← DotProduct2D possibleContact.1 colMan.normal) refC
  let colMan ←
    if separation ≤ 0 then do
      let c ← colMan.setContactPoint colMan.contactCount possibleContact.1
      pure { c with penetration := Binary32.neg separation,
                    contactCount := c.contactCount + 1 }
    else pure { colMan with penetration := 0 }
  let separation ← fsub (← DotProduct2D possibleContact.2 colMan.normal) refC
  let colMan ←
    if separation ≤ 0 then do
      let c ← colMan.setContactPoint colMan.contactCount possibleContact.2
      let p ← fadd c.penetration (Binary32.neg separation)
      pure { c with penetration := p, contactCount := c.contactCount + 1 }
    else pure colMan
  if colMan.contactCount = 2 then do
    let p ← fmul colMan.penetration (Binary32.lit 1 (-1))
    pure { colMan with penetration := p }
  else pure colMan

/-- The part of `ResolveCollision` after the reference sprite has been chosen:
incident edge, the two clips and the contact points. -/
def ResolveCollisionClip (w : World) (colMan : CCollisionManifold) :
    FloatM ResolveResult := do
  let colMan ← colMan.FindIncidentEdge w
  let pRefEdge ← derefF colMan.pRefEdge
  let colMan := { colMan with normal := pRefEdge.normal }
  let sidePlaneNormal : CPoint := ⟨colMan.normal.y, Binary32.neg colMan.normal.x⟩
  let refC ← DotProduct2D pRefEdge.pVert0 colMan.normal
  let negSide := Binary32.neg (← DotProduct2D pRefEdge.pVert0 sidePlaneNormal)
  let posSide ← DotProduct2D pRefEdge.pVert1 sidePlaneNormal
  let pIncEdge ← derefF colMan.pIncEdge
  let possibleContact : CPoint × CPoint := (pIncEdge.pVert0, pIncEdge.pVert1)
  let (n, possibleContact) ← Clip sidePlaneNormal.neg negSide possibleContact
  if n < 2 then pure ⟨false, colMan, w⟩
  else do
    let (n, possibleContact) ← Clip sidePlaneNormal posSide possibleContact
    if n < 2 then pure ⟨false, colMan, w⟩
    else do
      let colMan ← ResolveCollisionContacts colMan refC possibleContact
      pure ⟨true, colMan, w⟩

/-- The function `ResolveCollision`.  `BoxRadiiIntersect` is the bounding test of
utilities/collisionfunc2d.h, which is missing and is taken as a parameter. -/
def ResolveCollision (BoxRadiiIntersect : CPoint → Binary32 → CPoint → Binary32 → Bool)
    (w : World) (colMan : CCollisionManifold) (pSpriteA pSpriteB : SpriteRef) :
    FloatM ResolveResult :=
  if Binary32.ne (w.body pSpriteA).mass 0 = true ∨ Binary32.ne (w.body pSpriteB).mass 0 = true then
    if BoxRadiiIntersect (w.get pSpriteA).pos (w.get pSpriteA).radius
        (w.get pSpriteB).pos (w.get pSpriteB).radius = true then do
      let colManA ← GetCollisionManifold w pSpriteA pSpriteB
      if colManA.penetration > 0 then pure ⟨false, colMan, w⟩
      else do
        let colManB ← GetCollisionManifold w pSpriteB pSpriteA
        if colManB.penetration > 0 then pure ⟨false, colMan, w⟩
        else do
          let relative ← fmul colManB.penetration BIAS_RELATIVE
          let absolute ← fmul colManA.penetration BIAS_ABSOLUTE
          let bias ← fadd relative absolute
          if colManA.penetration ≥ bias then
            ResolveCollisionClip w
              { colManA with pRefSprite := some pSpriteA, pIncSprite := some pSpriteB }
          else
            ResolveCollisionClip w
              { colManB with pRefSprite := some pSpriteB, pIncSprite := some pSpriteA }
    else pure ⟨false, colMan, w⟩
  else pure ⟨false, colMan, w⟩

/-- Modelled from the spec: `CPoint::GetLengthSquared` (common/point.h is missing), the
squared length of the `x`, `y` components. -/
def GetLengthSquared (p : CPoint) : FloatM Binary32 := do
  let px ← fmul p.x p.x
  let py ← fmul p.y p.y
  fadd px py

/-- The search loop of `ApplyPointImpulse` over the outer edges, carrying `separation`
and `pEdge`; `none` is the early `return` of the loop. -/
def ApplyPointImpulseLoop (point : CPoint) (radius : Binary32) :
    List CEdge → Binary32 → Option CEdge → FloatM (Option (Binary32 × Option CEdge))
  | [], separation, pEdge => pure (some (separation, pEdge))
  | pTmpEdge :: rest, separation, pEdge => do
    let tmpSeparation ← DotProduct2D (← point.sub pTmpEdge.pVert0) pTmpEdge.normal
    if tmpSeparation > radius then pure none
    else if tmpSeparation > separation then
      ApplyPointImpulseLoop point radius rest tmpSeparation (some pTmpEdge)
    else ApplyPointImpulseLoop point radius rest separation pEdge

/-- The collision information of `ApplyPointImpulse` (`normal`, `contact`, `penetration`)
for the selected edge; `none` is one of the early `return`s.  `Normalize2D` is the
method of common/point.h, which is missing and is taken as a parameter. -/
def ApplyPointImpulseContact (Normalize2D : CPoint → FloatM CPoint) (point : CPoint)
    (radius separation : Binary32) (pEdge : Option CEdge) :
    FloatM (Option (CPoint × CPoint × Binary32)) := do
  if separation < MIN_SEPARATION then
    let edge ← derefF pEdge
    let normal := edge.normal.neg
    let contact ← point.add (← normal.mul radius)
    let penetration := radius
    pure (some (normal, contact, penetration))
  else
    let penetration ← fsub radius separation
    let edge ← derefF pEdge
    let dot0 ← DotProduct2D (← point.sub edge.pVert0) (← edge.pVert1.sub edge.pVert0)
    let dot1 ← DotProduct2D (← point.sub edge.pVert1) (← edge.pVert0.sub edge.pVert1)
    if dot0 ≤ 0 then
      let lengthSquared ← GetLengthSquared (← point.sub edge.pVert0)
      if lengthSquared > (← fmul radius radius) then pure none
      else
        let normal ← Normalize2D (← edge.pVert0.sub point)
        pure (some (normal, edge.pVert0, penetration))
    else if dot1 ≤ 0 then
      let lengthSquared ← GetLengthSquared (← point.sub edge.pVert1)
      if lengthSquared > (← fmul radius radius) then pure none
      else
        let normal ← Normalize2D (← edge.pVert1.sub point)
        pure (some (normal, edge.pVert1, penetration))
    else
      let separationAgain ← DotProduct2D (← point.sub edge.pVert0) edge.normal
      if separationAgain > radius then pure none
      else
        let normal := edge.normal.neg
        let contact ← point.add (← normal.mul radius)
        pure (some (normal, contact, penetration))

/-- The function `ApplyPointImpulse`.  The local `pEdge` is declared without an initial
value; a read of it before the loop has assigned it is reported as `Fault.nullPointer`. -/
def ApplyPointImpulse (Normalize2D : CPoint → FloatM CPoint) (point : CPoint)
    (radius inverseRadius force : Binary32) (w : World) (pSprite : SpriteRef)
    (diminishingForce : Bool) : FloatM World := do
  let pColSprite := (w.get pSprite).collisionSprite
  match ← ApplyPointImpulseLoop point radius pColSprite.outerEdge (Binary32.neg FLT_MAX) none with
  | none => pure w
  | some (separation, pEdge) =>
    match ← ApplyPointImpulseContact Normalize2D point radius separation pEdge with
    | none => pure w
    | some (normal, contact, penetration) =>
      let impulseVec ←
        if diminishingForce = true then do
          let v ← normal.mul force
          let v ← v.mul penetration
          v.mul inverseRadius
        else normal.mul force
      let velocityVec ← (w.body pSprite).velocity.add
        (← impulseVec.mul (w.body pSprite).inverseMass)
      let cross ← CrossProduct2D (← contact.sub (w.get pSprite).pos) impulseVec
      let angVelocity ← fadd (w.body pSprite).angVelocity
        (← fmul (w.body pSprite).inverseInertia cross)
      pure (w.setBody pSprite
        { w.body pSprite with velocity := velocityVec, angVelocity := angVelocity })

end NCollisionResFunc2D

end F32

/-! ## Definitions used to state the properties -/

open NCollisionResFunc2D CCollisionManifold CPlanetGenerator

/-- Distance of sprite B's support vertex from an edge, as computed in the loop of
`GetCollisionManifold` when B's vertex list is `v :: vs`. -/
def edgeDistance (v : CPoint) (vs : List CPoint) (e : CEdge) : ℚ :=
  DotProduct2D (supportOf (-e.normal) v vs - e.pVert0) e.normal

/-- One pass of the loop body of `GetCollisionManifold`. -/
def manifoldStep (v : CPoint) (vs : List CPoint) (m : CCollisionManifold) (e : CEdge) :
    CCollisionManifold :=
  if edgeDistance v vs e > m.penetration then
    { m with penetration := edgeDistance v vs e, pRefEdge := some e }
  else m

/-- The closed region bounded by the outer edges of a sprite: the points behind every edge. -/
def CCollisionSprite2D.Contains (s : CCollisionSprite2D) (p : CPoint) : Prop :=
  ∀ e ∈ s.outerEdge, DotProduct2D (p - e.pVert0) e.normal ≤ 0

/-- The closed half-plane behind an edge, as a set of coordinate pairs. -/
def halfPlane (e : CEdge) : Set (ℚ × ℚ) :=
  {p | DotProduct2D ((⟨p.1, p.2⟩ : CPoint) - e.pVert0) e.normal ≤ 0}

/-- A convex polygon with outward normals: at least one edge, at least one vertex, and
every vertex behind (or on) every edge. -/
structure IsConvexPolygon (s : CCollisionSprite2D) : Prop where
  edges_ne : s.outerEdge ≠ []
  verts_ne : s.vert ≠ []
  vert_inside : ∀ v ∈ s.vert, s.Contains v

/-- Outer edges of the axis-aligned unit square whose lower left corner is `(dx, 0)`,
each edge stored so that `pVert1 - pVert0` points along `(normal.y, -normal.x)`. -/
def sqEdges (dx : ℚ) : List CEdge :=
  [ ⟨⟨dx, 1⟩, ⟨dx + 1, 1⟩, ⟨0, 1⟩⟩,
    ⟨⟨dx + 1, 1⟩, ⟨dx + 1, 0⟩, ⟨1, 0⟩⟩,
    ⟨⟨dx + 1, 0⟩, ⟨dx, 0⟩, ⟨0, -1⟩⟩,
    ⟨⟨dx, 0⟩, ⟨dx, 1⟩, ⟨-1, 0⟩⟩ ]

/-- Sprite whose polygon is the unit square shifted by `(dx, 0)`. -/
def sqSprite (dx : ℚ) (b : CCollisionBody) (pos : CPoint) (r : ℚ) : CSpriteGroup2D :=
  ⟨pos, r, ⟨sqEdges dx, (sqEdges dx).map CEdge.pVert0, b⟩⟩

/-- World made of the unit square and its copy shifted by `(1/2, 0)`. -/
def overlapWorld (bA bB : CCollisionBody) (pA pB : CPoint) (rA rB : ℚ) : World :=
  ⟨sqSprite 0 bA pA rA, sqSprite (1/2) bB pB rB⟩

/-- Manifold that `ResolveCollision` produces for `overlapWorld`. -/
def overlapManifold : CCollisionManifold :=
  { pRefSprite := some SpriteRef.B, pIncSprite := some SpriteRef.A, penetration := 1 / 2,
    normal := ⟨-1, 0⟩,
    pRefEdge := some ⟨⟨1 / 2, 0⟩, ⟨1 / 2, 1⟩, ⟨-1, 0⟩⟩,
    pIncEdge := some ⟨⟨1, 1⟩, ⟨1, 0⟩, ⟨1, 0⟩⟩,
    contactPoint0 := ⟨1, 1⟩, contactPoint1 := ⟨1, 0⟩, contactCount := 2 }

/-- World made of the unit square and its copy shifted by `(2, 0)`. -/
def apartWorld (bA bB : CCollisionBody) (pA pB : CPoint) (rA rB : ℚ) : World :=
  ⟨sqSprite 0 bA pA rA, sqSprite 2 bB pB rB⟩

/-- A body of mass 1 at rest. -/
def unitBody : CCollisionBody :=
  { mass := 1, inverseMass := 1, inertia := 1, inverseInertia := 1, restitution := 1,
    velocity := ⟨0, 0⟩, angVelocity := 0, positionCorrection := ⟨0, 0⟩ }

/-- Radius vector from a sprite's position to a contact point. -/
def contactRadius (w : World) (x : SpriteRef) (p : CPoint) : CPoint := p - (w.get x).pos

/-- The contact-normal relative speed that `ApplyImpulse` computes at contact point `p`. -/
def contactVelocityAt (m : CCollisionManifold) (w : World) (r i : SpriteRef) (p : CPoint) : ℚ :=
  DotProduct2D
    ((w.body i).velocity + CrossProduct2DScalar (w.body i).angVelocity (contactRadius w i p)
      - (w.body r).velocity
      - CrossProduct2DScalar (w.body r).angVelocity (contactRadius w r p)) m.normal

/-- The effective inverse mass `invMassSum` that `ApplyImpulse` divides by at contact
point `p`. -/
def effectiveInverseMass (m : CCollisionManifold) (w : World) (r i : SpriteRef) (p : CPoint) :
    ℚ :=
  (w.body r).inverseMass + (w.body i).inverseMass
    + (CrossProduct2D (contactRadius w r p) m.normal
        * CrossProduct2D (contactRadius w r p) m.normal) * (w.body r).inverseInertia
    + (CrossProduct2D (contactRadius w i p) m.normal
        * CrossProduct2D (contactRadius w i p) m.normal) * (w.body i).inverseInertia

/-- The impulse scalar of `ApplyImpulse` at contact point `p`, for a non-zero effective
inverse mass. -/
def impulseAt (m : CCollisionManifold) (w : World) (r i : SpriteRef) (p : CPoint) : ℚ :=
  -(1 + min (w.body r).restitution (w.body i).restitution) * contactVelocityAt m w r i p
    / effectiveInverseMass m w r i p

/-- The world after `ApplyImpulse` has written the reference body at contact point `p`. -/
def impulseRefWritten (m : CCollisionManifold) (w : World) (r i : SpriteRef) (p : CPoint) :
    World :=
  w.setBody r
    { w.body r with
      velocity := (w.body r).velocity
        - m.normal * impulseAt m w r i p * (w.body r).inverseMass,
      angVelocity := (w.body r).angVelocity
        - (w.body r).inverseInertia
          * CrossProduct2D (contactRadius w r p) (m.normal * impulseAt m w r i p) }

/-- The world after one full pass of the loop body of `ApplyImpulse` at contact point `p`
(both bodies written), for approaching bodies and a non-zero effective inverse mass. -/
def impulseStep (m : CCollisionManifold) (w : World) (r i : SpriteRef) (p : CPoint) : World :=
  (impulseRefWritten m w r i p).setBody i
    { (impulseRefWritten m w r i p).body i with
      velocity := ((impulseRefWritten m w r i p).body i).velocity
        + m.normal * impulseAt m w r i p * ((impulseRefWritten m w r i p).body i).inverseMass,
      angVelocity := ((impulseRefWritten m w r i p).body i).angVelocity
        + ((impulseRefWritten m w r i p).body i).inverseInertia
          * CrossProduct2D (contactRadius w i p) (m.normal * impulseAt m w r i p) }

/-- A static body: no mass, no inverse mass, no inertia, at rest. -/
def staticBody : CCollisionBody :=
  { mass := 0, inverseMass := 0, inertia := 0, inverseInertia := 0, restitution := 0,
    velocity := ⟨0, 0⟩, angVelocity := 0, positionCorrection := ⟨0, 0⟩ }

/-- The overlapping unit squares, both static. -/
def staticWorld : World := overlapWorld staticBody staticBody ⟨1/2, 1/2⟩ ⟨1, 1/2⟩ 1 1

/-- A body of mass 1 moving with velocity `v`. -/
def movingBody (v : CPoint) : CCollisionBody := { unitBody with velocity := v }

/-- The overlapping unit squares, A static and B moving left into it. -/
def wallWorld : World :=
  overlapWorld staticBody (movingBody ⟨-1, 0⟩) ⟨1/2, 1/2⟩ ⟨1, 1/2⟩ 1 1

/-- Outer edges of the unit square shifted by `(dx, 0)` with the two vertices of every
edge stored in the opposite order (`pVert1 - pVert0` points against `(normal.y, -normal.x)`). -/
def revEdges (dx : ℚ) : List CEdge :=
  (sqEdges dx).map (fun e => ⟨e.pVert1, e.pVert0, e.normal⟩)

/-- The overlapping unit squares with the reversed vertex order in every edge. -/
def revWorld : World :=
  ⟨⟨⟨1/2, 1/2⟩, 1, ⟨revEdges 0, (revEdges 0).map CEdge.pVert0, unitBody⟩⟩,
   ⟨⟨1, 1/2⟩, 1, ⟨revEdges (1/2), (revEdges (1/2)).map CEdge.pVert0, unitBody⟩⟩⟩

/-- Manifold that `ResolveCollision` leaves behind for `revWorld`, where the first clip
keeps one point only. -/
def revManifold : CCollisionManifold :=
  { pRefSprite := some SpriteRef.B, pIncSprite := some SpriteRef.A, penetration := -1 / 2,
    normal := ⟨-1, 0⟩,
    pRefEdge := some ⟨⟨1 / 2, 1⟩, ⟨1 / 2, 0⟩, ⟨-1, 0⟩⟩,
    pIncEdge := some ⟨⟨1, 0⟩, ⟨1, 1⟩, ⟨1, 0⟩⟩,
    contactPoint0 := ⟨0, 0⟩, contactPoint1 := ⟨0, 0⟩, contactCount := 0 }

/-- The penetration left after one positional correction that removes
`PERCENT * max (p - SLOP) 0` of a penetration `p`. -/
def nextPenetration (p : ℚ) : ℚ := p - PERCENT * max (p - SLOP) 0

/-- The overlapping unit squares with bodies of mass 1 at rest. -/
def restWorld : World := overlapWorld unitBody unitBody ⟨1/2, 1/2⟩ ⟨1, 1/2⟩ 1 1

/-- The sprite's polygon is the unit square shifted by `(dx, 0)`: its outer edges are
those of `sqEdges dx` and its vertices their first vertices, listed in any order. -/
def IsUnitSquareAt (dx : ℚ) (s : CCollisionSprite2D) : Prop :=
  (∀ e, e ∈ s.outerEdge ↔ e ∈ sqEdges dx) ∧
    (∀ u, u ∈ s.vert ↔ u ∈ (sqEdges dx).map CEdge.pVert0)

/-- The vector `(n.y, -n.x)` that `ResolveCollision` computes from the collision normal
("the unit vector along the reference edge"). -/
def sidePlaneNormalOf (n : CPoint) : CPoint := ⟨n.y, -n.x⟩

/-- The manifold with which `ResolveCollision` goes on after the choice of the reference
sprite, from the two manifolds of `GetCollisionManifold`. -/
def chosenManifold (colManA colManB : CCollisionManifold) (pSpriteA pSpriteB : SpriteRef) :
    CCollisionManifold :=
  if colManA.penetration ≥
      colManB.penetration * BIAS_RELATIVE + colManA.penetration * BIAS_ABSOLUTE then
    { colManA with pRefSprite := some pSpriteA, pIncSprite := some pSpriteB }
  else
    { colManB with pRefSprite := some pSpriteB, pIncSprite := some pSpriteA }

/-- The claim's description of the contact points: of the two clipped points `q0`, `q1`
those with separation `q . n - refC ≤ 0`, in order. -/
def keptContacts (n : CPoint) (refC : ℚ) (q0 q1 : CPoint) : List CPoint :=
  [q0, q1].filter (fun q => decide (DotProduct2D q n - refC ≤ 0))

/-- The claim's description of the penetration: the sum of the negated separations of the
kept points, halved when both are kept. -/
def keptPenetration (n : CPoint) (refC : ℚ) (q0 q1 : CPoint) : ℚ :=
  ((keptContacts n refC q0 q1).map (fun q => -(DotProduct2D q n - refC))).sum *
    (if (keptContacts n refC q0 q1).length = 2 then 1 / 2 else 1)

/-- A manifold between the two sprites of `staticWorld` without penetration. -/
def touchingManifold : CCollisionManifold :=
  { CCollisionManifold.ctor with
    pRefSprite := some SpriteRef.B, pIncSprite := some SpriteRef.A, normal := ⟨-1, 0⟩,
    penetration := 0 }

/-- The overlapping unit squares with bodies of mass 1, sprite A being the target of a
point impulse. -/
def pointWorld : World := overlapWorld unitBody unitBody ⟨1/2, 1/2⟩ ⟨1/2, 1/2⟩ 1 1

/-- The point `x` lies on the closed segment between `a` and `b`. -/
def OnSegment (a b x : CPoint) : Prop :=
  ∃ t : ℚ, 0 ≤ t ∧ t ≤ 1 ∧ x = a + (b - a) * t

/-- Signed distance of a point to the clipping plane with normal `n` and offset `c`, as
`Clip` computes it. -/
def planeDistance (n : CPoint) (c : ℚ) (x : CPoint) : ℚ := DotProduct2D x n - c

/-- The separation of `point` from an edge as `ApplyPointImpulse` computes it:
`(point - edge.vert0) . edge.normal`. -/
def pointSeparation (point : CPoint) (e : CEdge) : ℚ :=
  DotProduct2D (point - e.pVert0) e.normal

/-- The world after an impulse vector `impulseVec` was applied to the body of `pSprite` at
the point `contact`: the last lines of `ApplyPointImpulse`. -/
def pointImpulseWorld (w : World) (pSprite : SpriteRef) (contact impulseVec : CPoint) : World :=
  w.setBody pSprite
    { w.body pSprite with
      velocity := (w.body pSprite).velocity + impulseVec * (w.body pSprite).inverseMass,
      angVelocity := (w.body pSprite).angVelocity
        + (w.body pSprite).inverseInertia
          * CrossProduct2D (contact - (w.get pSprite).pos) impulseVec }

/-- A body of mass 2 and inertia 3 with restitution `1/2`, moving and spinning. -/
def heavyBody (v : CPoint) (a : ℚ) : CCollisionBody :=
  { mass := 2, inverseMass := 1 / 2, inertia := 3, inverseInertia := 1 / 3,
    restitution := 1 / 2, velocity := v, angVelocity := a, positionCorrection := ⟨0, 0⟩ }

/-- The overlapping unit squares with heavy bodies approaching each other off-centre. -/
def heavyWorld : World :=
  overlapWorld (heavyBody ⟨2, 1⟩ 1) (heavyBody ⟨-1, 0⟩ 0) ⟨1/2, 1/2⟩ ⟨1, 1/2⟩ 1 1

/-! ## Float computations: values and flags -/

namespace FloatM

/-- The value of a float computation, without the exception flag. -/
def out {α : Type} (c : FloatM α) : Except Fault α :=
  match c with
  | Except.error e => Except.error e
  | Except.ok (a, _) => Except.ok a

end FloatM

namespace Binary32

/-- The value of `x + y`. -/
def plus (x y : Binary32) : Binary32 := (add x y).1

/-- The value of `x - y`. -/
def minus (x y : Binary32) : Binary32 := (sub x y).1

/-- The value of `x * y`. -/
def times (x y : Binary32) : Binary32 := (mul x y).1

/-- The value of `x / y`. -/
def over (x y : Binary32) : Binary32 := (div x y).1

end Binary32

namespace F32

open Binary32

/-- The value of `DotProduct2D a b`. -/
def dot (a b : CPoint) : Binary32 := plus (times a.x b.x) (times a.y b.y)

/-- The value of `a + b` on points. -/
def CPoint.plus (a b : CPoint) : CPoint := ⟨Binary32.plus a.x b.x, Binary32.plus a.y b.y⟩

/-- The value of `a - b` on points. -/
def CPoint.minus (a b : CPoint) : CPoint := ⟨Binary32.minus a.x b.x, Binary32.minus a.y b.y⟩

/-- The value of `a * k` on a point and a `float`. -/
def CPoint.times (a : CPoint) (k : Binary32) : CPoint :=
  ⟨Binary32.times a.x k, Binary32.times a.y k⟩

/-- Signed distance of a point to the clipping plane with normal `n` and offset `c`, as
`Clip` computes it in binary32. -/
def planeDistance (n : CPoint) (c : Binary32) (x : CPoint) : Binary32 := minus (dot x n) c

/-- The interpolated point `p1 + (p2 - p1) * (d1 / (d1 - d2))` as `Clip` computes it in
binary32. -/
def clipPoint (p1 p2 : CPoint) (d1 d2 : Binary32) : CPoint :=
  p1.plus ((p2.minus p1).times (over d1 (minus d1 d2)))

end F32

namespace Binary32

/-- The binary32 number equal to the integer `n`, for `|n| < 2^24`. -/
def ofInt (n : Int) : Binary32 := finite (decide (n < 0)) (n.natAbs * 2 ^ 149)

end Binary32

namespace F32

/-- The value of `a / k` on a point and a `float`. -/
def CPoint.over (a : CPoint) (k : Binary32) : CPoint :=
  ⟨Binary32.over a.x k, Binary32.over a.y k⟩

/-- Both coordinates compare equal to zero (each is `+0` or `-0`). -/
def CPoint.IsZero (p : CPoint) : Prop := Binary32.eq p.x 0 = true ∧ Binary32.eq p.y 0 = true

/-- The vector `correction` that `PositionalCorrection` computes in binary32:
`normal * PERCENT * max(penetration - SLOP, 0.f)` divided by the sum of the two inverse
masses. -/
def correctionOf (m : CCollisionManifold) (w : World) (r i : SpriteRef) : CPoint :=
  ((m.normal.times PERCENT).times (fmax (Binary32.minus m.penetration SLOP) 0)).over
    (Binary32.plus (w.body r).inverseMass (w.body i).inverseMass)

end F32

namespace F32

/-- The values `(minValue, pIncEdge)` that the loop of `FindIncidentEdge` leaves behind, with
the dot products computed in binary32. -/
def incidentSearch (referenceNormal : CPoint) :
    List CEdge → Binary32 → Option CEdge → Binary32 × Option CEdge
  | [], minValue, pIncEdge => (minValue, pIncEdge)
  | pTmpEdge :: rest, minValue, pIncEdge =>
    if dot referenceNormal pTmpEdge.normal < minValue then
      incidentSearch referenceNormal rest (dot referenceNormal pTmpEdge.normal) (some pTmpEdge)
    else incidentSearch referenceNormal rest minValue pIncEdge

end F32

namespace F32

/-- The value of `CrossProduct2D a b`. -/
def cross (a b : CPoint) : Binary32 :=
  Binary32.minus (Binary32.times a.x b.y) (Binary32.times a.y b.x)

/-- Separation of `point` from the edge `e` as `ApplyPointImpulse` computes it in binary32:
`DotProduct2D( point - e.pVert[0], e.normal )`. -/
def pointSeparation (point : CPoint) (e : CEdge) : Binary32 :=
  dot (point.minus e.pVert0) e.normal

/-- What the search loop of `ApplyPointImpulse` leaves behind, with the separations
computed in binary32; `none` is the early `return` of the loop. -/
def pointSearch (point : CPoint) (radius : Binary32) :
    List CEdge → Binary32 → Option CEdge → Option (Binary32 × Option CEdge)
  | [], separation, pEdge => some (separation, pEdge)
  | pTmpEdge :: rest, separation, pEdge =>
    if pointSeparation point pTmpEdge > radius then none
    else if pointSeparation point pTmpEdge > separation then
      pointSearch point radius rest (pointSeparation point pTmpEdge) (some pTmpEdge)
    else pointSearch point radius rest separation pEdge

/-- The impulse vector of `ApplyPointImpulse` as computed in binary32:
`((normal * force) * penetration) * inverseRadius` with `diminishingForce`, and
`normal * force` without. -/
def pointImpulseVec (normal : CPoint) (force penetration inverseRadius : Binary32)
    (diminishingForce : Bool) : CPoint :=
  if diminishingForce = true then
    ((normal.times force).times penetration).times inverseRadius
  else normal.times force

/-- The world after `ApplyPointImpulse` has written the velocity and the angular velocity
of the sprite for the given contact and impulse vector, every operation in binary32. -/
def pointImpulseWorld (w : World) (pSprite : SpriteRef) (contact impulseVec : CPoint) : World :=
  w.setBody pSprite
    { w.body pSprite with
      velocity := (w.body pSprite).velocity.plus (impulseVec.times (w.body pSprite).inverseMass),
      angVelocity := Binary32.plus (w.body pSprite).angVelocity
        (Binary32.times (w.body pSprite).inverseInertia
          (cross (contact.minus (w.get pSprite).pos) impulseVec)) }

end F32

/-! ## The exact values behind float data -/

/-- The point with the exact coordinates of a float point. -/
def exactPoint (p : F32.CPoint) : CPoint := ⟨p.x.toRat, p.y.toRat⟩

/-- The edge with the exact coordinates of a float edge. -/
def exactEdge (e : F32.CEdge) : CEdge :=
  ⟨exactPoint e.pVert0, exactPoint e.pVert1, exactPoint e.normal⟩

/-- The body with the exact values of a float body. -/
def exactBody (b : F32.CCollisionBody) : CCollisionBody :=
  { mass := b.mass.toRat, inverseMass := b.inverseMass.toRat, inertia := b.inertia.toRat,
    inverseInertia := b.inverseInertia.toRat, restitution := b.restitution.toRat,
    velocity := exactPoint b.velocity, angVelocity := b.angVelocity.toRat,
    positionCorrection := exactPoint b.positionCorrection }

/-- The collision sprite with the exact values of a float collision sprite. -/
def exactSprite (s : F32.CCollisionSprite2D) : CCollisionSprite2D :=
  ⟨s.outerEdge.map exactEdge, s.vert.map exactPoint, exactBody s.body⟩

/-- The sprite group with the exact values of a float sprite group. -/
def exactGroup (g : F32.CSpriteGroup2D) : CSpriteGroup2D :=
  ⟨exactPoint g.pos, g.radius.toRat, exactSprite g.collisionSprite⟩

/-- The world with the exact values of a float world. -/
def exactWorld (w : F32.World) : World := ⟨exactGroup w.spriteA, exactGroup w.spriteB⟩

/-- The manifold with the exact values of a float manifold. -/
def exactManifold (m : F32.CCollisionManifold) : CCollisionManifold :=
  { pRefSprite := m.pRefSprite, pIncSprite := m.pIncSprite,
    penetration := m.penetration.toRat, normal := exactPoint m.normal,
    pRefEdge := m.pRefEdge.map exactEdge, pIncEdge := m.pIncEdge.map exactEdge,
    contactPoint0 := exactPoint m.contactPoint0, contactPoint1 := exactPoint m.contactPoint1,
    contactCount := m.contactCount }

namespace F32

/-- Both coordinates are finite numbers. -/
def CPoint.IsFinite (p : CPoint) : Prop := p.x.IsFinite ∧ p.y.IsFinite

/-- The members of the body that the collision response reads are finite numbers. -/
def CCollisionBody.IsFinite (b : CCollisionBody) : Prop :=
  b.inverseMass.IsFinite ∧ b.inverseInertia.IsFinite ∧ b.restitution.IsFinite ∧
    b.velocity.IsFinite ∧ b.angVelocity.IsFinite

/-- The positions and the bodies of both sprites hold finite numbers. -/
def World.IsFinite (w : World) : Prop :=
  ∀ r : SpriteRef, (w.get r).pos.IsFinite ∧ (w.body r).IsFinite

/-- The penetration, the normal and both contact points are finite numbers. -/
def CCollisionManifold.IsFinite (m : CCollisionManifold) : Prop :=
  m.penetration.IsFinite ∧ m.normal.IsFinite ∧ m.contactPoint0.IsFinite ∧
    m.contactPoint1.IsFinite

end F32

/-! ## Float states used in the examples -/

namespace F32

/-- Two sprites given by their positions and bodies, without polygons: the collision
response reads nothing else. -/
def pairWorld (pA pB : CPoint) (bA bB : CCollisionBody) : World :=
  ⟨⟨pA, 1, ⟨[], [], bA⟩⟩, ⟨pB, 1, ⟨[], [], bB⟩⟩⟩

/-- A manifold with reference sprite A, incident sprite B, normal `n` and the single contact
point `p`. -/
def contactManifold (n p : CPoint) : CCollisionManifold :=
  { CCollisionManifold.ctor with
    pRefSprite := some SpriteRef.A, pIncSprite := some SpriteRef.B, normal := n,
    contactPoint0 := p, contactCount := 1 }

/-- A body with the given members and no position correction. -/
def bodyOf (mass inverseMass inertia inverseInertia restitution : Binary32) (velocity : CPoint)
    (angVelocity : Binary32) : CCollisionBody :=
  { mass := mass, inverseMass := inverseMass, inertia := inertia,
    inverseInertia := inverseInertia, restitution := restitution, velocity := velocity,
    angVelocity := angVelocity, positionCorrection := CPoint.zero }

/-- Two bodies at `(-1, 0)` and `(1, 0)` with the same mass, inverse mass and restitution,
inertia and inverse inertia 1, the velocities `vA` and `vB`, and no spin. -/
def equalPair (mass inverseMass restitution : Binary32) (vA vB : CPoint) : World :=
  pairWorld ⟨Binary32.ofInt (-1), 0⟩ ⟨1, 0⟩
    (bodyOf mass inverseMass 1 1 restitution vA 0)
    (bodyOf mass inverseMass 1 1 restitution vB 0)

/-- The binary32 number nearest to `1/3`: `11184811 * 2^-25`. -/
def third : Binary32 := Binary32.lit 11184811 (-25)

/-- The binary32 number `0.1f`: `13421773 * 2^-27`. -/
def tenth : Binary32 := Binary32.lit 13421773 (-27)

end F32

namespace F32

/-- Two bodies of mass 2 and inertia 4 with restitution `1/2` at `(-1, 0)` and `(1, 0)`, A
moving with velocity `vA` and B with velocity `vB`, both without spin. -/
def heavyPair (vA vB : CPoint) : World :=
  pairWorld ⟨Binary32.ofInt (-1), 0⟩ ⟨1, 0⟩
    (bodyOf (Binary32.ofInt 2) (Binary32.lit 1 (-1)) (Binary32.ofInt 4) (Binary32.lit 1 (-2))
      (Binary32.lit 1 (-1)) vA 0)
    (bodyOf (Binary32.ofInt 2) (Binary32.lit 1 (-1)) (Binary32.ofInt 4) (Binary32.lit 1 (-2))
      (Binary32.lit 1 (-1)) vB 0)

/-- The state of `heavyPair` with the velocities `vA`, `vB` and the angular velocities
`aA`, `aB`. -/
def heavyPairWith (vA vB : CPoint) (aA aB : Binary32) : World :=
  pairWorld ⟨Binary32.ofInt (-1), 0⟩ ⟨1, 0⟩
    (bodyOf (Binary32.ofInt 2) (Binary32.lit 1 (-1)) (Binary32.ofInt 4) (Binary32.lit 1 (-2))
      (Binary32.lit 1 (-1)) vA aA)
    (bodyOf (Binary32.ofInt 2) (Binary32.lit 1 (-1)) (Binary32.ofInt 4) (Binary32.lit 1 (-2))
      (Binary32.lit 1 (-1)) vB aB)

/-- A static body (no mass, no inverse mass, no inertia) at rest at `(-1, 0)` and a body of
mass 1 at `(1, 0)` with velocity `vB`, both with restitution 1. -/
def wallPair (vB : CPoint) : World :=
  pairWorld ⟨Binary32.ofInt (-1), 0⟩ ⟨1, 0⟩ (bodyOf 0 0 0 0 1 ⟨0, 0⟩ 0) (bodyOf 1 1 1 1 1 vB 0)

/-- Outer edges of the axis-aligned box from `(x0, y0)` to `(x1, y1)` in the order top,
right, bottom, left, each edge stored so that `pVert1 - pVert0` points along
`(normal.y, -normal.x)`. -/
def boxEdges (x0 y0 x1 y1 : Binary32) : List CEdge :=
  [ ⟨⟨x0, y1⟩, ⟨x1, y1⟩, ⟨0, 1⟩⟩,
    ⟨⟨x1, y1⟩, ⟨x1, y0⟩, ⟨1, 0⟩⟩,
    ⟨⟨x1, y0⟩, ⟨x0, y0⟩, ⟨0, Binary32.ofInt (-1)⟩⟩,
    ⟨⟨x0, y0⟩, ⟨x0, y1⟩, ⟨Binary32.ofInt (-1), 0⟩⟩ ]

/-- Sprite whose polygon is the box from `(x0, y0)` to `(x1, y1)`, with a body of mass 1
at rest. -/
def boxSprite (x0 y0 x1 y1 : Binary32) : CSpriteGroup2D :=
  ⟨⟨0, 0⟩, 1, ⟨boxEdges x0 y0 x1 y1, (boxEdges x0 y0 x1 y1).map CEdge.pVert0,
    bodyOf 1 1 1 1 1 ⟨0, 0⟩ 0⟩⟩

/-- Sprite whose polygon has the single edge from `(0, 0)` to `(0, 1)` with normal
`(1, 0)`. -/
def singleEdgeSprite : CSpriteGroup2D :=
  ⟨⟨0, 0⟩, 1, ⟨[⟨⟨0, 0⟩, ⟨0, 1⟩, ⟨1, 0⟩⟩], [⟨0, 0⟩], bodyOf 1 1 1 1 1 ⟨0, 0⟩ 0⟩⟩

/-- A manifold with incident sprite B and a reference edge with normal `n`. -/
def referenceManifold (n : CPoint) : CCollisionManifold :=
  { CCollisionManifold.ctor with
    pRefSprite := some SpriteRef.A, pIncSprite := some SpriteRef.B,
    pRefEdge := some ⟨⟨0, 0⟩, ⟨0, 1⟩, n⟩, normal := n }

end F32

/-! ## Sequencing of fallible steps -/

theorem Except.ok_bind_eq {ε α β : Type} (a : α) (f : α → Except ε β) :
    (Except.ok a >>= f) = f a := rfl

theorem Except.pure_eq_ok {ε α : Type} (a : α) : (pure a : Except ε α) = Except.ok a := rfl

/-! ## Basic facts about points -/

namespace CPoint

@[simp] theorem add_x (a b : CPoint) : (a + b).x = a.x + b.x := rfl
@[simp] theorem add_y (a b : CPoint) : (a + b).y = a.y + b.y := rfl
@[simp] theorem sub_x (a b : CPoint) : (a - b).x = a.x - b.x := rfl
@[simp] theorem sub_y (a b : CPoint) : (a - b).y = a.y - b.y := rfl
@[simp] theorem neg_x (a : CPoint) : (-a).x = -a.x := rfl
@[simp] theorem neg_y (a : CPoint) : (-a).y = -a.y := rfl
@[simp] theorem mul_x (a : CPoint) (k : ℚ) : (a * k).x = a.x * k := rfl
@[simp] theorem mul_y (a : CPoint) (k : ℚ) : (a * k).y = a.y * k := rfl

@[simp] theorem mk_add_mk (a b c d : ℚ) : (⟨a, b⟩ + ⟨c, d⟩ : CPoint) = ⟨a + c, b + d⟩ := rfl
@[simp] theorem mk_sub_mk (a b c d : ℚ) : (⟨a, b⟩ - ⟨c, d⟩ : CPoint) = ⟨a - c, b - d⟩ := rfl
@[simp] theorem neg_mk (a b : ℚ) : (-⟨a, b⟩ : CPoint) = ⟨-a, -b⟩ := rfl
@[simp] theorem mk_mul (a b k : ℚ) : ((⟨a, b⟩ : CPoint) * k) = ⟨a * k, b * k⟩ := rfl

theorem ext_iff2 (a b : CPoint) : a = b ↔ a.x = b.x ∧ a.y = b.y := by
  cases a; cases b; simp

end CPoint

/-! ## Support vertices and the separation search -/

theorem supportOf_spec (dir : CPoint) (vs : List CPoint) (v : CPoint) :
    supportOf dir v vs ∈ v :: vs ∧
      ∀ u ∈ v :: vs, DotProduct2D u dir ≤ DotProduct2D (supportOf dir v vs) dir := by
  induction vs generalizing v with
  | nil => simp [supportOf]
  | cons a as ih =>
    have step : supportOf dir v (a :: as) =
        supportOf dir (if DotProduct2D a dir > DotProduct2D v dir then a else v) as := rfl
    rw [step]
    obtain ⟨hmem, hmax⟩ := ih (if DotProduct2D a dir > DotProduct2D v dir then a else v)
    refine ⟨?_, ?_⟩
    · rcases List.mem_cons.mp hmem with h | h
      · rw [h]; split_ifs <;> simp
      · simp [h]
    · intro u hu
      have hb := hmax _ (List.mem_cons_self _ _)
      rcases List.mem_cons.mp hu with h | h
      · subst h
        refine le_trans ?_ hb
        split_ifs with hc
        · exact le_of_lt hc
        · exact le_refl _
      · rcases List.mem_cons.mp h with h | h
        · subst h
          refine le_trans ?_ hb
          split_ifs with hc
          · exact le_refl _
          · exact not_lt.mp hc
        · exact hmax u (List.mem_cons_of_mem _ h)

theorem edgeDistance_le (v : CPoint) (vs : List CPoint) (e : CEdge) :
    ∀ u ∈ v :: vs, edgeDistance v vs e ≤ DotProduct2D (u - e.pVert0) e.normal := by
  intro u hu
  have h := (supportOf_spec (-e.normal) vs v).2 u hu
  simp only [edgeDistance, DotProduct2D, CPoint.sub_x, CPoint.sub_y, CPoint.neg_x,
    CPoint.neg_y] at h ⊢
  linarith

theorem edgeDistance_attained (v : CPoint) (vs : List CPoint) (e : CEdge) :
    ∃ u ∈ v :: vs, edgeDistance v vs e = DotProduct2D (u - e.pVert0) e.normal :=
  ⟨supportOf (-e.normal) v vs, (supportOf_spec (-e.normal) vs v).1, rfl⟩

theorem GetCollisionManifoldLoop_eq (B : CCollisionSprite2D) (v : CPoint) (vs : List CPoint)
    (hB : B.vert = v :: vs) (es : List CEdge) (m : CCollisionManifold) :
    GetCollisionManifoldLoop B es m = Except.ok (es.foldl (manifoldStep v vs) m) := by
  induction es generalizing m with
  | nil => rfl
  | cons e es ih =>
    simp only [GetCollisionManifoldLoop, CCollisionSprite2D.GetSupportVert, hB, deref,
      bind, Except.bind, List.foldl_cons, manifoldStep, edgeDistance]
    split_ifs with h
    · exact ih _
    · exact ih _

theorem foldl_manifoldStep_penetration (v : CPoint) (vs : List CPoint) (es : List CEdge)
    (m : CCollisionManifold) :
    m.penetration ≤ (es.foldl (manifoldStep v vs) m).penetration ∧
      ∀ e ∈ es, edgeDistance v vs e ≤ (es.foldl (manifoldStep v vs) m).penetration := by
  induction es generalizing m with
  | nil => simp
  | cons e es ih =>
    obtain ⟨h1, h2⟩ := ih (manifoldStep v vs m e)
    have hstep : m.penetration ≤ (manifoldStep v vs m e).penetration ∧
        edgeDistance v vs e ≤ (manifoldStep v vs m e).penetration := by
      unfold manifoldStep
      split_ifs with hc
      · exact ⟨le_of_lt hc, le_refl _⟩
      · exact ⟨le_refl _, not_lt.mp hc⟩
    refine ⟨le_trans hstep.1 h1, ?_⟩
    intro e' he'
    rcases List.mem_cons.mp he' with h | h
    · subst h; exact le_trans hstep.2 h1
    · exact h2 e' h

theorem halfPlane_convex (e : CEdge) : Convex ℚ (halfPlane e) := by
  intro p hp q hq a b ha hb hab
  simp only [halfPlane, Set.mem_setOf_eq, DotProduct2D, CPoint.sub_x, CPoint.sub_y,
    Prod.fst_add, Prod.snd_add, Prod.smul_fst, Prod.smul_snd, smul_eq_mul] at hp hq ⊢
  have h1 := mul_nonneg ha (neg_nonneg.mpr hp)
  have h2 := mul_nonneg hb (neg_nonneg.mpr hq)
  have hb' : b = 1 - a := by linarith
  subst hb'
  nlinarith [h1, h2]

theorem common_point (X Y : CCollisionSprite2D) (hXv : X.vert ≠ [])
    (hXin : ∀ v ∈ X.vert, X.Contains v)
    (hno : ∀ m ∈ Y.outerEdge, ∃ u ∈ X.vert, DotProduct2D (u - m.pVert0) m.normal ≤ 0)
    (I : Finset CEdge) (hI : ∀ e ∈ I, e ∈ X.outerEdge ∨ e ∈ Y.outerEdge)
    (hcard : (I.filter (fun e => e ∉ X.outerEdge)).card ≤ 1) :
    ∃ u ∈ X.vert, ∀ e ∈ I, DotProduct2D (u - e.pVert0) e.normal ≤ 0 := by
  by_cases hne : (I.filter (fun e => e ∉ X.outerEdge)).Nonempty
  · obtain ⟨m, hm⟩ := hne
    have hmI := (Finset.mem_filter.mp hm).1
    have hmX := (Finset.mem_filter.mp hm).2
    have hmY : m ∈ Y.outerEdge := (hI m hmI).resolve_left hmX
    obtain ⟨u, hu, hum⟩ := hno m hmY
    refine ⟨u, hu, ?_⟩
    intro e he
    by_cases heX : e ∈ X.outerEdge
    · exact hXin u hu e heX
    · have hef : e ∈ I.filter (fun e => e ∉ X.outerEdge) := Finset.mem_filter.mpr ⟨he, heX⟩
      have : e = m := Finset.card_le_one.mp hcard e hef m hm
      rw [this]; exact hum
  · obtain ⟨u, hu⟩ := List.exists_mem_of_ne_nil _ hXv
    refine ⟨u, hu, ?_⟩
    intro e he
    by_cases heX : e ∈ X.outerEdge
    · exact hXin u hu e heX
    · exact absurd ⟨e, Finset.mem_filter.mpr ⟨he, heX⟩⟩ hne

theorem exists_separating_edge (A B : CCollisionSprite2D)
    (hAv : A.vert ≠ []) (hAin : ∀ v ∈ A.vert, A.Contains v)
    (hBv : B.vert ≠ []) (hBin : ∀ v ∈ B.vert, B.Contains v)
    (hdisj : ¬ ∃ p : CPoint, A.Contains p ∧ B.Contains p) :
    (∃ m ∈ A.outerEdge, ∀ u ∈ B.vert, 0 < DotProduct2D (u - m.pVert0) m.normal) ∨
      (∃ m ∈ B.outerEdge, ∀ u ∈ A.vert, 0 < DotProduct2D (u - m.pVert0) m.normal) := by
  by_contra hcon
  rw [not_or] at hcon
  obtain ⟨hnA, hnB⟩ := hcon
  have hnA' : ∀ m ∈ A.outerEdge, ∃ u ∈ B.vert, DotProduct2D (u - m.pVert0) m.normal ≤ 0 := by
    intro m hm
    by_contra h
    exact hnA ⟨m, hm, fun u hu => not_le.mp (fun hle => h ⟨u, hu, hle⟩)⟩
  have hnB' : ∀ m ∈ B.outerEdge, ∃ u ∈ A.vert, DotProduct2D (u - m.pVert0) m.normal ≤ 0 := by
    intro m hm
    by_contra h
    exact hnB ⟨m, hm, fun u hu => not_le.mp (fun hle => h ⟨u, hu, hle⟩)⟩
  have hrank : Module.finrank ℚ (ℚ × ℚ) = 2 := by simp
  have key : (⋂ i ∈ (A.outerEdge ++ B.outerEdge).toFinset, halfPlane i).Nonempty := by
    apply Convex.helly_theorem' (𝕜 := ℚ) (fun i _ => halfPlane_convex i)
    intro I hIs hIcard
    rw [hrank] at hIcard
    have hI : ∀ e ∈ I, e ∈ A.outerEdge ∨ e ∈ B.outerEdge := by
      intro e he
      have := hIs he
      simpa using this
    have hsplit := Finset.filter_card_add_filter_neg_card_eq_card (s := I)
      (fun e => e ∈ A.outerEdge)
    have hpoint : ∃ u : CPoint, ∀ e ∈ I, DotProduct2D (u - e.pVert0) e.normal ≤ 0 := by
      by_cases hc : (I.filter (fun e => e ∉ A.outerEdge)).card ≤ 1
      · obtain ⟨u, _, hu⟩ := common_point A B hAv hAin hnB' I hI hc
        exact ⟨u, hu⟩
      · have hc2 : (I.filter (fun e => e ∉ B.outerEdge)).card ≤ 1 := by
          have hsub : I.filter (fun e => e ∉ B.outerEdge) ⊆
              I.filter (fun e => e ∈ A.outerEdge) := by
            intro e he
            have h1 := Finset.mem_filter.mp he
            exact Finset.mem_filter.mpr ⟨h1.1, (hI e h1.1).resolve_right h1.2⟩
          have := Finset.card_le_card hsub
          omega
        obtain ⟨u, _, hu⟩ := common_point B A hBv hBin hnA' I (fun e he => (hI e he).symm) hc2
        exact ⟨u, hu⟩
    obtain ⟨u, hu⟩ := hpoint
    refine ⟨(u.x, u.y), ?_⟩
    simp only [Set.mem_iInter]
    intro e he
    exact hu e he
  obtain ⟨p, hp⟩ := key
  simp only [Set.mem_iInter] at hp
  apply hdisj
  refine ⟨⟨p.1, p.2⟩, ?_, ?_⟩
  · intro e he
    exact hp e (by simp [he])
  · intro e he
    exact hp e (by simp [he])

theorem GetCollisionManifold_eq (w : World) (a b : SpriteRef) (v : CPoint) (vs : List CPoint)
    (hB : (w.get b).collisionSprite.vert = v :: vs) :
    GetCollisionManifold w a b = Except.ok ((w.get a).collisionSprite.outerEdge.foldl
      (manifoldStep v vs) { CCollisionManifold.ctor with penetration := -FLT_MAX }) := by
  unfold GetCollisionManifold
  exact GetCollisionManifoldLoop_eq _ v vs hB _ _

theorem GetCollisionManifold_pos (w : World) (a b : SpriteRef)
    (hBv : (w.get b).collisionSprite.vert ≠ [])
    (hsep : ∃ m ∈ (w.get a).collisionSprite.outerEdge, ∀ u ∈ (w.get b).collisionSprite.vert,
      0 < DotProduct2D (u - m.pVert0) m.normal) :
    ∃ colMan, GetCollisionManifold w a b = Except.ok colMan ∧ 0 < colMan.penetration := by
  obtain ⟨v, vs, hB⟩ := List.exists_cons_of_ne_nil hBv
  refine ⟨_, GetCollisionManifold_eq w a b v vs hB, ?_⟩
  obtain ⟨m, hm, hpos⟩ := hsep
  obtain ⟨u, hu, hd⟩ := edgeDistance_attained v vs m
  have h1 := (foldl_manifoldStep_penetration v vs (w.get a).collisionSprite.outerEdge
    { CCollisionManifold.ctor with penetration := -FLT_MAX }).2 m hm
  have h2 := hpos u (hB ▸ hu)
  linarith

theorem GetCollisionManifold_ok (w : World) (a b : SpriteRef)
    (hBv : (w.get b).collisionSprite.vert ≠ []) :
    ∃ colMan, GetCollisionManifold w a b = Except.ok colMan := by
  obtain ⟨v, vs, hB⟩ := List.exists_cons_of_ne_nil hBv
  exact ⟨_, GetCollisionManifold_eq w a b v vs hB⟩

theorem separated_resolve (BoxRadiiIntersect : CPoint → ℚ → CPoint → ℚ → Bool) (w : World)
    (colMan : CCollisionManifold) (a b : SpriteRef)
    (hA : IsConvexPolygon (w.get a).collisionSprite)
    (hB : IsConvexPolygon (w.get b).collisionSprite)
    (hdisj : ¬ ∃ p : CPoint, (w.get a).collisionSprite.Contains p ∧
      (w.get b).collisionSprite.Contains p) :
    ∃ colManA colManB,
      GetCollisionManifold w a b = Except.ok colManA ∧
      GetCollisionManifold w b a = Except.ok colManB ∧
      (0 < colManA.penetration ∨ 0 < colManB.penetration) ∧
      ResolveCollision BoxRadiiIntersect w colMan a b = Except.ok ⟨false, colMan, w⟩ := by
  obtain ⟨mA, hmA⟩ := GetCollisionManifold_ok w a b hB.verts_ne
  obtain ⟨mB, hmB⟩ := GetCollisionManifold_ok w b a hA.verts_ne
  have hpos : 0 < mA.penetration ∨ 0 < mB.penetration := by
    rcases exists_separating_edge _ _ hA.verts_ne hA.vert_inside hB.verts_ne hB.vert_inside
      hdisj with h | h
    · obtain ⟨m, hm, hp⟩ := GetCollisionManifold_pos w a b hB.verts_ne h
      rw [hmA] at hm
      cases hm
      exact Or.inl hp
    · obtain ⟨m, hm, hp⟩ := GetCollisionManifold_pos w b a hA.verts_ne h
      rw [hmB] at hm
      cases hm
      exact Or.inr hp
  refine ⟨mA, mB, hmA, hmB, hpos, ?_⟩
  unfold ResolveCollision
  simp only [hmA, hmB, bind, Except.bind, pure, Except.pure]
  split_ifs <;> first | rfl | (exfalso; rcases hpos with h | h <;> linarith)

theorem Clip_eval (n : CPoint) (c : ℚ) (p : CPoint × CPoint) :
    Clip n c p =
      (if DotProduct2D p.1 n - c ≤ 0 then
        if DotProduct2D p.2 n - c ≤ 0 then Except.ok (2, (p.1, p.2))
        else if (DotProduct2D p.1 n - c) * (DotProduct2D p.2 n - c) < 0 then
          Except.ok (2, (p.1, p.1 + (p.2 - p.1) *
            ((DotProduct2D p.1 n - c) / ((DotProduct2D p.1 n - c) - (DotProduct2D p.2 n - c)))))
        else Except.ok (1, (p.1, p.2))
      else
        if DotProduct2D p.2 n - c ≤ 0 then
          if (DotProduct2D p.1 n - c) * (DotProduct2D p.2 n - c) < 0 then
            Except.ok (2, (p.2, p.1 + (p.2 - p.1) *
              ((DotProduct2D p.1 n - c) / ((DotProduct2D p.1 n - c) - (DotProduct2D p.2 n - c)))))
          else Except.ok (1, (p.2, p.2))
        else Except.ok (0, (p.1, p.2))) := by
  generalize hd1 : DotProduct2D p.1 n - c = d1
  generalize hd2 : DotProduct2D p.2 n - c = d2
  unfold Clip
  simp only [hd1, hd2]
  by_cases h1 : d1 ≤ 0 <;> by_cases h2 : d2 ≤ 0
  · have h3 : ¬ d1 * d2 < 0 := not_lt.mpr (mul_nonneg_of_nonpos_of_nonpos h1 h2)
    simp [h1, h2, h3, setClipped, bind, Except.bind, pure, Except.pure]
  · have h2' : 0 < d2 := not_le.mp h2
    by_cases h3 : d1 * d2 < 0
    · have hne : d1 - d2 ≠ 0 := by
        intro h; have : d1 = d2 := by linarith
        linarith
      simp [h1, h2, h3, hne, setClipped, fdiv, bind, Except.bind, pure, Except.pure]
    · simp [h1, h2, h3, setClipped, bind, Except.bind, pure, Except.pure]
  · have h1' : 0 < d1 := not_le.mp h1
    by_cases h3 : d1 * d2 < 0
    · have hne : d1 - d2 ≠ 0 := by
        intro h; have : d1 = d2 := by linarith
        linarith
      simp [h1, h2, h3, hne, setClipped, fdiv, bind, Except.bind, pure, Except.pure]
    · simp [h1, h2, h3, setClipped, bind, Except.bind, pure, Except.pure]
  · have h3 : ¬ d1 * d2 < 0 := not_lt.mpr (le_of_lt (mul_pos (not_le.mp h1) (not_le.mp h2)))
    simp [h1, h2, h3, setClipped, bind, Except.bind, pure, Except.pure]

theorem sqSprite_convex (dx : ℚ) (b : CCollisionBody) (pos : CPoint) (r : ℚ) :
    IsConvexPolygon (sqSprite dx b pos r).collisionSprite := by
  refine ⟨by simp [sqSprite, sqEdges], by simp [sqSprite, sqEdges], ?_⟩
  intro v hv e he
  simp only [sqSprite, sqEdges, List.map_cons, List.map_nil, List.mem_cons,
    List.mem_singleton, List.not_mem_nil, or_false] at hv he
  rcases hv with rfl | rfl | rfl | rfl <;> rcases he with rfl | rfl | rfl | rfl <;>
    norm_num [DotProduct2D]

theorem apartWorld_disjoint (bA bB : CCollisionBody) (pA pB : CPoint) (rA rB : ℚ) :
    ¬ ∃ p : CPoint,
      ((apartWorld bA bB pA pB rA rB).get SpriteRef.A).collisionSprite.Contains p ∧
      ((apartWorld bA bB pA pB rA rB).get SpriteRef.B).collisionSprite.Contains p := by
  rintro ⟨p, hA, hB⟩
  have h1 := hA ⟨⟨0 + 1, 1⟩, ⟨0 + 1, 0⟩, ⟨1, 0⟩⟩ (by simp [apartWorld, World.get, sqSprite, sqEdges])
  have h2 := hB ⟨⟨2, 0⟩, ⟨2, 1⟩, ⟨-1, 0⟩⟩ (by simp [apartWorld, World.get, sqSprite, sqEdges])
  simp only [DotProduct2D, CPoint.sub_x, CPoint.sub_y] at h1 h2
  linarith

/-! ## Reads and writes through sprite pointers -/

namespace World

@[simp] theorem body_setBody_same (w : World) (r : SpriteRef) (b : CCollisionBody) :
    (w.setBody r b).body r = b := by
  cases r <;> rfl

theorem body_setBody_other (w : World) (r x : SpriteRef) (b : CCollisionBody) (h : r ≠ x) :
    (w.setBody r b).body x = w.body x := by
  cases r <;> cases x <;> first | rfl | exact absurd rfl h

@[simp] theorem pos_setBody (w : World) (r x : SpriteRef) (b : CCollisionBody) :
    ((w.setBody r b).get x).pos = (w.get x).pos := by
  cases r <;> cases x <;> rfl

end World

theorem dot_mul_left (a b : CPoint) (k : ℚ) : DotProduct2D (a * k) b = k * DotProduct2D a b := by
  simp only [DotProduct2D, CPoint.mul_x, CPoint.mul_y]; ring

theorem ApplyImpulseLoop_succ (m : CCollisionManifold) (r i : SpriteRef) (n : Nat) (k : Int)
    (w : World) (p : CPoint) (hp : m.contactPointAt k = Except.ok p)
    (heff : effectiveInverseMass m w r i p ≠ 0) :
    ApplyImpulseLoop m r i (n + 1) k w =
      if contactVelocityAt m w r i p > 0 then Except.ok w
      else ApplyImpulseLoop m r i n (k + 1) (impulseStep m w r i p) := by
  have heff2 := heff
  simp only [effectiveInverseMass, contactRadius] at heff2
  simp only [ApplyImpulseLoop, hp, bind, Except.bind, fdiv, if_neg heff2]
  rfl

theorem impulseStep_pos (m : CCollisionManifold) (w : World) (r i x : SpriteRef) (p : CPoint) :
    ((impulseStep m w r i p).get x).pos = (w.get x).pos := by
  simp [impulseStep, impulseRefWritten]

theorem impulseStep_static (m : CCollisionManifold) (w : World) (r i x : SpriteRef)
    (p : CPoint) :
    ((impulseStep m w r i p).body x).inverseMass = (w.body x).inverseMass ∧
      ((impulseStep m w r i p).body x).inverseInertia = (w.body x).inverseInertia ∧
      ((impulseStep m w r i p).body x).restitution = (w.body x).restitution ∧
      ((impulseStep m w r i p).body x).mass = (w.body x).mass := by
  cases r <;> cases i <;> cases x <;>
    simp [impulseStep, impulseRefWritten, World.setBody, World.body, World.get]

theorem impulseStep_velocity_of_static (m : CCollisionManifold) (w : World) (r i x : SpriteRef)
    (p : CPoint) (hx : (w.body x).inverseMass = 0) :
    ((impulseStep m w r i p).body x).velocity = (w.body x).velocity := by
  cases r <;> cases i <;> cases x <;>
    simp [impulseStep, impulseRefWritten, World.setBody, World.body, World.get,
      CPoint.ext_iff2] at hx ⊢ <;> simp [hx]

theorem effectiveInverseMass_impulseStep (m : CCollisionManifold) (w : World) (r i : SpriteRef)
    (p q : CPoint) :
    effectiveInverseMass m (impulseStep m w r i p) r i q = effectiveInverseMass m w r i q := by
  simp only [effectiveInverseMass, contactRadius, impulseStep_pos,
    (impulseStep_static m w r i r p).1, (impulseStep_static m w r i i p).1,
    (impulseStep_static m w r i r p).2.1, (impulseStep_static m w r i i p).2.1]

theorem contactPointAt_ok (m : CCollisionManifold) (k : Int) (h0 : 0 ≤ k) (h2 : k < 2) :
    ∃ p, m.contactPointAt k = Except.ok p := by
  have hk : k = 0 ∨ k = 1 := by omega
  rcases hk with rfl | rfl
  · exact ⟨m.contactPoint0, rfl⟩
  · exact ⟨m.contactPoint1, rfl⟩

theorem ApplyImpulseLoop_static (m : CCollisionManifold) (r i x : SpriteRef) (n : Nat) :
    ∀ (k : Int) (w : World), 0 ≤ k → k + n ≤ 2 →
      (∀ j p, k ≤ j → j < k + n → m.contactPointAt j = Except.ok p →
        effectiveInverseMass m w r i p ≠ 0) →
      (w.body x).inverseMass = 0 →
      ∃ w1, ApplyImpulseLoop m r i n k w = Except.ok w1 ∧
        (w1.body x).velocity = (w.body x).velocity := by
  induction n with
  | zero =>
    intro k w _ _ _ _
    exact ⟨w, rfl, rfl⟩
  | succ n ih =>
    intro k w h0 h2 heff hx
    push_cast at h2 heff
    obtain ⟨p, hp⟩ := contactPointAt_ok m k h0 (by omega)
    rw [ApplyImpulseLoop_succ m r i n k w p hp (heff k p (le_refl _) (by omega) hp)]
    split_ifs with hcv
    · exact ⟨w, rfl, rfl⟩
    · obtain ⟨w1, hw1, hv⟩ := ih (k + 1) (impulseStep m w r i p) (by omega) (by omega)
        (fun j q hj1 hj2 hq => by
          rw [effectiveInverseMass_impulseStep]
          exact heff j q (by omega) (by omega) hq)
        (by rw [(impulseStep_static m w r i x p).1]; exact hx)
      exact ⟨w1, hw1, by rw [hv, impulseStep_velocity_of_static m w r i x p hx]⟩

/-! ## What `ResolveCollision` leaves in the manifold -/

theorem GetCollisionManifoldLoop_frame (B : CCollisionSprite2D) (es : List CEdge) :
    ∀ (m m1 : CCollisionManifold), GetCollisionManifoldLoop B es m = Except.ok m1 →
      m1.contactCount = m.contactCount ∧ m1.pRefSprite = m.pRefSprite ∧
        m1.pIncSprite = m.pIncSprite := by
  induction es with
  | nil =>
    intro m m1 h
    simp only [GetCollisionManifoldLoop, Except.ok.injEq] at h
    subst h
    exact ⟨rfl, rfl, rfl⟩
  | cons e es ih =>
    intro m m1 h
    simp only [GetCollisionManifoldLoop, bind, Except.bind] at h
    split at h
    · cases h
    · split_ifs at h
      · have h1 := ih _ _ h
        exact h1
      · exact ih _ _ h

theorem GetCollisionManifold_frame (w : World) (a b : SpriteRef) (m : CCollisionManifold)
    (h : GetCollisionManifold w a b = Except.ok m) :
    m.contactCount = 0 ∧ m.pRefSprite = none ∧ m.pIncSprite = none :=
  GetCollisionManifoldLoop_frame _ _ _ _ h

theorem FindIncidentEdge_frame (m m1 : CCollisionManifold) (w : World)
    (h : m.FindIncidentEdge w = Except.ok m1) :
    m1.contactCount = m.contactCount ∧ m1.pRefSprite = m.pRefSprite ∧
      m1.pIncSprite = m.pIncSprite := by
  unfold FindIncidentEdge at h
  simp only [bind, Except.bind, pure, Except.pure] at h
  split at h
  · cases h
  · split at h
    · cases h
    · simp only [Except.ok.injEq] at h
      subst h
      exact ⟨rfl, rfl, rfl⟩

theorem Clip_ok (n : CPoint) (c : ℚ) (p : CPoint × CPoint) :
    ∃ sp q, Clip n c p = Except.ok (sp, q) := by
  rw [Clip_eval]
  split_ifs <;> exact ⟨_, _, rfl⟩

theorem setContactPoint_frame (m m1 : CCollisionManifold) (k : Int) (p : CPoint)
    (h : m.setContactPoint k p = Except.ok m1) :
    m1.penetration = m.penetration ∧ m1.contactCount = m.contactCount ∧
      m1.normal = m.normal ∧ m1.pRefSprite = m.pRefSprite ∧ m1.pIncSprite = m.pIncSprite := by
  unfold setContactPoint at h
  split_ifs at h
  · cases h; exact ⟨rfl, rfl, rfl, rfl, rfl⟩
  · cases h; exact ⟨rfl, rfl, rfl, rfl, rfl⟩

theorem ResolveCollisionContacts_penetration (m m1 : CCollisionManifold) (refC : ℚ)
    (pc : CPoint × CPoint) (h : ResolveCollisionContacts m refC pc = Except.ok m1) :
    0 ≤ m1.penetration := by
  unfold ResolveCollisionContacts at h
  simp only [bind, Except.bind, pure, Except.pure] at h
  by_cases h1 : DotProduct2D pc.1 m.normal - refC ≤ 0
  · simp only [if_pos h1] at h
    cases hc : m.setContactPoint m.contactCount pc.1 with
    | error e => simp only [hc] at h; cases h
    | ok c =>
      obtain ⟨_, _, hn, _, _⟩ := setContactPoint_frame _ _ _ _ hc
      simp only [hc, hn] at h
      by_cases h2 : DotProduct2D pc.2 m.normal - refC ≤ 0
      · simp only [if_pos h2] at h
        split at h
        · cases h
        · rename_i c2 hc2
          obtain ⟨hp2, _, _, _, _⟩ := setContactPoint_frame _ _ _ _ hc2
          simp only at hp2
          split_ifs at h <;> cases h <;> simp only [hp2] <;> nlinarith
      · simp only [if_neg h2] at h
        split_ifs at h <;> cases h <;> simp only <;> nlinarith
  · simp only [if_neg h1] at h
    by_cases h2 : DotProduct2D pc.2 m.normal - refC ≤ 0
    · simp only [if_pos h2] at h
      split at h
      · cases h
      · rename_i c2 hc2
        obtain ⟨hp2, _, _, _, _⟩ := setContactPoint_frame _ _ _ _ hc2
        simp only at hp2
        split_ifs at h <;> cases h <;> simp only [hp2] <;> nlinarith
    · simp only [if_neg h2] at h
      split_ifs at h <;> cases h <;> simp only <;> norm_num

theorem ResolveCollisionClip_spec (w : World) (m : CCollisionManifold) (r : ResolveResult)
    (h : ResolveCollisionClip w m = Except.ok r) :
    r.world = w ∧
      (r.ret = false → r.colMan.contactCount = m.contactCount ∧
        r.colMan.pRefSprite = m.pRefSprite ∧ r.colMan.pIncSprite = m.pIncSprite) ∧
      (r.ret = true → 0 ≤ r.colMan.penetration) := by
  unfold ResolveCollisionClip at h
  simp only [bind, Except.bind, pure, Except.pure] at h
  split at h
  · cases h
  · rename_i m1 hm1
    obtain ⟨hc, hr, hi⟩ := FindIncidentEdge_frame m m1 w hm1
    split at h
    · cases h
    · split at h
      · cases h
      · split at h
        · cases h
        · split_ifs at h
          · cases h
            exact ⟨rfl, fun _ => ⟨hc, hr, hi⟩, fun h => (by cases h)⟩
          · split at h
            · cases h
            · split_ifs at h
              · cases h
                exact ⟨rfl, fun _ => ⟨hc, hr, hi⟩, fun h => (by cases h)⟩
              · split at h
                · cases h
                · rename_i m2 hm2
                  cases h
                  exact ⟨rfl, fun h => (by cases h),
                    fun _ => ResolveCollisionContacts_penetration _ _ _ _ hm2⟩

theorem ResolveCollision_spec (BoxRadiiIntersect : CPoint → ℚ → CPoint → ℚ → Bool)
    (w : World) (colMan : CCollisionManifold) (a b : SpriteRef) (r : ResolveResult)
    (h : ResolveCollision BoxRadiiIntersect w colMan a b = Except.ok r) :
    r.world = w ∧ (r.ret = true → 0 ≤ r.colMan.penetration) ∧
      (r.ret = false → r.colMan = colMan ∨
        (r.colMan.contactCount = 0 ∧ r.colMan.pRefSprite ≠ none ∧
          r.colMan.pIncSprite ≠ none)) := by
  have early : ∀ r1 : ResolveResult, (⟨false, colMan, w⟩ : ResolveResult) = r1 →
      r1.world = w ∧ (r1.ret = true → 0 ≤ r1.colMan.penetration) ∧
        (r1.ret = false → r1.colMan = colMan ∨
          (r1.colMan.contactCount = 0 ∧ r1.colMan.pRefSprite ≠ none ∧
            r1.colMan.pIncSprite ≠ none)) := by
    intro r1 h1
    subst h1
    exact ⟨rfl, fun h => (by cases h), fun _ => Or.inl rfl⟩
  unfold ResolveCollision at h
  simp only [bind, Except.bind, pure, Except.pure] at h
  split_ifs at h with hmass hbox
  · split at h
    · cases h
    · rename_i mA hmA
      obtain ⟨hcA, _, _⟩ := GetCollisionManifold_frame _ _ _ _ hmA
      split_ifs at h with hpA
      · exact early r (Except.ok.inj h)
      · split at h
        · cases h
        · rename_i mB hmB
          obtain ⟨hcB, _, _⟩ := GetCollisionManifold_frame _ _ _ _ hmB
          split_ifs at h with hpB hbias
          · exact early r (Except.ok.inj h)
          · obtain ⟨hw, hfalse, htrue⟩ := ResolveCollisionClip_spec _ _ _ h
            refine ⟨hw, htrue, fun hf => Or.inr ?_⟩
            obtain ⟨h1, h2, h3⟩ := hfalse hf
            exact ⟨by rw [h1]; exact hcA, by rw [h2]; simp, by rw [h3]; simp⟩
          · obtain ⟨hw, hfalse, htrue⟩ := ResolveCollisionClip_spec _ _ _ h
            refine ⟨hw, htrue, fun hf => Or.inr ?_⟩
            obtain ⟨h1, h2, h3⟩ := hfalse hf
            exact ⟨by rw [h1]; exact hcB, by rw [h2]; simp, by rw [h3]; simp⟩
  · exact early r (Except.ok.inj h)
  · exact early r (Except.ok.inj h)

theorem ApplyImpulse_null (m : CCollisionManifold) (w : World) (h : m.pRefSprite = none) :
    ApplyImpulse m w = Except.error Fault.nullPointer := by
  unfold ApplyImpulse
  simp only [h, deref, bind, Except.bind]

theorem ApplyImpulse_no_contact (m : CCollisionManifold) (w : World)
    (hr : m.pRefSprite ≠ none) (hi : m.pIncSprite ≠ none) (hc : m.contactCount = 0) :
    ApplyImpulse m w = Except.ok w := by
  obtain ⟨r, hr1⟩ := Option.ne_none_iff_exists'.mp hr
  obtain ⟨i, hi1⟩ := Option.ne_none_iff_exists'.mp hi
  unfold ApplyImpulse
  simp only [hr1, hi1, hc, deref, bind, Except.bind, Int.toNat_zero, ApplyImpulseLoop]

theorem rev_resolve (colMan : CCollisionManifold) :
    ResolveCollision (fun _ _ _ _ => true) revWorld colMan SpriteRef.A SpriteRef.B =
      Except.ok ⟨false, revManifold, revWorld⟩ := by
  have hA : GetCollisionManifold revWorld SpriteRef.A SpriteRef.B =
      Except.ok { CCollisionManifold.ctor with
        penetration := -1/2, pRefEdge := some ⟨⟨1, 0⟩, ⟨1, 1⟩, ⟨1, 0⟩⟩ } := by
    rw [GetCollisionManifold_eq revWorld SpriteRef.A SpriteRef.B
      ⟨1/2 + 1, 1⟩ [⟨1/2 + 1, 0⟩, ⟨1/2, 0⟩, ⟨1/2, 1⟩] rfl]
    simp [revWorld, revEdges, World.get, sqEdges, manifoldStep, edgeDistance, supportOf,
      DotProduct2D, CCollisionManifold.ctor, FLT_MAX]
    norm_num
  have hB : GetCollisionManifold revWorld SpriteRef.B SpriteRef.A =
      Except.ok { CCollisionManifold.ctor with
        penetration := -1/2, pRefEdge := some ⟨⟨1/2, 1⟩, ⟨1/2, 0⟩, ⟨-1, 0⟩⟩ } := by
    rw [GetCollisionManifold_eq revWorld SpriteRef.B SpriteRef.A
      ⟨0 + 1, 1⟩ [⟨0 + 1, 0⟩, ⟨0, 0⟩, ⟨0, 1⟩] rfl]
    simp [revWorld, revEdges, World.get, sqEdges, manifoldStep, edgeDistance, supportOf,
      DotProduct2D, CCollisionManifold.ctor, FLT_MAX]
    norm_num
  have hbias : ¬ ((-1/2 : ℚ) ≥ (-1/2) * BIAS_RELATIVE + (-1/2) * BIAS_ABSOLUTE) := by
    norm_num [BIAS_RELATIVE, BIAS_ABSOLUTE]
  have hmass : (revWorld.body SpriteRef.A).mass ≠ 0 ∨ (revWorld.body SpriteRef.B).mass ≠ 0 :=
    Or.inl (by norm_num [revWorld, World.body, World.get, unitBody])
  unfold ResolveCollision
  rw [if_pos hmass]
  simp only [hA, hB, Except.ok_bind_eq, Except.pure_eq_ok, if_true]
  norm_num [hbias, ResolveCollisionClip, FindIncidentEdge, FindIncidentEdgeLoop, deref,
    revWorld, revEdges, World.get, sqEdges, DotProduct2D, FLT_MAX, Clip_eval,
    Except.ok_bind_eq, Except.pure_eq_ok, CCollisionManifold.ctor,
    BIAS_RELATIVE, BIAS_ABSOLUTE, revManifold, CPoint.zero]

/-! ## Positional correction -/

theorem correction_amount_bounds (p : ℚ) (hp : 0 ≤ p) :
    0 ≤ PERCENT * max (p - SLOP) 0 ∧ PERCENT * max (p - SLOP) 0 ≤ p := by
  have hS : SLOP = 5368709 / 536870912 := rfl
  have hP : PERCENT = 13421773 / 67108864 := rfl
  have h0 : (0 : ℚ) ≤ max (p - SLOP) 0 := le_max_right _ _
  have h1 : max (p - SLOP) 0 ≤ p := max_le (by rw [hS]; linarith) hp
  rw [hP]
  constructor <;> linarith

theorem nextPenetration_bounds (p : ℚ) (hp : 0 ≤ p) :
    0 ≤ nextPenetration p ∧ nextPenetration p ≤ p := by
  obtain ⟨h0, h1⟩ := correction_amount_bounds p hp
  unfold nextPenetration
  constructor <;> linarith

theorem nextPenetration_iterate_nonneg (p0 : ℚ) (hp : 0 ≤ p0) (k : Nat) :
    0 ≤ nextPenetration^[k] p0 := by
  induction k with
  | zero => simpa using hp
  | succ k ih =>
    rw [Function.iterate_succ_apply']
    exact (nextPenetration_bounds _ ih).1

/-! ## The separation search finds the first greatest separation -/

theorem edgeDistance_eq_of_least (v : CPoint) (vs : List CPoint) (e : CEdge) (d : ℚ)
    (hatt : ∃ u ∈ v :: vs, DotProduct2D (u - e.pVert0) e.normal = d)
    (hle : ∀ u ∈ v :: vs, d ≤ DotProduct2D (u - e.pVert0) e.normal) :
    edgeDistance v vs e = d := by
  obtain ⟨u, hu, hd⟩ := hatt
  obtain ⟨u1, hu1, hd1⟩ := edgeDistance_attained v vs e
  apply le_antisymm
  · rw [← hd]; exact edgeDistance_le v vs e u hu
  · rw [hd1]; exact hle u1 hu1

theorem foldl_manifoldStep_unique (v : CPoint) (vs : List CPoint) (e0 : CEdge)
    (es : List CEdge) :
    ∀ m : CCollisionManifold,
      (∀ e ∈ es, e ≠ e0 → edgeDistance v vs e < edgeDistance v vs e0) →
      (e0 ∈ es → m.penetration < edgeDistance v vs e0 →
        es.foldl (manifoldStep v vs) m =
          { m with penetration := edgeDistance v vs e0, pRefEdge := some e0 }) ∧
      (m.penetration = edgeDistance v vs e0 → es.foldl (manifoldStep v vs) m = m) := by
  induction es with
  | nil =>
    intro m _
    exact ⟨fun h => absurd h (List.not_mem_nil _), fun _ => rfl⟩
  | cons e es ih =>
    intro m hall
    have hall1 : ∀ e1 ∈ es, e1 ≠ e0 → edgeDistance v vs e1 < edgeDistance v vs e0 :=
      fun e1 he1 => hall e1 (List.mem_cons_of_mem _ he1)
    simp only [List.foldl_cons]
    constructor
    · intro hmem hlt
      by_cases he : e = e0
      · subst he
        have hstep : manifoldStep v vs m e =
            { m with penetration := edgeDistance v vs e, pRefEdge := some e } := by
          unfold manifoldStep; rw [if_pos hlt]
        rw [hstep]
        exact (ih _ hall1).2 rfl
      · have hmem1 : e0 ∈ es := (List.mem_cons.mp hmem).resolve_left (fun h => he h.symm)
        have hlt1 := hall e (List.mem_cons_self _ _) he
        by_cases hc : edgeDistance v vs e > m.penetration
        · have hstep : manifoldStep v vs m e =
              { m with penetration := edgeDistance v vs e, pRefEdge := some e } := by
            unfold manifoldStep; rw [if_pos hc]
          rw [hstep]
          exact (ih _ hall1).1 hmem1 hlt1
        · have hstep : manifoldStep v vs m e = m := by
            unfold manifoldStep; rw [if_neg hc]
          rw [hstep]
          exact (ih _ hall1).1 hmem1 hlt
    · intro heq
      have hc : ¬ edgeDistance v vs e > m.penetration := by
        rw [heq]
        by_cases he : e = e0
        · subst he; exact lt_irrefl _
        · exact not_lt.mpr (le_of_lt (hall e (List.mem_cons_self _ _) he))
      have hstep : manifoldStep v vs m e = m := by
        unfold manifoldStep; rw [if_neg hc]
      rw [hstep]
      exact (ih _ hall1).2 heq

theorem FindIncidentEdgeLoop_unique (n : CPoint) (e0 : CEdge) (es : List CEdge) :
    ∀ (minValue : ℚ) (p : Option CEdge),
      (∀ e ∈ es, e ≠ e0 → DotProduct2D n e0.normal < DotProduct2D n e.normal) →
      (e0 ∈ es → DotProduct2D n e0.normal < minValue →
        FindIncidentEdgeLoop n es minValue p = (DotProduct2D n e0.normal, some e0)) ∧
      (minValue = DotProduct2D n e0.normal →
        FindIncidentEdgeLoop n es minValue p = (minValue, p)) := by
  induction es with
  | nil =>
    intro minValue p _
    exact ⟨fun h => absurd h (List.not_mem_nil _), fun _ => rfl⟩
  | cons e es ih =>
    intro minValue p hall
    have hall1 : ∀ e1 ∈ es, e1 ≠ e0 → DotProduct2D n e0.normal < DotProduct2D n e1.normal :=
      fun e1 he1 => hall e1 (List.mem_cons_of_mem _ he1)
    simp only [FindIncidentEdgeLoop]
    constructor
    · intro hmem hlt
      by_cases he : e = e0
      · subst he
        rw [if_pos hlt]
        exact (ih _ _ hall1).2 rfl
      · have hmem1 : e0 ∈ es := (List.mem_cons.mp hmem).resolve_left (fun h => he h.symm)
        have hlt1 := hall e (List.mem_cons_self _ _) he
        split_ifs with hc
        · exact (ih _ _ hall1).1 hmem1 hlt1
        · exact (ih _ _ hall1).1 hmem1 hlt
    · intro heq
      have hc : ¬ DotProduct2D n e.normal < minValue := by
        rw [heq]
        by_cases he : e = e0
        · subst he; exact lt_irrefl _
        · exact not_lt.mpr (le_of_lt (hall e (List.mem_cons_self _ _) he))
      rw [if_neg hc]
      exact (ih _ _ hall1).2 heq

theorem sq_edgeDistance (dxE dxV : ℚ) (v : CPoint) (vs : List CPoint)
    (hv : ∀ u, u ∈ v :: vs ↔ u ∈ (sqEdges dxV).map CEdge.pVert0) :
    edgeDistance v vs ⟨⟨dxE, 1⟩, ⟨dxE + 1, 1⟩, ⟨0, 1⟩⟩ = -1 ∧
      edgeDistance v vs ⟨⟨dxE + 1, 1⟩, ⟨dxE + 1, 0⟩, ⟨1, 0⟩⟩ = dxV - dxE - 1 ∧
      edgeDistance v vs ⟨⟨dxE + 1, 0⟩, ⟨dxE, 0⟩, ⟨0, -1⟩⟩ = -1 ∧
      edgeDistance v vs ⟨⟨dxE, 0⟩, ⟨dxE, 1⟩, ⟨-1, 0⟩⟩ = dxE - dxV - 1 := by
  have hmem : ∀ u, u ∈ v :: vs ↔
      u = ⟨dxV, 1⟩ ∨ u = ⟨dxV + 1, 1⟩ ∨ u = ⟨dxV + 1, 0⟩ ∨ u = ⟨dxV, 0⟩ := by
    intro u
    rw [hv u]
    simp [sqEdges]
  refine ⟨?_, ?_, ?_, ?_⟩
  · apply edgeDistance_eq_of_least
    · exact ⟨⟨dxV, 0⟩, (hmem _).mpr (by simp), by simp [DotProduct2D]⟩
    · intro u hu
      rcases (hmem u).mp hu with rfl | rfl | rfl | rfl <;> norm_num [DotProduct2D]
  · apply edgeDistance_eq_of_least
    · exact ⟨⟨dxV, 0⟩, (hmem _).mpr (by simp), by simp [DotProduct2D]; ring⟩
    · intro u hu
      rcases (hmem u).mp hu with rfl | rfl | rfl | rfl <;> norm_num [DotProduct2D] <;> linarith
  · apply edgeDistance_eq_of_least
    · exact ⟨⟨dxV, 1⟩, (hmem _).mpr (by simp), by simp [DotProduct2D]⟩
    · intro u hu
      rcases (hmem u).mp hu with rfl | rfl | rfl | rfl <;> norm_num [DotProduct2D]
  · apply edgeDistance_eq_of_least
    · exact ⟨⟨dxV + 1, 0⟩, (hmem _).mpr (by simp), by simp [DotProduct2D]; ring⟩
    · intro u hu
      rcases (hmem u).mp hu with rfl | rfl | rfl | rfl <;> norm_num [DotProduct2D] <;> linarith

theorem sq_vert_cons (dx : ℚ) (s : CCollisionSprite2D) (hs : IsUnitSquareAt dx s) :
    ∃ v vs, s.vert = v :: vs := by
  have h : (⟨dx, 1⟩ : CPoint) ∈ s.vert := (hs.2 _).mpr (by simp [sqEdges])
  exact List.exists_cons_of_ne_nil (List.ne_nil_of_mem h)

theorem sq_mem_edges (dx : ℚ) (e : CEdge) :
    e ∈ sqEdges dx ↔
      e = ⟨⟨dx, 1⟩, ⟨dx + 1, 1⟩, ⟨0, 1⟩⟩ ∨ e = ⟨⟨dx + 1, 1⟩, ⟨dx + 1, 0⟩, ⟨1, 0⟩⟩ ∨
        e = ⟨⟨dx + 1, 0⟩, ⟨dx, 0⟩, ⟨0, -1⟩⟩ ∨ e = ⟨⟨dx, 0⟩, ⟨dx, 1⟩, ⟨-1, 0⟩⟩ := by
  simp [sqEdges]

theorem square_manifoldA (w : World) (a b : SpriteRef)
    (hA : IsUnitSquareAt 0 (w.get a).collisionSprite)
    (hB : IsUnitSquareAt (1/2) (w.get b).collisionSprite) :
    GetCollisionManifold w a b =
      Except.ok { CCollisionManifold.ctor with
        penetration := -1/2, pRefEdge := some ⟨⟨0 + 1, 1⟩, ⟨0 + 1, 0⟩, ⟨1, 0⟩⟩ } := by
  obtain ⟨v, vs, hvs⟩ := sq_vert_cons _ _ hB
  have hv : ∀ u, u ∈ v :: vs ↔ u ∈ (sqEdges (1/2)).map CEdge.pVert0 := by
    intro u; rw [← hvs]; exact hB.2 u
  obtain ⟨d1, d2, d3, d4⟩ := sq_edgeDistance 0 (1/2) v vs hv
  rw [GetCollisionManifold_eq w a b v vs hvs]
  have hu := (foldl_manifoldStep_unique v vs ⟨⟨0 + 1, 1⟩, ⟨0 + 1, 0⟩, ⟨1, 0⟩⟩
    (w.get a).collisionSprite.outerEdge
    { CCollisionManifold.ctor with penetration := -FLT_MAX } (by
      intro e he hne
      rcases (sq_mem_edges 0 e).mp ((hA.1 e).mp he) with rfl | rfl | rfl | rfl
      · rw [d1, d2]; norm_num
      · exact absurd rfl hne
      · rw [d3, d2]; norm_num
      · rw [d4, d2]; norm_num)).1
    ((hA.1 _).mpr ((sq_mem_edges 0 _).mpr (Or.inr (Or.inl rfl))))
    (by rw [d2]; norm_num [FLT_MAX])
  rw [hu, d2]
  norm_num

theorem square_manifoldB (w : World) (a b : SpriteRef)
    (hA : IsUnitSquareAt (1/2) (w.get a).collisionSprite)
    (hB : IsUnitSquareAt 0 (w.get b).collisionSprite) :
    GetCollisionManifold w a b =
      Except.ok { CCollisionManifold.ctor with
        penetration := -1/2, pRefEdge := some ⟨⟨1/2, 0⟩, ⟨1/2, 1⟩, ⟨-1, 0⟩⟩ } := by
  obtain ⟨v, vs, hvs⟩ := sq_vert_cons _ _ hB
  have hv : ∀ u, u ∈ v :: vs ↔ u ∈ (sqEdges 0).map CEdge.pVert0 := by
    intro u; rw [← hvs]; exact hB.2 u
  obtain ⟨d1, d2, d3, d4⟩ := sq_edgeDistance (1/2) 0 v vs hv
  rw [GetCollisionManifold_eq w a b v vs hvs]
  have hu := (foldl_manifoldStep_unique v vs ⟨⟨1/2, 0⟩, ⟨1/2, 1⟩, ⟨-1, 0⟩⟩
    (w.get a).collisionSprite.outerEdge
    { CCollisionManifold.ctor with penetration := -FLT_MAX } (by
      intro e he hne
      rcases (sq_mem_edges (1/2) e).mp ((hA.1 e).mp he) with rfl | rfl | rfl | rfl
      · rw [d1, d4]; norm_num
      · rw [d2, d4]; norm_num
      · rw [d3, d4]; norm_num
      · exact absurd rfl hne)).1
    ((hA.1 _).mpr ((sq_mem_edges (1/2) _).mpr (Or.inr (Or.inr (Or.inr rfl)))))
    (by rw [d4]; norm_num [FLT_MAX])
  rw [hu, d4]
  norm_num

theorem square_resolve (BoxRadiiIntersect : CPoint → ℚ → CPoint → ℚ → Bool) (w : World)
    (colMan : CCollisionManifold)
    (hA : IsUnitSquareAt 0 (w.get SpriteRef.A).collisionSprite)
    (hB : IsUnitSquareAt (1/2) (w.get SpriteRef.B).collisionSprite)
    (hmass : (w.body SpriteRef.A).mass ≠ 0 ∨ (w.body SpriteRef.B).mass ≠ 0)
    (hbox : BoxRadiiIntersect (w.get SpriteRef.A).pos (w.get SpriteRef.A).radius
      (w.get SpriteRef.B).pos (w.get SpriteRef.B).radius = true) :
    ResolveCollision BoxRadiiIntersect w colMan SpriteRef.A SpriteRef.B =
      Except.ok ⟨true, overlapManifold, w⟩ := by
  have hbias : ¬ ((-1/2 : ℚ) ≥ (-1/2) * BIAS_RELATIVE + (-1/2) * BIAS_ABSOLUTE) := by
    norm_num [BIAS_RELATIVE, BIAS_ABSOLUTE]
  have hinc := (FindIncidentEdgeLoop_unique ⟨-1, 0⟩ ⟨⟨0 + 1, 1⟩, ⟨0 + 1, 0⟩, ⟨1, 0⟩⟩
    (w.get SpriteRef.A).collisionSprite.outerEdge FLT_MAX none (by
      intro e he hne
      rcases (sq_mem_edges 0 e).mp ((hA.1 e).mp he) with rfl | rfl | rfl | rfl
      · norm_num [DotProduct2D]
      · exact absurd rfl hne
      · norm_num [DotProduct2D]
      · norm_num [DotProduct2D])).1
    ((hA.1 _).mpr ((sq_mem_edges 0 _).mpr (Or.inr (Or.inl rfl))))
    (by norm_num [DotProduct2D, FLT_MAX])
  unfold ResolveCollision
  rw [if_pos hmass, if_pos hbox]
  simp only [square_manifoldA w SpriteRef.A SpriteRef.B hA hB,
    square_manifoldB w SpriteRef.B SpriteRef.A hB hA, bind, Except.bind, pure, Except.pure]
  norm_num [hbias, ResolveCollisionClip, FindIncidentEdge, deref, hinc,
    DotProduct2D, Clip_eval, bind, Except.bind, pure, Except.pure, setContactPoint,
    CCollisionManifold.ctor, ResolveCollisionContacts, BIAS_RELATIVE, BIAS_ABSOLUTE,
    overlapManifold, CPoint.zero]

theorem sqSprite_isUnitSquare (dx : ℚ) (b : CCollisionBody) (pos : CPoint) (r : ℚ) :
    IsUnitSquareAt dx (sqSprite dx b pos r).collisionSprite :=
  ⟨fun _ => Iff.rfl, fun _ => Iff.rfl⟩

theorem overlap_resolve (BoxRadiiIntersect : CPoint → ℚ → CPoint → ℚ → Bool)
    (bA bB : CCollisionBody) (pA pB : CPoint) (rA rB : ℚ) (colMan : CCollisionManifold)
    (hmass : bA.mass ≠ 0 ∨ bB.mass ≠ 0) (hbox : BoxRadiiIntersect pA rA pB rB = true) :
    ResolveCollision BoxRadiiIntersect (overlapWorld bA bB pA pB rA rB) colMan
        SpriteRef.A SpriteRef.B =
      Except.ok ⟨true, overlapManifold, overlapWorld bA bB pA pB rA rB⟩ :=
  square_resolve BoxRadiiIntersect (overlapWorld bA bB pA pB rA rB) colMan
    (sqSprite_isUnitSquare _ _ _ _) (sqSprite_isUnitSquare _ _ _ _) hmass hbox

/-! ## What the clips keep -/

theorem Clip_behind (n : CPoint) (c : ℚ) (p : CPoint × CPoint) (k : Nat)
    (q : CPoint × CPoint) (h : Clip n c p = Except.ok (k, q)) (hk : ¬ k < 2) :
    DotProduct2D q.1 n - c ≤ 0 ∧ DotProduct2D q.2 n - c ≤ 0 := by
  rw [Clip_eval] at h
  have hlin : ∀ a : ℚ, DotProduct2D (p.1 + (p.2 - p.1) * a) n - c =
      (DotProduct2D p.1 n - c) + ((DotProduct2D p.2 n - c) - (DotProduct2D p.1 n - c)) * a := by
    intro a
    simp only [DotProduct2D, CPoint.add_x, CPoint.add_y, CPoint.sub_x, CPoint.sub_y,
      CPoint.mul_x, CPoint.mul_y]
    ring
  generalize hd1 : DotProduct2D p.1 n - c = d1 at h hlin
  generalize hd2 : DotProduct2D p.2 n - c = d2 at h hlin
  have hzero : d1 * d2 < 0 → d1 + (d2 - d1) * (d1 / (d1 - d2)) = 0 := by
    intro h3
    have hne : d1 - d2 ≠ 0 := by
      intro h0
      have : d1 = d2 := by linarith
      subst this
      nlinarith [mul_self_nonneg d1]
    field_simp
    ring
  split_ifs at h with h1 h2 h3 h4 h5
  · cases h; exact ⟨by rw [hd1]; exact h1, by rw [hd2]; exact h2⟩
  · cases h
    refine ⟨by rw [hd1]; exact h1, ?_⟩
    simp only
    rw [hlin, hzero h3]
  · cases h; exact absurd (by norm_num) hk
  · cases h
    refine ⟨by rw [hd2]; exact h4, ?_⟩
    simp only
    rw [hlin, hzero h5]
  · cases h; exact absurd (by norm_num) hk
  · cases h; exact absurd (by norm_num) hk

theorem Clip_preserves (n : CPoint) (c : ℚ) (p : CPoint × CPoint) (k : Nat)
    (q : CPoint × CPoint) (h : Clip n c p = Except.ok (k, q)) (hk : ¬ k < 2)
    (s : CPoint) (b : ℚ) (h1 : b ≤ DotProduct2D p.1 s) (h2 : b ≤ DotProduct2D p.2 s) :
    b ≤ DotProduct2D q.1 s ∧ b ≤ DotProduct2D q.2 s := by
  rw [Clip_eval] at h
  have hlin : ∀ a : ℚ, DotProduct2D (p.1 + (p.2 - p.1) * a) s =
      DotProduct2D p.1 s * (1 - a) + DotProduct2D p.2 s * a := by
    intro a
    simp only [DotProduct2D, CPoint.add_x, CPoint.add_y, CPoint.sub_x, CPoint.sub_y,
      CPoint.mul_x, CPoint.mul_y]
    ring
  generalize DotProduct2D p.1 n - c = d1 at h
  generalize DotProduct2D p.2 n - c = d2 at h
  have hconv : d1 * d2 < 0 → b ≤ DotProduct2D (p.1 + (p.2 - p.1) * (d1 / (d1 - d2))) s := by
    intro h3
    have hne : d1 - d2 ≠ 0 := by
      intro h0
      have : d1 = d2 := by linarith
      subst this
      nlinarith [mul_self_nonneg d1]
    have ha0 : 0 ≤ d1 / (d1 - d2) := by
      rcases lt_or_gt_of_ne hne with hlt | hgt
      · apply div_nonneg_of_nonpos _ (le_of_lt hlt)
        by_contra hpos
        push_neg at hpos
        nlinarith
      · apply div_nonneg _ (le_of_lt hgt)
        by_contra hneg
        push_neg at hneg
        nlinarith
    have ha1 : d1 / (d1 - d2) ≤ 1 := by
      rcases lt_or_gt_of_ne hne with hlt | hgt
      · rw [div_le_one_of_neg hlt]
        by_contra hh
        push_neg at hh
        nlinarith
      · rw [div_le_one hgt]
        by_contra hh
        push_neg at hh
        nlinarith
    rw [hlin]
    nlinarith [mul_nonneg ha0 (sub_nonneg.mpr h2),
      mul_nonneg (sub_nonneg.mpr ha1) (sub_nonneg.mpr h1)]
  split_ifs at h with g1 g2 g3 g4 g5
  · cases h; exact ⟨h1, h2⟩
  · cases h; exact ⟨h1, hconv g3⟩
  · cases h; exact absurd (by norm_num) hk
  · cases h; exact ⟨h2, hconv g5⟩
  · cases h; exact absurd (by norm_num) hk
  · cases h; exact absurd (by norm_num) hk

/-! ## The stages of `ResolveCollision` -/

theorem ResolveCollisionContacts_eq (m : CCollisionManifold) (refC : ℚ) (q0 q1 : CPoint)
    (hc : m.contactCount = 0) :
    ResolveCollisionContacts m refC (q0, q1) =
      Except.ok { m with
        penetration := keptPenetration m.normal refC q0 q1,
        contactCount := ((keptContacts m.normal refC q0 q1).length : Int),
        contactPoint0 := ((keptContacts m.normal refC q0 q1)[0]?).getD m.contactPoint0,
        contactPoint1 := ((keptContacts m.normal refC q0 q1)[1]?).getD m.contactPoint1 } := by
  unfold ResolveCollisionContacts
  by_cases h0 : DotProduct2D q0 m.normal - refC ≤ 0 <;>
    by_cases h1 : DotProduct2D q1 m.normal - refC ≤ 0 <;>
    simp [h0, h1, hc, setContactPoint, keptPenetration, keptContacts, bind, Except.bind, pure,
      Except.pure, List.filter]

theorem FindIncidentEdge_inv (m m1 : CCollisionManifold) (w : World)
    (h : m.FindIncidentEdge w = Except.ok m1) :
    ∃ i ref, m.pIncSprite = some i ∧ m.pRefEdge = some ref ∧
      m1 = { m with pIncEdge := (FindIncidentEdgeLoop ref.normal
        (w.get i).collisionSprite.outerEdge FLT_MAX m.pIncEdge).2 } := by
  unfold FindIncidentEdge at h
  cases hi : m.pIncSprite with
  | none => simp [hi, deref, bind, Except.bind] at h
  | some i =>
    cases hr : m.pRefEdge with
    | none => simp [hi, hr, deref, bind, Except.bind] at h
    | some ref =>
      simp only [hi, hr, deref, bind, Except.bind, pure, Except.pure, Except.ok.injEq] at h
      exact ⟨i, ref, rfl, rfl, h.symm⟩

theorem ResolveCollisionClip_true_inv (w : World) (m : CCollisionManifold) (r : ResolveResult)
    (h : ResolveCollisionClip w m = Except.ok r) (hret : r.ret = true) :
    ∃ m1 ref inc n1 p1 n2 q m2,
      m.FindIncidentEdge w = Except.ok m1 ∧ m1.pRefEdge = some ref ∧ m1.pIncEdge = some inc ∧
      Clip (-(sidePlaneNormalOf ref.normal))
        (-DotProduct2D ref.pVert0 (sidePlaneNormalOf ref.normal))
        (inc.pVert0, inc.pVert1) = Except.ok (n1, p1) ∧ ¬ n1 < 2 ∧
      Clip (sidePlaneNormalOf ref.normal)
        (DotProduct2D ref.pVert1 (sidePlaneNormalOf ref.normal)) p1 = Except.ok (n2, q) ∧
      ¬ n2 < 2 ∧
      ResolveCollisionContacts { m1 with normal := ref.normal }
        (DotProduct2D ref.pVert0 ref.normal) q = Except.ok m2 ∧
      r = ⟨true, m2, w⟩ := by
  unfold ResolveCollisionClip at h
  simp only [bind, Except.bind, pure, Except.pure] at h
  split at h
  · cases h
  · rename_i m1 hm1
    cases hr : m1.pRefEdge with
    | none => simp [hr, deref] at h
    | some ref =>
      cases hinc : m1.pIncEdge with
      | none => simp [hr, hinc, deref] at h
      | some inc =>
        simp only [hr, hinc, deref] at h
        split at h
        · cases h
        · rename_i c1 hc1
          split_ifs at h with hn1
          · cases h; cases hret
          · split at h
            · cases h
            · rename_i c2 hc2
              split_ifs at h with hn2
              · cases h; cases hret
              · split at h
                · cases h
                · rename_i m2 hm2
                  cases h
                  have hm2b : ResolveCollisionContacts { m1 with normal := ref.normal }
                      (DotProduct2D ref.pVert0 ref.normal) c2.2 = Except.ok m2 := by
                    rw [← hm2, hr, hinc]
                  exact ⟨m1, ref, inc, c1.1, c1.2, c2.1, c2.2, m2, hm1, hr, hinc, hc1, hn1,
                    hc2, hn2, hm2b, rfl⟩

theorem ResolveCollisionClip_false (w : World) (m m1 : CCollisionManifold) (ref inc : CEdge)
    (n1 : Nat) (p1 : CPoint × CPoint)
    (hm1 : m.FindIncidentEdge w = Except.ok m1) (hr : m1.pRefEdge = some ref)
    (hinc : m1.pIncEdge = some inc)
    (hc1 : Clip (-(sidePlaneNormalOf ref.normal))
        (-DotProduct2D ref.pVert0 (sidePlaneNormalOf ref.normal))
        (inc.pVert0, inc.pVert1) = Except.ok (n1, p1))
    (hfew : n1 < 2 ∨ ∃ n2 q, Clip (sidePlaneNormalOf ref.normal)
        (DotProduct2D ref.pVert1 (sidePlaneNormalOf ref.normal)) p1 = Except.ok (n2, q) ∧
        n2 < 2) :
    ResolveCollisionClip w m = Except.ok ⟨false, { m1 with normal := ref.normal }, w⟩ := by
  unfold ResolveCollisionClip
  have hc1b := hc1
  simp only [sidePlaneNormalOf] at hc1b
  simp only [hm1, hr, hinc, deref, bind, Except.bind, pure, Except.pure, hc1b]
  by_cases hn1 : n1 < 2
  · simp only [if_pos hn1]
  · simp only [if_neg hn1]
    rcases hfew with h | ⟨n2, q, hc2, hn2⟩
    · exact absurd h hn1
    · have hc2b := hc2
      simp only [sidePlaneNormalOf] at hc2b
      simp only [hc2b, if_pos hn2]

theorem ResolveCollision_reaches_clip (BoxRadiiIntersect : CPoint → ℚ → CPoint → ℚ → Bool)
    (w : World) (colMan mA mB : CCollisionManifold) (a b : SpriteRef)
    (hmass : (w.body a).mass ≠ 0 ∨ (w.body b).mass ≠ 0)
    (hbox : BoxRadiiIntersect (w.get a).pos (w.get a).radius (w.get b).pos (w.get b).radius
      = true)
    (hA : GetCollisionManifold w a b = Except.ok mA) (hpA : mA.penetration ≤ 0)
    (hB : GetCollisionManifold w b a = Except.ok mB) (hpB : mB.penetration ≤ 0) :
    ResolveCollision BoxRadiiIntersect w colMan a b =
      ResolveCollisionClip w (chosenManifold mA mB a b) := by
  unfold ResolveCollision chosenManifold
  simp only [if_pos hmass, if_pos hbox, hA, hB, bind, Except.bind, pure, Except.pure,
    if_neg (not_lt.mpr hpA), if_neg (not_lt.mpr hpB)]
  split_ifs <;> rfl

theorem ResolveCollision_true_inv (BoxRadiiIntersect : CPoint → ℚ → CPoint → ℚ → Bool)
    (w : World) (colMan : CCollisionManifold) (a b : SpriteRef) (r : ResolveResult)
    (h : ResolveCollision BoxRadiiIntersect w colMan a b = Except.ok r)
    (hret : r.ret = true) :
    ∃ mA mB, GetCollisionManifold w a b = Except.ok mA ∧ mA.penetration ≤ 0 ∧
      GetCollisionManifold w b a = Except.ok mB ∧ mB.penetration ≤ 0 ∧
      ResolveCollisionClip w (chosenManifold mA mB a b) = Except.ok r := by
  have h0 := h
  unfold ResolveCollision at h
  simp only [bind, Except.bind, pure, Except.pure] at h
  split_ifs at h with hmass hbox
  · split at h
    · cases h
    · rename_i mA hmA
      split_ifs at h with hpA
      · cases h; cases hret
      · split at h
        · cases h
        · rename_i mB hmB
          split_ifs at h with hpB hbias
          · cases h; cases hret
          · refine ⟨mA, mB, hmA, not_lt.mp hpA, hmB, not_lt.mp hpB, ?_⟩
            rw [← ResolveCollision_reaches_clip BoxRadiiIntersect w colMan mA mB a b hmass hbox
              hmA (not_lt.mp hpA) hmB (not_lt.mp hpB)]
            exact h0
          · refine ⟨mA, mB, hmA, not_lt.mp hpA, hmB, not_lt.mp hpB, ?_⟩
            rw [← ResolveCollision_reaches_clip BoxRadiiIntersect w colMan mA mB a b hmass hbox
              hmA (not_lt.mp hpA) hmB (not_lt.mp hpB)]
            exact h0
  · cases h; cases hret
  · cases h; cases hret

theorem chosenManifold_frame (mA mB : CCollisionManifold) (a b : SpriteRef)
    (hA : mA.contactCount = 0) (hB : mB.contactCount = 0) :
    (chosenManifold mA mB a b).contactCount = 0 := by
  unfold chosenManifold
  split_ifs
  · exact hA
  · exact hB

theorem ResolveCollision_true_desc (BoxRadiiIntersect : CPoint → ℚ → CPoint → ℚ → Bool)
    (w : World) (colMan : CCollisionManifold) (a b : SpriteRef) (r : ResolveResult)
    (h : ResolveCollision BoxRadiiIntersect w colMan a b = Except.ok r)
    (hret : r.ret = true) :
    ∃ mA mB i ref inc n1 p1 n2 q,
      GetCollisionManifold w a b = Except.ok mA ∧ mA.penetration ≤ 0 ∧
      GetCollisionManifold w b a = Except.ok mB ∧ mB.penetration ≤ 0 ∧
      (chosenManifold mA mB a b).pIncSprite = some i ∧
      (chosenManifold mA mB a b).pRefEdge = some ref ∧
      (FindIncidentEdgeLoop ref.normal (w.get i).collisionSprite.outerEdge FLT_MAX
        (chosenManifold mA mB a b).pIncEdge).2 = some inc ∧
      Clip (-(sidePlaneNormalOf ref.normal))
        (-DotProduct2D ref.pVert0 (sidePlaneNormalOf ref.normal))
        (inc.pVert0, inc.pVert1) = Except.ok (n1, p1) ∧ ¬ n1 < 2 ∧
      Clip (sidePlaneNormalOf ref.normal)
        (DotProduct2D ref.pVert1 (sidePlaneNormalOf ref.normal)) p1 = Except.ok (n2, q) ∧
      ¬ n2 < 2 ∧
      r = ⟨true,
        { chosenManifold mA mB a b with
          pIncEdge := some inc,
          normal := ref.normal,
          penetration := keptPenetration ref.normal (DotProduct2D ref.pVert0 ref.normal) q.1 q.2,
          contactCount :=
            ((keptContacts ref.normal (DotProduct2D ref.pVert0 ref.normal) q.1 q.2).length : Int),
          contactPoint0 :=
            ((keptContacts ref.normal (DotProduct2D ref.pVert0 ref.normal) q.1 q.2)[0]?).getD
              (chosenManifold mA mB a b).contactPoint0,
          contactPoint1 :=
            ((keptContacts ref.normal (DotProduct2D ref.pVert0 ref.normal) q.1 q.2)[1]?).getD
              (chosenManifold mA mB a b).contactPoint1 }, w⟩ := by
  obtain ⟨mA, mB, hA, hpA, hB, hpB, hclip⟩ := ResolveCollision_true_inv _ _ _ _ _ _ h hret
  obtain ⟨m1, ref, inc, n1, p1, n2, q, m2, hm1, hr, hinc, hc1, hn1, hc2, hn2, hm2, hres⟩ :=
    ResolveCollisionClip_true_inv _ _ _ hclip hret
  obtain ⟨i, ref1, hi, hr1, hm1eq⟩ := FindIncidentEdge_inv _ _ _ hm1
  have hcount : (chosenManifold mA mB a b).contactCount = 0 :=
    chosenManifold_frame mA mB a b (GetCollisionManifold_frame _ _ _ _ hA).1
      (GetCollisionManifold_frame _ _ _ _ hB).1
  have hr2 : (chosenManifold mA mB a b).pRefEdge = some ref := by
    rw [hm1eq] at hr
    exact hr
  have href : ref1 = ref := by
    rw [hr1] at hr2
    exact Option.some.inj hr2
  subst href
  have hinc2 : (FindIncidentEdgeLoop ref1.normal (w.get i).collisionSprite.outerEdge FLT_MAX
      (chosenManifold mA mB a b).pIncEdge).2 = some inc := by
    rw [hm1eq] at hinc
    exact hinc
  have hcount1 : ({ m1 with normal := ref1.normal } : CCollisionManifold).contactCount = 0 := by
    rw [hm1eq]
    exact hcount
  have hm2b := ResolveCollisionContacts_eq { m1 with normal := ref1.normal }
    (DotProduct2D ref1.pVert0 ref1.normal) q.1 q.2 hcount1
  have hm2c : m2 = _ := Except.ok.inj (hm2.symm.trans hm2b)
  refine ⟨mA, mB, i, ref1, inc, n1, p1, n2, q, hA, hpA, hB, hpB, hi, hr1, hinc2, hc1, hn1, hc2,
    hn2, ?_⟩
  rw [hres, hm2c, hm1eq, hinc2]

theorem contactPointAt_kept (m : CCollisionManifold) (l : List CPoint) (hl : l.length ≤ 2)
    (c0 c1 : CPoint) (hm0 : m.contactPoint0 = (l[0]?).getD c0)
    (hm1 : m.contactPoint1 = (l[1]?).getD c1) (k : Int) (p : CPoint) (h0 : 0 ≤ k)
    (hk : k < (l.length : Int)) (hp : m.contactPointAt k = Except.ok p) :
    p ∈ l ∧ l[k.toNat]? = some p := by
  unfold contactPointAt at hp
  rw [hm0, hm1] at hp
  match l, hl with
  | [], _ => simp at hk; omega
  | [x], _ =>
    have hk0 : k = 0 := by simp at hk; omega
    subst hk0
    simp at hp
    simp [hp]
  | [x, y], _ =>
    have hk01 : k = 0 ∨ k = 1 := by simp at hk; omega
    rcases hk01 with rfl | rfl
    · simp at hp
      simp [hp]
    · simp at hp
      simp [hp]
  | _ :: _ :: _ :: _, hl => simp at hl

theorem keptContacts_length_le (n : CPoint) (refC : ℚ) (q0 q1 : CPoint) :
    (keptContacts n refC q0 q1).length ≤ 2 := by
  unfold keptContacts
  exact le_trans (List.length_filter_le _ _) (by simp)

theorem keptContacts_mem (n : CPoint) (refC : ℚ) (q0 q1 p : CPoint)
    (h : p ∈ keptContacts n refC q0 q1) :
    (p = q0 ∨ p = q1) ∧ DotProduct2D p n - refC ≤ 0 := by
  unfold keptContacts at h
  rw [List.mem_filter] at h
  obtain ⟨h1, h2⟩ := h
  simp only [List.mem_cons, List.mem_singleton, List.not_mem_nil, or_false] at h1
  exact ⟨h1, of_decide_eq_true h2⟩

theorem dot_neg_right (p s : CPoint) : DotProduct2D p (-s) = -DotProduct2D p s := by
  simp only [DotProduct2D, CPoint.neg_x, CPoint.neg_y]
  ring

theorem chosenManifold_sprites (mA mB : CCollisionManifold) (a b : SpriteRef)
    (heq : mA.penetration = mB.penetration) :
    (mA.penetration = 0 → (chosenManifold mA mB a b).pRefSprite = some a ∧
        (chosenManifold mA mB a b).pIncSprite = some b) ∧
      (mA.penetration < 0 → (chosenManifold mA mB a b).pRefSprite = some b ∧
        (chosenManifold mA mB a b).pIncSprite = some a) := by
  unfold chosenManifold
  rw [← heq]
  constructor
  · intro h0
    rw [if_pos (by rw [h0]; norm_num [BIAS_RELATIVE, BIAS_ABSOLUTE])]
    exact ⟨rfl, rfl⟩
  · intro hneg
    rw [if_neg (by norm_num [BIAS_RELATIVE, BIAS_ABSOLUTE]; linarith)]
    exact ⟨rfl, rfl⟩

/-! ## The incident edge search finds the first least dot product -/

theorem FindIncidentEdgeLoop_first (n : CPoint) (es : List CEdge) :
    ∀ (minValue : ℚ) (p : Option CEdge),
      (FindIncidentEdgeLoop n es minValue p = (minValue, p) ∧
          ∀ e ∈ es, minValue ≤ DotProduct2D n e.normal) ∨
        (∃ (k : Nat) (e1 : CEdge), es[k]? = some e1 ∧
          FindIncidentEdgeLoop n es minValue p = (DotProduct2D n e1.normal, some e1) ∧
          DotProduct2D n e1.normal < minValue ∧
          (∀ (j : Nat) (e2 : CEdge), j < k → es[j]? = some e2 →
            DotProduct2D n e1.normal < DotProduct2D n e2.normal) ∧
          ∀ e ∈ es, DotProduct2D n e1.normal ≤ DotProduct2D n e.normal) := by
  induction es with
  | nil =>
    intro minValue p
    left
    simp [FindIncidentEdgeLoop]
  | cons e es ih =>
    intro minValue p
    simp only [FindIncidentEdgeLoop]
    by_cases hc : DotProduct2D n e.normal < minValue
    · rw [if_pos hc]
      rcases ih (DotProduct2D n e.normal) (some e) with
        ⟨h1, h2⟩ | ⟨k, e1, hk, hr, hlt, hfirst, hall⟩
      · right
        refine ⟨0, e, by simp, h1, hc, ?_, ?_⟩
        · intro j e2 hj
          exact absurd hj (Nat.not_lt_zero j)
        · intro e2 he2
          rcases List.mem_cons.mp he2 with rfl | he2
          · exact le_refl _
          · exact h2 e2 he2
      · right
        refine ⟨k + 1, e1, by simpa using hk, hr, lt_trans hlt hc, ?_, ?_⟩
        · intro j e2 hj hj2
          cases j with
          | zero =>
            simp only [List.getElem?_cons_zero, Option.some.injEq] at hj2
            subst hj2
            exact hlt
          | succ j =>
            simp only [List.getElem?_cons_succ] at hj2
            exact hfirst j e2 (by omega) hj2
        · intro e2 he2
          rcases List.mem_cons.mp he2 with rfl | he2
          · exact le_of_lt hlt
          · exact hall e2 he2
    · rw [if_neg hc]
      have hle : minValue ≤ DotProduct2D n e.normal := not_lt.mp hc
      rcases ih minValue p with ⟨h1, h2⟩ | ⟨k, e1, hk, hr, hlt, hfirst, hall⟩
      · left
        refine ⟨h1, ?_⟩
        intro e2 he2
        rcases List.mem_cons.mp he2 with rfl | he2
        · exact hle
        · exact h2 e2 he2
      · right
        refine ⟨k + 1, e1, by simpa using hk, hr, hlt, ?_, ?_⟩
        · intro j e2 hj hj2
          cases j with
          | zero =>
            simp only [List.getElem?_cons_zero, Option.some.injEq] at hj2
            subst hj2
            exact lt_of_lt_of_le hlt hle
          | succ j =>
            simp only [List.getElem?_cons_succ] at hj2
            exact hfirst j e2 (by omega) hj2
        · intro e2 he2
          rcases List.mem_cons.mp he2 with rfl | he2
          · exact le_trans (le_of_lt hlt) hle
          · exact hall e2 he2

theorem dot_unit_le_one (a b : CPoint) (ha : DotProduct2D a a = 1) (hb : DotProduct2D b b = 1) :
    DotProduct2D a b ≤ 1 := by
  simp only [DotProduct2D] at ha hb ⊢
  nlinarith [sq_nonneg (a.x - b.x), sq_nonneg (a.y - b.y)]

theorem FindIncidentEdge_eq (m : CCollisionManifold) (w : World) (i : SpriteRef) (ref : CEdge)
    (hi : m.pIncSprite = some i) (hr : m.pRefEdge = some ref) :
    m.FindIncidentEdge w =
      Except.ok { m with pIncEdge := (FindIncidentEdgeLoop ref.normal
        (w.get i).collisionSprite.outerEdge FLT_MAX m.pIncEdge).2 } := by
  unfold FindIncidentEdge
  simp only [hi, hr, deref, bind, Except.bind, pure, Except.pure]

/-! ## The impulse loop at a single contact -/

theorem ApplyImpulseLoop_separating (m : CCollisionManifold) (r i : SpriteRef) (n : Nat)
    (k : Int) (w : World) (p : CPoint) (hp : m.contactPointAt k = Except.ok p)
    (hcv : contactVelocityAt m w r i p > 0) :
    ApplyImpulseLoop m r i (n + 1) k w = Except.ok w := by
  have hcv2 := hcv
  simp only [contactVelocityAt, contactRadius] at hcv2
  simp only [ApplyImpulseLoop, hp, bind, Except.bind, if_pos hcv2]

theorem ApplyImpulse_single (m : CCollisionManifold) (w : World) (r i : SpriteRef)
    (hr : m.pRefSprite = some r) (hi : m.pIncSprite = some i) (hcount : m.contactCount = 1)
    (hvn : ¬ contactVelocityAt m w r i m.contactPoint0 > 0)
    (heff : effectiveInverseMass m w r i m.contactPoint0 ≠ 0) :
    ApplyImpulse m w = Except.ok (impulseStep m w r i m.contactPoint0) := by
  unfold ApplyImpulse
  simp only [hr, hi, hcount, deref, bind, Except.bind, Int.toNat_one]
  rw [ApplyImpulseLoop_succ m r i 0 0 w m.contactPoint0 rfl heff, if_neg hvn]
  rfl

theorem impulseStep_bodies (m : CCollisionManifold) (w : World) (r i : SpriteRef) (p : CPoint)
    (hri : r ≠ i) :
    (impulseStep m w r i p).body r =
        { w.body r with
          velocity := (w.body r).velocity
            - m.normal * impulseAt m w r i p * (w.body r).inverseMass,
          angVelocity := (w.body r).angVelocity
            - (w.body r).inverseInertia
              * CrossProduct2D (contactRadius w r p) (m.normal * impulseAt m w r i p) } ∧
      (impulseStep m w r i p).body i =
        { w.body i with
          velocity := (w.body i).velocity
            + m.normal * impulseAt m w r i p * (w.body i).inverseMass,
          angVelocity := (w.body i).angVelocity
            + (w.body i).inverseInertia
              * CrossProduct2D (contactRadius w i p) (m.normal * impulseAt m w r i p) } := by
  unfold impulseStep
  constructor
  · rw [World.body_setBody_other _ _ _ _ hri.symm]
    unfold impulseRefWritten
    rw [World.body_setBody_same]
  · rw [World.body_setBody_same]
    unfold impulseRefWritten
    rw [World.body_setBody_other _ _ _ _ hri]

/-! ## The reversed squares, step by step -/

theorem rev_manifoldA :
    GetCollisionManifold revWorld SpriteRef.A SpriteRef.B =
      Except.ok { CCollisionManifold.ctor with
        penetration := -1/2, pRefEdge := some ⟨⟨1, 0⟩, ⟨1, 1⟩, ⟨1, 0⟩⟩ } := by
  rw [GetCollisionManifold_eq revWorld SpriteRef.A SpriteRef.B
    ⟨1/2 + 1, 1⟩ [⟨1/2 + 1, 0⟩, ⟨1/2, 0⟩, ⟨1/2, 1⟩] rfl]
  simp [revWorld, revEdges, World.get, sqEdges, manifoldStep, edgeDistance, supportOf,
    DotProduct2D, CCollisionManifold.ctor, FLT_MAX]
  norm_num

theorem rev_manifoldB :
    GetCollisionManifold revWorld SpriteRef.B SpriteRef.A =
      Except.ok { CCollisionManifold.ctor with
        penetration := -1/2, pRefEdge := some ⟨⟨1/2, 1⟩, ⟨1/2, 0⟩, ⟨-1, 0⟩⟩ } := by
  rw [GetCollisionManifold_eq revWorld SpriteRef.B SpriteRef.A
    ⟨0 + 1, 1⟩ [⟨0 + 1, 0⟩, ⟨0, 0⟩, ⟨0, 1⟩] rfl]
  simp [revWorld, revEdges, World.get, sqEdges, manifoldStep, edgeDistance, supportOf,
    DotProduct2D, CCollisionManifold.ctor, FLT_MAX]
  norm_num

theorem rev_incident :
    (chosenManifold
        { CCollisionManifold.ctor with
          penetration := -1/2, pRefEdge := some ⟨⟨1, 0⟩, ⟨1, 1⟩, ⟨1, 0⟩⟩ }
        { CCollisionManifold.ctor with
          penetration := -1/2, pRefEdge := some ⟨⟨1/2, 1⟩, ⟨1/2, 0⟩, ⟨-1, 0⟩⟩ }
        SpriteRef.A SpriteRef.B).FindIncidentEdge revWorld =
      Except.ok { revManifold with normal := ⟨0, 0⟩ } := by
  norm_num [chosenManifold, FindIncidentEdge, FindIncidentEdgeLoop, deref,
    revWorld, revEdges, World.get, sqEdges, DotProduct2D, FLT_MAX, bind,
    Except.bind, pure, Except.pure, CCollisionManifold.ctor,
    BIAS_RELATIVE, BIAS_ABSOLUTE, revManifold, CPoint.zero]

/-! ## The edge loop of the point impulse -/

theorem ApplyPointImpulseLoop_none (point : CPoint) (radius : ℚ) (es : List CEdge)
    (h : ∃ e ∈ es, DotProduct2D (point - e.pVert0) e.normal > radius) (separation : ℚ)
    (pEdge : Option CEdge) :
    ApplyPointImpulseLoop point radius es separation pEdge = none := by
  induction es generalizing separation pEdge with
  | nil =>
    obtain ⟨e, he, _⟩ := h
    cases he
  | cons e0 rest ih =>
    unfold ApplyPointImpulseLoop
    by_cases h0 : DotProduct2D (point - e0.pVert0) e0.normal > radius
    · simp only [if_pos h0]
    · have hrest : ∃ e ∈ rest, DotProduct2D (point - e.pVert0) e.normal > radius := by
        obtain ⟨e, he, hgt⟩ := h
        rcases List.mem_cons.mp he with heq | hmem
        · subst heq
          exact absurd hgt h0
        · exact ⟨e, hmem, hgt⟩
      simp only [if_neg h0]
      split_ifs
      · exact ih hrest _ _
      · exact ih hrest _ _

/-! ## Points on a segment -/

theorem OnSegment_left (a b : CPoint) : OnSegment a b a :=
  ⟨0, le_refl 0, by norm_num, by simp [CPoint.ext_iff2]⟩

theorem OnSegment_right (a b : CPoint) : OnSegment a b b :=
  ⟨1, by norm_num, le_refl 1, by simp [CPoint.ext_iff2]⟩

theorem planeDistance_lerp (n : CPoint) (c : ℚ) (a b : CPoint) (t : ℚ) :
    planeDistance n c (a + (b - a) * t) =
      planeDistance n c a + (planeDistance n c b - planeDistance n c a) * t := by
  simp only [planeDistance, DotProduct2D, CPoint.add_x, CPoint.add_y, CPoint.sub_x,
    CPoint.sub_y, CPoint.mul_x, CPoint.mul_y]
  ring

theorem crossing_alpha (d1 d2 : ℚ) (h : d1 * d2 < 0) :
    0 ≤ d1 / (d1 - d2) ∧ d1 / (d1 - d2) ≤ 1 ∧ d1 + (d2 - d1) * (d1 / (d1 - d2)) = 0 := by
  have hne : d1 - d2 ≠ 0 := by
    intro h0
    have : d1 = d2 := by linarith
    subst this
    nlinarith [mul_self_nonneg d1]
  have hzero : d1 + (d2 - d1) * (d1 / (d1 - d2)) = 0 := by
    field_simp
    ring
  rcases lt_or_gt_of_ne hne with hlt | hgt
  · have hd1 : d1 < 0 := by
      by_contra hc
      push_neg at hc
      nlinarith
    refine ⟨div_nonneg_of_nonpos hd1.le hlt.le, ?_, hzero⟩
    rw [div_le_one_of_neg hlt]
    nlinarith
  · have hd1 : 0 < d1 := by
      by_contra hc
      push_neg at hc
      nlinarith
    refine ⟨div_nonneg hd1.le hgt.le, ?_, hzero⟩
    rw [div_le_one hgt]
    nlinarith

/-! ## The edge search of the point impulse -/

theorem ApplyPointImpulseLoop_first (point : CPoint) (radius : ℚ) (es : List CEdge)
    (hreach : ∀ e ∈ es, pointSeparation point e ≤ radius) :
    ∀ (s : ℚ) (p : Option CEdge),
      (ApplyPointImpulseLoop point radius es s p = some (s, p) ∧
          ∀ e ∈ es, pointSeparation point e ≤ s) ∨
        (∃ (k : Nat) (e1 : CEdge), es[k]? = some e1 ∧
          ApplyPointImpulseLoop point radius es s p =
            some (pointSeparation point e1, some e1) ∧
          s < pointSeparation point e1 ∧
          (∀ (j : Nat) (e2 : CEdge), j < k → es[j]? = some e2 →
            pointSeparation point e2 < pointSeparation point e1) ∧
          ∀ e ∈ es, pointSeparation point e ≤ pointSeparation point e1) := by
  induction es with
  | nil =>
    intro s p
    left
    simp [ApplyPointImpulseLoop]
  | cons e es ih =>
    intro s p
    have hreach2 : ∀ e2 ∈ es, pointSeparation point e2 ≤ radius :=
      fun e2 he2 => hreach e2 (List.mem_cons_of_mem _ he2)
    have he : ¬ DotProduct2D (point - e.pVert0) e.normal > radius :=
      not_lt.mpr (hreach e (List.mem_cons_self _ _))
    simp only [ApplyPointImpulseLoop, if_neg he]
    have hsep : DotProduct2D (point - e.pVert0) e.normal = pointSeparation point e := rfl
    rw [hsep]
    by_cases hc : pointSeparation point e > s
    · rw [if_pos hc]
      rcases ih hreach2 (pointSeparation point e) (some e) with
        ⟨h1, h2⟩ | ⟨k, e1, hk, hr, hlt, hfirst, hall⟩
      · right
        refine ⟨0, e, by simp, h1, hc, ?_, ?_⟩
        · intro j e2 hj
          exact absurd hj (Nat.not_lt_zero j)
        · intro e2 he2
          rcases List.mem_cons.mp he2 with rfl | he2
          · exact le_refl _
          · exact h2 e2 he2
      · right
        refine ⟨k + 1, e1, by simpa using hk, hr, lt_trans hc hlt, ?_, ?_⟩
        · intro j e2 hj hj2
          cases j with
          | zero =>
            simp only [List.getElem?_cons_zero, Option.some.injEq] at hj2
            subst hj2
            exact hlt
          | succ j =>
            simp only [List.getElem?_cons_succ] at hj2
            exact hfirst j e2 (by omega) hj2
        · intro e2 he2
          rcases List.mem_cons.mp he2 with rfl | he2
          · exact le_of_lt hlt
          · exact hall e2 he2
    · rw [if_neg hc]
      have hle : pointSeparation point e ≤ s := not_lt.mp hc
      rcases ih hreach2 s p with ⟨h1, h2⟩ | ⟨k, e1, hk, hr, hlt, hfirst, hall⟩
      · left
        refine ⟨h1, ?_⟩
        intro e2 he2
        rcases List.mem_cons.mp he2 with rfl | he2
        · exact hle
        · exact h2 e2 he2
      · right
        refine ⟨k + 1, e1, by simpa using hk, hr, hlt, ?_, ?_⟩
        · intro j e2 hj hj2
          cases j with
          | zero =>
            simp only [List.getElem?_cons_zero, Option.some.injEq] at hj2
            subst hj2
            exact lt_of_le_of_lt hle hlt
          | succ j =>
            simp only [List.getElem?_cons_succ] at hj2
            exact hfirst j e2 (by omega) hj2
        · intro e2 he2
          rcases List.mem_cons.mp he2 with rfl | he2
          · exact le_trans hle (le_of_lt hlt)
          · exact hall e2 he2

theorem ApplyPointImpulseLoop_reach (point : CPoint) (radius : ℚ) (es : List CEdge)
    (s : ℚ) (p : Option CEdge) (r : ℚ × Option CEdge)
    (h : ApplyPointImpulseLoop point radius es s p = some r) :
    ∀ e ∈ es, pointSeparation point e ≤ radius := by
  intro e he
  by_contra hc
  rw [ApplyPointImpulseLoop_none point radius es ⟨e, he, not_le.mp hc⟩ s p] at h
  cases h

theorem ApplyPointImpulseLoop_selected (point : CPoint) (radius : ℚ) (es : List CEdge)
    (sep : ℚ) (e : CEdge)
    (h : ApplyPointImpulseLoop point radius es (-FLT_MAX) none = some (sep, some e)) :
    e ∈ es ∧ sep = pointSeparation point e ∧ pointSeparation point e ≤ radius := by
  have hreach := ApplyPointImpulseLoop_reach point radius es _ _ _ h
  rcases ApplyPointImpulseLoop_first point radius es hreach (-FLT_MAX) none with
    ⟨h1, _⟩ | ⟨k, e1, hk, hr, _, _, _⟩
  · rw [h1] at h
    cases h
  · rw [hr] at h
    simp only [Option.some.injEq, Prod.mk.injEq] at h
    obtain ⟨h2, h3⟩ := h
    subst h3
    have hmem : e1 ∈ es := List.getElem?_mem hk
    exact ⟨hmem, h2.symm, hreach e1 hmem⟩

theorem ApplyPointImpulseLoop_le (point : CPoint) (radius : ℚ) (es : List CEdge)
    (s : ℚ) (p : Option CEdge) (sep : ℚ) (pe : Option CEdge) (hs : s ≤ radius)
    (h : ApplyPointImpulseLoop point radius es s p = some (sep, pe)) :
    sep ≤ radius := by
  have hreach := ApplyPointImpulseLoop_reach point radius es _ _ _ h
  rcases ApplyPointImpulseLoop_first point radius es hreach s p with
    ⟨h1, _⟩ | ⟨k, e1, hk, hr, _, _, _⟩
  · rw [h1] at h
    simp only [Option.some.injEq, Prod.mk.injEq] at h
    rw [← h.1]
    exact hs
  · rw [hr] at h
    simp only [Option.some.injEq, Prod.mk.injEq] at h
    rw [← h.1]
    exact hreach e1 (List.getElem?_mem hk)

theorem ApplyPointImpulseContact_inside (Normalize2D : CPoint → Except Fault CPoint)
    (point : CPoint) (radius sep : ℚ) (e : CEdge) (h : sep < MIN_SEPARATION) :
    ApplyPointImpulseContact Normalize2D point radius sep (some e) =
      Except.ok (some (-e.normal, point + -e.normal * radius, radius)) := by
  unfold ApplyPointImpulseContact
  rw [if_pos h]
  rfl

theorem ApplyPointImpulseContact_penetration (Normalize2D : CPoint → Except Fault CPoint)
    (point : CPoint) (radius sep : ℚ) (pEdge : Option CEdge) (normal contact : CPoint)
    (pen : ℚ)
    (h : ApplyPointImpulseContact Normalize2D point radius sep pEdge =
      Except.ok (some (normal, contact, pen))) :
    (sep < MIN_SEPARATION → pen = radius) ∧ (¬ sep < MIN_SEPARATION → pen = radius - sep) := by
  unfold ApplyPointImpulseContact at h
  cases pEdge with
  | none =>
    simp only [deref, bind, Except.bind] at h
    split_ifs at h
  | some e =>
    simp only [deref, bind, Except.bind, pure, Except.pure] at h
    split_ifs at h with h1 h2 h3 h4 h5 h6
    · simp only [Except.ok.injEq, Option.some.injEq, Prod.mk.injEq] at h
      exact ⟨fun _ => h.2.2.symm, fun hn => absurd h1 hn⟩
    · cases h
    · cases hN : Normalize2D (e.pVert0 - point) with
      | error f => rw [hN] at h; cases h
      | ok q =>
        rw [hN] at h
        simp only [Except.ok.injEq, Option.some.injEq, Prod.mk.injEq] at h
        exact ⟨fun hn => absurd hn h1, fun _ => h.2.2.symm⟩
    · cases h
    · cases hN : Normalize2D (e.pVert1 - point) with
      | error f => rw [hN] at h; cases h
      | ok q =>
        rw [hN] at h
        simp only [Except.ok.injEq, Option.some.injEq, Prod.mk.injEq] at h
        exact ⟨fun hn => absurd hn h1, fun _ => h.2.2.symm⟩
    · cases h
    · simp only [Except.ok.injEq, Option.some.injEq, Prod.mk.injEq] at h
      exact ⟨fun hn => absurd hn h1, fun _ => h.2.2.symm⟩

theorem ApplyPointImpulse_eq (Normalize2D : CPoint → Except Fault CPoint) (point : CPoint)
    (radius inverseRadius force : ℚ) (w : World) (pSprite : SpriteRef)
    (diminishingForce : Bool) (sep : ℚ) (pEdge : Option CEdge) (normal contact : CPoint)
    (pen : ℚ)
    (hloop : ApplyPointImpulseLoop point radius (w.get pSprite).collisionSprite.outerEdge
      (-FLT_MAX) none = some (sep, pEdge))
    (hcontact : ApplyPointImpulseContact Normalize2D point radius sep pEdge =
      Except.ok (some (normal, contact, pen))) :
    ApplyPointImpulse Normalize2D point radius inverseRadius force w pSprite diminishingForce =
      Except.ok (pointImpulseWorld w pSprite contact
        (if diminishingForce = true then normal * force * pen * inverseRadius
          else normal * force)) := by
  unfold ApplyPointImpulse
  simp only [hloop, hcontact, bind, Except.bind, pure, Except.pure]
  rfl

theorem pointImpulseWorld_body (w : World) (pSprite : SpriteRef) (contact impulseVec : CPoint) :
    ((pointImpulseWorld w pSprite contact impulseVec).body pSprite).velocity =
        (w.body pSprite).velocity + impulseVec * (w.body pSprite).inverseMass ∧
      ((pointImpulseWorld w pSprite contact impulseVec).body pSprite).angVelocity =
        (w.body pSprite).angVelocity + (w.body pSprite).inverseInertia
          * CrossProduct2D (contact - (w.get pSprite).pos) impulseVec := by
  unfold pointImpulseWorld
  rw [World.body_setBody_same]
  exact ⟨rfl, rfl⟩

/-! ## One pass of the impulse loop: relative speed, momentum and energy -/

theorem contactRadius_impulseStep (m : CCollisionManifold) (w : World) (r i x : SpriteRef)
    (p q : CPoint) :
    contactRadius (impulseStep m w r i p) x q = contactRadius w x q := by
  simp only [contactRadius, impulseStep_pos]

theorem contactVelocityAt_impulseStep (m : CCollisionManifold) (w : World) (r i : SpriteRef)
    (p : CPoint) (hri : r ≠ i) :
    contactVelocityAt m (impulseStep m w r i p) r i p =
      contactVelocityAt m w r i p + impulseAt m w r i p *
        (((w.body r).inverseMass + (w.body i).inverseMass) * DotProduct2D m.normal m.normal
          + (CrossProduct2D (contactRadius w r p) m.normal
              * CrossProduct2D (contactRadius w r p) m.normal) * (w.body r).inverseInertia
          + (CrossProduct2D (contactRadius w i p) m.normal
              * CrossProduct2D (contactRadius w i p) m.normal) * (w.body i).inverseInertia) := by
  obtain ⟨h1, h2⟩ := impulseStep_bodies m w r i p hri
  simp only [contactVelocityAt, contactRadius_impulseStep, h1, h2]
  generalize impulseAt m w r i p = j
  simp only [DotProduct2D, CrossProduct2D, CrossProduct2DScalar, CPoint.add_x, CPoint.add_y,
    CPoint.sub_x, CPoint.sub_y, CPoint.mul_x, CPoint.mul_y]
  ring

theorem effectiveInverseMass_unit (m : CCollisionManifold) (w : World) (r i : SpriteRef)
    (p : CPoint) (hunit : DotProduct2D m.normal m.normal = 1) :
    ((w.body r).inverseMass + (w.body i).inverseMass) * DotProduct2D m.normal m.normal
      + (CrossProduct2D (contactRadius w r p) m.normal
          * CrossProduct2D (contactRadius w r p) m.normal) * (w.body r).inverseInertia
      + (CrossProduct2D (contactRadius w i p) m.normal
          * CrossProduct2D (contactRadius w i p) m.normal) * (w.body i).inverseInertia
      = effectiveInverseMass m w r i p := by
  rw [hunit]
  unfold effectiveInverseMass
  ring

theorem impulseAt_mul (m : CCollisionManifold) (w : World) (r i : SpriteRef) (p : CPoint)
    (heff : effectiveInverseMass m w r i p ≠ 0) :
    impulseAt m w r i p * effectiveInverseMass m w r i p =
      -(1 + min (w.body r).restitution (w.body i).restitution) * contactVelocityAt m w r i p := by
  unfold impulseAt
  field_simp

theorem ResolveCollision_true_mass (BoxRadiiIntersect : CPoint → ℚ → CPoint → ℚ → Bool)
    (w : World) (colMan : CCollisionManifold) (a b : SpriteRef) (r : ResolveResult)
    (h : ResolveCollision BoxRadiiIntersect w colMan a b = Except.ok r)
    (hret : r.ret = true) :
    (w.body a).mass ≠ 0 ∨ (w.body b).mass ≠ 0 := by
  by_contra hc
  unfold ResolveCollision at h
  rw [if_neg hc] at h
  have h1 := Except.ok.inj h
  rw [← h1] at hret
  cases hret

theorem chosenManifold_pair (mA mB : CCollisionManifold) (a b : SpriteRef) :
    ((chosenManifold mA mB a b).pRefSprite = some a ∧
        (chosenManifold mA mB a b).pIncSprite = some b) ∨
      ((chosenManifold mA mB a b).pRefSprite = some b ∧
        (chosenManifold mA mB a b).pIncSprite = some a) := by
  unfold chosenManifold
  split_ifs
  · exact Or.inl ⟨rfl, rfl⟩
  · exact Or.inr ⟨rfl, rfl⟩

theorem PositionalCorrection_ok (m : CCollisionManifold) (w : World) (r i : SpriteRef)
    (hr : m.pRefSprite = some r) (hi : m.pIncSprite = some i)
    (hsum : (w.body r).inverseMass + (w.body i).inverseMass ≠ 0) :
    ∃ w1, m.PositionalCorrection w = Except.ok w1 := by
  unfold PositionalCorrection
  simp only [hr, hi, deref, divPoint, fdiv, if_neg hsum, bind, Except.bind, pure,
    Except.pure]
  exact ⟨_, rfl⟩

/-! ## Truncating division by the sector size -/

theorem tdiv_sector_nonneg (x : Int) (h : 0 ≤ x) :
    Int.tdiv x 121 = x / 121 ∧ Int.tmod x 121 = x % 121 :=
  ⟨Int.tdiv_eq_ediv h (by norm_num), Int.tmod_eq_emod h (by norm_num)⟩

theorem tdiv_sector_neg (x : Int) (h : x < 0) :
    Int.tdiv x 121 = -((-x) / 121) := by
  have h1 : x = -(-x) := by ring
  rw [h1, Int.neg_tdiv, Int.tdiv_eq_ediv (by omega) (by norm_num)]
  simp

/-! ## The new centre of the planet generator, one coordinate at a time -/

theorem toInt_ok (v : Int) (h1 : -2147483648 ≤ v) (h2 : v ≤ 2147483647) :
    toInt v = Except.ok v := by
  unfold toInt
  rw [if_pos ⟨h1, h2⟩]

theorem absInt_ok (x : Int) (h1 : -2147483647 ≤ x) (h2 : x ≤ 2147483647) :
    absInt x = Except.ok (if x < 0 then -x else x) := by
  unfold absInt
  split_ifs with h
  · exact toInt_ok _ (by omega) (by omega)
  · rfl

theorem adjustMult_ok (x : Int) (h1 : -2147483647 ≤ x) (h2 : x ≤ 2147483647) :
    adjustMult (Int.tmod (if x < 0 then -x else x) PLANET_SECTOR_SIZE)
        (Int.tdiv x PLANET_SECTOR_SIZE) x = Except.ok ((x + 60) / 121) := by
  have hshift : PLANET_SECTOR_SIZE >>> 1 = 60 := by decide
  have hsize : PLANET_SECTOR_SIZE = 121 := rfl
  unfold adjustMult
  rw [hshift, hsize]
  by_cases hx : x < 0
  · rw [if_pos hx, if_pos hx, (tdiv_sector_nonneg (-x) (by omega)).2, tdiv_sector_neg x hx]
    split_ifs with hm
    · rw [toInt_ok _ (by omega) (by omega)]
      congr 1
      omega
    · congr 1
      omega
  · rw [if_neg hx, if_neg hx, (tdiv_sector_nonneg x (by omega)).2,
      (tdiv_sector_nonneg x (by omega)).1]
    split_ifs with hm
    · rw [toInt_ok _ (by omega) (by omega)]
      congr 1
      omega
    · congr 1
      omega

theorem GenerateNewCenter_eq (x y : Int)
    (hx1 : -2147483618 ≤ x) (hx2 : x ≤ 2147483618)
    (hy1 : -2147483618 ≤ y) (hy2 : y ≤ 2147483618) :
    GenerateNewCenter x y = Except.ok ((x + 60) / 121 * 121, (y + 60) / 121 * 121) := by
  have hsize : PLANET_SECTOR_SIZE = 121 := rfl
  have hax := adjustMult_ok x (by omega) (by omega)
  have hay := adjustMult_ok y (by omega) (by omega)
  rw [hsize] at hax hay
  unfold GenerateNewCenter
  simp only [absInt_ok x (by omega) (by omega), absInt_ok y (by omega) (by omega),
    bind, Except.bind, pure, Except.pure, hsize, hax, hay,
    toInt_ok ((x + 60) / 121 * 121) (by omega) (by omega),
    toInt_ok ((y + 60) / 121 * 121) (by omega) (by omega)]

/-! ## The properties over exact rationals -/

/-- Over exact rationals: two convex polygons (non-empty edge lists with outward normals, every vertex
behind every edge) without a common point: `GetCollisionManifold` returns for both orders,
at least one of the two penetrations is strictly positive, and `ResolveCollision` returns
false, leaving its manifold argument and the world as they were. -/
theorem disjoint_polygons_not_colliding (BoxRadiiIntersect : CPoint → ℚ → CPoint → ℚ → Bool) (w : World)
    (colMan : CCollisionManifold) (a b : SpriteRef)
    (hA : IsConvexPolygon (w.get a).collisionSprite)
    (hB : IsConvexPolygon (w.get b).collisionSprite)
    (hdisj : ¬ ∃ p : CPoint, (w.get a).collisionSprite.Contains p ∧
      (w.get b).collisionSprite.Contains p) :
    ∃ colManA colManB,
      GetCollisionManifold w a b = Except.ok colManA ∧
      GetCollisionManifold w b a = Except.ok colManB ∧
      (0 < colManA.penetration ∨ 0 < colManB.penetration) ∧
      ResolveCollision BoxRadiiIntersect w colMan a b = Except.ok ⟨false, colMan, w⟩ :=
  separated_resolve BoxRadiiIntersect w colMan a b hA hB hdisj

/-- Over exact rationals: positional correction never overshoots.  For a unit normal, a penetration
`p ≥ 0` and a positive sum of the inverse masses of two distinct bodies,
`PositionalCorrection` returns, and the incident body's position correction minus the
reference body's is `normal * (PERCENT * max (p - SLOP) 0)`, a displacement along the
normal of exactly `PERCENT * max (p - SLOP) 0`, which lies between 0 and `p`.  Hence the
iteration `p := p - PERCENT * max (p - SLOP) 0` from any `p0 ≥ 0` is non-increasing and
never negative. -/
theorem positional_correction_no_overshoot (m : CCollisionManifold) (w : World)
    (r i : SpriteRef) (hr : m.pRefSprite = some r) (hi : m.pIncSprite = some i)
    (hri : r ≠ i) (hunit : DotProduct2D m.normal m.normal = 1) (hp : 0 ≤ m.penetration)
    (hsum : 0 < (w.body r).inverseMass + (w.body i).inverseMass) :
    (∃ w1, PositionalCorrection m w = Except.ok w1 ∧
        (w1.body i).positionCorrection - (w1.body r).positionCorrection =
          m.normal * (PERCENT * max (m.penetration - SLOP) 0) ∧
        DotProduct2D ((w1.body i).positionCorrection - (w1.body r).positionCorrection)
          m.normal = PERCENT * max (m.penetration - SLOP) 0) ∧
      0 ≤ PERCENT * max (m.penetration - SLOP) 0 ∧
      PERCENT * max (m.penetration - SLOP) 0 ≤ m.penetration ∧
      ∀ p0 : ℚ, 0 ≤ p0 → ∀ k : Nat,
        0 ≤ nextPenetration^[k + 1] p0 ∧ nextPenetration^[k + 1] p0 ≤ nextPenetration^[k] p0 := by
  have hne : (w.body r).inverseMass + (w.body i).inverseMass ≠ 0 := ne_of_gt hsum
  have hvec : ∀ c : CPoint,
      c * (w.body i).inverseMass - c * -(w.body r).inverseMass =
        c * ((w.body r).inverseMass + (w.body i).inverseMass) := by
    intro c
    rw [CPoint.ext_iff2]
    simp only [CPoint.sub_x, CPoint.sub_y, CPoint.mul_x, CPoint.mul_y]
    constructor <;> ring
  refine ⟨?_, (correction_amount_bounds _ hp).1, (correction_amount_bounds _ hp).2, ?_⟩
  · unfold PositionalCorrection
    simp only [hr, hi, deref, divPoint, fdiv, if_neg hne, bind, Except.bind, pure, Except.pure]
    refine ⟨_, rfl, ?_⟩
    have hdiff : ∀ c : CPoint,
        ((((w.setBody r { w.body r with positionCorrection := c * -(w.body r).inverseMass }).setBody
            i { (w.setBody r { w.body r with
                  positionCorrection := c * -(w.body r).inverseMass }).body i with
                positionCorrection := c * ((w.setBody r { w.body r with
                  positionCorrection := c * -(w.body r).inverseMass }).body i).inverseMass }).body
            i).positionCorrection -
          (((w.setBody r { w.body r with positionCorrection := c * -(w.body r).inverseMass }).setBody
            i { (w.setBody r { w.body r with
                  positionCorrection := c * -(w.body r).inverseMass }).body i with
                positionCorrection := c * ((w.setBody r { w.body r with
                  positionCorrection := c * -(w.body r).inverseMass }).body i).inverseMass }).body
            r).positionCorrection) =
          c * ((w.body r).inverseMass + (w.body i).inverseMass) := by
      intro c
      rw [World.body_setBody_same, World.body_setBody_other _ _ _ _ hri.symm,
        World.body_setBody_same, World.body_setBody_other _ _ _ _ hri]
      exact hvec c
    rw [hdiff]
    have hx : ∀ t : ℚ, t / ((w.body r).inverseMass + (w.body i).inverseMass) *
        ((w.body r).inverseMass + (w.body i).inverseMass) = t := by
      intro t; field_simp
    constructor
    · rw [CPoint.ext_iff2]
      simp only [CPoint.mul_x, CPoint.mul_y, hx]
      constructor <;> ring
    · have hu := hunit
      simp only [DotProduct2D, CPoint.mul_x, CPoint.mul_y, hx] at hu ⊢
      linear_combination (PERCENT * max (m.penetration - SLOP) 0) * hu
  · intro p0 hp0 k
    rw [Function.iterate_succ_apply']
    exact nextPenetration_bounds _ (nextPenetration_iterate_nonneg p0 hp0 k)

/-- Over exact rationals: whenever `ResolveCollision` returns true, every contact point `p` of the manifold
lies within the span of the reference edge: with `n` the reference normal,
`s = (n.y, -n.x)` and `v0`, `v1` the vertices of the reference edge,
`v0 . s ≤ p . s ≤ v1 . s`. -/
theorem contacts_within_reference_span
    (BoxRadiiIntersect : CPoint → ℚ → CPoint → ℚ → Bool)
    (w : World) (colMan : CCollisionManifold) (a b : SpriteRef) (r : ResolveResult)
    (h : ResolveCollision BoxRadiiIntersect w colMan a b = Except.ok r)
    (hret : r.ret = true) :
    ∃ ref : CEdge, r.colMan.pRefEdge = some ref ∧ r.colMan.normal = ref.normal ∧
      ∀ (k : Int) (p : CPoint), 0 ≤ k → k < r.colMan.contactCount →
        r.colMan.contactPointAt k = Except.ok p →
        DotProduct2D ref.pVert0 ⟨ref.normal.y, -ref.normal.x⟩ ≤
            DotProduct2D p ⟨ref.normal.y, -ref.normal.x⟩ ∧
          DotProduct2D p ⟨ref.normal.y, -ref.normal.x⟩ ≤
            DotProduct2D ref.pVert1 ⟨ref.normal.y, -ref.normal.x⟩ := by
  obtain ⟨mA, mB, i, ref, inc, n1, p1, n2, q, _, _, _, _, _, hr, _, hc1, hn1, hc2, hn2, hres⟩ :=
    ResolveCollision_true_desc _ _ _ _ _ _ h hret
  refine ⟨ref, by rw [hres]; exact hr, by rw [hres], ?_⟩
  intro k p h0 hk hp
  rw [hres] at hk hp
  have hmem := (contactPointAt_kept _ _ (keptContacts_length_le _ _ _ _) _ _ rfl rfl k p h0 hk hp).1
  have hpq := (keptContacts_mem _ _ _ _ _ hmem).1
  obtain ⟨hb1, hb2⟩ := Clip_behind _ _ _ _ _ hc1 hn1
  rw [dot_neg_right] at hb1 hb2
  obtain ⟨hlo1, hlo2⟩ := Clip_preserves _ _ _ _ _ hc2 hn2 (sidePlaneNormalOf ref.normal)
    (DotProduct2D ref.pVert0 (sidePlaneNormalOf ref.normal)) (by linarith) (by linarith)
  obtain ⟨hhi1, hhi2⟩ := Clip_behind _ _ _ _ _ hc2 hn2
  have hs : sidePlaneNormalOf ref.normal = ⟨ref.normal.y, -ref.normal.x⟩ := rfl
  rw [hs] at hlo1 hlo2 hhi1 hhi2
  rcases hpq with rfl | rfl
  · exact ⟨hlo1, by linarith⟩
  · exact ⟨hlo2, by linarith⟩

/-- Over exact rationals: for every input `Clip` returns a count `k ≤ 2` and two points; each of the first
`k` of them has signed distance `≤ 0` to the clipping plane and lies on the closed segment
between the two input points, and when the input points are strictly on different sides
the second output point is the interpolated one, with distance exactly 0. -/
theorem Clip_outputs_behind_on_segment (n : CPoint) (c : ℚ) (p : CPoint × CPoint) :
    ∃ (k : Nat) (q : CPoint × CPoint), Clip n c p = Except.ok (k, q) ∧ k ≤ 2 ∧
      (0 < k → planeDistance n c q.1 ≤ 0 ∧ OnSegment p.1 p.2 q.1) ∧
      (1 < k → planeDistance n c q.2 ≤ 0 ∧ OnSegment p.1 p.2 q.2) ∧
      (planeDistance n c p.1 * planeDistance n c p.2 < 0 →
        k = 2 ∧ planeDistance n c q.2 = 0 ∧
        q.2 = p.1 + (p.2 - p.1) *
          (planeDistance n c p.1 / (planeDistance n c p.1 - planeDistance n c p.2))) := by
  rw [Clip_eval]
  have hlin := planeDistance_lerp n c p.1 p.2
  have hd1 : DotProduct2D p.1 n - c = planeDistance n c p.1 := rfl
  have hd2 : DotProduct2D p.2 n - c = planeDistance n c p.2 := rfl
  rw [hd1, hd2]
  have hcross : planeDistance n c p.1 * planeDistance n c p.2 < 0 →
      planeDistance n c (p.1 + (p.2 - p.1) *
        (planeDistance n c p.1 / (planeDistance n c p.1 - planeDistance n c p.2))) = 0 ∧
      OnSegment p.1 p.2 (p.1 + (p.2 - p.1) *
        (planeDistance n c p.1 / (planeDistance n c p.1 - planeDistance n c p.2))) := by
    intro h
    obtain ⟨h0, h1, hz⟩ := crossing_alpha _ _ h
    exact ⟨by rw [hlin, hz], ⟨_, h0, h1, rfl⟩⟩
  by_cases h1 : planeDistance n c p.1 ≤ 0
  · by_cases h2 : planeDistance n c p.2 ≤ 0
    · rw [if_pos h1, if_pos h2]
      exact ⟨2, _, rfl, le_refl 2, fun _ => ⟨h1, OnSegment_left _ _⟩,
        fun _ => ⟨h2, OnSegment_right _ _⟩,
        fun h => absurd h (not_lt.mpr (mul_nonneg_of_nonpos_of_nonpos h1 h2))⟩
    · by_cases h3 : planeDistance n c p.1 * planeDistance n c p.2 < 0
      · rw [if_pos h1, if_neg h2, if_pos h3]
        exact ⟨2, _, rfl, le_refl 2, fun _ => ⟨h1, OnSegment_left _ _⟩,
          fun _ => ⟨(hcross h3).1.le, (hcross h3).2⟩,
          fun _ => ⟨rfl, (hcross h3).1, rfl⟩⟩
      · rw [if_pos h1, if_neg h2, if_neg h3]
        exact ⟨1, _, rfl, by norm_num, fun _ => ⟨h1, OnSegment_left _ _⟩,
          fun h => absurd h (by norm_num), fun h => absurd h h3⟩
  · by_cases h2 : planeDistance n c p.2 ≤ 0
    · by_cases h3 : planeDistance n c p.1 * planeDistance n c p.2 < 0
      · rw [if_neg h1, if_pos h2, if_pos h3]
        exact ⟨2, _, rfl, le_refl 2, fun _ => ⟨h2, OnSegment_right _ _⟩,
          fun _ => ⟨(hcross h3).1.le, (hcross h3).2⟩,
          fun _ => ⟨rfl, (hcross h3).1, rfl⟩⟩
      · rw [if_neg h1, if_pos h2, if_neg h3]
        exact ⟨1, _, rfl, by norm_num, fun _ => ⟨h2, OnSegment_right _ _⟩,
          fun h => absurd h (by norm_num), fun h => absurd h h3⟩
    · rw [if_neg h1, if_neg h2]
      push_neg at h1 h2
      exact ⟨0, _, rfl, by norm_num, fun h => absurd h (by norm_num),
        fun h => absurd h (by norm_num),
        fun h => absurd h (not_lt.mpr (mul_pos h1 h2).le)⟩

/-- Over exact rationals: for a unit contact normal, a positive effective inverse mass, distinct sprites and
a manifold with one contact point at which the normal relative speed is `vn < 0`,
`ApplyImpulse` returns a world in which the contact-normal relative speed at the same
contact point is `-min(eRef, eInc) * vn`; this is `≥ 0` for restitutions in `[0, 1]`. -/
theorem relative_speed_after_impulse (m : CCollisionManifold) (w : World) (r i : SpriteRef)
    (hr : m.pRefSprite = some r) (hi : m.pIncSprite = some i) (hri : r ≠ i)
    (hcount : m.contactCount = 1) (hunit : DotProduct2D m.normal m.normal = 1)
    (heff : 0 < effectiveInverseMass m w r i m.contactPoint0)
    (hneg : contactVelocityAt m w r i m.contactPoint0 < 0) :
    ∃ w1, m.ApplyImpulse w = Except.ok w1 ∧
      contactVelocityAt m w1 r i m.contactPoint0 =
        -(min (w.body r).restitution (w.body i).restitution)
          * contactVelocityAt m w r i m.contactPoint0 ∧
      (0 ≤ (w.body r).restitution → (w.body r).restitution ≤ 1 →
        0 ≤ (w.body i).restitution → (w.body i).restitution ≤ 1 →
        0 ≤ contactVelocityAt m w1 r i m.contactPoint0) := by
  have hne : effectiveInverseMass m w r i m.contactPoint0 ≠ 0 := ne_of_gt heff
  have hcv : contactVelocityAt m (impulseStep m w r i m.contactPoint0) r i m.contactPoint0 =
      -(min (w.body r).restitution (w.body i).restitution)
        * contactVelocityAt m w r i m.contactPoint0 := by
    rw [contactVelocityAt_impulseStep m w r i _ hri, effectiveInverseMass_unit m w r i _ hunit,
      impulseAt_mul m w r i _ hne]
    ring
  refine ⟨impulseStep m w r i m.contactPoint0,
    ApplyImpulse_single m w r i hr hi hcount (not_lt.mpr hneg.le) hne, hcv, ?_⟩
  intro h1 _ h2 _
  rw [hcv]
  have hmin : 0 ≤ min (w.body r).restitution (w.body i).restitution := le_min h1 h2
  nlinarith

namespace FloatM

theorem bind_def {α β : Type} (c : FloatM α) (f : α → FloatM β) :
    (c >>= f) = andThen c f := rfl

theorem pure_def {α : Type} (a : α) : (pure a : FloatM α) = Except.ok (a, false) := rfl

theorem ret_def {α : Type} (a : α) : (ret a : FloatM α) = Except.ok (a, false) := rfl

theorem out_pure {α : Type} (a : α) : (pure a : FloatM α).out = Except.ok a := rfl

theorem out_ok {α : Type} (a : α) (s : Bool) :
    out (Except.ok (a, s) : FloatM α) = Except.ok a := rfl

theorem out_bind {α β : Type} (c : FloatM α) (f : α → FloatM β) :
    (c >>= f).out = c.out >>= fun a => (f a).out := by
  rw [bind_def]
  cases c with
  | error e => rfl
  | ok r =>
    obtain ⟨a, s⟩ := r
    simp only [andThen, out, bind, Except.bind]
    cases h : f a with
    | error e => rfl
    | ok r2 =>
      obtain ⟨b, t⟩ := r2
      rfl

theorem bind_ok {α β : Type} (c : FloatM α) (f : α → FloatM β) (b : β) (s : Bool) :
    (c >>= f) = Except.ok (b, s) ↔
      ∃ a s1 s2, c = Except.ok (a, s1) ∧ f a = Except.ok (b, s2) ∧ s = (s1 || s2) := by
  rw [bind_def]
  constructor
  · intro h
    cases c with
    | error e => simp [andThen] at h
    | ok r =>
      obtain ⟨a, s1⟩ := r
      simp only [andThen] at h
      cases hf : f a with
      | error e => rw [hf] at h; cases h
      | ok r2 =>
        obtain ⟨b2, s2⟩ := r2
        rw [hf] at h
        have h2 := Prod.mk.inj (Except.ok.inj h)
        exact ⟨a, s1, s2, rfl, by rw [hf, h2.1], h2.2.symm⟩
  · rintro ⟨a, s1, s2, hc, hf, hs⟩
    subst hc
    simp only [andThen, hf, hs]

theorem bind_exact {α β : Type} (c : FloatM α) (f : α → FloatM β) (b : β) :
    (c >>= f) = Except.ok (b, false) ↔
      ∃ a, c = Except.ok (a, false) ∧ f a = Except.ok (b, false) := by
  rw [bind_ok]
  constructor
  · rintro ⟨a, s1, s2, hc, hf, hs⟩
    have h1 : s1 = false ∧ s2 = false := by
      cases s1 <;> cases s2 <;> simp at hs ⊢
    rw [h1.1] at hc
    rw [h1.2] at hf
    exact ⟨a, hc, hf⟩
  · rintro ⟨a, hc, hf⟩
    exact ⟨a, false, false, hc, hf, rfl⟩

end FloatM

theorem FloatM.out_ite {α : Type} (p : Prop) [Decidable p] (a b : FloatM α) :
    (if p then a else b).out = if p then a.out else b.out := by
  split_ifs <;> rfl

theorem fadd_out (x y : Binary32) : (fadd x y).out = Except.ok (Binary32.plus x y) := rfl

theorem fsub_out (x y : Binary32) : (fsub x y).out = Except.ok (Binary32.minus x y) := rfl

theorem fmul_out (x y : Binary32) : (fmul x y).out = Except.ok (Binary32.times x y) := rfl

theorem fquot_out (x y : Binary32) : (fquot x y).out = Except.ok (Binary32.over x y) := rfl

namespace F32

open Binary32 NMathFunc

theorem DotProduct2D_out (a b : CPoint) : (DotProduct2D a b).out = Except.ok (dot a b) := by
  unfold F32.NMathFunc.DotProduct2D
  simp only [FloatM.out_bind, fmul_out, fadd_out, bind, Except.bind]
  rfl

theorem CPoint.add_out (a b : CPoint) : (a.add b).out = Except.ok (a.plus b) := by
  unfold CPoint.add
  simp only [FloatM.out_bind, fadd_out, FloatM.out_pure, bind, Except.bind]
  rfl

theorem CPoint.sub_out (a b : CPoint) : (a.sub b).out = Except.ok (a.minus b) := by
  unfold CPoint.sub
  simp only [FloatM.out_bind, fsub_out, FloatM.out_pure, bind, Except.bind]
  rfl

theorem CPoint.mul_out (a : CPoint) (k : Binary32) : (a.mul k).out = Except.ok (a.times k) := by
  unfold CPoint.mul
  simp only [FloatM.out_bind, fmul_out, FloatM.out_pure, bind, Except.bind]
  rfl

end F32

/-! ## The order of binary32 values -/

namespace Binary32

theorem lt_iff_rank (x y : Binary32) :
    x < y ↔ ∃ a b, rank x = some a ∧ rank y = some b ∧ a < b := by
  show lt x y = true ↔ _
  unfold lt
  cases hx : rank x with
  | none => simp
  | some a =>
    cases hy : rank y with
    | none => simp
    | some b => simp

theorem le_iff_rank (x y : Binary32) :
    x ≤ y ↔ ∃ a b, rank x = some a ∧ rank y = some b ∧ a ≤ b := by
  show le x y = true ↔ _
  unfold le
  cases hx : rank x with
  | none => simp
  | some a =>
    cases hy : rank y with
    | none => simp
    | some b => simp

theorem rank_zero : rank (0 : Binary32) = some 0 := rfl

theorem le_of_lt {x y : Binary32} (h : x < y) : x ≤ y := by
  obtain ⟨a, b, ha, hb, hab⟩ := (lt_iff_rank x y).mp h
  exact (le_iff_rank x y).mpr ⟨a, b, ha, hb, hab.le⟩

theorem not_le_of_lt {x y : Binary32} (h : x < y) : ¬ y ≤ x := by
  intro h2
  obtain ⟨a, b, ha, hb, hab⟩ := (lt_iff_rank x y).mp h
  obtain ⟨b2, a2, hb2, ha2, hba⟩ := (le_iff_rank y x).mp h2
  rw [ha] at ha2
  rw [hb] at hb2
  cases ha2
  cases hb2
  omega

theorem not_lt_of_le {x y : Binary32} (h : x ≤ y) : ¬ y < x :=
  fun h2 => not_le_of_lt h2 h

theorem lt_irrefl (x : Binary32) : ¬ x < x := fun h => not_le_of_lt h (le_of_lt h)

theorem lt_trans {x y z : Binary32} (h1 : x < y) (h2 : y < z) : x < z := by
  obtain ⟨a, b, ha, hb, hab⟩ := (lt_iff_rank x y).mp h1
  obtain ⟨b2, c, hb2, hc, hbc⟩ := (lt_iff_rank y z).mp h2
  rw [hb] at hb2
  cases hb2
  exact (lt_iff_rank x z).mpr ⟨a, c, ha, hc, by omega⟩

theorem le_trans {x y z : Binary32} (h1 : x ≤ y) (h2 : y ≤ z) : x ≤ z := by
  obtain ⟨a, b, ha, hb, hab⟩ := (le_iff_rank x y).mp h1
  obtain ⟨b2, c, hb2, hc, hbc⟩ := (le_iff_rank y z).mp h2
  rw [hb] at hb2
  cases hb2
  exact (le_iff_rank x z).mpr ⟨a, c, ha, hc, by omega⟩

theorem lt_of_lt_of_le {x y z : Binary32} (h1 : x < y) (h2 : y ≤ z) : x < z := by
  obtain ⟨a, b, ha, hb, hab⟩ := (lt_iff_rank x y).mp h1
  obtain ⟨b2, c, hb2, hc, hbc⟩ := (le_iff_rank y z).mp h2
  rw [hb] at hb2
  cases hb2
  exact (lt_iff_rank x z).mpr ⟨a, c, ha, hc, by omega⟩

theorem lt_of_le_of_lt {x y z : Binary32} (h1 : x ≤ y) (h2 : y < z) : x < z := by
  obtain ⟨a, b, ha, hb, hab⟩ := (le_iff_rank x y).mp h1
  obtain ⟨b2, c, hb2, hc, hbc⟩ := (lt_iff_rank y z).mp h2
  rw [hb] at hb2
  cases hb2
  exact (lt_iff_rank x z).mpr ⟨a, c, ha, hc, by omega⟩

/-- The value is not a NaN. -/
theorem isNumber_of_lt_left {x y : Binary32} (h : x < y) : rank x ≠ none := by
  obtain ⟨a, b, ha, _, _⟩ := (lt_iff_rank x y).mp h
  rw [ha]
  simp

theorem isNumber_of_lt_right {x y : Binary32} (h : x < y) : rank y ≠ none := by
  obtain ⟨a, b, _, hb, _⟩ := (lt_iff_rank x y).mp h
  rw [hb]
  simp

theorem le_of_not_lt {x y : Binary32} (hx : rank x ≠ none) (hy : rank y ≠ none)
    (h : ¬ x < y) : y ≤ x := by
  obtain ⟨a, ha⟩ := Option.ne_none_iff_exists'.mp hx
  obtain ⟨b, hb⟩ := Option.ne_none_iff_exists'.mp hy
  refine (le_iff_rank y x).mpr ⟨b, a, hb, ha, ?_⟩
  by_contra hc
  exact h ((lt_iff_rank x y).mpr ⟨a, b, ha, hb, by omega⟩)

theorem lt_of_not_le {x y : Binary32} (hx : rank x ≠ none) (hy : rank y ≠ none)
    (h : ¬ x ≤ y) : y < x := by
  obtain ⟨a, ha⟩ := Option.ne_none_iff_exists'.mp hx
  obtain ⟨b, hb⟩ := Option.ne_none_iff_exists'.mp hy
  refine (lt_iff_rank y x).mpr ⟨b, a, hb, ha, ?_⟩
  by_contra hc
  exact h ((le_iff_rank x y).mpr ⟨a, b, ha, hb, by omega⟩)

theorem le_refl_of_number {x : Binary32} (hx : rank x ≠ none) : x ≤ x := by
  obtain ⟨a, ha⟩ := Option.ne_none_iff_exists'.mp hx
  exact (le_iff_rank x x).mpr ⟨a, a, ha, ha, le_refl a⟩

/-! ## The sign of a product -/

theorem roundKey_zero (den : Nat) : roundKey 0 den = 0 := by
  simp [roundKey]

theorem finite_lt_zero (s : Bool) (k : Nat) :
    finite s k < 0 ↔ s = true ∧ k ≠ 0 := by
  rw [lt_iff_rank]
  simp only [rank, rank_zero, Option.some.injEq]
  constructor
  · rintro ⟨a, b, ha, hb, hab⟩
    subst ha hb
    cases s
    · simp only [Bool.false_eq_true, if_false] at hab
      omega
    · simp only [if_true] at hab
      exact ⟨rfl, by omega⟩
  · rintro ⟨hs, hk⟩
    subst hs
    exact ⟨_, _, rfl, rfl, by simp only [if_true]; omega⟩

theorem zero_lt_finite (s : Bool) (k : Nat) :
    0 < finite s k ↔ s = false ∧ k ≠ 0 := by
  rw [lt_iff_rank]
  simp only [rank, rank_zero, Option.some.injEq]
  constructor
  · rintro ⟨a, b, ha, hb, hab⟩
    subst ha hb
    cases s
    · simp only [Bool.false_eq_true, if_false] at hab
      exact ⟨rfl, by omega⟩
    · simp only [if_true] at hab
      omega
  · rintro ⟨hs, hk⟩
    subst hs
    exact ⟨_, _, rfl, rfl, by simp only [Bool.false_eq_true, if_false]; omega⟩

theorem overflowKey_pos : 0 < overflowKey := by
  unfold overflowKey
  positivity

theorem inf_lt_zero (s : Bool) : inf s < 0 ↔ s = true := by
  rw [lt_iff_rank]
  simp only [rank, rank_zero, Option.some.injEq]
  have hpos := overflowKey_pos
  constructor
  · rintro ⟨a, b, ha, hb, hab⟩
    subst ha hb
    cases s
    · simp only [Bool.false_eq_true, if_false] at hab
      omega
    · rfl
  · rintro rfl
    exact ⟨_, _, rfl, rfl, by simp only [if_true]; omega⟩

theorem zero_lt_inf (s : Bool) : 0 < inf s ↔ s = false := by
  rw [lt_iff_rank]
  simp only [rank, rank_zero, Option.some.injEq]
  have hpos := overflowKey_pos
  constructor
  · rintro ⟨a, b, ha, hb, hab⟩
    subst ha hb
    cases s
    · rfl
    · simp only [if_true] at hab
      omega
  · rintro rfl
    exact ⟨_, _, rfl, rfl, by simp only [Bool.false_eq_true, if_false]; omega⟩

theorem round_lt_zero (s : Bool) (num den : Nat) (h : (round s num den).1 < 0) :
    s = true ∧ num ≠ 0 := by
  unfold round at h
  split_ifs at h with hov
  · exact ⟨(inf_lt_zero s).mp h, by
      rintro rfl
      rw [roundKey_zero] at hov
      have := overflowKey_pos
      omega⟩
  · obtain ⟨hs, hk⟩ := (finite_lt_zero s _).mp h
    exact ⟨hs, by
      rintro rfl
      exact hk (roundKey_zero den)⟩

theorem times_lt_zero (a b : Binary32) (h : times a b < 0) :
    (a < 0 ∧ 0 < b) ∨ (0 < a ∧ b < 0) := by
  unfold times at h
  cases a with
  | nan => exact absurd (isNumber_of_lt_left h) (by simp [mul, rank])
  | inf sa =>
    cases b with
    | nan => exact absurd (isNumber_of_lt_left h) (by simp [mul, rank])
    | inf sb =>
      simp only [mul] at h
      have hx := (inf_lt_zero _).mp h
      cases sa <;> cases sb <;> simp at hx
      · exact Or.inr ⟨(zero_lt_inf _).mpr rfl, (inf_lt_zero _).mpr rfl⟩
      · exact Or.inl ⟨(inf_lt_zero _).mpr rfl, (zero_lt_inf _).mpr rfl⟩
    | finite sb k =>
      simp only [mul] at h
      split_ifs at h with hk
      · exact absurd (isNumber_of_lt_left h) (by simp [rank])
      · have hx := (inf_lt_zero _).mp h
        cases sa <;> cases sb <;> simp at hx
        · exact Or.inr ⟨(zero_lt_inf _).mpr rfl, (finite_lt_zero _ _).mpr ⟨rfl, hk⟩⟩
        · exact Or.inl ⟨(inf_lt_zero _).mpr rfl, (zero_lt_finite _ _).mpr ⟨rfl, hk⟩⟩
  | finite sa j =>
    cases b with
    | nan => exact absurd (isNumber_of_lt_left h) (by simp [mul, rank])
    | inf sb =>
      simp only [mul] at h
      split_ifs at h with hj
      · exact absurd (isNumber_of_lt_left h) (by simp [rank])
      · have hx := (inf_lt_zero _).mp h
        cases sa <;> cases sb <;> simp at hx
        · exact Or.inr ⟨(zero_lt_finite _ _).mpr ⟨rfl, hj⟩, (inf_lt_zero _).mpr rfl⟩
        · exact Or.inl ⟨(finite_lt_zero _ _).mpr ⟨rfl, hj⟩, (zero_lt_inf _).mpr rfl⟩
    | finite sb k =>
      simp only [mul] at h
      obtain ⟨hs, hn⟩ := round_lt_zero _ _ _ h
      have hj : j ≠ 0 := fun h0 => hn (by rw [h0, Nat.zero_mul])
      have hk : k ≠ 0 := fun h0 => hn (by rw [h0, Nat.mul_zero])
      cases sa <;> cases sb <;> simp at hs
      · exact Or.inr ⟨(zero_lt_finite _ _).mpr ⟨rfl, hj⟩, (finite_lt_zero _ _).mpr ⟨rfl, hk⟩⟩
      · exact Or.inl ⟨(finite_lt_zero _ _).mpr ⟨rfl, hj⟩, (zero_lt_finite _ _).mpr ⟨rfl, hk⟩⟩

end Binary32

/-! ## Float operations that raise no exception are exact -/

namespace Binary32

theorem toRat_finite (a : Bool) (k : Nat) :
    toRat (finite a k) = (if a = true then -(k : ℚ) else (k : ℚ)) / 2 ^ 149 := rfl

theorem isFinite_finite (a : Bool) (k : Nat) : IsFinite (finite a k) := trivial

theorem exists_of_isFinite {x : Binary32} (h : IsFinite x) : ∃ a k, x = finite a k := by
  cases x with
  | finite a k => exact ⟨a, k, rfl⟩
  | inf a => exact absurd h (by simp [IsFinite])
  | nan => exact absurd h (by simp [IsFinite])

theorem round_exact {s : Bool} {num den : Nat} {z : Binary32}
    (h : round s num den = (z, false)) :
    z = finite s (roundKey num den) ∧ roundKey num den * den = num := by
  unfold round at h
  split_ifs at h with hov
  · simp at h
  · have h1 := (Prod.mk.inj h).1
    have h2 := (Prod.mk.inj h).2
    refine ⟨h1.symm, ?_⟩
    by_contra hne
    simp [hne] at h2

theorem round_toRat {s : Bool} {num den : Nat} {z : Binary32}
    (h : round s num den = (z, false)) (hden : den ≠ 0) :
    IsFinite z ∧ toRat z = (if s = true then -(num : ℚ) else (num : ℚ)) / den / 2 ^ 149 := by
  obtain ⟨hz, hk⟩ := round_exact h
  subst hz
  refine ⟨trivial, ?_⟩
  have hd : (den : ℚ) ≠ 0 := by exact_mod_cast hden
  have hq : (roundKey num den : ℚ) = (num : ℚ) / den := by
    rw [eq_div_iff hd]
    exact_mod_cast hk
  rw [toRat_finite, hq]
  split_ifs <;> ring

theorem isFinite_neg {x : Binary32} (h : IsFinite x) : IsFinite (neg x) := by
  obtain ⟨a, k, rfl⟩ := exists_of_isFinite h
  trivial

theorem toRat_neg (x : Binary32) : toRat (neg x) = -toRat x := by
  cases x with
  | finite a k =>
    cases a <;> simp [neg, toRat] <;> ring
  | inf a => simp [neg, toRat]
  | nan => simp [neg, toRat]

theorem add_exact {x y z : Binary32} (hx : IsFinite x) (hy : IsFinite y)
    (h : add x y = (z, false)) : IsFinite z ∧ toRat z = toRat x + toRat y := by
  obtain ⟨a, j, rfl⟩ := exists_of_isFinite hx
  obtain ⟨b, k, rfl⟩ := exists_of_isFinite hy
  simp only [add] at h
  split_ifs at h with hab hjk hgt
  · obtain ⟨hf, hv⟩ := round_toRat h one_ne_zero
    refine ⟨hf, ?_⟩
    subst hab
    rw [hv, toRat_finite, toRat_finite]
    cases a <;> simp <;> ring
  · have hz := (Prod.mk.inj h).1
    subst hz hjk
    refine ⟨trivial, ?_⟩
    rw [toRat_finite, toRat_finite, toRat_finite]
    cases a <;> cases b <;> simp at hab ⊢ <;> ring
  · obtain ⟨hf, hv⟩ := round_toRat h one_ne_zero
    refine ⟨hf, ?_⟩
    rw [hv, toRat_finite, toRat_finite]
    have hc : ((j - k : Nat) : ℚ) = (j : ℚ) - k := Nat.cast_sub hgt.le
    cases a <;> cases b <;> simp [hc] at hab ⊢ <;> ring
  · obtain ⟨hf, hv⟩ := round_toRat h one_ne_zero
    refine ⟨hf, ?_⟩
    rw [hv, toRat_finite, toRat_finite]
    have hle : j ≤ k := by omega
    have hc : ((k - j : Nat) : ℚ) = (k : ℚ) - j := Nat.cast_sub hle
    cases a <;> cases b <;> simp [hc] at hab ⊢ <;> ring

theorem sub_exact {x y z : Binary32} (hx : IsFinite x) (hy : IsFinite y)
    (h : sub x y = (z, false)) : IsFinite z ∧ toRat z = toRat x - toRat y := by
  obtain ⟨hf, hv⟩ := add_exact hx (isFinite_neg hy) h
  exact ⟨hf, by rw [hv, toRat_neg]; ring⟩

theorem mul_exact {x y z : Binary32} (hx : IsFinite x) (hy : IsFinite y)
    (h : mul x y = (z, false)) : IsFinite z ∧ toRat z = toRat x * toRat y := by
  obtain ⟨a, j, rfl⟩ := exists_of_isFinite hx
  obtain ⟨b, k, rfl⟩ := exists_of_isFinite hy
  simp only [mul] at h
  obtain ⟨hf, hv⟩ := round_toRat h (by positivity)
  refine ⟨hf, ?_⟩
  rw [hv, toRat_finite, toRat_finite]
  cases a <;> cases b <;> simp <;> ring

theorem div_exact {x y z : Binary32} (hx : IsFinite x) (hy : IsFinite y)
    (h : div x y = (z, false)) :
    IsFinite z ∧ toRat y ≠ 0 ∧ toRat z = toRat x / toRat y := by
  obtain ⟨a, j, rfl⟩ := exists_of_isFinite hx
  obtain ⟨b, k, rfl⟩ := exists_of_isFinite hy
  simp only [div] at h
  split_ifs at h with hk hj
  · simp at h
  · simp at h
  · obtain ⟨hz, hkey⟩ := round_exact h
    subst hz
    have hkq : (k : ℚ) ≠ 0 := by exact_mod_cast hk
    have hkey2 : (roundKey (j * 2 ^ 149) k : ℚ) * k = j * (2 : ℚ) ^ 149 := by
      exact_mod_cast hkey
    have hP : (2 : ℚ) ^ 149 ≠ 0 := by positivity
    refine ⟨trivial, ?_, ?_⟩
    · rw [toRat_finite]
      cases b <;> simp [hkq]
    · rw [toRat_finite, toRat_finite, toRat_finite]
      generalize (2 : ℚ) ^ 149 = P at hP hkey2
      generalize (roundKey (j * 2 ^ 149) k : ℚ) = K at hkey2
      have hK : K = j * P / k := by
        rw [eq_div_iff hkq]
        exact hkey2
      have hq : K / P = (j / P) / (k / P) := by
        rw [hK]
        field_simp
        ring
      cases a <;> cases b <;>
        simp only [Bool.xor_false, Bool.xor_true, Bool.not_false, Bool.not_true,
          Bool.false_eq_true, if_true, if_false, neg_div, div_neg, neg_neg, hq]

/-! ## Comparisons of finite values -/

theorem rank_of_isFinite {x : Binary32} (h : IsFinite x) :
    ∃ r : Int, rank x = some r ∧ toRat x = (r : ℚ) / 2 ^ 149 := by
  obtain ⟨a, k, rfl⟩ := exists_of_isFinite h
  refine ⟨_, rfl, ?_⟩
  rw [toRat_finite]
  cases a <;> simp

theorem lt_iff_toRat {x y : Binary32} (hx : IsFinite x) (hy : IsFinite y) :
    x < y ↔ toRat x < toRat y := by
  obtain ⟨r, hr, hrq⟩ := rank_of_isFinite hx
  obtain ⟨s, hs, hsq⟩ := rank_of_isFinite hy
  rw [lt_iff_rank, hrq, hsq, div_lt_div_iff_of_pos_right (by positivity)]
  constructor
  · rintro ⟨a, b, ha, hb, hab⟩
    rw [hr] at ha
    rw [hs] at hb
    cases ha
    cases hb
    exact_mod_cast hab
  · intro h
    exact ⟨r, s, hr, hs, by exact_mod_cast h⟩

theorem le_iff_toRat {x y : Binary32} (hx : IsFinite x) (hy : IsFinite y) :
    x ≤ y ↔ toRat x ≤ toRat y := by
  obtain ⟨r, hr, hrq⟩ := rank_of_isFinite hx
  obtain ⟨s, hs, hsq⟩ := rank_of_isFinite hy
  rw [le_iff_rank, hrq, hsq, div_le_div_iff_of_pos_right (by positivity)]
  constructor
  · rintro ⟨a, b, ha, hb, hab⟩
    rw [hr] at ha
    rw [hs] at hb
    cases ha
    cases hb
    exact_mod_cast hab
  · intro h
    exact ⟨r, s, hr, hs, by exact_mod_cast h⟩

theorem ne_iff_toRat {x y : Binary32} (hx : IsFinite x) (hy : IsFinite y) :
    ne x y = true ↔ toRat x ≠ toRat y := by
  obtain ⟨r, hr, hrq⟩ := rank_of_isFinite hx
  obtain ⟨s, hs, hsq⟩ := rank_of_isFinite hy
  unfold ne eq
  rw [hr, hs, hrq, hsq]
  simp only [Bool.not_eq_true', decide_eq_false_iff_not, ne_eq]
  rw [div_left_inj' (by positivity)]
  exact_mod_cast Iff.rfl

theorem isFinite_zero : IsFinite (0 : Binary32) := trivial

theorem toRat_zero : toRat (0 : Binary32) = 0 := by
  show toRat (finite false 0) = 0
  simp [toRat]

theorem isFinite_one : IsFinite (1 : Binary32) := trivial

theorem toRat_one : toRat (1 : Binary32) = 1 := by
  show toRat (finite false (1 * 2 ^ (0 + 149 : Int).toNat)) = 1
  have h : (0 + 149 : Int).toNat = 149 := rfl
  rw [h, toRat_finite]
  norm_num

theorem isFinite_lit (m : Nat) (e : Int) : IsFinite (lit m e) := trivial

end Binary32

namespace F32

open Binary32

theorem isFinite_fmax {a b : Binary32} (ha : IsFinite a) (hb : IsFinite b) :
    IsFinite (fmax a b) := by
  unfold fmax
  split_ifs
  · exact hb
  · exact ha

theorem toRat_fmax {a b : Binary32} (ha : IsFinite a) (hb : IsFinite b) :
    toRat (fmax a b) = max (toRat a) (toRat b) := by
  unfold fmax
  split_ifs with h
  · rw [lt_iff_toRat ha hb] at h
    exact (max_eq_right h.le).symm
  · rw [lt_iff_toRat ha hb] at h
    exact (max_eq_left (not_lt.mp h)).symm

theorem isFinite_fmin {a b : Binary32} (ha : IsFinite a) (hb : IsFinite b) :
    IsFinite (fmin a b) := by
  unfold fmin
  split_ifs
  · exact hb
  · exact ha

theorem toRat_fmin {a b : Binary32} (ha : IsFinite a) (hb : IsFinite b) :
    toRat (fmin a b) = min (toRat a) (toRat b) := by
  unfold fmin
  split_ifs with h
  · rw [lt_iff_toRat hb ha] at h
    exact (min_eq_right h.le).symm
  · rw [lt_iff_toRat hb ha] at h
    exact (min_eq_left (not_lt.mp h)).symm

end F32

/-! ## The branches of the float `Clip` -/

namespace F32

open Binary32 NCollisionResFunc2D

theorem setClipped_zero_out (c : CPoint × CPoint) (p : CPoint) :
    (setClipped c 0 p).out = Except.ok (p, c.2) := rfl

theorem setClipped_one_out (c : CPoint × CPoint) (p : CPoint) :
    (setClipped c 1 p).out = Except.ok (c.1, p) := rfl

theorem fsub_dot_out (n : CPoint) (c : Binary32) (x : CPoint) :
    (do let d ← NMathFunc.DotProduct2D x n; fsub d c : FloatM Binary32).out
      = Except.ok (planeDistance n c x) := by
  simp only [FloatM.out_bind, DotProduct2D_out, fsub_out, Except.ok_bind_eq]
  rfl

theorem Clip_out_both (n p1 p2 : CPoint) (c : Binary32)
    (h1 : planeDistance n c p1 ≤ 0) (h2 : planeDistance n c p2 ≤ 0) :
    (Clip n c (p1, p2)).out = Except.ok (2, (p1, p2)) := by
  have hp : ¬ times (planeDistance n c p1) (planeDistance n c p2) < 0 := by
    intro hp
    rcases times_lt_zero _ _ hp with ⟨_, h⟩ | ⟨h, _⟩
    · exact not_le_of_lt h h2
    · exact not_le_of_lt h h1
  unfold planeDistance at h1 h2 hp
  unfold F32.NCollisionResFunc2D.Clip
  simp only [FloatM.out_bind, DotProduct2D_out, fsub_out, fmul_out, Except.ok_bind_eq,
    FloatM.out_ite, FloatM.out_pure, h1, h2, hp, if_true, if_false,
    setClipped_zero_out, setClipped_one_out]
  rfl

theorem Clip_out_first_cross (n p1 p2 : CPoint) (c : Binary32)
    (h1 : planeDistance n c p1 ≤ 0) (h2 : ¬ planeDistance n c p2 ≤ 0)
    (hp : times (planeDistance n c p1) (planeDistance n c p2) < 0) :
    (Clip n c (p1, p2)).out = Except.ok (2, (p1, clipPoint p1 p2 (planeDistance n c p1) (planeDistance n c p2))) := by
  unfold planeDistance at h1 h2 hp
  unfold F32.NCollisionResFunc2D.Clip
  simp only [FloatM.out_bind, DotProduct2D_out, fsub_out, fmul_out, fquot_out,
    CPoint.sub_out, CPoint.mul_out, CPoint.add_out, Except.ok_bind_eq,
    FloatM.out_ite, FloatM.out_pure, h1, h2, hp, if_true, if_false,
    setClipped_zero_out, setClipped_one_out]
  rfl

theorem Clip_out_first (n p1 p2 : CPoint) (c : Binary32)
    (h1 : planeDistance n c p1 ≤ 0) (h2 : ¬ planeDistance n c p2 ≤ 0)
    (hp : ¬ times (planeDistance n c p1) (planeDistance n c p2) < 0) :
    (Clip n c (p1, p2)).out = Except.ok (1, (p1, p2)) := by
  unfold planeDistance at h1 h2 hp
  unfold F32.NCollisionResFunc2D.Clip
  simp only [FloatM.out_bind, DotProduct2D_out, fsub_out, fmul_out, fquot_out,
    CPoint.sub_out, CPoint.mul_out, CPoint.add_out, Except.ok_bind_eq,
    FloatM.out_ite, FloatM.out_pure, h1, h2, hp, if_true, if_false,
    setClipped_zero_out, setClipped_one_out]
  rfl

theorem Clip_out_second_cross (n p1 p2 : CPoint) (c : Binary32)
    (h1 : ¬ planeDistance n c p1 ≤ 0) (h2 : planeDistance n c p2 ≤ 0)
    (hp : times (planeDistance n c p1) (planeDistance n c p2) < 0) :
    (Clip n c (p1, p2)).out = Except.ok (2, (p2, clipPoint p1 p2 (planeDistance n c p1) (planeDistance n c p2))) := by
  unfold planeDistance at h1 h2 hp
  unfold F32.NCollisionResFunc2D.Clip
  simp only [FloatM.out_bind, DotProduct2D_out, fsub_out, fmul_out, fquot_out,
    CPoint.sub_out, CPoint.mul_out, CPoint.add_out, Except.ok_bind_eq,
    FloatM.out_ite, FloatM.out_pure, h1, h2, hp, if_true, if_false,
    setClipped_zero_out, setClipped_one_out]
  rfl

theorem Clip_out_second (n p1 p2 : CPoint) (c : Binary32)
    (h1 : ¬ planeDistance n c p1 ≤ 0) (h2 : planeDistance n c p2 ≤ 0)
    (hp : ¬ times (planeDistance n c p1) (planeDistance n c p2) < 0) :
    (Clip n c (p1, p2)).out = Except.ok (1, (p2, p2)) := by
  unfold planeDistance at h1 h2 hp
  unfold F32.NCollisionResFunc2D.Clip
  simp only [FloatM.out_bind, DotProduct2D_out, fsub_out, fmul_out, fquot_out,
    CPoint.sub_out, CPoint.mul_out, CPoint.add_out, Except.ok_bind_eq,
    FloatM.out_ite, FloatM.out_pure, h1, h2, hp, if_true, if_false,
    setClipped_zero_out, setClipped_one_out]
  rfl

theorem Clip_out_none (n p1 p2 : CPoint) (c : Binary32)
    (h1 : ¬ planeDistance n c p1 ≤ 0) (h2 : ¬ planeDistance n c p2 ≤ 0) :
    (Clip n c (p1, p2)).out = Except.ok (0, (p1, p2)) := by
  have hp : ¬ times (planeDistance n c p1) (planeDistance n c p2) < 0 := by
    intro hp
    rcases times_lt_zero _ _ hp with ⟨h, _⟩ | ⟨_, h⟩
    · exact h1 (le_of_lt h)
    · exact h2 (le_of_lt h)
  unfold planeDistance at h1 h2 hp
  unfold F32.NCollisionResFunc2D.Clip
  simp only [FloatM.out_bind, DotProduct2D_out, fsub_out, fmul_out, fquot_out,
    CPoint.sub_out, CPoint.mul_out, CPoint.add_out, Except.ok_bind_eq,
    FloatM.out_ite, FloatM.out_pure, h1, h2, hp, if_true, if_false,
    setClipped_zero_out, setClipped_one_out]
  rfl

end F32

/-! ## Float values equal to zero -/

namespace Binary32

theorem eq_zero_iff_rank (x : Binary32) : eq x 0 = true ↔ rank x = some 0 := by
  unfold eq
  rw [rank_zero]
  cases hx : rank x with
  | none => simp
  | some a => simp

theorem le_zero_of_eq_zero {x : Binary32} (h : eq x 0 = true) : x ≤ 0 :=
  (le_iff_rank x 0).mpr ⟨0, 0, (eq_zero_iff_rank x).mp h, rank_zero, le_refl 0⟩

theorem not_lt_zero_of_eq_zero {x : Binary32} (h : eq x 0 = true) : ¬ x < 0 := by
  intro hlt
  obtain ⟨a, b, ha, hb, hab⟩ := (lt_iff_rank x 0).mp hlt
  rw [(eq_zero_iff_rank x).mp h] at ha
  rw [rank_zero] at hb
  cases ha
  cases hb
  omega

theorem not_zero_lt_of_eq_zero {x : Binary32} (h : eq x 0 = true) : ¬ 0 < x := by
  intro hlt
  obtain ⟨a, b, ha, hb, hab⟩ := (lt_iff_rank 0 x).mp hlt
  rw [(eq_zero_iff_rank x).mp h] at hb
  rw [rank_zero] at ha
  cases ha
  cases hb
  omega

theorem not_times_lt_zero_left {x : Binary32} (y : Binary32) (h : eq x 0 = true) :
    ¬ times x y < 0 := by
  intro hp
  rcases times_lt_zero _ _ hp with ⟨h1, _⟩ | ⟨h1, _⟩
  · exact not_lt_zero_of_eq_zero h h1
  · exact not_zero_lt_of_eq_zero h h1

theorem not_times_lt_zero_right (x : Binary32) {y : Binary32} (h : eq y 0 = true) :
    ¬ times x y < 0 := by
  intro hp
  rcases times_lt_zero _ _ hp with ⟨_, h1⟩ | ⟨_, h1⟩
  · exact not_zero_lt_of_eq_zero h h1
  · exact not_lt_zero_of_eq_zero h h1

end Binary32

/-! ## Exact float operations on points and vectors -/

theorem fadd_exact {x y z : Binary32} (hx : x.IsFinite) (hy : y.IsFinite)
    (h : fadd x y = Except.ok (z, false)) : z.IsFinite ∧ z.toRat = x.toRat + y.toRat :=
  Binary32.add_exact hx hy (Except.ok.inj h)

theorem fsub_exact {x y z : Binary32} (hx : x.IsFinite) (hy : y.IsFinite)
    (h : fsub x y = Except.ok (z, false)) : z.IsFinite ∧ z.toRat = x.toRat - y.toRat :=
  Binary32.sub_exact hx hy (Except.ok.inj h)

theorem fmul_exact {x y z : Binary32} (hx : x.IsFinite) (hy : y.IsFinite)
    (h : fmul x y = Except.ok (z, false)) : z.IsFinite ∧ z.toRat = x.toRat * y.toRat :=
  Binary32.mul_exact hx hy (Except.ok.inj h)

theorem fquot_exact {x y z : Binary32} (hx : x.IsFinite) (hy : y.IsFinite)
    (h : fquot x y = Except.ok (z, false)) :
    z.IsFinite ∧ fdiv x.toRat y.toRat = Except.ok z.toRat := by
  obtain ⟨hf, hne, hv⟩ := Binary32.div_exact hx hy (Except.ok.inj h)
  refine ⟨hf, ?_⟩
  unfold fdiv
  rw [if_neg hne, hv]

theorem FloatM.pure_exact {α : Type} {a b : α}
    (h : (pure a : FloatM α) = Except.ok (b, false)) : a = b :=
  (Prod.mk.inj (Except.ok.inj h)).1

theorem exactPoint_x (p : F32.CPoint) : (exactPoint p).x = p.x.toRat := rfl

theorem exactPoint_y (p : F32.CPoint) : (exactPoint p).y = p.y.toRat := rfl

theorem CPoint.sub_def (a b : CPoint) : a - b = ⟨a.x - b.x, a.y - b.y⟩ := rfl

theorem CPoint.add_def (a b : CPoint) : a + b = ⟨a.x + b.x, a.y + b.y⟩ := rfl

theorem CPoint.mul_def (a : CPoint) (k : ℚ) : a * k = ⟨a.x * k, a.y * k⟩ := rfl

theorem pointSub_exact {a b c : F32.CPoint} (ha : a.IsFinite) (hb : b.IsFinite)
    (h : a.sub b = Except.ok (c, false)) :
    c.IsFinite ∧ exactPoint c = exactPoint a - exactPoint b := by
  unfold F32.CPoint.sub at h
  obtain ⟨x, hx, h⟩ := (FloatM.bind_exact _ _ _).mp h
  obtain ⟨y, hy, h⟩ := (FloatM.bind_exact _ _ _).mp h
  have hc := FloatM.pure_exact h
  subst hc
  obtain ⟨hxf, hxv⟩ := fsub_exact ha.1 hb.1 hx
  obtain ⟨hyf, hyv⟩ := fsub_exact ha.2 hb.2 hy
  exact ⟨⟨hxf, hyf⟩, by simp only [exactPoint, CPoint.sub_def, hxv, hyv]⟩

theorem pointAdd_exact {a b c : F32.CPoint} (ha : a.IsFinite) (hb : b.IsFinite)
    (h : a.add b = Except.ok (c, false)) :
    c.IsFinite ∧ exactPoint c = exactPoint a + exactPoint b := by
  unfold F32.CPoint.add at h
  obtain ⟨x, hx, h⟩ := (FloatM.bind_exact _ _ _).mp h
  obtain ⟨y, hy, h⟩ := (FloatM.bind_exact _ _ _).mp h
  have hc := FloatM.pure_exact h
  subst hc
  obtain ⟨hxf, hxv⟩ := fadd_exact ha.1 hb.1 hx
  obtain ⟨hyf, hyv⟩ := fadd_exact ha.2 hb.2 hy
  exact ⟨⟨hxf, hyf⟩, by simp only [exactPoint, CPoint.add_def, hxv, hyv]⟩

theorem pointMul_exact {a c : F32.CPoint} {k : Binary32} (ha : a.IsFinite)
    (hk : k.IsFinite) (h : a.mul k = Except.ok (c, false)) :
    c.IsFinite ∧ exactPoint c = exactPoint a * k.toRat := by
  unfold F32.CPoint.mul at h
  obtain ⟨x, hx, h⟩ := (FloatM.bind_exact _ _ _).mp h
  obtain ⟨y, hy, h⟩ := (FloatM.bind_exact _ _ _).mp h
  have hc := FloatM.pure_exact h
  subst hc
  obtain ⟨hxf, hxv⟩ := fmul_exact ha.1 hk hx
  obtain ⟨hyf, hyv⟩ := fmul_exact ha.2 hk hy
  exact ⟨⟨hxf, hyf⟩, by simp only [exactPoint, CPoint.mul_def, hxv, hyv]⟩

theorem pointDiv_exact {a c : F32.CPoint} {k : Binary32} (ha : a.IsFinite)
    (hk : k.IsFinite) (h : a.div k = Except.ok (c, false)) :
    c.IsFinite ∧ CCollisionManifold.divPoint (exactPoint a) k.toRat
      = Except.ok (exactPoint c) := by
  unfold F32.CPoint.div at h
  obtain ⟨x, hx, h⟩ := (FloatM.bind_exact _ _ _).mp h
  obtain ⟨y, hy, h⟩ := (FloatM.bind_exact _ _ _).mp h
  have hc := FloatM.pure_exact h
  subst hc
  obtain ⟨hxf, hxv⟩ := fquot_exact ha.1 hk hx
  obtain ⟨hyf, hyv⟩ := fquot_exact ha.2 hk hy
  refine ⟨⟨hxf, hyf⟩, ?_⟩
  unfold CCollisionManifold.divPoint
  simp only [exactPoint_x, exactPoint_y, hxv, hyv, Except.ok_bind_eq]
  rfl

theorem F32.CPoint.isFinite_negated {a : F32.CPoint} (ha : a.IsFinite) : a.neg.IsFinite :=
  ⟨Binary32.isFinite_neg ha.1, Binary32.isFinite_neg ha.2⟩

theorem DotProduct2D_exact {a b : F32.CPoint} {z : Binary32} (ha : a.IsFinite)
    (hb : b.IsFinite) (h : F32.NMathFunc.DotProduct2D a b = Except.ok (z, false)) :
    z.IsFinite ∧ z.toRat = NMathFunc.DotProduct2D (exactPoint a) (exactPoint b) := by
  unfold F32.NMathFunc.DotProduct2D at h
  obtain ⟨x, hx, h⟩ := (FloatM.bind_exact _ _ _).mp h
  obtain ⟨y, hy, h⟩ := (FloatM.bind_exact _ _ _).mp h
  obtain ⟨hxf, hxv⟩ := fmul_exact ha.1 hb.1 hx
  obtain ⟨hyf, hyv⟩ := fmul_exact ha.2 hb.2 hy
  obtain ⟨hzf, hzv⟩ := fadd_exact hxf hyf h
  exact ⟨hzf, by rw [hzv, hxv, hyv]; rfl⟩

theorem CrossProduct2D_exact {a b : F32.CPoint} {z : Binary32} (ha : a.IsFinite)
    (hb : b.IsFinite) (h : F32.NMathFunc.CrossProduct2D a b = Except.ok (z, false)) :
    z.IsFinite ∧ z.toRat = NMathFunc.CrossProduct2D (exactPoint a) (exactPoint b) := by
  unfold F32.NMathFunc.CrossProduct2D at h
  obtain ⟨x, hx, h⟩ := (FloatM.bind_exact _ _ _).mp h
  obtain ⟨y, hy, h⟩ := (FloatM.bind_exact _ _ _).mp h
  obtain ⟨hxf, hxv⟩ := fmul_exact ha.1 hb.2 hx
  obtain ⟨hyf, hyv⟩ := fmul_exact ha.2 hb.1 hy
  obtain ⟨hzf, hzv⟩ := fsub_exact hxf hyf h
  exact ⟨hzf, by rw [hzv, hxv, hyv]; rfl⟩

theorem CrossProduct2DScalar_exact {v c : F32.CPoint} {a : Binary32} (ha : a.IsFinite)
    (hv : v.IsFinite) (h : F32.NMathFunc.CrossProduct2DScalar a v = Except.ok (c, false)) :
    c.IsFinite ∧ exactPoint c = NMathFunc.CrossProduct2DScalar a.toRat (exactPoint v) := by
  unfold F32.NMathFunc.CrossProduct2DScalar at h
  obtain ⟨x, hx, h⟩ := (FloatM.bind_exact _ _ _).mp h
  obtain ⟨y, hy, h⟩ := (FloatM.bind_exact _ _ _).mp h
  have hc := FloatM.pure_exact h
  subst hc
  obtain ⟨hxf, hxv⟩ := fmul_exact (Binary32.isFinite_neg ha) hv.2 hx
  obtain ⟨hyf, hyv⟩ := fmul_exact ha hv.1 hy
  refine ⟨⟨hxf, hyf⟩, ?_⟩
  simp only [exactPoint, NMathFunc.CrossProduct2DScalar, hxv, hyv, Binary32.toRat_neg]

/-! ## Exact values of worlds and manifolds -/

theorem exactWorld_get (w : F32.World) (r : SpriteRef) :
    (exactWorld w).get r = exactGroup (w.get r) := by
  cases r <;> rfl

theorem exactWorld_body (w : F32.World) (r : SpriteRef) :
    (exactWorld w).body r = exactBody (w.body r) := by
  cases r <;> rfl

theorem exactWorld_setBody (w : F32.World) (r : SpriteRef) (b : F32.CCollisionBody) :
    exactWorld (w.setBody r b) = (exactWorld w).setBody r (exactBody b) := by
  cases r <;> rfl

theorem exactGroup_pos (g : F32.CSpriteGroup2D) : (exactGroup g).pos = exactPoint g.pos := rfl

theorem F32.World.get_setBody_pos (w : F32.World) (r s : SpriteRef) (b : F32.CCollisionBody) :
    ((w.setBody r b).get s).pos = (w.get s).pos := by
  cases r <;> cases s <;> rfl

theorem F32.World.body_setBody_self (w : F32.World) (r : SpriteRef) (b : F32.CCollisionBody) :
    (w.setBody r b).body r = b := by
  cases r <;> rfl

theorem F32.World.body_setBody_distinct (w : F32.World) (r s : SpriteRef)
    (b : F32.CCollisionBody) (h : s ≠ r) : (w.setBody r b).body s = w.body s := by
  cases r <;> cases s <;> first | rfl | exact absurd rfl h

theorem F32.World.isFinite_setBody {w : F32.World} (hw : w.IsFinite) (r : SpriteRef)
    {b : F32.CCollisionBody} (hb : b.IsFinite) : (w.setBody r b).IsFinite := by
  intro s
  refine ⟨by rw [F32.World.get_setBody_pos]; exact (hw s).1, ?_⟩
  by_cases h : s = r
  · subst h
    rw [F32.World.body_setBody_self]
    exact hb
  · rw [F32.World.body_setBody_distinct _ _ _ _ h]
    exact (hw s).2

theorem contactPointAt_exact {m : F32.CCollisionManifold} (hm : m.IsFinite) {i : Int}
    {p : F32.CPoint} (h : m.contactPointAt i = Except.ok (p, false)) :
    p.IsFinite ∧ (exactManifold m).contactPointAt i = Except.ok (exactPoint p) := by
  unfold F32.CCollisionManifold.contactPointAt at h
  unfold CCollisionManifold.contactPointAt
  split_ifs at h ⊢ with h0 h1
  · have hp := (Prod.mk.inj (Except.ok.inj h)).1
    subst hp
    exact ⟨hm.2.2.1, rfl⟩
  · have hp := (Prod.mk.inj (Except.ok.inj h)).1
    subst hp
    exact ⟨hm.2.2.2, rfl⟩
  · cases h

/-! ## The impulse loop without rounding -/

theorem exactBody_velocity (b : F32.CCollisionBody) :
    (exactBody b).velocity = exactPoint b.velocity := rfl

theorem exactBody_angVelocity (b : F32.CCollisionBody) :
    (exactBody b).angVelocity = b.angVelocity.toRat := rfl

theorem exactBody_inverseMass (b : F32.CCollisionBody) :
    (exactBody b).inverseMass = b.inverseMass.toRat := rfl

theorem exactBody_inverseInertia (b : F32.CCollisionBody) :
    (exactBody b).inverseInertia = b.inverseInertia.toRat := rfl

theorem exactBody_restitution (b : F32.CCollisionBody) :
    (exactBody b).restitution = b.restitution.toRat := rfl

theorem exactManifold_normal (m : F32.CCollisionManifold) :
    (exactManifold m).normal = exactPoint m.normal := rfl

theorem ApplyImpulseLoop_exact (m : F32.CCollisionManifold) (pRef pInc : SpriteRef)
    (hm : m.IsFinite) :
    ∀ (n : Nat) (i : Int) (w w2 : F32.World), w.IsFinite →
      F32.CCollisionManifold.ApplyImpulseLoop m pRef pInc n i w = Except.ok (w2, false) →
      w2.IsFinite ∧
        CCollisionManifold.ApplyImpulseLoop (exactManifold m) pRef pInc n i (exactWorld w)
          = Except.ok (exactWorld w2) := by
  intro n
  induction n with
  | zero =>
    intro i w w2 hw h
    have h2 := FloatM.pure_exact h
    subst h2
    exact ⟨hw, rfl⟩
  | succ n ih =>
    intro i w w2 hw h
    unfold F32.CCollisionManifold.ApplyImpulseLoop at h
    obtain ⟨cp, hcp, h⟩ := (FloatM.bind_exact _ _ _).mp h
    obtain ⟨refRadius, hrr, h⟩ := (FloatM.bind_exact _ _ _).mp h
    obtain ⟨incRadius, hir, h⟩ := (FloatM.bind_exact _ _ _).mp h
    obtain ⟨incSpin, his, h⟩ := (FloatM.bind_exact _ _ _).mp h
    obtain ⟨refSpin, hrs, h⟩ := (FloatM.bind_exact _ _ _).mp h
    obtain ⟨rv1, hrv1, h⟩ := (FloatM.bind_exact _ _ _).mp h
    obtain ⟨rv2, hrv2, h⟩ := (FloatM.bind_exact _ _ _).mp h
    obtain ⟨rv3, hrv3, h⟩ := (FloatM.bind_exact _ _ _).mp h
    obtain ⟨cv, hcv, h⟩ := (FloatM.bind_exact _ _ _).mp h
    obtain ⟨hcpF, hcpE⟩ := contactPointAt_exact hm hcp
    have hR := hw pRef
    have hI := hw pInc
    obtain ⟨hrrF, hrrE⟩ := pointSub_exact hcpF hR.1 hrr
    obtain ⟨hirF, hirE⟩ := pointSub_exact hcpF hI.1 hir
    obtain ⟨hisF, hisE⟩ := CrossProduct2DScalar_exact hI.2.2.2.2.2 hirF his
    obtain ⟨hrsF, hrsE⟩ := CrossProduct2DScalar_exact hR.2.2.2.2.2 hrrF hrs
    obtain ⟨hrv1F, hrv1E⟩ := pointAdd_exact hI.2.2.2.2.1 hisF hrv1
    obtain ⟨hrv2F, hrv2E⟩ := pointSub_exact hrv1F hR.2.2.2.2.1 hrv2
    obtain ⟨hrv3F, hrv3E⟩ := pointSub_exact hrv2F hrsF hrv3
    obtain ⟨hcvF, hcvE⟩ := DotProduct2D_exact hrv3F hm.2.1 hcv
    have hrrQ : exactPoint refRadius = contactRadius (exactWorld w) pRef (exactPoint cp) := by
      rw [hrrE, contactRadius, exactWorld_get, exactGroup_pos]
    have hirQ : exactPoint incRadius = contactRadius (exactWorld w) pInc (exactPoint cp) := by
      rw [hirE, contactRadius, exactWorld_get, exactGroup_pos]
    have hcvQ : cv.toRat =
        contactVelocityAt (exactManifold m) (exactWorld w) pRef pInc (exactPoint cp) := by
      rw [hcvE, hrv3E, hrv2E, hrv1E, hisE, hrsE, hirQ, hrrQ, contactVelocityAt]
      simp only [exactWorld_body, exactBody_velocity, exactBody_angVelocity,
        exactManifold_normal]
    by_cases hsep : cv > 0
    · rw [if_pos hsep] at h
      have h2 := FloatM.pure_exact h
      subst h2
      refine ⟨hw, ?_⟩
      apply ApplyImpulseLoop_separating _ _ _ _ _ _ _ hcpE
      rw [← hcvQ]
      have := (Binary32.lt_iff_toRat Binary32.isFinite_zero hcvF).mp hsep
      rwa [Binary32.toRat_zero] at this
    · rw [if_neg hsep] at h
      obtain ⟨rcn, hrcn, h⟩ := (FloatM.bind_exact _ _ _).mp h
      obtain ⟨icn, hicn, h⟩ := (FloatM.bind_exact _ _ _).mp h
      obtain ⟨ims1, hims1, h⟩ := (FloatM.bind_exact _ _ _).mp h
      obtain ⟨refSq, hrefSq, h⟩ := (FloatM.bind_exact _ _ _).mp h
      obtain ⟨refTerm, hrefTerm, h⟩ := (FloatM.bind_exact _ _ _).mp h
      obtain ⟨ims2, hims2, h⟩ := (FloatM.bind_exact _ _ _).mp h
      obtain ⟨incSq, hincSq, h⟩ := (FloatM.bind_exact _ _ _).mp h
      obtain ⟨incTerm, hincTerm, h⟩ := (FloatM.bind_exact _ _ _).mp h
      obtain ⟨ims3, hims3, h⟩ := (FloatM.bind_exact _ _ _).mp h
      obtain ⟨onePlus, honePlus, h⟩ := (FloatM.bind_exact _ _ _).mp h
      obtain ⟨imp1, himp1, h⟩ := (FloatM.bind_exact _ _ _).mp h
      obtain ⟨imp, himp, h⟩ := (FloatM.bind_exact _ _ _).mp h
      obtain ⟨impVec, himpVec, h⟩ := (FloatM.bind_exact _ _ _).mp h
      obtain ⟨scaledR, hscaledR, h⟩ := (FloatM.bind_exact _ _ _).mp h
      obtain ⟨velR, hvelR, h⟩ := (FloatM.bind_exact _ _ _).mp h
      obtain ⟨crossR, hcrossR, h⟩ := (FloatM.bind_exact _ _ _).mp h
      obtain ⟨turnR, hturnR, h⟩ := (FloatM.bind_exact _ _ _).mp h
      obtain ⟨angR, hangR, h⟩ := (FloatM.bind_exact _ _ _).mp h
      obtain ⟨scaledI, hscaledI, h⟩ := (FloatM.bind_exact _ _ _).mp h
      obtain ⟨velI, hvelI, h⟩ := (FloatM.bind_exact _ _ _).mp h
      obtain ⟨crossI, hcrossI, h⟩ := (FloatM.bind_exact _ _ _).mp h
      obtain ⟨turnI, hturnI, h⟩ := (FloatM.bind_exact _ _ _).mp h
      obtain ⟨angI, hangI, h⟩ := (FloatM.bind_exact _ _ _).mp h
      obtain ⟨hrcnF, hrcnE⟩ := CrossProduct2D_exact hrrF hm.2.1 hrcn
      obtain ⟨hicnF, hicnE⟩ := CrossProduct2D_exact hirF hm.2.1 hicn
      obtain ⟨hims1F, hims1E⟩ := fadd_exact hR.2.1 hI.2.1 hims1
      obtain ⟨hrefSqF, hrefSqE⟩ := fmul_exact hrcnF hrcnF hrefSq
      obtain ⟨hrefTermF, hrefTermE⟩ := fmul_exact hrefSqF hR.2.2.1 hrefTerm
      obtain ⟨hims2F, hims2E⟩ := fadd_exact hims1F hrefTermF hims2
      obtain ⟨hincSqF, hincSqE⟩ := fmul_exact hicnF hicnF hincSq
      obtain ⟨hincTermF, hincTermE⟩ := fmul_exact hincSqF hI.2.2.1 hincTerm
      obtain ⟨hims3F, hims3E⟩ := fadd_exact hims2F hincTermF hims3
      have hminF := F32.isFinite_fmin hR.2.2.2.1 hI.2.2.2.1
      have hminE := F32.toRat_fmin hR.2.2.2.1 hI.2.2.2.1
      obtain ⟨honePlusF, honePlusE⟩ := fadd_exact Binary32.isFinite_one hminF honePlus
      obtain ⟨himp1F, himp1E⟩ := fmul_exact (Binary32.isFinite_neg honePlusF) hcvF himp1
      obtain ⟨himpF, hims3ne, himpE⟩ := Binary32.div_exact himp1F hims3F (Except.ok.inj himp)
      obtain ⟨himpVecF, himpVecE⟩ := pointMul_exact hm.2.1 himpF himpVec
      obtain ⟨hscaledRF, hscaledRE⟩ := pointMul_exact himpVecF hR.2.1 hscaledR
      obtain ⟨hvelRF, hvelRE⟩ := pointSub_exact hR.2.2.2.2.1 hscaledRF hvelR
      obtain ⟨hcrossRF, hcrossRE⟩ := CrossProduct2D_exact hrrF himpVecF hcrossR
      obtain ⟨hturnRF, hturnRE⟩ := fmul_exact hR.2.2.1 hcrossRF hturnR
      obtain ⟨hangRF, hangRE⟩ := fsub_exact hR.2.2.2.2.2 hturnRF hangR
      have himsQ : ims3.toRat =
          effectiveInverseMass (exactManifold m) (exactWorld w) pRef pInc (exactPoint cp) := by
        rw [hims3E, hincTermE, hincSqE, hims2E, hrefTermE, hrefSqE, hims1E, hrcnE, hicnE,
          hrrQ, hirQ, effectiveInverseMass]
        simp only [exactWorld_body, exactBody_inverseMass, exactBody_inverseInertia,
          exactManifold_normal]
      have himpQ : imp.toRat =
          impulseAt (exactManifold m) (exactWorld w) pRef pInc (exactPoint cp) := by
        rw [himpE, himp1E, Binary32.toRat_neg, honePlusE, hminE, Binary32.toRat_one, himsQ,
          hcvQ, impulseAt]
        simp only [exactWorld_body, exactBody_restitution]
      have hbRF : F32.CCollisionBody.IsFinite
          { w.body pRef with velocity := velR, angVelocity := angR } :=
        ⟨hR.2.1, hR.2.2.1, hR.2.2.2.1, hvelRF, hangRF⟩
      have hw1F := F32.World.isFinite_setBody hw pRef hbRF
      have hw1Q : exactWorld (w.setBody pRef
            { w.body pRef with velocity := velR, angVelocity := angR })
          = impulseRefWritten (exactManifold m) (exactWorld w) pRef pInc (exactPoint cp) := by
        rw [exactWorld_setBody, impulseRefWritten]
        congr 1
        show ({ exactBody (w.body pRef) with
          velocity := exactPoint velR, angVelocity := angR.toRat } : CCollisionBody) = _
        simp only [hvelRE, hscaledRE, himpVecE, himpQ, hangRE, hturnRE, hcrossRE, hrrQ,
          exactWorld_body, exactBody_velocity, exactBody_angVelocity, exactBody_inverseMass,
          exactBody_inverseInertia, exactManifold_normal]
      generalize hw1 : w.setBody pRef
        { w.body pRef with velocity := velR, angVelocity := angR } = w1
        at hscaledI hvelI hturnI hangI h hw1F hw1Q
      have hI1 := hw1F pInc
      obtain ⟨hscaledIF, hscaledIE⟩ := pointMul_exact himpVecF hI1.2.1 hscaledI
      obtain ⟨hvelIF, hvelIE⟩ := pointAdd_exact hI1.2.2.2.2.1 hscaledIF hvelI
      obtain ⟨hcrossIF, hcrossIE⟩ := CrossProduct2D_exact hirF himpVecF hcrossI
      obtain ⟨hturnIF, hturnIE⟩ := fmul_exact hI1.2.2.1 hcrossIF hturnI
      obtain ⟨hangIF, hangIE⟩ := fadd_exact hI1.2.2.2.2.2 hturnIF hangI
      have hbIF : F32.CCollisionBody.IsFinite
          { w1.body pInc with velocity := velI, angVelocity := angI } :=
        ⟨hI1.2.1, hI1.2.2.1, hI1.2.2.2.1, hvelIF, hangIF⟩
      have hw3F := F32.World.isFinite_setBody hw1F pInc hbIF
      have hw3Q : exactWorld (w1.setBody pInc
            { w1.body pInc with velocity := velI, angVelocity := angI })
          = impulseStep (exactManifold m) (exactWorld w) pRef pInc (exactPoint cp) := by
        rw [exactWorld_setBody, impulseStep, ← hw1Q]
        congr 1
        show ({ exactBody (w1.body pInc) with
          velocity := exactPoint velI, angVelocity := angI.toRat } : CCollisionBody) = _
        simp only [hvelIE, hscaledIE, himpVecE, himpQ, hangIE, hturnIE, hcrossIE, hirQ,
          exactWorld_body, exactBody_velocity, exactBody_angVelocity, exactBody_inverseMass,
          exactBody_inverseInertia, exactManifold_normal]
      obtain ⟨hw2F, hw2Q⟩ := ih (i + 1) _ w2 hw3F h
      refine ⟨hw2F, ?_⟩
      rw [ApplyImpulseLoop_succ _ _ _ _ _ _ _ hcpE (by rw [← himsQ]; exact hims3ne),
        if_neg, ← hw3Q]
      · exact hw2Q
      · rw [← hcvQ]
        intro hpos
        apply hsep
        have := (Binary32.lt_iff_toRat Binary32.isFinite_zero hcvF).mpr
          (by rw [Binary32.toRat_zero]; exact hpos)
        exact this

theorem derefF_exact {α : Type} {o : Option α} {a : α}
    (h : derefF o = Except.ok (a, false)) : o = some a := by
  cases o with
  | none => cases h
  | some b =>
    have := (Prod.mk.inj (Except.ok.inj h)).1
    rw [this]

theorem ApplyImpulse_exact {m : F32.CCollisionManifold} {w w1 : F32.World}
    (hm : m.IsFinite) (hw : w.IsFinite)
    (h : F32.CCollisionManifold.ApplyImpulse m w = Except.ok (w1, false)) :
    w1.IsFinite ∧
      CCollisionManifold.ApplyImpulse (exactManifold m) (exactWorld w)
        = Except.ok (exactWorld w1) := by
  unfold F32.CCollisionManifold.ApplyImpulse at h
  obtain ⟨r, hr, h⟩ := (FloatM.bind_exact _ _ _).mp h
  obtain ⟨i, hi, h⟩ := (FloatM.bind_exact _ _ _).mp h
  obtain ⟨hF, hQ⟩ := ApplyImpulseLoop_exact m r i hm _ _ _ _ hw h
  refine ⟨hF, ?_⟩
  have hr2 : (exactManifold m).pRefSprite = some r := derefF_exact hr
  have hi2 : (exactManifold m).pIncSprite = some i := derefF_exact hi
  unfold CCollisionManifold.ApplyImpulse
  rw [hr2, hi2]
  exact hQ

theorem ApplyImpulse_pointers {m : F32.CCollisionManifold} {w w1 : F32.World} {s : Bool}
    (h : F32.CCollisionManifold.ApplyImpulse m w = Except.ok (w1, s)) :
    ∃ r i, m.pRefSprite = some r ∧ m.pIncSprite = some i := by
  unfold F32.CCollisionManifold.ApplyImpulse at h
  obtain ⟨r, s1, s2, hr, h, _⟩ := (FloatM.bind_ok _ _ _ _).mp h
  obtain ⟨i, s3, s4, hi, h, _⟩ := (FloatM.bind_ok _ _ _ _).mp h
  cases hr0 : m.pRefSprite with
  | none => rw [hr0] at hr; cases hr
  | some r0 =>
    cases hi0 : m.pIncSprite with
    | none => rw [hi0] at hi; cases hi
    | some i0 => exact ⟨r0, i0, rfl, rfl⟩

/-! ## The impulse loop and bodies without inverse mass -/

theorem FloatM.total_bind {α β : Type} {c : FloatM α} {f : α → FloatM β}
    (hc : ∃ a s, c = Except.ok (a, s)) (hf : ∀ a, ∃ b t, f a = Except.ok (b, t)) :
    ∃ b t, (c >>= f) = Except.ok (b, t) := by
  obtain ⟨a, s, hc⟩ := hc
  obtain ⟨b, t, hf⟩ := hf a
  exact ⟨b, s || t, (FloatM.bind_ok _ _ _ _).mpr ⟨a, s, t, hc, hf, rfl⟩⟩

theorem FloatM.total_pure {α : Type} (a : α) :
    ∃ b t, (pure a : FloatM α) = Except.ok (b, t) := ⟨a, false, rfl⟩

theorem fquot_total (x y : Binary32) : ∃ z s, fquot x y = Except.ok (z, s) := ⟨_, _, rfl⟩

theorem F32.CPoint.div_total (a : F32.CPoint) (k : Binary32) :
    ∃ c s, a.div k = Except.ok (c, s) :=
  FloatM.total_bind (fquot_total _ _) fun _ =>
    FloatM.total_bind (fquot_total _ _) fun _ => FloatM.total_pure _

namespace Binary32

theorem toRat_ofInt (n : Int) : (ofInt n).toRat = n := by
  unfold ofInt
  rw [toRat_finite]
  have hP : (2 : ℚ) ^ 149 ≠ 0 := by positivity
  by_cases h : n < 0
  · have hd : decide (n < 0) = true := decide_eq_true h
    rw [hd, if_pos rfl, Nat.cast_mul, Nat.cast_pow, Nat.cast_ofNat, neg_div,
      mul_div_assoc, div_self hP, mul_one]
    have h1 : ((n.natAbs : Int) : ℚ) = -(n : ℚ) := by
      rw [Int.ofNat_natAbs_of_nonpos h.le]
      push_cast
      rfl
    have h2 : ((n.natAbs : Int) : ℚ) = (n.natAbs : ℚ) := Int.cast_natCast _
    rw [← h2, h1, neg_neg]
  · have hd : decide (n < 0) = false := decide_eq_false h
    rw [hd, if_neg Bool.false_ne_true, Nat.cast_mul, Nat.cast_pow, Nat.cast_ofNat,
      mul_div_assoc, div_self hP, mul_one]
    have h1 : ((n.natAbs : Int) : ℚ) = (n : ℚ) := by
      rw [Int.natAbs_of_nonneg (not_lt.mp h)]
    have h2 : ((n.natAbs : Int) : ℚ) = (n.natAbs : ℚ) := Int.cast_natCast _
    rw [← h2, h1]

theorem isFinite_ofInt (n : Int) : IsFinite (ofInt n) := trivial

theorem toRat_lit (m : Nat) (e : Int) (he : -149 ≤ e) : (lit m e).toRat = m * (2 : ℚ) ^ e := by
  unfold lit
  rw [toRat_finite, if_neg Bool.false_ne_true, Nat.cast_mul, Nat.cast_pow, Nat.cast_ofNat,
    mul_div_assoc]
  congr 1
  have h2 : (2 : ℚ) ≠ 0 := two_ne_zero
  rw [← zpow_natCast, ← zpow_natCast, ← zpow_sub₀ h2]
  congr 1
  have : ((e + 149).toNat : Int) = e + 149 := Int.toNat_of_nonneg (by omega)
  rw [this]
  simp

end Binary32

/-! ## The example states hold finite numbers -/

theorem F32.isFinite_pairWorld {pA pB : F32.CPoint} {bA bB : F32.CCollisionBody}
    (hpA : pA.IsFinite) (hpB : pB.IsFinite) (hbA : bA.IsFinite) (hbB : bB.IsFinite) :
    (F32.pairWorld pA pB bA bB).IsFinite := by
  intro r
  cases r
  · exact ⟨hpA, hbA⟩
  · exact ⟨hpB, hbB⟩

theorem F32.isFinite_bodyOf {mass inverseMass inertia inverseInertia restitution : Binary32}
    {velocity : F32.CPoint} {angVelocity : Binary32} (h1 : inverseMass.IsFinite)
    (h2 : inverseInertia.IsFinite) (h3 : restitution.IsFinite) (h4 : velocity.IsFinite)
    (h5 : angVelocity.IsFinite) :
    (F32.bodyOf mass inverseMass inertia inverseInertia restitution velocity
      angVelocity).IsFinite :=
  ⟨h1, h2, h3, h4, h5⟩

theorem F32.isFinite_contactManifold {n p : F32.CPoint} (hn : n.IsFinite) (hp : p.IsFinite) :
    (F32.contactManifold n p).IsFinite :=
  ⟨trivial, hn, hp, ⟨trivial, trivial⟩⟩

theorem F32.isFinite_heavyPair {vA vB : F32.CPoint} (hA : vA.IsFinite) (hB : vB.IsFinite) :
    (F32.heavyPair vA vB).IsFinite :=
  F32.isFinite_pairWorld ⟨trivial, trivial⟩ ⟨trivial, trivial⟩
    (F32.isFinite_bodyOf trivial trivial trivial hA trivial)
    (F32.isFinite_bodyOf trivial trivial trivial hB trivial)

theorem exactWorld_heavyPairWith (vA vB : F32.CPoint) (aA aB : Binary32) :
    exactWorld (F32.heavyPairWith vA vB aA aB) =
      ⟨⟨⟨-1, 0⟩, 1, ⟨[], [], ⟨2, 1 / 2, 4, 1 / 4, 1 / 2, exactPoint vA, aA.toRat, ⟨0, 0⟩⟩⟩⟩,
        ⟨⟨1, 0⟩, 1, ⟨[], [], ⟨2, 1 / 2, 4, 1 / 4, 1 / 2, exactPoint vB, aB.toRat, ⟨0, 0⟩⟩⟩⟩⟩ := by
  simp only [F32.heavyPairWith, F32.pairWorld, F32.bodyOf, exactWorld, exactGroup, exactSprite,
    exactBody, exactPoint, F32.CPoint.zero, List.map_nil, Binary32.toRat_ofInt,
    Binary32.toRat_one, Binary32.toRat_zero,
    Binary32.toRat_lit _ _ (by norm_num : (-149 : Int) ≤ -1),
    Binary32.toRat_lit _ _ (by norm_num : (-149 : Int) ≤ -2)]
  norm_num

theorem exactWorld_equalPair (mass inverseMass restitution : Binary32) (vA vB : F32.CPoint) :
    exactWorld (F32.equalPair mass inverseMass restitution vA vB) =
      ⟨⟨⟨-1, 0⟩, 1, ⟨[], [],
          ⟨mass.toRat, inverseMass.toRat, 1, 1, restitution.toRat, exactPoint vA, 0, ⟨0, 0⟩⟩⟩⟩,
        ⟨⟨1, 0⟩, 1, ⟨[], [],
          ⟨mass.toRat, inverseMass.toRat, 1, 1, restitution.toRat, exactPoint vB, 0, ⟨0, 0⟩⟩⟩⟩⟩ := by
  simp only [F32.equalPair, F32.pairWorld, F32.bodyOf, exactWorld, exactGroup, exactSprite,
    exactBody, exactPoint, F32.CPoint.zero, List.map_nil, Binary32.toRat_ofInt,
    Binary32.toRat_one, Binary32.toRat_zero]
  norm_num

theorem F32.heavyPair_eq (vA vB : F32.CPoint) :
    F32.heavyPair vA vB = F32.heavyPairWith vA vB 0 0 := rfl

theorem exactManifold_contactManifold (n p : F32.CPoint) :
    exactManifold (F32.contactManifold n p) =
      { CCollisionManifold.ctor with
        pRefSprite := some SpriteRef.A, pIncSprite := some SpriteRef.B,
        normal := exactPoint n, contactPoint0 := exactPoint p, contactCount := 1 } := by
  simp only [exactManifold, F32.contactManifold, F32.CCollisionManifold.ctor,
    CCollisionManifold.ctor, exactPoint, F32.CPoint.zero, CPoint.zero, Binary32.toRat_zero,
    Option.map_none']

theorem F32.toRat_third : F32.third.toRat = 11184811 / 33554432 := by
  unfold F32.third
  rw [Binary32.toRat_lit _ _ (by norm_num)]
  norm_num

theorem exactWorld_wallPair (vB : F32.CPoint) :
    exactWorld (F32.wallPair vB) =
      ⟨⟨⟨-1, 0⟩, 1, ⟨[], [], ⟨0, 0, 0, 0, 1, ⟨0, 0⟩, 0, ⟨0, 0⟩⟩⟩⟩,
        ⟨⟨1, 0⟩, 1, ⟨[], [], ⟨1, 1, 1, 1, 1, exactPoint vB, 0, ⟨0, 0⟩⟩⟩⟩⟩ := by
  simp only [F32.wallPair, F32.pairWorld, F32.bodyOf, exactWorld, exactGroup, exactSprite,
    exactBody, exactPoint, F32.CPoint.zero, List.map_nil, Binary32.toRat_ofInt,
    Binary32.toRat_one, Binary32.toRat_zero]
  norm_num

namespace F32

open Binary32

theorem CPoint.div_out (a : CPoint) (k : Binary32) : (a.div k).out = Except.ok (a.over k) := by
  unfold CPoint.div
  simp only [FloatM.out_bind, fquot_out, FloatM.out_pure, bind, Except.bind]
  rfl

theorem derefF_out_some {α : Type} (a : α) : (derefF (some a)).out = Except.ok a := rfl

theorem PositionalCorrection_out (m : CCollisionManifold) (w : World) (r i : SpriteRef)
    (hr : m.pRefSprite = some r) (hi : m.pIncSprite = some i) :
    (m.PositionalCorrection w).out =
      Except.ok ((w.setBody r { w.body r with
          positionCorrection :=
            (correctionOf m w r i).times (Binary32.neg (w.body r).inverseMass) }).setBody i
        { (w.setBody r { w.body r with
            positionCorrection :=
              (correctionOf m w r i).times (Binary32.neg (w.body r).inverseMass) }).body i with
          positionCorrection := (correctionOf m w r i).times
            ((w.setBody r { w.body r with
              positionCorrection :=
                (correctionOf m w r i).times
                  (Binary32.neg (w.body r).inverseMass) }).body i).inverseMass }) := by
  unfold F32.CCollisionManifold.PositionalCorrection
  simp only [hr, hi, FloatM.out_bind, derefF_out_some, CPoint.mul_out, fsub_out, fadd_out,
    CPoint.div_out, Except.ok_bind_eq, FloatM.out_pure]
  rfl

end F32

/-! ## Products and quotients of zero -/

namespace Binary32

theorem round_zero (s : Bool) (den : Nat) : (round s 0 den).1 = finite s 0 := by
  unfold Binary32.round
  rw [roundKey_zero, if_neg (by have := overflowKey_pos; omega)]

theorem eq_zero_finite (s : Bool) : eq (finite s 0) 0 = true := by
  cases s <;> rfl

theorem eq_zero_iff_finite {x : Binary32} : eq x 0 = true ↔ ∃ s, x = finite s 0 := by
  rw [eq_zero_iff_rank]
  constructor
  · intro h
    cases x with
    | nan => simp [rank] at h
    | inf a =>
      simp only [rank, Option.some.injEq] at h
      have := overflowKey_pos
      cases a <;> simp at h <;> omega
    | finite a k =>
      simp only [rank, Option.some.injEq] at h
      refine ⟨a, ?_⟩
      cases a <;> simp at h <;> rw [h]
  · rintro ⟨s, rfl⟩
    cases s <;> rfl

theorem times_zero_right {x y : Binary32} (hx : IsFinite x) (hy : eq y 0 = true) :
    eq (times x y) 0 = true := by
  obtain ⟨a, j, rfl⟩ := exists_of_isFinite hx
  obtain ⟨s, rfl⟩ := eq_zero_iff_finite.mp hy
  show eq (mul (finite a j) (finite s 0)).1 0 = true
  simp only [mul, Nat.mul_zero, round_zero]
  exact eq_zero_finite _

theorem times_zero_left {x y : Binary32} (hx : eq x 0 = true) (hy : IsFinite y) :
    eq (times x y) 0 = true := by
  obtain ⟨a, j, rfl⟩ := exists_of_isFinite hy
  obtain ⟨s, rfl⟩ := eq_zero_iff_finite.mp hx
  show eq (mul (finite s 0) (finite a j)).1 0 = true
  simp only [mul, Nat.zero_mul, round_zero]
  exact eq_zero_finite _

theorem over_zero_left {x y : Binary32} (hx : eq x 0 = true) (hy : IsFinite y)
    (hne : ne y 0 = true) : eq (over x y) 0 = true := by
  obtain ⟨a, k, rfl⟩ := exists_of_isFinite hy
  obtain ⟨s, rfl⟩ := eq_zero_iff_finite.mp hx
  have hk : k ≠ 0 := by
    rintro rfl
    rw [ne, eq_zero_finite] at hne
    cases hne
  show eq (div (finite s 0) (finite a k)).1 0 = true
  simp only [div, if_neg hk, Nat.zero_mul, round_zero]
  exact eq_zero_finite _

theorem isFinite_of_eq_zero {x : Binary32} (h : eq x 0 = true) : IsFinite x := by
  obtain ⟨s, rfl⟩ := eq_zero_iff_finite.mp h
  trivial

end Binary32

namespace F32

open Binary32

/-- The value `max(d, 0.f)` is zero when `d ≤ 0`. -/
theorem fmax_zero_of_le {d : Binary32} (h : d ≤ 0) : eq (fmax d 0) 0 = true := by
  unfold fmax
  split_ifs with hlt
  · rfl
  · obtain ⟨a, b, ha, hb, hab⟩ := (le_iff_rank d 0).mp h
    rw [rank_zero] at hb
    cases hb
    have hnot : ¬ a < 0 := by
      intro hneg
      exact hlt ((lt_iff_rank d 0).mpr ⟨a, 0, ha, rank_zero, hneg⟩)
    have h0 : a = 0 := by omega
    rw [eq_zero_iff_rank, ha, h0]

end F32

/-! ## The sign of a difference -/

namespace Binary32

theorem le_zero_iff (x : Binary32) :
    x ≤ 0 ↔ ∃ a : Int, rank x = some a ∧ a ≤ 0 := by
  rw [le_iff_rank]
  constructor
  · rintro ⟨a, b, ha, hb, hab⟩
    rw [rank_zero] at hb
    cases hb
    exact ⟨a, ha, hab⟩
  · rintro ⟨a, ha, h⟩
    exact ⟨a, 0, ha, rank_zero, h⟩

theorem round_true_le_zero (num den : Nat) : (round true num den).1 ≤ 0 := by
  unfold round
  rw [le_zero_iff]
  split_ifs
  · exact ⟨_, rfl, by simp⟩
  · exact ⟨_, rfl, by simp⟩

theorem minus_le_zero {x y : Binary32} (hy : IsFinite y) (hinf : y < inf false)
    (h : x ≤ y) : minus x y ≤ 0 := by
  obtain ⟨b, k, rfl⟩ := exists_of_isFinite hy
  obtain ⟨p, q, hp, hq, hpq⟩ := (le_iff_rank _ _).mp h
  obtain ⟨q2, t, hq2, ht, hqt⟩ := (lt_iff_rank _ _).mp hinf
  rw [hq] at hq2
  cases hq2
  simp only [rank, Option.some.injEq, Bool.false_eq_true, if_false] at hq ht
  cases x with
  | nan => simp [rank] at hp
  | inf a =>
    simp only [rank, Option.some.injEq] at hp
    cases a
    · simp only [Bool.false_eq_true, if_false] at hp
      omega
    · show (add (inf true) (neg (finite b k))).1 ≤ 0
      simp only [neg, add]
      rw [le_zero_iff]
      exact ⟨_, rfl, by simp⟩
  | finite a j =>
    simp only [rank, Option.some.injEq] at hp
    show (add (finite a j) (neg (finite b k))).1 ≤ 0
    simp only [neg, add]
    cases a <;> cases b <;>
      simp only [Bool.not_true, Bool.not_false, Bool.false_eq_true, if_true, if_false,
        Bool.true_eq_false] at hp hq ⊢
    · split_ifs with h1 h2
      · rw [le_zero_iff]
        exact ⟨0, rfl, le_refl 0⟩
      · omega
      · exact round_true_le_zero _ _
    · have hj : j = 0 := by omega
      have hk : k = 0 := by omega
      subst hj hk
      rw [le_zero_iff]
      exact ⟨0, rfl, le_refl 0⟩
    · exact round_true_le_zero _ _
    · split_ifs with h1 h2
      · rw [le_zero_iff]
        exact ⟨0, rfl, le_refl 0⟩
      · exact round_true_le_zero _ _
      · omega

end Binary32

namespace F32

open Binary32

theorem PositionalCorrection_bodies (m : CCollisionManifold) (w : World) (r i : SpriteRef)
    (hr : m.pRefSprite = some r) (hi : m.pIncSprite = some i) (hri : r ≠ i) :
    ∃ w1, (m.PositionalCorrection w).out = Except.ok w1 ∧
      (w1.body r).positionCorrection =
        (correctionOf m w r i).times (Binary32.neg (w.body r).inverseMass) ∧
      (w1.body i).positionCorrection = (correctionOf m w r i).times (w.body i).inverseMass := by
  refine ⟨_, PositionalCorrection_out m w r i hr hi, ?_, ?_⟩
  · rw [World.body_setBody_distinct _ _ _ _ hri, World.body_setBody_self]
  · rw [World.body_setBody_self, World.body_setBody_distinct _ _ _ _ (Ne.symm hri)]

theorem CPoint.times_isZero_right {c : CPoint} {k : Binary32} (hc : c.IsFinite)
    (hk : Binary32.eq k 0 = true) : (c.times k).IsZero :=
  ⟨times_zero_right hc.1 hk, times_zero_right hc.2 hk⟩

theorem CPoint.times_isZero_left {c : CPoint} {k : Binary32} (hc : c.IsZero)
    (hk : k.IsFinite) : (c.times k).IsZero :=
  ⟨times_zero_left hc.1 hk, times_zero_left hc.2 hk⟩

theorem CPoint.over_isZero {c : CPoint} {k : Binary32} (hc : c.IsZero) (hk : k.IsFinite)
    (hne : Binary32.ne k 0 = true) : (c.over k).IsZero :=
  ⟨over_zero_left hc.1 hk hne, over_zero_left hc.2 hk hne⟩

theorem correctionOf_isZero (m : CCollisionManifold) (w : World) (r i : SpriteRef)
    (hpen : m.penetration ≤ SLOP) (hn : (m.normal.times PERCENT).IsFinite)
    (hsum : (Binary32.plus (w.body r).inverseMass (w.body i).inverseMass).IsFinite)
    (hne : Binary32.ne (Binary32.plus (w.body r).inverseMass (w.body i).inverseMass) 0 = true) :
    (correctionOf m w r i).IsZero := by
  unfold correctionOf
  apply CPoint.over_isZero _ hsum hne
  apply CPoint.times_isZero_right hn
  apply fmax_zero_of_le
  exact minus_le_zero (isFinite_lit _ _) (by rfl) hpen

end F32

namespace Binary32

theorem eq_zero_neg {x : Binary32} (h : eq x 0 = true) : eq (neg x) 0 = true := by
  obtain ⟨s, rfl⟩ := eq_zero_iff_finite.mp h
  exact eq_zero_finite _

end Binary32

theorem F32.toRat_PERCENT : F32.PERCENT.toRat = 13421773 / 67108864 := by
  unfold F32.PERCENT
  rw [Binary32.toRat_lit _ _ (by norm_num)]
  norm_num

theorem F32.toRat_SLOP : F32.SLOP.toRat = 5368709 / 536870912 := by
  unfold F32.SLOP
  rw [Binary32.toRat_lit _ _ (by norm_num)]
  norm_num

/-! ## The float incident edge search finds the first least dot product -/

namespace F32

open Binary32

theorem FindIncidentEdgeLoop_out (n : CPoint) (es : List CEdge) :
    ∀ (minValue : Binary32) (p : Option CEdge),
      (CCollisionManifold.FindIncidentEdgeLoop n es minValue p).out =
        Except.ok (incidentSearch n es minValue p) := by
  induction es with
  | nil =>
    intro minValue p
    rfl
  | cons e es ih =>
    intro minValue p
    unfold F32.CCollisionManifold.FindIncidentEdgeLoop incidentSearch
    simp only [FloatM.out_bind, DotProduct2D_out, Except.ok_bind_eq, FloatM.out_ite, ih]
    split_ifs <;> rfl

theorem FindIncidentEdge_out (m : CCollisionManifold) (w : World) (i : SpriteRef) (ref : CEdge)
    (hi : m.pIncSprite = some i) (hr : m.pRefEdge = some ref) :
    (m.FindIncidentEdge w).out =
      Except.ok { m with pIncEdge := (incidentSearch ref.normal
        (w.get i).collisionSprite.outerEdge FLT_MAX m.pIncEdge).2 } := by
  unfold F32.CCollisionManifold.FindIncidentEdge
  simp only [hi, hr, FloatM.out_bind, derefF_out_some, FindIncidentEdgeLoop_out,
    Except.ok_bind_eq, FloatM.out_pure]

theorem incidentSearch_first (n : CPoint) (es : List CEdge) :
    ∀ (minValue : Binary32) (p : Option CEdge),
      (incidentSearch n es minValue p = (minValue, p) ∧
          ∀ e ∈ es, ¬ dot n e.normal < minValue) ∨
        (∃ (k : Nat) (e1 : CEdge), es[k]? = some e1 ∧
          incidentSearch n es minValue p = (dot n e1.normal, some e1) ∧
          dot n e1.normal < minValue ∧
          (∀ (j : Nat) (e2 : CEdge), j < k → es[j]? = some e2 →
            ¬ dot n e2.normal ≤ dot n e1.normal) ∧
          ∀ e ∈ es, ¬ dot n e.normal < dot n e1.normal) := by
  induction es with
  | nil =>
    intro minValue p
    left
    simp [incidentSearch]
  | cons e es ih =>
    intro minValue p
    simp only [incidentSearch]
    by_cases hc : dot n e.normal < minValue
    · rw [if_pos hc]
      rcases ih (dot n e.normal) (some e) with
        ⟨h1, h2⟩ | ⟨k, e1, hk, hr, hlt, hfirst, hall⟩
      · right
        refine ⟨0, e, by simp, h1, hc, ?_, ?_⟩
        · intro j e2 hj
          exact absurd hj (Nat.not_lt_zero j)
        · intro e2 he2
          rcases List.mem_cons.mp he2 with rfl | he2
          · exact lt_irrefl _
          · exact h2 e2 he2
      · right
        refine ⟨k + 1, e1, by simpa using hk, hr, lt_trans hlt hc, ?_, ?_⟩
        · intro j e2 hj hj2
          cases j with
          | zero =>
            simp only [List.getElem?_cons_zero, Option.some.injEq] at hj2
            subst hj2
            exact not_le_of_lt hlt
          | succ j =>
            simp only [List.getElem?_cons_succ] at hj2
            exact hfirst j e2 (by omega) hj2
        · intro e2 he2
          rcases List.mem_cons.mp he2 with rfl | he2
          · exact not_lt_of_le (le_of_lt hlt)
          · exact hall e2 he2
    · rw [if_neg hc]
      rcases ih minValue p with ⟨h1, h2⟩ | ⟨k, e1, hk, hr, hlt, hfirst, hall⟩
      · left
        refine ⟨h1, ?_⟩
        intro e2 he2
        rcases List.mem_cons.mp he2 with rfl | he2
        · exact hc
        · exact h2 e2 he2
      · right
        refine ⟨k + 1, e1, by simpa using hk, hr, hlt, ?_, ?_⟩
        · intro j e2 hj hj2
          cases j with
          | zero =>
            simp only [List.getElem?_cons_zero, Option.some.injEq] at hj2
            subst hj2
            exact fun hle => hc (lt_of_le_of_lt hle hlt)
          | succ j =>
            simp only [List.getElem?_cons_succ] at hj2
            exact hfirst j e2 (by omega) hj2
        · intro e2 he2
          rcases List.mem_cons.mp he2 with rfl | he2
          · exact fun h => hc (lt_trans h hlt)
          · exact hall e2 he2

end F32

/-! ## The float point impulse, step by step -/

namespace F32

open Binary32

theorem CrossProduct2D_out (a b : CPoint) :
    (F32.NMathFunc.CrossProduct2D a b).out = Except.ok (cross a b) := by
  unfold F32.NMathFunc.CrossProduct2D
  simp only [FloatM.out_bind, fmul_out, fsub_out, Except.ok_bind_eq]
  rfl

theorem ApplyPointImpulseLoop_out (point : CPoint) (radius : Binary32) (es : List CEdge) :
    ∀ (s : Binary32) (p : Option CEdge),
      (F32.NCollisionResFunc2D.ApplyPointImpulseLoop point radius es s p).out =
        Except.ok (pointSearch point radius es s p) := by
  induction es with
  | nil =>
    intro s p
    rfl
  | cons e es ih =>
    intro s p
    unfold F32.NCollisionResFunc2D.ApplyPointImpulseLoop pointSearch
    simp only [FloatM.out_bind, CPoint.sub_out, DotProduct2D_out, Except.ok_bind_eq,
      FloatM.out_ite, ih, FloatM.out_pure]
    show (if pointSeparation point e > radius then Except.ok none
      else if pointSeparation point e > s then
        Except.ok (pointSearch point radius es (pointSeparation point e) (some e))
      else Except.ok (pointSearch point radius es s p)) = _
    split_ifs <;> rfl

theorem pointSearch_first (point : CPoint) (radius : Binary32) (es : List CEdge)
    (hreach : ∀ e ∈ es, ¬ pointSeparation point e > radius) :
    ∀ (s : Binary32) (p : Option CEdge),
      (pointSearch point radius es s p = some (s, p) ∧
          ∀ e ∈ es, ¬ s < pointSeparation point e) ∨
        (∃ (k : Nat) (e1 : CEdge), es[k]? = some e1 ∧
          pointSearch point radius es s p = some (pointSeparation point e1, some e1) ∧
          s < pointSeparation point e1 ∧
          (∀ (j : Nat) (e2 : CEdge), j < k → es[j]? = some e2 →
            ¬ pointSeparation point e1 ≤ pointSeparation point e2) ∧
          ∀ e ∈ es, ¬ pointSeparation point e1 < pointSeparation point e) := by
  induction es with
  | nil =>
    intro s p
    left
    simp [pointSearch]
  | cons e es ih =>
    intro s p
    have hreach2 : ∀ e2 ∈ es, ¬ pointSeparation point e2 > radius :=
      fun e2 he2 => hreach e2 (List.mem_cons_of_mem _ he2)
    have he : ¬ pointSeparation point e > radius := hreach e (List.mem_cons_self _ _)
    simp only [pointSearch, if_neg he]
    by_cases hc : pointSeparation point e > s
    · rw [if_pos hc]
      rcases ih hreach2 (pointSeparation point e) (some e) with
        ⟨h1, h2⟩ | ⟨k, e1, hk, hr, hlt, hfirst, hall⟩
      · right
        refine ⟨0, e, by simp, h1, hc, ?_, ?_⟩
        · intro j e2 hj
          exact absurd hj (Nat.not_lt_zero j)
        · intro e2 he2
          rcases List.mem_cons.mp he2 with rfl | he2
          · exact lt_irrefl _
          · exact h2 e2 he2
      · right
        refine ⟨k + 1, e1, by simpa using hk, hr, lt_trans hc hlt, ?_, ?_⟩
        · intro j e2 hj hj2
          cases j with
          | zero =>
            simp only [List.getElem?_cons_zero, Option.some.injEq] at hj2
            subst hj2
            exact not_le_of_lt hlt
          | succ j =>
            simp only [List.getElem?_cons_succ] at hj2
            exact hfirst j e2 (by omega) hj2
        · intro e2 he2
          rcases List.mem_cons.mp he2 with rfl | he2
          · exact not_lt_of_le (le_of_lt hlt)
          · exact hall e2 he2
    · rw [if_neg hc]
      rcases ih hreach2 s p with ⟨h1, h2⟩ | ⟨k, e1, hk, hr, hlt, hfirst, hall⟩
      · left
        refine ⟨h1, ?_⟩
        intro e2 he2
        rcases List.mem_cons.mp he2 with rfl | he2
        · exact hc
        · exact h2 e2 he2
      · right
        refine ⟨k + 1, e1, by simpa using hk, hr, hlt, ?_, ?_⟩
        · intro j e2 hj hj2
          cases j with
          | zero =>
            simp only [List.getElem?_cons_zero, Option.some.injEq] at hj2
            subst hj2
            exact fun hle => hc (lt_of_lt_of_le hlt hle)
          | succ j =>
            simp only [List.getElem?_cons_succ] at hj2
            exact hfirst j e2 (by omega) hj2
        · intro e2 he2
          rcases List.mem_cons.mp he2 with rfl | he2
          · exact fun h => hc (lt_trans hlt h)
          · exact hall e2 he2

theorem ApplyPointImpulseContact_inside_out (Normalize2D : CPoint → FloatM CPoint)
    (point : CPoint) (radius sep : Binary32) (e : CEdge) (h : sep < MIN_SEPARATION) :
    (F32.NCollisionResFunc2D.ApplyPointImpulseContact Normalize2D point radius sep
        (some e)).out =
      Except.ok (some (e.normal.neg, point.plus (e.normal.neg.times radius), radius)) := by
  unfold F32.NCollisionResFunc2D.ApplyPointImpulseContact
  rw [if_pos h]
  simp only [FloatM.out_bind, derefF_out_some, CPoint.mul_out, CPoint.add_out,
    Except.ok_bind_eq, FloatM.out_pure]

theorem ApplyPointImpulse_out_eq (Normalize2D : CPoint → FloatM CPoint) (point : CPoint)
    (radius inverseRadius force : Binary32) (w : World) (pSprite : SpriteRef)
    (diminishingForce : Bool) (sep : Binary32) (pEdge : Option CEdge)
    (normal contact : CPoint) (pen : Binary32)
    (hloop : pointSearch point radius (w.get pSprite).collisionSprite.outerEdge
      (Binary32.neg FLT_MAX) none = some (sep, pEdge))
    (hcontact : (F32.NCollisionResFunc2D.ApplyPointImpulseContact Normalize2D point radius sep
      pEdge).out = Except.ok (some (normal, contact, pen))) :
    (F32.NCollisionResFunc2D.ApplyPointImpulse Normalize2D point radius inverseRadius force w
        pSprite diminishingForce).out =
      Except.ok (pointImpulseWorld w pSprite contact
        (pointImpulseVec normal force pen inverseRadius diminishingForce)) := by
  unfold F32.NCollisionResFunc2D.ApplyPointImpulse
  simp only [FloatM.out_bind, ApplyPointImpulseLoop_out, hloop, hcontact, Except.ok_bind_eq]
  cases diminishingForce
  · simp only [Bool.false_eq_true, if_false, FloatM.out_bind, CPoint.mul_out, CPoint.add_out,
      CPoint.sub_out, CrossProduct2D_out, fmul_out, fadd_out, Except.ok_bind_eq,
      FloatM.out_pure]
    rfl
  · simp only [if_true, FloatM.out_bind, CPoint.mul_out, CPoint.add_out,
      CPoint.sub_out, CrossProduct2D_out, fmul_out, fadd_out, Except.ok_bind_eq,
      FloatM.out_pure]
    rfl

theorem pointImpulseWorld_body_binary32 (w : World) (pSprite : SpriteRef) (contact impulseVec : CPoint) :
    ((pointImpulseWorld w pSprite contact impulseVec).body pSprite).velocity =
        (w.body pSprite).velocity.plus (impulseVec.times (w.body pSprite).inverseMass) ∧
      ((pointImpulseWorld w pSprite contact impulseVec).body pSprite).angVelocity =
        Binary32.plus (w.body pSprite).angVelocity
          (Binary32.times (w.body pSprite).inverseInertia
            (cross (contact.minus (w.get pSprite).pos) impulseVec)) := by
  unfold pointImpulseWorld
  rw [World.body_setBody_self]
  exact ⟨rfl, rfl⟩

end F32

theorem exactPoint_neg (p : F32.CPoint) : exactPoint p.neg = -exactPoint p := by
  show (⟨(Binary32.neg p.x).toRat, (Binary32.neg p.y).toRat⟩ : CPoint) = _
  rw [Binary32.toRat_neg, Binary32.toRat_neg]
  rfl

theorem F32.CPoint.isFinite_neg_iff {p : F32.CPoint} (h : p.IsFinite) : p.neg.IsFinite :=
  ⟨Binary32.isFinite_neg h.1, Binary32.isFinite_neg h.2⟩

theorem pointMul_value {a c : F32.CPoint} {k : Binary32} {s : Bool}
    (h : a.mul k = Except.ok (c, s)) : c = a.times k := by
  have h1 := F32.CPoint.mul_out a k
  rw [h] at h1
  exact Except.ok.inj h1

theorem F32.toRat_MIN_SEPARATION : F32.MIN_SEPARATION.toRat = 13743895 / 137438953472 := by
  unfold F32.MIN_SEPARATION
  rw [Binary32.toRat_lit _ _ (by norm_num)]
  norm_num

/-- The impulse vector with `diminishingForce` when its three products are exact. -/
theorem pointImpulseVec_exact {normal v1 v2 v3 : F32.CPoint} {force pen ir : Binary32}
    (hn : normal.IsFinite) (hf : force.IsFinite) (hp : pen.IsFinite) (hi : ir.IsFinite)
    (h1 : normal.mul force = Except.ok (v1, false)) (h2 : v1.mul pen = Except.ok (v2, false))
    (h3 : v2.mul ir = Except.ok (v3, false)) :
    F32.pointImpulseVec normal force pen ir true = v3 ∧
      exactPoint v3 = exactPoint normal * force.toRat * pen.toRat * ir.toRat := by
  obtain ⟨h1F, h1E⟩ := pointMul_exact hn hf h1
  obtain ⟨h2F, h2E⟩ := pointMul_exact h1F hp h2
  obtain ⟨_, h3E⟩ := pointMul_exact h2F hi h3
  refine ⟨?_, by rw [h3E, h2E, h1E]⟩
  unfold F32.pointImpulseVec
  rw [if_pos rfl, pointMul_value h3, pointMul_value h2, pointMul_value h1]

namespace F32

open Binary32

theorem pointSearch_none (point : CPoint) (radius : Binary32) (es : List CEdge)
    (h : ∃ e ∈ es, pointSeparation point e > radius) (s : Binary32) (p : Option CEdge) :
    pointSearch point radius es s p = none := by
  induction es generalizing s p with
  | nil =>
    obtain ⟨e, he, _⟩ := h
    cases he
  | cons e0 rest ih =>
    unfold pointSearch
    by_cases h0 : pointSeparation point e0 > radius
    · simp only [if_pos h0]
    · have hrest : ∃ e ∈ rest, pointSeparation point e > radius := by
        obtain ⟨e, he, hgt⟩ := h
        rcases List.mem_cons.mp he with heq | hmem
        · subst heq
          exact absurd hgt h0
        · exact ⟨e, hmem, hgt⟩
      simp only [if_neg h0]
      split_ifs
      · exact ih hrest _ _
      · exact ih hrest _ _

theorem pointSearch_reach (point : CPoint) (radius : Binary32) (es : List CEdge)
    (s : Binary32) (p : Option CEdge) (r : Binary32 × Option CEdge)
    (h : pointSearch point radius es s p = some r) :
    ∀ e ∈ es, ¬ pointSeparation point e > radius := by
  intro e he hc
  rw [pointSearch_none point radius es ⟨e, he, hc⟩ s p] at h
  cases h

theorem pointSearch_le (point : CPoint) (radius : Binary32) (es : List CEdge)
    (s : Binary32) (p : Option CEdge) (sep : Binary32) (pe : Option CEdge)
    (hs : ¬ s > radius) (h : pointSearch point radius es s p = some (sep, pe)) :
    ¬ sep > radius := by
  have hreach := pointSearch_reach point radius es _ _ _ h
  rcases pointSearch_first point radius es hreach s p with
    ⟨h1, _⟩ | ⟨k, e1, hk, hr, _, _, _⟩
  · rw [h1] at h
    simp only [Option.some.injEq, Prod.mk.injEq] at h
    rw [← h.1]
    exact hs
  · rw [hr] at h
    simp only [Option.some.injEq, Prod.mk.injEq] at h
    rw [← h.1]
    exact hreach e1 (List.getElem?_mem hk)

theorem GetLengthSquared_total (p : CPoint) :
    ∃ z, (F32.NCollisionResFunc2D.GetLengthSquared p).out = Except.ok z := by
  unfold F32.NCollisionResFunc2D.GetLengthSquared
  simp only [FloatM.out_bind, fmul_out, fadd_out, Except.ok_bind_eq]
  exact ⟨_, rfl⟩

theorem ApplyPointImpulseContact_penetration_binary32 (Normalize2D : CPoint → FloatM CPoint)
    (point : CPoint) (radius sep : Binary32) (pEdge : Option CEdge) (normal contact : CPoint)
    (pen : Binary32)
    (h : (F32.NCollisionResFunc2D.ApplyPointImpulseContact Normalize2D point radius sep
      pEdge).out = Except.ok (some (normal, contact, pen))) :
    (sep < MIN_SEPARATION → pen = radius) ∧
      (¬ sep < MIN_SEPARATION → pen = Binary32.minus radius sep) := by
  unfold F32.NCollisionResFunc2D.ApplyPointImpulseContact at h
  cases pEdge with
  | none =>
    exfalso
    split_ifs at h
    · simp only [FloatM.out_bind] at h
      cases h
    · simp only [FloatM.out_bind, fsub_out, Except.ok_bind_eq] at h
      cases h
  | some e =>
    split_ifs at h with h1
    · simp only [FloatM.out_bind, derefF_out_some, CPoint.mul_out, CPoint.add_out,
        Except.ok_bind_eq, FloatM.out_pure, Except.ok.injEq, Option.some.injEq,
        Prod.mk.injEq] at h
      exact ⟨fun _ => h.2.2.symm, fun hn => absurd h1 hn⟩
    · refine ⟨fun hn => absurd hn h1, fun _ => ?_⟩
      obtain ⟨z0, hz0⟩ := GetLengthSquared_total (point.minus e.pVert0)
      obtain ⟨z1, hz1⟩ := GetLengthSquared_total (point.minus e.pVert1)
      simp only [FloatM.out_bind, fsub_out, derefF_out_some, CPoint.sub_out,
        DotProduct2D_out, Except.ok_bind_eq, FloatM.out_ite, hz0, hz1, fmul_out,
        FloatM.out_pure, CPoint.mul_out, CPoint.add_out] at h
      split_ifs at h with h2 h3 h4 h5 h6
      · cases h
      · cases hN : (Normalize2D (e.pVert0.minus point)).out with
        | error f => rw [hN] at h; cases h
        | ok q =>
          rw [hN] at h
          simp only [Except.ok_bind_eq, Except.ok.injEq, Option.some.injEq,
            Prod.mk.injEq] at h
          exact h.2.2.symm
      · cases h
      · cases hN : (Normalize2D (e.pVert1.minus point)).out with
        | error f => rw [hN] at h; cases h
        | ok q =>
          rw [hN] at h
          simp only [Except.ok_bind_eq, Except.ok.injEq, Option.some.injEq,
            Prod.mk.injEq] at h
          exact h.2.2.symm
      · cases h
      · simp only [Except.ok.injEq, Option.some.injEq, Prod.mk.injEq] at h
        exact h.2.2.symm

end F32

theorem scaled_length_le (n : CPoint) (f t : ℚ) (ht0 : 0 ≤ t) (ht1 : t ≤ 1)
    (hn : DotProduct2D n n ≤ 1) : GetLengthSquared (n * f * t) ≤ f * f := by
  simp only [GetLengthSquared, CPoint.mul_x, CPoint.mul_y]
  simp only [DotProduct2D] at hn
  have hsq : t * t ≤ 1 := by nlinarith
  have hsq0 : 0 ≤ t * t := mul_self_nonneg _
  have hff : 0 ≤ f * f := mul_self_nonneg _
  have h1 : (n.x * n.x + n.y * n.y) * (t * t) ≤ 1 := by
    calc (n.x * n.x + n.y * n.y) * (t * t) ≤ 1 * 1 := mul_le_mul hn hsq hsq0 (by norm_num)
      _ = 1 := by norm_num
  calc n.x * f * t * (n.x * f * t) + n.y * f * t * (n.y * f * t)
      = (f * f) * ((n.x * n.x + n.y * n.y) * (t * t)) := by ring
    _ ≤ (f * f) * 1 := mul_le_mul_of_nonneg_left h1 hff
    _ = f * f := by ring

theorem Binary32.toRat_lit_nonneg (m : Nat) (e : Int) : 0 ≤ (Binary32.lit m e).toRat := by
  unfold Binary32.lit
  rw [Binary32.toRat_finite, if_neg Bool.false_ne_true]
  positivity

/-- The scale factor `penetration / radius` of the point impulse lies in `[0, 1]` when the
penetration was computed without rounding. -/
theorem point_penetration_bounds (point : F32.CPoint) (radius sep pen : Binary32)
    (es : List F32.CEdge) (pEdge : Option F32.CEdge)
    (hloop : F32.pointSearch point radius es (Binary32.neg F32.FLT_MAX) none =
      some (sep, pEdge))
    (hin : sep < F32.MIN_SEPARATION → pen = radius)
    (hrad : radius.IsFinite) (hsep : sep.IsFinite) (hpos : 0 < radius.toRat)
    (hsub : ¬ sep < F32.MIN_SEPARATION → fsub radius sep = Except.ok (pen, false)) :
    pen.IsFinite ∧ 0 ≤ pen.toRat ∧ pen.toRat ≤ radius.toRat := by
  by_cases hc : sep < F32.MIN_SEPARATION
  · rw [hin hc]
    exact ⟨hrad, hpos.le, le_refl _⟩
  · obtain ⟨hpF, hpE⟩ := fsub_exact hrad hsep (hsub hc)
    have hstart : ¬ Binary32.neg F32.FLT_MAX > radius := by
      intro hgt
      have h1 := (Binary32.lt_iff_toRat hrad
        (Binary32.isFinite_neg (Binary32.isFinite_lit _ _))).mp hgt
      rw [Binary32.toRat_neg] at h1
      have h2 : (0 : ℚ) ≤ (Binary32.lit 16777215 104).toRat :=
        Binary32.toRat_lit_nonneg 16777215 104
      linarith only [h1, h2, hpos]
    have hle := F32.pointSearch_le point radius es _ _ sep pEdge hstart hloop
    have h1 : sep.toRat ≤ radius.toRat := by
      by_contra hcon
      exact hle ((Binary32.lt_iff_toRat hrad hsep).mpr (not_le.mp hcon))
    have h2 : F32.MIN_SEPARATION.toRat ≤ sep.toRat := by
      by_contra hcon
      exact hc ((Binary32.lt_iff_toRat hsep (Binary32.isFinite_lit _ _)).mpr (not_le.mp hcon))
    have h3 : (0 : ℚ) < F32.MIN_SEPARATION.toRat := by
      rw [F32.toRat_MIN_SEPARATION]
      norm_num
    refine ⟨hpF, ?_, ?_⟩ <;> rw [hpE] <;> linarith only [h1, h2, h3]

/-! ## The float `Clip` without rounding -/

theorem planeDistance_exact {n x : F32.CPoint} {c dotv d : Binary32} (hn : n.IsFinite)
    (hx : x.IsFinite) (hc : c.IsFinite)
    (h1 : F32.NMathFunc.DotProduct2D x n = Except.ok (dotv, false))
    (h2 : fsub dotv c = Except.ok (d, false)) :
    d.IsFinite ∧ d = F32.planeDistance n c x ∧
      d.toRat = DotProduct2D (exactPoint x) (exactPoint n) - c.toRat := by
  obtain ⟨hdF, hdE⟩ := DotProduct2D_exact hx hn h1
  obtain ⟨hF, hE⟩ := fsub_exact hdF hc h2
  refine ⟨hF, ?_, by rw [hE, hdE]⟩
  have hv1 := F32.DotProduct2D_out x n
  rw [h1] at hv1
  have hv2 := fsub_out dotv c
  rw [h2] at hv2
  have e1 : dotv = F32.dot x n := Except.ok.inj hv1
  have e2 : d = Binary32.minus dotv c := Except.ok.inj hv2
  rw [e2, e1]
  rfl

theorem FloatM.ret_bind {α β : Type} (a : α) (f : α → FloatM β) :
    (FloatM.ret a >>= f) = f a := by
  rw [FloatM.bind_def]
  simp only [FloatM.andThen, FloatM.ret]
  cases h : f a with
  | error e => rfl
  | ok r =>
    obtain ⟨b, t⟩ := r
    simp

theorem FloatM.pure_bind_eq {α β : Type} (a : α) (f : α → FloatM β) :
    ((pure a : FloatM α) >>= f) = f a := FloatM.ret_bind a f

theorem F32.setClipped_zero (c : F32.CPoint × F32.CPoint) (p : F32.CPoint) :
    F32.NCollisionResFunc2D.setClipped c 0 p = FloatM.ret (p, c.2) := rfl

theorem F32.setClipped_one (c : F32.CPoint × F32.CPoint) (p : F32.CPoint) :
    F32.NCollisionResFunc2D.setClipped c 1 p = FloatM.ret (c.1, p) := rfl

theorem clipSteps_exact {p1 p2 diff step q : F32.CPoint} {d1 d2 den alpha : Binary32}
    (hp1 : p1.IsFinite) (hp2 : p2.IsFinite) (hd1 : d1.IsFinite) (hd2 : d2.IsFinite)
    (hden : fsub d1 d2 = Except.ok (den, false))
    (halpha : fquot d1 den = Except.ok (alpha, false))
    (hdiff : p2.sub p1 = Except.ok (diff, false))
    (hstep : diff.mul alpha = Except.ok (step, false))
    (hq : p1.add step = Except.ok (q, false)) :
    q.IsFinite ∧ d1.toRat - d2.toRat ≠ 0 ∧
      exactPoint q = exactPoint p1 + (exactPoint p2 - exactPoint p1) *
        (d1.toRat / (d1.toRat - d2.toRat)) := by
  obtain ⟨hdenF, hdenE⟩ := fsub_exact hd1 hd2 hden
  obtain ⟨halphaF, hne, halphaE⟩ := Binary32.div_exact hd1 hdenF (Except.ok.inj halpha)
  obtain ⟨hdiffF, hdiffE⟩ := pointSub_exact hp2 hp1 hdiff
  obtain ⟨hstepF, hstepE⟩ := pointMul_exact hdiffF halphaF hstep
  obtain ⟨hqF, hqE⟩ := pointAdd_exact hp1 hstepF hq
  refine ⟨hqF, by rw [← hdenE]; exact hne, ?_⟩
  rw [hqE, hstepE, hdiffE, halphaE, hdenE]

theorem Clip_exact {n p1 p2 q1 q2 : F32.CPoint} {c : Binary32} {k : Nat} (hn : n.IsFinite)
    (hc : c.IsFinite) (hp1 : p1.IsFinite) (hp2 : p2.IsFinite)
    (h : F32.NCollisionResFunc2D.Clip n c (p1, p2) = Except.ok ((k, (q1, q2)), false)) :
    q1.IsFinite ∧ q2.IsFinite ∧
      Clip (exactPoint n) c.toRat (exactPoint p1, exactPoint p2) =
        Except.ok (k, (exactPoint q1, exactPoint q2)) := by
  unfold F32.NCollisionResFunc2D.Clip at h
  obtain ⟨dot1, hdot1, h⟩ := (FloatM.bind_exact _ _ _).mp h
  obtain ⟨d1, hd1, h⟩ := (FloatM.bind_exact _ _ _).mp h
  obtain ⟨dot2, hdot2, h⟩ := (FloatM.bind_exact _ _ _).mp h
  obtain ⟨d2, hd2, h⟩ := (FloatM.bind_exact _ _ _).mp h
  obtain ⟨hd1F, _, hd1E⟩ := planeDistance_exact hn hp1 hc hdot1 hd1
  obtain ⟨hd2F, _, hd2E⟩ := planeDistance_exact hn hp2 hc hdot2 hd2
  have hle1 : d1 ≤ 0 ↔ DotProduct2D (exactPoint p1) (exactPoint n) - c.toRat ≤ 0 := by
    rw [Binary32.le_iff_toRat hd1F Binary32.isFinite_zero, Binary32.toRat_zero, hd1E]
  have hle2 : d2 ≤ 0 ↔ DotProduct2D (exactPoint p2) (exactPoint n) - c.toRat ≤ 0 := by
    rw [Binary32.le_iff_toRat hd2F Binary32.isFinite_zero, Binary32.toRat_zero, hd2E]
  rw [Clip_eval]
  have hprodIff : ∀ product : Binary32, fmul d1 d2 = Except.ok (product, false) →
      (product < 0 ↔ (DotProduct2D (exactPoint p1) (exactPoint n) - c.toRat) *
        (DotProduct2D (exactPoint p2) (exactPoint n) - c.toRat) < 0) := by
    intro product hprod
    obtain ⟨hF, hE⟩ := fmul_exact hd1F hd2F hprod
    rw [Binary32.lt_iff_toRat hF Binary32.isFinite_zero, Binary32.toRat_zero, hE, hd1E, hd2E]
  by_cases h1 : d1 ≤ 0 <;> by_cases h2 : d2 ≤ 0
  · simp only [h1, h2, if_true, Nat.zero_add, F32.setClipped_zero, F32.setClipped_one,
      FloatM.pure_bind_eq, FloatM.ret_bind] at h
    obtain ⟨product, hprod, h⟩ := (FloatM.bind_exact _ _ _).mp h
    have hpi := hprodIff product hprod
    have hq1 := hle1.mp h1
    have hq2 := hle2.mp h2
    have hp : ¬ product < 0 := fun hp => by
      have := hpi.mp hp
      nlinarith only [this, hq1, hq2]
    simp only [hp, if_false, FloatM.pure_bind_eq] at h
    have h := FloatM.pure_exact (a := ((2 : Nat), (p1, p2))) h
    obtain ⟨rfl, hqq⟩ := Prod.mk.inj h
    obtain ⟨rfl, rfl⟩ := Prod.mk.inj hqq
    refine ⟨hp1, hp2, ?_⟩
    simp only [if_pos hq1, if_pos hq2]
  · simp only [h1, h2, if_true, if_false, Nat.zero_add, F32.setClipped_zero, F32.setClipped_one,
      FloatM.pure_bind_eq, FloatM.ret_bind] at h
    obtain ⟨product, hprod, h⟩ := (FloatM.bind_exact _ _ _).mp h
    have hpi := hprodIff product hprod
    have hq1 := hle1.mp h1
    have hq2 := fun hh => h2 (hle2.mpr hh)
    by_cases hp : product < 0
    · simp only [hp, if_true] at h
      obtain ⟨den, hden, h⟩ := (FloatM.bind_exact _ _ _).mp h
      obtain ⟨alpha, halpha, h⟩ := (FloatM.bind_exact _ _ _).mp h
      obtain ⟨diff, hdiff, h⟩ := (FloatM.bind_exact _ _ _).mp h
      obtain ⟨step, hstep, h⟩ := (FloatM.bind_exact _ _ _).mp h
      obtain ⟨q, hq, h⟩ := (FloatM.bind_exact _ _ _).mp h
      obtain ⟨hqF, _, hqE⟩ := clipSteps_exact hp1 hp2 hd1F hd2F hden halpha hdiff hstep hq
      have h := FloatM.pure_exact (a := ((2 : Nat), (p1, q))) h
      obtain ⟨rfl, hqq⟩ := Prod.mk.inj h
      obtain ⟨rfl, rfl⟩ := Prod.mk.inj hqq
      refine ⟨hp1, hqF, ?_⟩
      simp only [if_pos hq1, if_neg hq2, if_pos (hpi.mp hp), hqE, hd1E, hd2E]
    · simp only [hp, if_false, FloatM.pure_bind_eq] at h
      have h := FloatM.pure_exact (a := ((1 : Nat), (p1, p2))) h
      obtain ⟨rfl, hqq⟩ := Prod.mk.inj h
      obtain ⟨rfl, rfl⟩ := Prod.mk.inj hqq
      refine ⟨hp1, hp2, ?_⟩
      simp only [if_pos hq1, if_neg hq2, if_neg (fun hh => hp (hpi.mpr hh))]
  · simp only [h1, h2, if_true, if_false, Nat.zero_add, F32.setClipped_zero, F32.setClipped_one,
      FloatM.pure_bind_eq, FloatM.ret_bind] at h
    obtain ⟨product, hprod, h⟩ := (FloatM.bind_exact _ _ _).mp h
    have hpi := hprodIff product hprod
    have hq1 := fun hh => h1 (hle1.mpr hh)
    have hq2 := hle2.mp h2
    by_cases hp : product < 0
    · simp only [hp, if_true] at h
      obtain ⟨den, hden, h⟩ := (FloatM.bind_exact _ _ _).mp h
      obtain ⟨alpha, halpha, h⟩ := (FloatM.bind_exact _ _ _).mp h
      obtain ⟨diff, hdiff, h⟩ := (FloatM.bind_exact _ _ _).mp h
      obtain ⟨step, hstep, h⟩ := (FloatM.bind_exact _ _ _).mp h
      obtain ⟨q, hq, h⟩ := (FloatM.bind_exact _ _ _).mp h
      obtain ⟨hqF, _, hqE⟩ := clipSteps_exact hp1 hp2 hd1F hd2F hden halpha hdiff hstep hq
      have h := FloatM.pure_exact (a := ((2 : Nat), (p2, q))) h
      obtain ⟨rfl, hqq⟩ := Prod.mk.inj h
      obtain ⟨rfl, rfl⟩ := Prod.mk.inj hqq
      refine ⟨hp2, hqF, ?_⟩
      simp only [if_neg hq1, if_pos hq2, if_pos (hpi.mp hp), hqE, hd1E, hd2E]
    · simp only [hp, if_false, FloatM.pure_bind_eq] at h
      have h := FloatM.pure_exact (a := ((1 : Nat), (p2, p2))) h
      obtain ⟨rfl, hqq⟩ := Prod.mk.inj h
      obtain ⟨rfl, rfl⟩ := Prod.mk.inj hqq
      refine ⟨hp2, hp2, ?_⟩
      simp only [if_neg hq1, if_pos hq2, if_neg (fun hh => hp (hpi.mpr hh))]
  · simp only [h1, h2, if_true, if_false, Nat.zero_add, F32.setClipped_zero, F32.setClipped_one,
      FloatM.pure_bind_eq, FloatM.ret_bind] at h
    obtain ⟨product, hprod, h⟩ := (FloatM.bind_exact _ _ _).mp h
    have hpi := hprodIff product hprod
    have hq1 := fun hh => h1 (hle1.mpr hh)
    have hq2 := fun hh => h2 (hle2.mpr hh)
    have hp : ¬ product < 0 := fun hp => by
      have := hpi.mp hp
      have a1 := lt_of_not_le hq1
      have a2 := lt_of_not_le hq2
      nlinarith only [this, a1, a2]
    simp only [hp, if_false, FloatM.pure_bind_eq] at h
    have h := FloatM.pure_exact (a := ((0 : Nat), (p1, p2))) h
    obtain ⟨rfl, hqq⟩ := Prod.mk.inj h
    obtain ⟨rfl, rfl⟩ := Prod.mk.inj hqq
    refine ⟨hp1, hp2, ?_⟩
    simp only [if_neg hq1, if_neg hq2]

/-! ## The claims -/

/-- C2: sprite A is the unit square `[0,1] x [0,1]` and sprite B the same square shifted
by `(1/2, 0)` (edges and vertices listed in any order, each edge stored so that
`pVert1 - pVert0` points along `(normal.y, -normal.x)`); with a body of non-zero mass and
the bounding test passing, `ResolveCollision` returns true with normal `(1, 0)` or
`(-1, 0)` and penetration `1/2`. -/
theorem overlapping_squares_resolve (BoxRadiiIntersect : CPoint → ℚ → CPoint → ℚ → Bool)
    (w : World) (colMan : CCollisionManifold)
    (hA : IsUnitSquareAt 0 (w.get SpriteRef.A).collisionSprite)
    (hB : IsUnitSquareAt (1/2) (w.get SpriteRef.B).collisionSprite)
    (hmass : (w.body SpriteRef.A).mass ≠ 0 ∨ (w.body SpriteRef.B).mass ≠ 0)
    (hbox : BoxRadiiIntersect (w.get SpriteRef.A).pos (w.get SpriteRef.A).radius
      (w.get SpriteRef.B).pos (w.get SpriteRef.B).radius = true) :
    ∃ r, ResolveCollision BoxRadiiIntersect w colMan SpriteRef.A SpriteRef.B = Except.ok r ∧
      r.ret = true ∧ (r.colMan.normal = ⟨1, 0⟩ ∨ r.colMan.normal = ⟨-1, 0⟩) ∧
      r.colMan.penetration = 1 / 2 :=
  ⟨_, square_resolve BoxRadiiIntersect w colMan hA hB hmass hbox, rfl, Or.inr rfl, rfl⟩

/-- Witness of C2: both bodies of mass 1 and a bounding test that always passes. -/
theorem overlapping_squares_resolve_witness :
    IsUnitSquareAt 0 (restWorld.get SpriteRef.A).collisionSprite ∧
      IsUnitSquareAt (1/2) (restWorld.get SpriteRef.B).collisionSprite ∧
      ((restWorld.body SpriteRef.A).mass ≠ 0 ∨ (restWorld.body SpriteRef.B).mass ≠ 0) ∧
      ∃ r, ResolveCollision (fun _ _ _ _ => true) restWorld CCollisionManifold.ctor
          SpriteRef.A SpriteRef.B = Except.ok r ∧
        r.ret = true ∧ (r.colMan.normal = ⟨1, 0⟩ ∨ r.colMan.normal = ⟨-1, 0⟩) ∧
        r.colMan.penetration = 1 / 2 :=
  ⟨sqSprite_isUnitSquare _ _ _ _, sqSprite_isUnitSquare _ _ _ _,
    Or.inl (by norm_num [restWorld, overlapWorld, World.body, World.get, sqSprite, unitBody]),
    overlapping_squares_resolve (fun _ _ _ _ => true) restWorld CCollisionManifold.ctor
      (sqSprite_isUnitSquare _ _ _ _) (sqSprite_isUnitSquare _ _ _ _)
      (Or.inl (by norm_num [restWorld, overlapWorld, World.body, World.get, sqSprite,
        unitBody])) rfl⟩

/-- Counterexample to C3 in binary32: for `p1 = (-2^-100, 0)`, `p2 = (2^-100, 0)`, normal
`(1, 0)` and offset `0` the distances are `d1 = -2^-100 < 0 < d2 = 2^-100`, the product
`d1 * d2` underflows to `-0`, and `Clip` returns 1 with both points unchanged. -/
theorem Clip_crossing_underflows :
    F32.planeDistance ⟨1, 0⟩ 0 ⟨Binary32.neg (Binary32.lit 1 (-100)), 0⟩ < 0 ∧
      0 < F32.planeDistance ⟨1, 0⟩ 0 ⟨Binary32.lit 1 (-100), 0⟩ ∧
      (F32.NCollisionResFunc2D.Clip ⟨1, 0⟩ 0
          (⟨Binary32.neg (Binary32.lit 1 (-100)), 0⟩, ⟨Binary32.lit 1 (-100), 0⟩)).out =
        Except.ok (1, (⟨Binary32.neg (Binary32.lit 1 (-100)), 0⟩,
          ⟨Binary32.lit 1 (-100), 0⟩)) :=
  ⟨rfl, rfl, rfl⟩

set_option maxRecDepth 100000 in
/-- C3 (amended): in binary32, when the computed distances satisfy `d1 < 0 < d2` and their
computed product is negative (it did not underflow to zero), `Clip` returns 2, keeps the
first point in slot 0 and puts the interpolated point, computed in binary32 as
`p1 + (p2 - p1) * (d1 / (d1 - d2))`, in slot 1; for `p1 = (-2,0)`, `p2 = (2,0)`, normal
`(1,0)` and offset 1 the result is 2 with the points `(-2,0)` and `(1,0)`, and no
operation of that call rounds. -/
theorem Clip_crossing_binary32 (n p1 p2 : F32.CPoint) (c : Binary32)
    (h1 : F32.planeDistance n c p1 < 0) (h2 : 0 < F32.planeDistance n c p2)
    (hp : Binary32.times (F32.planeDistance n c p1) (F32.planeDistance n c p2) < 0) :
    (F32.NCollisionResFunc2D.Clip n c (p1, p2)).out =
        Except.ok (2, (p1, F32.clipPoint p1 p2 (F32.planeDistance n c p1)
          (F32.planeDistance n c p2))) ∧
      F32.NCollisionResFunc2D.Clip ⟨1, 0⟩ 1
          (⟨Binary32.ofInt (-2), 0⟩, ⟨Binary32.ofInt 2, 0⟩) =
        Except.ok ((2, (⟨Binary32.ofInt (-2), 0⟩, ⟨1, 0⟩)), false) :=
  ⟨F32.Clip_out_first_cross n p1 p2 c (Binary32.le_of_lt h1) (Binary32.not_le_of_lt h2) hp,
    rfl⟩

set_option maxRecDepth 100000 in
/-- Witness of C3 (amended): the edge from `(-2,0)` to `(2,0)` against the plane `x = 1`. -/
theorem Clip_crossing_binary32_witness :
    (F32.NCollisionResFunc2D.Clip ⟨1, 0⟩ 1
        (⟨Binary32.ofInt (-2), 0⟩, ⟨Binary32.ofInt 2, 0⟩)).out =
      Except.ok (2, (⟨Binary32.ofInt (-2), 0⟩,
        F32.clipPoint ⟨Binary32.ofInt (-2), 0⟩ ⟨Binary32.ofInt 2, 0⟩
          (F32.planeDistance ⟨1, 0⟩ 1 ⟨Binary32.ofInt (-2), 0⟩)
          (F32.planeDistance ⟨1, 0⟩ 1 ⟨Binary32.ofInt 2, 0⟩))) :=
  (Clip_crossing_binary32 ⟨1, 0⟩ ⟨Binary32.ofInt (-2), 0⟩ ⟨Binary32.ofInt 2, 0⟩ 1
    rfl rfl rfl).1

/-- C4: for every pair of points, plane normal and offset, `Clip` returns normally (the
"Found three support points" exception is not thrown, and no write leaves the two-slot
array) and the returned count is 0, 1 or 2. -/
theorem Clip_at_most_two (n : CPoint) (c : ℚ) (p : CPoint × CPoint) :
    ∃ sp q, Clip n c p = Except.ok (sp, q) ∧ (sp = 0 ∨ sp = 1 ∨ sp = 2) := by
  rw [Clip_eval]
  split_ifs
  all_goals first
    | exact ⟨2, _, rfl, Or.inr (Or.inr rfl)⟩
    | exact ⟨1, _, rfl, Or.inr (Or.inl rfl)⟩
    | exact ⟨0, _, rfl, Or.inl rfl⟩

/-- Counterexample to C7 as stated: for the two disjoint unit squares of `apartWorld`,
`ResolveCollision` called with a fresh manifold returns false and leaves the manifold as
constructed, with `NULL` sprite pointers; a subsequent `ApplyImpulse` on that manifold
dereferences `pRefSprite` and does not return. -/
theorem apart_resolve_then_impulse_null :
    ResolveCollision (fun _ _ _ _ => true)
        (apartWorld unitBody unitBody ⟨1/2, 1/2⟩ ⟨5/2, 1/2⟩ 1 1) CCollisionManifold.ctor
        SpriteRef.A SpriteRef.B =
      Except.ok ⟨false, CCollisionManifold.ctor,
        apartWorld unitBody unitBody ⟨1/2, 1/2⟩ ⟨5/2, 1/2⟩ 1 1⟩ ∧
    ApplyImpulse CCollisionManifold.ctor
        (apartWorld unitBody unitBody ⟨1/2, 1/2⟩ ⟨5/2, 1/2⟩ 1 1) =
      Except.error Fault.nullPointer ∧
    ¬ ∃ w1, ApplyImpulse CCollisionManifold.ctor
        (apartWorld unitBody unitBody ⟨1/2, 1/2⟩ ⟨5/2, 1/2⟩ 1 1) = Except.ok w1 := by
  refine ⟨?_, ApplyImpulse_null _ _ rfl, ?_⟩
  · obtain ⟨_, _, _, _, _, h⟩ := separated_resolve (fun _ _ _ _ => true)
      (apartWorld unitBody unitBody ⟨1/2, 1/2⟩ ⟨5/2, 1/2⟩ 1 1) CCollisionManifold.ctor
      SpriteRef.A SpriteRef.B (sqSprite_convex _ _ _ _) (sqSprite_convex _ _ _ _)
      (apartWorld_disjoint _ _ _ _ _ _)
    exact h
  · rintro ⟨w1, hw1⟩
    rw [ApplyImpulse_null _ _ rfl] at hw1
    cases hw1

/-- C7 (amended): whenever `ResolveCollision`, called with a freshly constructed manifold,
returns false, the world is unchanged and the manifold's `contactCount` is 0.  Either the
manifold is still the fresh one, whose sprite pointers are `NULL`, and `ApplyImpulse` on
it stops at the null dereference; or both sprite pointers have been set (false came from
a clip) and `ApplyImpulse` on it returns the world unchanged. -/
theorem resolve_false_leaves_bodies (BoxRadiiIntersect : CPoint → ℚ → CPoint → ℚ → Bool)
    (w : World) (a b : SpriteRef) (r : ResolveResult)
    (h : ResolveCollision BoxRadiiIntersect w CCollisionManifold.ctor a b = Except.ok r)
    (hret : r.ret = false) :
    r.world = w ∧ r.colMan.contactCount = 0 ∧
      ((r.colMan = CCollisionManifold.ctor ∧
          ApplyImpulse r.colMan r.world = Except.error Fault.nullPointer) ∨
        (r.colMan.pRefSprite ≠ none ∧ r.colMan.pIncSprite ≠ none ∧
          ApplyImpulse r.colMan r.world = Except.ok w)) := by
  obtain ⟨hw, _, hfalse⟩ := ResolveCollision_spec _ _ _ _ _ _ h
  rcases hfalse hret with hc | ⟨hc, hr, hi⟩
  · refine ⟨hw, by rw [hc]; rfl, Or.inl ⟨hc, ?_⟩⟩
    exact ApplyImpulse_null _ _ (by rw [hc]; rfl)
  · refine ⟨hw, hc, Or.inr ⟨hr, hi, ?_⟩⟩
    rw [hw]
    exact ApplyImpulse_no_contact _ _ hr hi hc

/-- Witness of C7 (amended): the overlapping squares of `revWorld`, on which the first
clip keeps a single point. -/
theorem resolve_false_leaves_bodies_witness :
    ResolveCollision (fun _ _ _ _ => true) revWorld CCollisionManifold.ctor
        SpriteRef.A SpriteRef.B = Except.ok ⟨false, revManifold, revWorld⟩ ∧
      ((⟨false, revManifold, revWorld⟩ : ResolveResult).world = revWorld ∧
        (⟨false, revManifold, revWorld⟩ : ResolveResult).colMan.contactCount = 0 ∧
        (((⟨false, revManifold, revWorld⟩ : ResolveResult).colMan = CCollisionManifold.ctor ∧
            ApplyImpulse (⟨false, revManifold, revWorld⟩ : ResolveResult).colMan
              (⟨false, revManifold, revWorld⟩ : ResolveResult).world =
                Except.error Fault.nullPointer) ∨
          ((⟨false, revManifold, revWorld⟩ : ResolveResult).colMan.pRefSprite ≠ none ∧
            (⟨false, revManifold, revWorld⟩ : ResolveResult).colMan.pIncSprite ≠ none ∧
            ApplyImpulse (⟨false, revManifold, revWorld⟩ : ResolveResult).colMan
              (⟨false, revManifold, revWorld⟩ : ResolveResult).world =
                Except.ok revWorld))) :=
  ⟨rev_resolve _,
    resolve_false_leaves_bodies (fun _ _ _ _ => true) revWorld SpriteRef.A SpriteRef.B
      ⟨false, revManifold, revWorld⟩ (rev_resolve _) rfl⟩

/-- Counterexample to C10 as stated: for the unit square and its copy shifted by
`(1/2, 0)`, `ResolveCollision` returns true with penetration `1/2`, which is positive. -/
theorem overlap_penetration_positive :
    ∃ r, ResolveCollision (fun _ _ _ _ => true)
        (overlapWorld unitBody unitBody ⟨1/2, 1/2⟩ ⟨1, 1/2⟩ 1 1) CCollisionManifold.ctor
        SpriteRef.A SpriteRef.B = Except.ok r ∧
      r.ret = true ∧ ¬ r.colMan.penetration ≤ 0 :=
  ⟨_, overlap_resolve (fun _ _ _ _ => true) unitBody unitBody ⟨1/2, 1/2⟩ ⟨1, 1/2⟩ 1 1
      CCollisionManifold.ctor (Or.inl (by simp [unitBody])) rfl, rfl,
    by norm_num [overlapManifold]⟩

/-- C10 (amended): when `ResolveCollision` returns true, the manifold's penetration depth
is positive or zero. -/
theorem resolve_true_penetration_nonneg
    (BoxRadiiIntersect : CPoint → ℚ → CPoint → ℚ → Bool) (w : World)
    (colMan : CCollisionManifold) (a b : SpriteRef) (r : ResolveResult)
    (h : ResolveCollision BoxRadiiIntersect w colMan a b = Except.ok r)
    (hret : r.ret = true) :
    0 ≤ r.colMan.penetration :=
  (ResolveCollision_spec _ _ _ _ _ _ h).2.1 hret

/-- Witness of C10 (amended): the overlapping unit squares. -/
theorem resolve_true_penetration_nonneg_witness :
    ResolveCollision (fun _ _ _ _ => true)
        (overlapWorld unitBody unitBody ⟨1/2, 1/2⟩ ⟨1, 1/2⟩ 1 1) CCollisionManifold.ctor
        SpriteRef.A SpriteRef.B =
      Except.ok ⟨true, overlapManifold,
        overlapWorld unitBody unitBody ⟨1/2, 1/2⟩ ⟨1, 1/2⟩ 1 1⟩ ∧
    0 ≤ overlapManifold.penetration :=
  ⟨overlap_resolve (fun _ _ _ _ => true) unitBody unitBody ⟨1/2, 1/2⟩ ⟨1, 1/2⟩ 1 1
      CCollisionManifold.ctor (Or.inl (by simp [unitBody])) rfl,
    resolve_true_penetration_nonneg (fun _ _ _ _ => true)
      (overlapWorld unitBody unitBody ⟨1/2, 1/2⟩ ⟨1, 1/2⟩ 1 1) CCollisionManifold.ctor
      SpriteRef.A SpriteRef.B
      ⟨true, overlapManifold, overlapWorld unitBody unitBody ⟨1/2, 1/2⟩ ⟨1, 1/2⟩ 1 1⟩
      (overlap_resolve (fun _ _ _ _ => true) unitBody unitBody ⟨1/2, 1/2⟩ ⟨1, 1/2⟩ 1 1
        CCollisionManifold.ctor (Or.inl (by simp [unitBody])) rfl) rfl⟩

/-- Counterexample to C11 as stated: for the unit square A and its copy B shifted by
`(1/2, 0)` both runs of `GetCollisionManifold` give penetration `-1/2`, both clips succeed
(`ResolveCollision` returns true), and the reference sprite is B, not A. -/
theorem equal_penetration_reference_is_B :
    ∃ mA mB r, GetCollisionManifold restWorld SpriteRef.A SpriteRef.B = Except.ok mA ∧
      GetCollisionManifold restWorld SpriteRef.B SpriteRef.A = Except.ok mB ∧
      mA.penetration = mB.penetration ∧ mA.penetration ≤ 0 ∧
      ResolveCollision (fun _ _ _ _ => true) restWorld CCollisionManifold.ctor
        SpriteRef.A SpriteRef.B = Except.ok r ∧
      r.ret = true ∧ r.colMan.pRefSprite = some SpriteRef.B ∧
      r.colMan.pRefSprite ≠ some SpriteRef.A :=
  ⟨_, _, _,
    square_manifoldA restWorld SpriteRef.A SpriteRef.B (sqSprite_isUnitSquare _ _ _ _)
      (sqSprite_isUnitSquare _ _ _ _),
    square_manifoldB restWorld SpriteRef.B SpriteRef.A (sqSprite_isUnitSquare _ _ _ _)
      (sqSprite_isUnitSquare _ _ _ _),
    rfl, by norm_num,
    overlap_resolve (fun _ _ _ _ => true) unitBody unitBody ⟨1/2, 1/2⟩ ⟨1, 1/2⟩ 1 1
      CCollisionManifold.ctor (Or.inl (by simp [unitBody])) rfl,
    rfl, rfl, by simp [overlapManifold]⟩

/-- C12: if both bodies have mass 0, `ResolveCollision` returns false for every geometry
and every bounding test, and leaves the manifold argument (and the world) as they were. -/
theorem static_pair_not_resolved (BoxRadiiIntersect : CPoint → ℚ → CPoint → ℚ → Bool)
    (w : World) (colMan : CCollisionManifold) (a b : SpriteRef)
    (hA : (w.body a).mass = 0) (hB : (w.body b).mass = 0) :
    ResolveCollision BoxRadiiIntersect w colMan a b = Except.ok ⟨false, colMan, w⟩ := by
  unfold ResolveCollision
  rw [if_neg (by rw [hA, hB]; simp)]
  rfl

/-- Witness of C12: the two overlapping static squares of `staticWorld`. -/
theorem static_pair_not_resolved_witness :
    ResolveCollision (fun _ _ _ _ => true) staticWorld overlapManifold
        SpriteRef.A SpriteRef.B = Except.ok ⟨false, overlapManifold, staticWorld⟩ :=
  static_pair_not_resolved (fun _ _ _ _ => true) staticWorld overlapManifold
    SpriteRef.A SpriteRef.B rfl rfl

set_option maxRecDepth 1000000 in
/-- Counterexample to C13 in binary32: for a reference normal `(FLT_MAX, 0)` and an incident
polygon whose only edge has the normal `(1, 0)`, the dot product is `FLT_MAX`, which is not
less than the start value `FLT_MAX`, so `FindIncidentEdge` leaves `pIncEdge` at `NULL`. -/
theorem huge_normal_no_incident_edge :
    F32.dot ⟨F32.FLT_MAX, 0⟩ ⟨1, 0⟩ = F32.FLT_MAX ∧
      (F32.CCollisionManifold.FindIncidentEdge (F32.referenceManifold ⟨F32.FLT_MAX, 0⟩)
          ⟨F32.boxSprite 0 0 1 1, F32.singleEdgeSprite⟩).out =
        Except.ok (F32.referenceManifold ⟨F32.FLT_MAX, 0⟩) ∧
      (F32.referenceManifold ⟨F32.FLT_MAX, 0⟩).pIncEdge = none :=
  ⟨by rfl, by rfl, rfl⟩

/-- C13 (amended): in binary32, for a manifold with a reference edge and an incident
sprite one of whose edges has a dot product (of its normal with the reference normal, as
computed in binary32) below `FLT_MAX`, `FindIncidentEdge` returns and only sets `pIncEdge`:
to an edge of the incident sprite such that no edge has a smaller computed dot product and
no edge of lower index has a computed dot product less than or equal to it. -/
theorem incident_edge_is_first_min_binary32 (m : F32.CCollisionManifold) (w : F32.World)
    (i : SpriteRef) (ref : F32.CEdge)
    (hi : m.pIncSprite = some i) (hr : m.pRefEdge = some ref)
    (hsome : ∃ e ∈ (w.get i).collisionSprite.outerEdge,
      F32.dot ref.normal e.normal < F32.FLT_MAX) :
    ∃ (k : Nat) (e1 : F32.CEdge), (w.get i).collisionSprite.outerEdge[k]? = some e1 ∧
      (m.FindIncidentEdge w).out = Except.ok { m with pIncEdge := some e1 } ∧
      (∀ e ∈ (w.get i).collisionSprite.outerEdge,
        ¬ F32.dot ref.normal e.normal < F32.dot ref.normal e1.normal) ∧
      ∀ (j : Nat) (e2 : F32.CEdge), j < k →
        (w.get i).collisionSprite.outerEdge[j]? = some e2 →
        ¬ F32.dot ref.normal e2.normal ≤ F32.dot ref.normal e1.normal := by
  rw [F32.FindIncidentEdge_out m w i ref hi hr]
  rcases F32.incidentSearch_first ref.normal (w.get i).collisionSprite.outerEdge F32.FLT_MAX
    m.pIncEdge with ⟨_, h2⟩ | ⟨k, e1, hk, hres, _, hfirst, hall⟩
  · obtain ⟨e, he, hlt⟩ := hsome
    exact absurd hlt (h2 e he)
  · exact ⟨k, e1, hk, by rw [hres], hall, hfirst⟩

set_option maxRecDepth 1000000 in
/-- Witness of C13 (amended): the reference normal `(-1, 0)` against the four edges of the
unit box; the right edge, of index 1 and normal `(1, 0)`, is found. -/
theorem incident_edge_is_first_min_binary32_witness :
    ∃ (k : Nat) (e1 : F32.CEdge),
      ((⟨F32.boxSprite 0 0 1 1, F32.boxSprite 0 0 1 1⟩ : F32.World).get
        SpriteRef.B).collisionSprite.outerEdge[k]? = some e1 ∧
      ((F32.referenceManifold ⟨Binary32.ofInt (-1), 0⟩).FindIncidentEdge
          ⟨F32.boxSprite 0 0 1 1, F32.boxSprite 0 0 1 1⟩).out =
        Except.ok { F32.referenceManifold ⟨Binary32.ofInt (-1), 0⟩ with pIncEdge := some e1 } :=
  by
    obtain ⟨k, e1, h1, h2, _⟩ := incident_edge_is_first_min_binary32
      (F32.referenceManifold ⟨Binary32.ofInt (-1), 0⟩)
      ⟨F32.boxSprite 0 0 1 1, F32.boxSprite 0 0 1 1⟩ SpriteRef.B
      ⟨⟨0, 0⟩, ⟨0, 1⟩, ⟨Binary32.ofInt (-1), 0⟩⟩ rfl rfl
      ⟨⟨⟨1, 1⟩, ⟨1, 0⟩, ⟨1, 0⟩⟩, by simp [F32.World.get, F32.boxSprite, F32.boxEdges], by rfl⟩
    exact ⟨k, e1, h1, h2⟩

/-- Counterexample to C17 as stated: for two bodies of inverse mass 0 and a manifold with
penetration `0 ≤ SLOP`, `PositionalCorrection` divides by the sum `0` of the inverse
masses, so no body receives the zero vector as its position correction. -/
theorem static_pair_correction_undefined :
    touchingManifold.penetration ≤ SLOP ∧
      (staticWorld.body SpriteRef.A).inverseMass = 0 ∧
      (staticWorld.body SpriteRef.B).inverseMass = 0 ∧
      touchingManifold.PositionalCorrection staticWorld = Except.error Fault.divideByZero := by
  refine ⟨by norm_num [touchingManifold, SLOP], rfl, rfl, ?_⟩
  norm_num [PositionalCorrection, touchingManifold, staticWorld, overlapWorld, staticBody,
    deref, divPoint, fdiv, World.body, World.get, sqSprite, bind, Except.bind,
    CCollisionManifold.ctor]

/-- C17 (amended): in binary32 `PERCENT` is `0.2f = 13421773 / 2^26` and `SLOP` is
`0.01f = 5368709 / 2^29`.  When the reference and the incident sprite are distinct,
`PositionalCorrection` returns and sets the reference body's position correction to
`correction * (-invMassRef)` and the incident body's to `correction * invMassInc`, every
operation in binary32, with `correction = normal * PERCENT * max(penetration - SLOP, 0)
/ (invMassRef + invMassInc)`.  Both corrections are zero vectors when
`penetration ≤ SLOP`, provided that `normal * PERCENT` and the inverse masses are finite
and the sum of the inverse masses is finite and not zero; a body whose inverse mass is
zero receives a zero vector provided that `correction` is finite. -/
theorem positional_correction_binary32 (m : F32.CCollisionManifold) (w : F32.World)
    (r i : SpriteRef) (hr : m.pRefSprite = some r) (hi : m.pIncSprite = some i)
    (hri : r ≠ i) :
    F32.PERCENT.toRat = 13421773 / 67108864 ∧ F32.SLOP.toRat = 5368709 / 536870912 ∧
    ∃ w1, (F32.CCollisionManifold.PositionalCorrection m w).out = Except.ok w1 ∧
      (w1.body r).positionCorrection =
        (F32.correctionOf m w r i).times (Binary32.neg (w.body r).inverseMass) ∧
      (w1.body i).positionCorrection =
        (F32.correctionOf m w r i).times (w.body i).inverseMass ∧
      (m.penetration ≤ F32.SLOP → (m.normal.times F32.PERCENT).IsFinite →
        (w.body r).inverseMass.IsFinite → (w.body i).inverseMass.IsFinite →
        (Binary32.plus (w.body r).inverseMass (w.body i).inverseMass).IsFinite →
        Binary32.ne (Binary32.plus (w.body r).inverseMass (w.body i).inverseMass) 0 = true →
        (w1.body r).positionCorrection.IsZero ∧ (w1.body i).positionCorrection.IsZero) ∧
      (Binary32.eq (w.body r).inverseMass 0 = true → (F32.correctionOf m w r i).IsFinite →
        (w1.body r).positionCorrection.IsZero) ∧
      (Binary32.eq (w.body i).inverseMass 0 = true → (F32.correctionOf m w r i).IsFinite →
        (w1.body i).positionCorrection.IsZero) := by
  refine ⟨F32.toRat_PERCENT, F32.toRat_SLOP, ?_⟩
  obtain ⟨w1, hw1, hbr, hbi⟩ := F32.PositionalCorrection_bodies m w r i hr hi hri
  refine ⟨w1, hw1, hbr, hbi, ?_, ?_, ?_⟩
  · intro hpen hn hfr hfi hsum hne
    have hz := F32.correctionOf_isZero m w r i hpen hn hsum hne
    rw [hbr, hbi]
    exact ⟨F32.CPoint.times_isZero_left hz (Binary32.isFinite_neg hfr),
      F32.CPoint.times_isZero_left hz hfi⟩
  · intro hz hc
    rw [hbr]
    exact F32.CPoint.times_isZero_right hc (Binary32.eq_zero_neg hz)
  · intro hz hc
    rw [hbi]
    exact F32.CPoint.times_isZero_right hc hz

/-- Witness of C17 (amended): two bodies of mass 1 and a manifold with penetration 0. -/
theorem positional_correction_binary32_witness :
    ∃ w1, (F32.CCollisionManifold.PositionalCorrection (F32.contactManifold ⟨1, 0⟩ ⟨0, 0⟩)
        (F32.equalPair 1 1 1 ⟨0, 0⟩ ⟨0, 0⟩)).out = Except.ok w1 ∧
      (w1.body SpriteRef.A).positionCorrection =
        (F32.correctionOf (F32.contactManifold ⟨1, 0⟩ ⟨0, 0⟩)
          (F32.equalPair 1 1 1 ⟨0, 0⟩ ⟨0, 0⟩) SpriteRef.A SpriteRef.B).times
          (Binary32.neg ((F32.equalPair 1 1 1 ⟨0, 0⟩ ⟨0, 0⟩).body SpriteRef.A).inverseMass) := by
  obtain ⟨w1, h1, h2, _⟩ := (positional_correction_binary32
    (F32.contactManifold ⟨1, 0⟩ ⟨0, 0⟩) (F32.equalPair 1 1 1 ⟨0, 0⟩ ⟨0, 0⟩)
    SpriteRef.A SpriteRef.B rfl rfl (by decide)).2.2
  exact ⟨w1, h1, h2⟩

/-- C18: when `ResolveCollision` reaches the clipping (a body with mass, intersecting
radii, no separating edge in either order) and the first `Clip` call (against
`-sidePlaneNormal` with `negSide`) or the second one (against `sidePlaneNormal` with
`posSide`) returns fewer than 2 points, `ResolveCollision` returns false, the manifold has
`contactCount` 0 and the world is unchanged. -/
theorem clip_fewer_than_two_aborts (BoxRadiiIntersect : CPoint → ℚ → CPoint → ℚ → Bool)
    (w : World) (colMan mA mB m1 : CCollisionManifold) (a b : SpriteRef) (ref inc : CEdge)
    (n1 : Nat) (p1 : CPoint × CPoint)
    (hmass : (w.body a).mass ≠ 0 ∨ (w.body b).mass ≠ 0)
    (hbox : BoxRadiiIntersect (w.get a).pos (w.get a).radius (w.get b).pos (w.get b).radius
      = true)
    (hA : GetCollisionManifold w a b = Except.ok mA) (hpA : mA.penetration ≤ 0)
    (hB : GetCollisionManifold w b a = Except.ok mB) (hpB : mB.penetration ≤ 0)
    (hm1 : (chosenManifold mA mB a b).FindIncidentEdge w = Except.ok m1)
    (href : m1.pRefEdge = some ref) (hinc : m1.pIncEdge = some inc)
    (hc1 : Clip (-(sidePlaneNormalOf ref.normal))
        (-DotProduct2D ref.pVert0 (sidePlaneNormalOf ref.normal))
        (inc.pVert0, inc.pVert1) = Except.ok (n1, p1))
    (hfew : n1 < 2 ∨ ∃ n2 q, Clip (sidePlaneNormalOf ref.normal)
        (DotProduct2D ref.pVert1 (sidePlaneNormalOf ref.normal)) p1 = Except.ok (n2, q) ∧
        n2 < 2) :
    ∃ r, ResolveCollision BoxRadiiIntersect w colMan a b = Except.ok r ∧ r.ret = false ∧
      r.colMan.contactCount = 0 ∧ r.world = w := by
  refine ⟨⟨false, { m1 with normal := ref.normal }, w⟩, ?_, rfl, ?_, rfl⟩
  · rw [ResolveCollision_reaches_clip BoxRadiiIntersect w colMan mA mB a b hmass hbox hA hpA
      hB hpB]
    exact ResolveCollisionClip_false w _ m1 ref inc n1 p1 hm1 href hinc hc1 hfew
  · have h1 := (FindIncidentEdge_frame _ _ _ hm1).1
    have h2 := chosenManifold_frame mA mB a b (GetCollisionManifold_frame _ _ _ _ hA).1
      (GetCollisionManifold_frame _ _ _ _ hB).1
    show m1.contactCount = 0
    rw [h1, h2]

/-- Witness of C18: the overlapping unit squares whose edges are stored in the opposite
vertex order, where the first clip keeps one point. -/
theorem clip_fewer_than_two_aborts_witness :
    ∃ r, ResolveCollision (fun _ _ _ _ => true) revWorld CCollisionManifold.ctor
        SpriteRef.A SpriteRef.B = Except.ok r ∧ r.ret = false ∧
      r.colMan.contactCount = 0 ∧ r.world = revWorld :=
  clip_fewer_than_two_aborts (fun _ _ _ _ => true) revWorld CCollisionManifold.ctor _ _ _
    SpriteRef.A SpriteRef.B ⟨⟨1/2, 1⟩, ⟨1/2, 0⟩, ⟨-1, 0⟩⟩ ⟨⟨1, 0⟩, ⟨1, 1⟩, ⟨1, 0⟩⟩
    1 (⟨1, 1⟩, ⟨1, 1⟩)
    (Or.inl (by norm_num [revWorld, World.body, World.get, unitBody])) rfl
    rev_manifoldA (by norm_num) rev_manifoldB (by norm_num) rev_incident rfl rfl
    (by norm_num [Clip_eval, sidePlaneNormalOf, DotProduct2D])
    (Or.inl (by decide))

set_option maxRecDepth 1000000 in
/-- Counterexample to C21 in binary32: the point `(0, 0)` is inside the box from
`(-10, -10)` to `(10, 10)` (every separation is `-10`), the radius is 7, `inverseRadius` is
`1 / 7` rounded to binary32 (`9586981 * 2^-26`) and the force is 3.  With
`diminishingForce` the body of inverse mass 1, at rest, receives the velocity
`(0, -12582913 * 2^-22)`: the impulse is not the undiminished `(0, -3)`. -/
theorem inside_point_impulse_rounds :
    Binary32.over 1 (Binary32.ofInt 7) = Binary32.lit 9586981 (-26) ∧
      (F32.NCollisionResFunc2D.ApplyPointImpulse (fun p => pure p) ⟨0, 0⟩ (Binary32.ofInt 7)
          (Binary32.lit 9586981 (-26)) (Binary32.ofInt 3)
          ⟨F32.boxSprite (Binary32.ofInt (-10)) (Binary32.ofInt (-10)) (Binary32.ofInt 10)
            (Binary32.ofInt 10), F32.boxSprite 0 0 1 1⟩ SpriteRef.A true).out.map
          (fun w1 => (w1.body SpriteRef.A).velocity) =
        Except.ok ⟨0, Binary32.neg (Binary32.lit 12582913 (-22))⟩ ∧
      Binary32.lt (Binary32.neg (Binary32.lit 12582913 (-22))) (Binary32.ofInt (-3)) = true :=
  ⟨by rfl, by rfl, by rfl⟩

/-- C21 (amended): in binary32 `MIN_SEPARATION` is `0.0001f = 13743895 / 2^37`.  When the
search loop of `ApplyPointImpulse` completes (no computed separation exceeds the radius),
every computed separation is below `MIN_SEPARATION` and one of them is above the start
value `-FLT_MAX`, the point is treated as inside the polygon: with `e1` the first edge
attaining the greatest computed separation, the collision information is the normal
`-e1.normal`, the contact `point + (-e1.normal) * radius` and the penetration `radius`, and
with `diminishingForce` the impulse applied to the body is
`(((-e1.normal) * force) * radius) * inverseRadius`, every operation in binary32.  When
these three products are exact and `radius * inverseRadius = 1`, that vector is the
undiminished `(-e1.normal) * force`. -/
theorem inside_point_impulse_binary32 (Normalize2D : F32.CPoint → FloatM F32.CPoint)
    (point : F32.CPoint) (radius inverseRadius force : Binary32) (w : F32.World)
    (pSprite : SpriteRef)
    (hreach : ∀ e ∈ (w.get pSprite).collisionSprite.outerEdge,
      ¬ F32.pointSeparation point e > radius)
    (hin : ∀ e ∈ (w.get pSprite).collisionSprite.outerEdge,
      F32.pointSeparation point e < F32.MIN_SEPARATION)
    (hbig : ∃ e ∈ (w.get pSprite).collisionSprite.outerEdge,
      Binary32.neg F32.FLT_MAX < F32.pointSeparation point e) :
    F32.MIN_SEPARATION.toRat = 13743895 / 137438953472 ∧
    ∃ (k : Nat) (e1 : F32.CEdge), (w.get pSprite).collisionSprite.outerEdge[k]? = some e1 ∧
      (∀ e ∈ (w.get pSprite).collisionSprite.outerEdge,
        ¬ F32.pointSeparation point e1 < F32.pointSeparation point e) ∧
      (∀ (j : Nat) (e2 : F32.CEdge), j < k →
        (w.get pSprite).collisionSprite.outerEdge[j]? = some e2 →
        ¬ F32.pointSeparation point e1 ≤ F32.pointSeparation point e2) ∧
      (F32.NCollisionResFunc2D.ApplyPointImpulseContact Normalize2D point radius
          (F32.pointSeparation point e1) (some e1)).out =
        Except.ok (some (e1.normal.neg, point.plus (e1.normal.neg.times radius), radius)) ∧
      (∃ w1, (F32.NCollisionResFunc2D.ApplyPointImpulse Normalize2D point radius inverseRadius
            force w pSprite true).out = Except.ok w1 ∧
        (w1.body pSprite).velocity = (w.body pSprite).velocity.plus
          ((((e1.normal.neg.times force).times radius).times inverseRadius).times
            (w.body pSprite).inverseMass) ∧
        (w1.body pSprite).angVelocity = Binary32.plus (w.body pSprite).angVelocity
          (Binary32.times (w.body pSprite).inverseInertia
            (F32.cross ((point.plus (e1.normal.neg.times radius)).minus (w.get pSprite).pos)
              (((e1.normal.neg.times force).times radius).times inverseRadius)))) ∧
      ∀ v1 v2 v3 : F32.CPoint, e1.normal.IsFinite → force.IsFinite → radius.IsFinite →
        inverseRadius.IsFinite → radius.toRat * inverseRadius.toRat = 1 →
        e1.normal.neg.mul force = Except.ok (v1, false) →
        v1.mul radius = Except.ok (v2, false) →
        v2.mul inverseRadius = Except.ok (v3, false) →
        ((e1.normal.neg.times force).times radius).times inverseRadius = v3 ∧
          exactPoint v3 = -exactPoint e1.normal * force.toRat := by
  refine ⟨F32.toRat_MIN_SEPARATION, ?_⟩
  rcases F32.pointSearch_first point radius (w.get pSprite).collisionSprite.outerEdge hreach
    (Binary32.neg F32.FLT_MAX) none with ⟨_, h2⟩ | ⟨k, e1, hk, hr, _, hfirst, hall⟩
  · obtain ⟨e, he, hlt⟩ := hbig
    exact absurd hlt (h2 e he)
  · have hmem : e1 ∈ (w.get pSprite).collisionSprite.outerEdge := List.getElem?_mem hk
    have hcontact := F32.ApplyPointImpulseContact_inside_out Normalize2D point radius
      (F32.pointSeparation point e1) e1 (hin e1 hmem)
    have hrun := F32.ApplyPointImpulse_out_eq Normalize2D point radius inverseRadius force w
      pSprite true _ _ _ _ _ hr hcontact
    obtain ⟨hv, ha⟩ := F32.pointImpulseWorld_body_binary32 w pSprite
      (point.plus (e1.normal.neg.times radius))
      (F32.pointImpulseVec e1.normal.neg force radius inverseRadius true)
    refine ⟨k, e1, hk, hall, hfirst, hcontact, ⟨_, hrun, hv, ha⟩, ?_⟩
    intro v1 v2 v3 hn hf hrad hir hone h1 h2 h3
    obtain ⟨hvec, hval⟩ := pointImpulseVec_exact (F32.CPoint.isFinite_neg_iff hn) hf hrad hir
      h1 h2 h3
    refine ⟨hvec, ?_⟩
    rw [hval, exactPoint_neg, CPoint.ext_iff2]
    simp only [CPoint.mul_x, CPoint.mul_y]
    constructor
    · rw [mul_assoc, hone, mul_one]
    · rw [mul_assoc, hone, mul_one]

set_option maxRecDepth 1000000 in
/-- Witness of C21 (amended): the same box and point with radius 8, `inverseRadius = 1/8`
and force 3; the top edge, of index 0, is found. -/
theorem inside_point_impulse_binary32_witness :
    ∃ (k : Nat) (e1 : F32.CEdge),
      ((⟨F32.boxSprite (Binary32.ofInt (-10)) (Binary32.ofInt (-10)) (Binary32.ofInt 10)
        (Binary32.ofInt 10), F32.boxSprite 0 0 1 1⟩ : F32.World).get
          SpriteRef.A).collisionSprite.outerEdge[k]? = some e1 ∧
      (F32.NCollisionResFunc2D.ApplyPointImpulseContact (fun p => pure p) ⟨0, 0⟩
          (Binary32.ofInt 8) (F32.pointSeparation ⟨0, 0⟩ e1) (some e1)).out =
        Except.ok (some (e1.normal.neg,
          (⟨0, 0⟩ : F32.CPoint).plus (e1.normal.neg.times (Binary32.ofInt 8)),
          Binary32.ofInt 8)) := by
  obtain ⟨k, e1, h1, _, _, h2, _⟩ := (inside_point_impulse_binary32 (fun p => pure p) ⟨0, 0⟩
    (Binary32.ofInt 8) (Binary32.lit 1 (-3)) (Binary32.ofInt 3)
    ⟨F32.boxSprite (Binary32.ofInt (-10)) (Binary32.ofInt (-10)) (Binary32.ofInt 10)
      (Binary32.ofInt 10), F32.boxSprite 0 0 1 1⟩ SpriteRef.A
    (by
      intro e he
      simp only [F32.World.get, F32.boxSprite, F32.boxEdges, List.mem_cons,
        List.mem_singleton, List.not_mem_nil, or_false] at he
      rcases he with rfl | rfl | rfl | rfl <;> exact (by decide))
    (by
      intro e he
      simp only [F32.World.get, F32.boxSprite, F32.boxEdges, List.mem_cons,
        List.mem_singleton, List.not_mem_nil, or_false] at he
      rcases he with rfl | rfl | rfl | rfl <;> rfl)
    ⟨⟨⟨Binary32.ofInt (-10), Binary32.ofInt 10⟩, ⟨Binary32.ofInt 10, Binary32.ofInt 10⟩,
      ⟨0, 1⟩⟩, by simp [F32.World.get, F32.boxSprite, F32.boxEdges], by rfl⟩).2
  exact ⟨k, e1, h1, h2⟩

set_option maxRecDepth 1000000 in
/-- Counterexample to C22 in binary32: the point `(0, 0)` is inside the box from
`(-20, -20)` to `(20, 20)`, the radius is 13, `inverseRadius` is `1 / 13` rounded to
binary32 (`10324441 * 2^-27`) and the force is 7.  With `diminishingForce` the body of
inverse mass 1, at rest, receives the velocity `(0, -14680065 * 2^-21)`, whose length is
greater than the force 7. -/
theorem diminished_impulse_exceeds_force :
    Binary32.over 1 (Binary32.ofInt 13) = Binary32.lit 10324441 (-27) ∧
      (F32.NCollisionResFunc2D.ApplyPointImpulse (fun p => pure p) ⟨0, 0⟩ (Binary32.ofInt 13)
          (Binary32.lit 10324441 (-27)) (Binary32.ofInt 7)
          ⟨F32.boxSprite (Binary32.ofInt (-20)) (Binary32.ofInt (-20)) (Binary32.ofInt 20)
            (Binary32.ofInt 20), F32.boxSprite 0 0 1 1⟩ SpriteRef.A true).out.map
          (fun w1 => (w1.body SpriteRef.A).velocity) =
        Except.ok ⟨0, Binary32.neg (Binary32.lit 14680065 (-21))⟩ ∧
      Binary32.lt (Binary32.ofInt 7) (Binary32.lit 14680065 (-21)) = true :=
  ⟨by rfl, by rfl, by rfl⟩

/-- C22 (amended): in binary32, whenever `ApplyPointImpulse` applies an impulse with
`diminishingForce` (its search loop and its contact computation both come through, with
`normal`, `contact` and `penetration`), the impulse vector applied to the body is
`((normal * force) * penetration) * inverseRadius`, every operation in binary32, where
`penetration` is `radius` in the inside case and the binary32 difference
`radius - separation` otherwise.  When that difference and the three products are exact,
`radius > 0` and `radius * inverseRadius = 1`, the vector is
`normal * force * (penetration / radius)`, the factor `penetration / radius` lies in
`[0, 1]`, and for a normal of length at most 1 the squared length of the vector is at most
`force * force`. -/
theorem diminishing_impulse_binary32 (Normalize2D : F32.CPoint → FloatM F32.CPoint)
    (point : F32.CPoint) (radius inverseRadius force : Binary32) (w : F32.World)
    (pSprite : SpriteRef) (sep : Binary32) (pEdge : Option F32.CEdge)
    (normal contact : F32.CPoint) (pen : Binary32)
    (hloop : F32.pointSearch point radius (w.get pSprite).collisionSprite.outerEdge
      (Binary32.neg F32.FLT_MAX) none = some (sep, pEdge))
    (hcontact : (F32.NCollisionResFunc2D.ApplyPointImpulseContact Normalize2D point radius sep
      pEdge).out = Except.ok (some (normal, contact, pen))) :
    (sep < F32.MIN_SEPARATION → pen = radius) ∧
      (¬ sep < F32.MIN_SEPARATION → pen = Binary32.minus radius sep) ∧
      (∃ w1, (F32.NCollisionResFunc2D.ApplyPointImpulse Normalize2D point radius inverseRadius
            force w pSprite true).out = Except.ok w1 ∧
        (w1.body pSprite).velocity = (w.body pSprite).velocity.plus
          ((((normal.times force).times pen).times inverseRadius).times
            (w.body pSprite).inverseMass) ∧
        (w1.body pSprite).angVelocity = Binary32.plus (w.body pSprite).angVelocity
          (Binary32.times (w.body pSprite).inverseInertia
            (F32.cross (contact.minus (w.get pSprite).pos)
              (((normal.times force).times pen).times inverseRadius)))) ∧
      ∀ v1 v2 v3 : F32.CPoint, normal.IsFinite → force.IsFinite → radius.IsFinite →
        inverseRadius.IsFinite → sep.IsFinite → 0 < radius.toRat →
        radius.toRat * inverseRadius.toRat = 1 →
        (¬ sep < F32.MIN_SEPARATION → fsub radius sep = Except.ok (pen, false)) →
        normal.mul force = Except.ok (v1, false) →
        v1.mul pen = Except.ok (v2, false) →
        v2.mul inverseRadius = Except.ok (v3, false) →
        ((normal.times force).times pen).times inverseRadius = v3 ∧
          exactPoint v3 = exactPoint normal * force.toRat * (pen.toRat / radius.toRat) ∧
          0 ≤ pen.toRat / radius.toRat ∧ pen.toRat / radius.toRat ≤ 1 ∧
          (DotProduct2D (exactPoint normal) (exactPoint normal) ≤ 1 →
            GetLengthSquared (exactPoint v3) ≤ force.toRat * force.toRat) := by
  obtain ⟨hp1, hp2⟩ := F32.ApplyPointImpulseContact_penetration_binary32 Normalize2D point radius sep
    pEdge normal contact pen hcontact
  have hrun := F32.ApplyPointImpulse_out_eq Normalize2D point radius inverseRadius force w
    pSprite true _ _ _ _ _ hloop hcontact
  obtain ⟨hv, ha⟩ := F32.pointImpulseWorld_body_binary32 w pSprite contact
    (F32.pointImpulseVec normal force pen inverseRadius true)
  refine ⟨hp1, hp2, ⟨_, hrun, hv, ha⟩, ?_⟩
  intro v1 v2 v3 hn hf hrad hir hsep hpos hone hsub h1 h2 h3
  obtain ⟨hpF, hp0, hpr⟩ := point_penetration_bounds point radius sep pen _ pEdge hloop hp1
    hrad hsep hpos hsub
  obtain ⟨hvec, hval⟩ := pointImpulseVec_exact hn hf hpF hir h1 h2 h3
  have hinv : inverseRadius.toRat = 1 / radius.toRat := by
    field_simp
    linarith
  have hval2 : exactPoint v3 = exactPoint normal * force.toRat * (pen.toRat / radius.toRat) := by
    rw [hval, hinv, CPoint.ext_iff2]
    simp only [CPoint.mul_x, CPoint.mul_y]
    constructor <;> ring
  have hf0 : 0 ≤ pen.toRat / radius.toRat := div_nonneg hp0 hpos.le
  have hf1 : pen.toRat / radius.toRat ≤ 1 := (div_le_one hpos).mpr hpr
  refine ⟨hvec, hval2, hf0, hf1, ?_⟩
  intro hunit
  rw [hval2]
  exact scaled_length_le _ _ _ hf0 hf1 hunit

set_option maxRecDepth 1000000 in
/-- Witness of C22 (amended): the point `(0, 0)` inside the box from `(-10, -10)` to
`(10, 10)` with radius 8, `inverseRadius = 1/8` and force 3. -/
theorem diminishing_impulse_binary32_witness :
    ∃ w1, (F32.NCollisionResFunc2D.ApplyPointImpulse (fun p => pure p) ⟨0, 0⟩
        (Binary32.ofInt 8) (Binary32.lit 1 (-3)) (Binary32.ofInt 3)
        ⟨F32.boxSprite (Binary32.ofInt (-10)) (Binary32.ofInt (-10)) (Binary32.ofInt 10)
          (Binary32.ofInt 10), F32.boxSprite 0 0 1 1⟩ SpriteRef.A true).out = Except.ok w1 :=
  by
    obtain ⟨w1, h1, _⟩ := (diminishing_impulse_binary32 (fun p => pure p) ⟨0, 0⟩
      (Binary32.ofInt 8) (Binary32.lit 1 (-3)) (Binary32.ofInt 3)
      ⟨F32.boxSprite (Binary32.ofInt (-10)) (Binary32.ofInt (-10)) (Binary32.ofInt 10)
        (Binary32.ofInt 10), F32.boxSprite 0 0 1 1⟩ SpriteRef.A
      (Binary32.ofInt (-10))
      (some ⟨⟨Binary32.ofInt (-10), Binary32.ofInt 10⟩,
        ⟨Binary32.ofInt 10, Binary32.ofInt 10⟩, ⟨0, 1⟩⟩)
      ⟨Binary32.neg 0, Binary32.ofInt (-1)⟩
      ⟨0, Binary32.ofInt (-8)⟩ (Binary32.ofInt 8) (by rfl) (by rfl)).2.2.1
    exact ⟨w1, h1⟩

/-- Counterexample to C23 in binary32: for `p1 = (0, 2^-90)`, `p2 = (0, -2^-90)`, normal
`(0, 1)` and offset `0` the distances are `2^-90` and `-2^-90`, whose product is negative,
but the binary32 product underflows to `-0` and `Clip` returns 1. -/
theorem Clip_count_underflows :
    F32.planeDistance ⟨0, 1⟩ 0 ⟨0, Binary32.lit 1 (-90)⟩ = Binary32.lit 1 (-90) ∧
      F32.planeDistance ⟨0, 1⟩ 0 ⟨0, Binary32.neg (Binary32.lit 1 (-90))⟩ =
        Binary32.neg (Binary32.lit 1 (-90)) ∧
      (Binary32.lit 1 (-90)).toRat * (Binary32.neg (Binary32.lit 1 (-90))).toRat < 0 ∧
      (F32.NCollisionResFunc2D.Clip ⟨0, 1⟩ 0
          (⟨0, Binary32.lit 1 (-90)⟩, ⟨0, Binary32.neg (Binary32.lit 1 (-90))⟩)).out =
        Except.ok (1, (⟨0, Binary32.neg (Binary32.lit 1 (-90))⟩,
          ⟨0, Binary32.neg (Binary32.lit 1 (-90))⟩)) := by
  refine ⟨rfl, rfl, ?_, rfl⟩
  rw [Binary32.toRat_neg]
  have h : (0 : ℚ) < (Binary32.lit 1 (-90)).toRat := by
    show (0 : ℚ) < (if false = true then -((1 * 2 ^ (-90 + 149 : Int).toNat : Nat) : ℚ)
      else ((1 * 2 ^ (-90 + 149 : Int).toNat : Nat) : ℚ)) / 2 ^ 149
    rw [if_neg Bool.false_ne_true]
    positivity
  nlinarith

/-- C23 (amended): with `d1`, `d2` the signed distances of the two input points as `Clip`
computes them in binary32, `Clip` returns 2 with both points unchanged when `d1 ≤ 0` and
`d2 ≤ 0`, returns 2 when the computed product `d1 * d2` is negative, returns 1 when one
distance is zero and the other is `> 0`, and returns 0 with both points unchanged when
both distances are `> 0`. -/
theorem Clip_count_cases_binary32 (n : F32.CPoint) (c : Binary32)
    (p : F32.CPoint × F32.CPoint) :
    (F32.planeDistance n c p.1 ≤ 0 → F32.planeDistance n c p.2 ≤ 0 →
        (F32.NCollisionResFunc2D.Clip n c p).out = Except.ok (2, (p.1, p.2))) ∧
      (Binary32.times (F32.planeDistance n c p.1) (F32.planeDistance n c p.2) < 0 →
        ∃ q, (F32.NCollisionResFunc2D.Clip n c p).out = Except.ok (2, q)) ∧
      ((Binary32.eq (F32.planeDistance n c p.1) 0 = true ∧ 0 < F32.planeDistance n c p.2) ∨
          (0 < F32.planeDistance n c p.1 ∧ Binary32.eq (F32.planeDistance n c p.2) 0 = true) →
        ∃ q, (F32.NCollisionResFunc2D.Clip n c p).out = Except.ok (1, q)) ∧
      (0 < F32.planeDistance n c p.1 → 0 < F32.planeDistance n c p.2 →
        (F32.NCollisionResFunc2D.Clip n c p).out = Except.ok (0, (p.1, p.2))) := by
  obtain ⟨p1, p2⟩ := p
  refine ⟨?_, ?_, ?_, ?_⟩
  · intro h1 h2
    exact F32.Clip_out_both n p1 p2 c h1 h2
  · intro hp
    rcases Binary32.times_lt_zero _ _ hp with ⟨h1, h2⟩ | ⟨h1, h2⟩
    · exact ⟨_, F32.Clip_out_first_cross n p1 p2 c (Binary32.le_of_lt h1)
        (Binary32.not_le_of_lt h2) hp⟩
    · exact ⟨_, F32.Clip_out_second_cross n p1 p2 c (Binary32.not_le_of_lt h1)
        (Binary32.le_of_lt h2) hp⟩
  · rintro (⟨h1, h2⟩ | ⟨h1, h2⟩)
    · exact ⟨_, F32.Clip_out_first n p1 p2 c (Binary32.le_zero_of_eq_zero h1)
        (Binary32.not_le_of_lt h2) (Binary32.not_times_lt_zero_left _ h1)⟩
    · exact ⟨_, F32.Clip_out_second n p1 p2 c (Binary32.not_le_of_lt h1)
        (Binary32.le_zero_of_eq_zero h2) (Binary32.not_times_lt_zero_right _ h2)⟩
  · intro h1 h2
    exact F32.Clip_out_none n p1 p2 c (Binary32.not_le_of_lt h1) (Binary32.not_le_of_lt h2)

set_option maxRecDepth 100000 in
/-- Witness of C23 (amended): the four cases on the plane `x = 1`. -/
theorem Clip_count_cases_binary32_witness :
    (F32.NCollisionResFunc2D.Clip ⟨1, 0⟩ 1 (⟨0, 0⟩, ⟨1, Binary32.ofInt 3⟩)).out =
        Except.ok (2, (⟨0, 0⟩, ⟨1, Binary32.ofInt 3⟩)) ∧
      (∃ q, (F32.NCollisionResFunc2D.Clip ⟨1, 0⟩ 1 (⟨Binary32.ofInt 3, 0⟩, ⟨0, 0⟩)).out =
        Except.ok (2, q)) ∧
      (∃ q, (F32.NCollisionResFunc2D.Clip ⟨1, 0⟩ 1 (⟨Binary32.ofInt 3, 0⟩, ⟨1, 0⟩)).out =
        Except.ok (1, q)) ∧
      (F32.NCollisionResFunc2D.Clip ⟨1, 0⟩ 1
          (⟨Binary32.ofInt 2, 0⟩, ⟨Binary32.ofInt 3, 0⟩)).out =
        Except.ok (0, (⟨Binary32.ofInt 2, 0⟩, ⟨Binary32.ofInt 3, 0⟩)) :=
  ⟨(Clip_count_cases_binary32 ⟨1, 0⟩ 1 (⟨0, 0⟩, ⟨1, Binary32.ofInt 3⟩)).1 rfl rfl,
    (Clip_count_cases_binary32 ⟨1, 0⟩ 1 (⟨Binary32.ofInt 3, 0⟩, ⟨0, 0⟩)).2.1 rfl,
    (Clip_count_cases_binary32 ⟨1, 0⟩ 1 (⟨Binary32.ofInt 3, 0⟩, ⟨1, 0⟩)).2.2.1
      (Or.inr ⟨rfl, rfl⟩),
    (Clip_count_cases_binary32 ⟨1, 0⟩ 1
      (⟨Binary32.ofInt 2, 0⟩, ⟨Binary32.ofInt 3, 0⟩)).2.2.2 rfl rfl⟩

set_option maxRecDepth 1000000 in
/-- Counterexample to C24 in binary32: two bodies of inverse mass `1/3` rounded to binary32
and restitution 0 approach each other with the velocities `(0.1f, 0)` and `(-0.1f, 0)`
along the normal `(1, 0)`.  `ApplyImpulse` rounds and leaves them with `(2^-27, 0)` and
`(-2^-27, 0)`: the relative speed along the normal is `-2^-26`, so the bodies still
approach. -/
theorem rounded_impulse_still_approaching :
    F32.CCollisionManifold.ApplyImpulse (F32.contactManifold ⟨1, 0⟩ ⟨0, 0⟩)
        (F32.equalPair (Binary32.ofInt 3) F32.third 0 ⟨F32.tenth, 0⟩
          ⟨Binary32.neg F32.tenth, 0⟩) =
      Except.ok (F32.equalPair (Binary32.ofInt 3) F32.third 0
        ⟨Binary32.lit 1 (-27), 0⟩ ⟨Binary32.neg (Binary32.lit 1 (-27)), 0⟩, true) ∧
    contactVelocityAt (exactManifold (F32.contactManifold ⟨1, 0⟩ ⟨0, 0⟩))
        (exactWorld (F32.equalPair (Binary32.ofInt 3) F32.third 0
          ⟨Binary32.lit 1 (-27), 0⟩ ⟨Binary32.neg (Binary32.lit 1 (-27)), 0⟩))
        SpriteRef.A SpriteRef.B (exactPoint ⟨0, 0⟩) < 0 := by
  refine ⟨by rfl, ?_⟩
  rw [exactWorld_equalPair, exactManifold_contactManifold]
  simp only [contactVelocityAt, contactRadius, World.body, World.get, exactPoint,
    Binary32.toRat_one, Binary32.toRat_zero, Binary32.toRat_neg,
    Binary32.toRat_lit _ _ (by norm_num : (-149 : Int) ≤ -27)]
  norm_num [DotProduct2D, CrossProduct2DScalar, CPoint.add_def, CPoint.sub_def]

/-- C24 (amended): in binary32, for a normal whose exact length is 1, a positive effective
inverse mass, distinct sprites and a manifold with one contact point at which the exact
normal relative speed is `vn < 0`: when `ApplyImpulse` returns without any of its float
operations raising an IEEE exception (so none of them rounds), the contact-normal relative
speed of the resulting state at the same contact point is `-min(eRef, eInc) * vn`; this is
`≥ 0` for restitutions in `[0, 1]`. -/
theorem relative_speed_after_exact_impulse (m : F32.CCollisionManifold) (w w1 : F32.World)
    (r i : SpriteRef) (hm : m.IsFinite) (hw : w.IsFinite)
    (hr : m.pRefSprite = some r) (hi : m.pIncSprite = some i) (hri : r ≠ i)
    (hcount : m.contactCount = 1)
    (hunit : DotProduct2D (exactPoint m.normal) (exactPoint m.normal) = 1)
    (heff : 0 < effectiveInverseMass (exactManifold m) (exactWorld w) r i
      (exactPoint m.contactPoint0))
    (hneg : contactVelocityAt (exactManifold m) (exactWorld w) r i
      (exactPoint m.contactPoint0) < 0)
    (hrun : F32.CCollisionManifold.ApplyImpulse m w = Except.ok (w1, false)) :
    contactVelocityAt (exactManifold m) (exactWorld w1) r i (exactPoint m.contactPoint0) =
        -(min (w.body r).restitution.toRat (w.body i).restitution.toRat)
          * contactVelocityAt (exactManifold m) (exactWorld w) r i
            (exactPoint m.contactPoint0) ∧
      (0 ≤ (w.body r).restitution.toRat → (w.body r).restitution.toRat ≤ 1 →
        0 ≤ (w.body i).restitution.toRat → (w.body i).restitution.toRat ≤ 1 →
        0 ≤ contactVelocityAt (exactManifold m) (exactWorld w1) r i
          (exactPoint m.contactPoint0)) := by
  obtain ⟨_, hQ⟩ := ApplyImpulse_exact hm hw hrun
  obtain ⟨wq, hwq, h1, h2⟩ := relative_speed_after_impulse (exactManifold m) (exactWorld w)
    r i hr hi hri hcount hunit heff hneg
  rw [hQ] at hwq
  have hw1 := Except.ok.inj hwq
  subst hw1
  simp only [exactWorld_body, exactBody_restitution] at h1 h2
  exact ⟨h1, h2⟩

set_option maxRecDepth 100000 in
/-- Witness of C24 (amended): the heavy bodies approach with speed 3 each and meet at the
contact point `(0, 1)`; afterwards they spin apart with relative speed 3 at the contact. -/
theorem relative_speed_after_exact_impulse_witness :
    contactVelocityAt (exactManifold (F32.contactManifold ⟨1, 0⟩ ⟨0, 1⟩))
        (exactWorld (F32.heavyPairWith ⟨0, 0⟩ ⟨0, 0⟩ (Binary32.lit 3 (-1))
          (Binary32.neg (Binary32.lit 3 (-1)))))
        SpriteRef.A SpriteRef.B (exactPoint (F32.contactManifold ⟨1, 0⟩ ⟨0, 1⟩).contactPoint0) =
      -(min ((F32.heavyPair ⟨Binary32.ofInt 3, 0⟩ ⟨Binary32.ofInt (-3), 0⟩).body
            SpriteRef.A).restitution.toRat
          ((F32.heavyPair ⟨Binary32.ofInt 3, 0⟩ ⟨Binary32.ofInt (-3), 0⟩).body
            SpriteRef.B).restitution.toRat)
        * contactVelocityAt (exactManifold (F32.contactManifold ⟨1, 0⟩ ⟨0, 1⟩))
          (exactWorld (F32.heavyPair ⟨Binary32.ofInt 3, 0⟩ ⟨Binary32.ofInt (-3), 0⟩))
          SpriteRef.A SpriteRef.B
          (exactPoint (F32.contactManifold ⟨1, 0⟩ ⟨0, 1⟩).contactPoint0) :=
  (relative_speed_after_exact_impulse (F32.contactManifold ⟨1, 0⟩ ⟨0, 1⟩)
    (F32.heavyPair ⟨Binary32.ofInt 3, 0⟩ ⟨Binary32.ofInt (-3), 0⟩)
    (F32.heavyPairWith ⟨0, 0⟩ ⟨0, 0⟩ (Binary32.lit 3 (-1)) (Binary32.neg (Binary32.lit 3 (-1))))
    SpriteRef.A SpriteRef.B
    (F32.isFinite_contactManifold ⟨trivial, trivial⟩ ⟨trivial, trivial⟩)
    (F32.isFinite_heavyPair ⟨trivial, trivial⟩ ⟨trivial, trivial⟩)
    rfl rfl (by decide) rfl
    (by norm_num [F32.contactManifold, exactPoint, DotProduct2D, Binary32.toRat_one,
      Binary32.toRat_zero])
    (by
      rw [F32.heavyPair_eq, exactWorld_heavyPairWith, exactManifold_contactManifold]
      norm_num [effectiveInverseMass, contactRadius, F32.contactManifold, exactPoint,
        World.body, World.get, CrossProduct2D, Binary32.toRat_one, Binary32.toRat_zero,
        CCollisionManifold.ctor])
    (by
      rw [F32.heavyPair_eq, exactWorld_heavyPairWith, exactManifold_contactManifold]
      norm_num [contactVelocityAt, contactRadius, F32.contactManifold, exactPoint,
        World.body, World.get, DotProduct2D, CrossProduct2DScalar, Binary32.toRat_one,
        Binary32.toRat_zero, Binary32.toRat_ofInt, CCollisionManifold.ctor])
    (by rfl)).1

/-- C25: for bodies whose inverse mass is not negative and is 0 exactly when the mass is 0,
whenever `ResolveCollision` returns true the manifold's reference and incident sprites are
set, the sum of their inverse masses is strictly positive, and a following
`PositionalCorrection` returns without a division by zero. -/
theorem resolved_pair_has_inverse_mass (BoxRadiiIntersect : CPoint → ℚ → CPoint → ℚ → Bool)
    (w : World) (colMan : CCollisionManifold) (a b : SpriteRef) (r : ResolveResult)
    (h : ResolveCollision BoxRadiiIntersect w colMan a b = Except.ok r)
    (hret : r.ret = true)
    (hna : 0 ≤ (w.body a).inverseMass) (hnb : 0 ≤ (w.body b).inverseMass)
    (hza : (w.body a).inverseMass = 0 ↔ (w.body a).mass = 0)
    (hzb : (w.body b).inverseMass = 0 ↔ (w.body b).mass = 0) :
    ∃ ref inc, r.colMan.pRefSprite = some ref ∧ r.colMan.pIncSprite = some inc ∧
      0 < (r.world.body ref).inverseMass + (r.world.body inc).inverseMass ∧
      ∃ w1, r.colMan.PositionalCorrection r.world = Except.ok w1 := by
  have hmass := ResolveCollision_true_mass _ _ _ _ _ _ h hret
  have hsum : 0 < (w.body a).inverseMass + (w.body b).inverseMass := by
    rcases hmass with hm | hm
    · have h1 : (w.body a).inverseMass ≠ 0 := fun h0 => hm (hza.mp h0)
      have h2 : 0 < (w.body a).inverseMass := lt_of_le_of_ne hna (Ne.symm h1)
      linarith
    · have h1 : (w.body b).inverseMass ≠ 0 := fun h0 => hm (hzb.mp h0)
      have h2 : 0 < (w.body b).inverseMass := lt_of_le_of_ne hnb (Ne.symm h1)
      linarith
  obtain ⟨mA, mB, i, ref, inc, n1, p1, n2, q, _, _, _, _, _, _, _, _, _, _, _, hres⟩ :=
    ResolveCollision_true_desc _ _ _ _ _ _ h hret
  have hw : r.world = w := by rw [hres]
  have hpr : r.colMan.pRefSprite = (chosenManifold mA mB a b).pRefSprite := by rw [hres]
  have hpi : r.colMan.pIncSprite = (chosenManifold mA mB a b).pIncSprite := by rw [hres]
  rcases chosenManifold_pair mA mB a b with ⟨h1, h2⟩ | ⟨h1, h2⟩
  · have hpos : 0 < (r.world.body a).inverseMass + (r.world.body b).inverseMass := by
      rw [hw]
      exact hsum
    exact ⟨a, b, hpr.trans h1, hpi.trans h2, hpos,
      PositionalCorrection_ok _ _ a b (hpr.trans h1) (hpi.trans h2) (ne_of_gt hpos)⟩
  · have hpos : 0 < (r.world.body b).inverseMass + (r.world.body a).inverseMass := by
      rw [hw]
      linarith
    exact ⟨b, a, hpr.trans h1, hpi.trans h2, hpos,
      PositionalCorrection_ok _ _ b a (hpr.trans h1) (hpi.trans h2) (ne_of_gt hpos)⟩

/-- Witness of C25: the overlapping unit squares, A static and B moving left into it. -/
theorem resolved_pair_has_inverse_mass_witness :
    ∃ ref inc,
      (⟨true, overlapManifold, wallWorld⟩ : ResolveResult).colMan.pRefSprite = some ref ∧
      (⟨true, overlapManifold, wallWorld⟩ : ResolveResult).colMan.pIncSprite = some inc ∧
      0 < ((⟨true, overlapManifold, wallWorld⟩ : ResolveResult).world.body ref).inverseMass
        + ((⟨true, overlapManifold, wallWorld⟩ : ResolveResult).world.body inc).inverseMass ∧
      ∃ w1, (⟨true, overlapManifold, wallWorld⟩ : ResolveResult).colMan.PositionalCorrection
        (⟨true, overlapManifold, wallWorld⟩ : ResolveResult).world = Except.ok w1 :=
  resolved_pair_has_inverse_mass (fun _ _ _ _ => true) wallWorld CCollisionManifold.ctor
    SpriteRef.A SpriteRef.B ⟨true, overlapManifold, wallWorld⟩
    (overlap_resolve (fun _ _ _ _ => true) staticBody (movingBody ⟨-1, 0⟩) ⟨1/2, 1/2⟩
      ⟨1, 1/2⟩ 1 1 CCollisionManifold.ctor (Or.inr (by simp [movingBody, unitBody])) rfl)
    rfl
    (by norm_num [wallWorld, overlapWorld, World.body, World.get, sqSprite, staticBody])
    (by norm_num [wallWorld, overlapWorld, World.body, World.get, sqSprite, movingBody,
      unitBody])
    (by norm_num [wallWorld, overlapWorld, World.body, World.get, sqSprite, staticBody])
    (by norm_num [wallWorld, overlapWorld, World.body, World.get, sqSprite, movingBody,
      unitBody])

set_option maxRecDepth 1000000 in
/-- Counterexample to C26 in binary32: for `p1 = (-3, 0)`, `p2 = (18, 0)`, normal `(1, 0)`
and offset `0` the quotient `d1 / (d1 - d2) = 3 / 21` is rounded, `Clip` returns 2 and its
interpolated point is `(2^-22, 0)`, whose signed distance to the plane is `2^-22`: positive,
both as the exact value and as the binary32 code would compute it. -/
theorem Clip_interpolated_point_in_front :
    F32.NCollisionResFunc2D.Clip ⟨1, 0⟩ 0
        (⟨Binary32.ofInt (-3), 0⟩, ⟨Binary32.ofInt 18, 0⟩) =
      Except.ok ((2, (⟨Binary32.ofInt (-3), 0⟩, ⟨Binary32.lit 1 (-22), 0⟩)), true) ∧
    0 < F32.planeDistance ⟨1, 0⟩ 0 ⟨Binary32.lit 1 (-22), 0⟩ ∧
    0 < planeDistance (exactPoint ⟨1, 0⟩) (0 : Binary32).toRat
      (exactPoint ⟨Binary32.lit 1 (-22), 0⟩) := by
  refine ⟨by rfl, by rfl, ?_⟩
  norm_num [planeDistance, DotProduct2D, exactPoint, Binary32.toRat_zero, Binary32.toRat_one,
    Binary32.toRat_lit _ _ (by norm_num : (-149 : Int) ≤ -22)]

/-- C26 (amended): in binary32 `Clip` returns a count `k ≤ 2` for every input; slot 0 of
the first `k` output points is an input point whose computed distance is `≤ 0`, and slot 1
is either the second input point with computed distance `≤ 0` or the point interpolated in
binary32 as `p1 + (p2 - p1) * (d1 / (d1 - d2))`, written when the computed product
`d1 * d2` is negative.  When the inputs are finite and no operation of the call raises an
IEEE exception flag (nothing is rounded), each of the first `k` output points has signed
distance `≤ 0` to the plane and lies on the closed segment between the input points, and
for input points strictly on different sides the count is 2 and the second output point
has distance exactly 0. -/
theorem Clip_outputs_binary32 (n : F32.CPoint) (c : Binary32) (p : F32.CPoint × F32.CPoint) :
    (∃ (k : Nat) (q : F32.CPoint × F32.CPoint),
      (F32.NCollisionResFunc2D.Clip n c p).out = Except.ok (k, q) ∧ k ≤ 2 ∧
      (0 < k → (q.1 = p.1 ∧ F32.planeDistance n c p.1 ≤ 0) ∨
        (q.1 = p.2 ∧ F32.planeDistance n c p.2 ≤ 0)) ∧
      (1 < k → (q.2 = p.2 ∧ F32.planeDistance n c p.2 ≤ 0) ∨
        (q.2 = F32.clipPoint p.1 p.2 (F32.planeDistance n c p.1) (F32.planeDistance n c p.2) ∧
          Binary32.times (F32.planeDistance n c p.1) (F32.planeDistance n c p.2) < 0))) ∧
    (n.IsFinite → c.IsFinite → p.1.IsFinite → p.2.IsFinite →
      ∀ (k : Nat) (q : F32.CPoint × F32.CPoint),
        F32.NCollisionResFunc2D.Clip n c p = Except.ok ((k, q), false) →
        q.1.IsFinite ∧ q.2.IsFinite ∧
        (0 < k → planeDistance (exactPoint n) c.toRat (exactPoint q.1) ≤ 0 ∧
          OnSegment (exactPoint p.1) (exactPoint p.2) (exactPoint q.1)) ∧
        (1 < k → planeDistance (exactPoint n) c.toRat (exactPoint q.2) ≤ 0 ∧
          OnSegment (exactPoint p.1) (exactPoint p.2) (exactPoint q.2)) ∧
        (planeDistance (exactPoint n) c.toRat (exactPoint p.1) *
            planeDistance (exactPoint n) c.toRat (exactPoint p.2) < 0 →
          k = 2 ∧ planeDistance (exactPoint n) c.toRat (exactPoint q.2) = 0)) := by
  obtain ⟨p1, p2⟩ := p
  constructor
  · by_cases h1 : F32.planeDistance n c p1 ≤ 0
    · by_cases h2 : F32.planeDistance n c p2 ≤ 0
      · exact ⟨2, (p1, p2), F32.Clip_out_both n p1 p2 c h1 h2, le_refl 2,
          fun _ => Or.inl ⟨rfl, h1⟩, fun _ => Or.inl ⟨rfl, h2⟩⟩
      · by_cases hp : Binary32.times (F32.planeDistance n c p1) (F32.planeDistance n c p2) < 0
        · exact ⟨2, _, F32.Clip_out_first_cross n p1 p2 c h1 h2 hp, le_refl 2,
            fun _ => Or.inl ⟨rfl, h1⟩, fun _ => Or.inr ⟨rfl, hp⟩⟩
        · exact ⟨1, _, F32.Clip_out_first n p1 p2 c h1 h2 hp, by norm_num,
            fun _ => Or.inl ⟨rfl, h1⟩, fun h => absurd h (by norm_num)⟩
    · by_cases h2 : F32.planeDistance n c p2 ≤ 0
      · by_cases hp : Binary32.times (F32.planeDistance n c p1) (F32.planeDistance n c p2) < 0
        · exact ⟨2, _, F32.Clip_out_second_cross n p1 p2 c h1 h2 hp, le_refl 2,
            fun _ => Or.inr ⟨rfl, h2⟩, fun _ => Or.inr ⟨rfl, hp⟩⟩
        · exact ⟨1, _, F32.Clip_out_second n p1 p2 c h1 h2 hp, by norm_num,
            fun _ => Or.inr ⟨rfl, h2⟩, fun h => absurd h (by norm_num)⟩
      · exact ⟨0, _, F32.Clip_out_none n p1 p2 c h1 h2, by norm_num,
          fun h => absurd h (by norm_num), fun h => absurd h (by norm_num)⟩
  · intro hn hc hp1 hp2 k q hrun
    obtain ⟨q1, q2⟩ := q
    obtain ⟨hq1, hq2, hexact⟩ := Clip_exact hn hc hp1 hp2 hrun
    obtain ⟨k2, r, hr, _, ha, hb, hcross⟩ :=
      Clip_outputs_behind_on_segment (exactPoint n) c.toRat (exactPoint p1, exactPoint p2)
    rw [hexact] at hr
    obtain ⟨rfl, rfl⟩ := Prod.mk.inj (Except.ok.inj hr)
    exact ⟨hq1, hq2, ha, hb, fun h => ⟨(hcross h).1, (hcross h).2.1⟩⟩

set_option maxRecDepth 1000000 in
/-- Witness of C26 (amended): the edge from `(-2,0)` to `(2,0)` against the plane `x = 1`;
no operation rounds, the input points are strictly on different sides, the count is 2 and
the interpolated point `(1, 0)` is on the plane and on the segment. -/
theorem Clip_outputs_binary32_witness :
    F32.NCollisionResFunc2D.Clip ⟨1, 0⟩ 1
        (⟨Binary32.ofInt (-2), 0⟩, ⟨Binary32.ofInt 2, 0⟩) =
      Except.ok ((2, (⟨Binary32.ofInt (-2), 0⟩, ⟨1, 0⟩)), false) ∧
    planeDistance (exactPoint ⟨1, 0⟩) (1 : Binary32).toRat
        (exactPoint ⟨Binary32.ofInt (-2), 0⟩) *
      planeDistance (exactPoint ⟨1, 0⟩) (1 : Binary32).toRat
        (exactPoint ⟨Binary32.ofInt 2, 0⟩) < 0 ∧
    planeDistance (exactPoint ⟨1, 0⟩) (1 : Binary32).toRat (exactPoint ⟨1, 0⟩) = 0 ∧
    planeDistance (exactPoint ⟨1, 0⟩) (1 : Binary32).toRat
      (exactPoint ⟨Binary32.ofInt (-2), 0⟩) ≤ 0 ∧
    OnSegment (exactPoint ⟨Binary32.ofInt (-2), 0⟩) (exactPoint ⟨Binary32.ofInt 2, 0⟩)
      (exactPoint ⟨1, 0⟩) := by
  have hrun : F32.NCollisionResFunc2D.Clip ⟨1, 0⟩ 1
        (⟨Binary32.ofInt (-2), 0⟩, ⟨Binary32.ofInt 2, 0⟩) =
      Except.ok ((2, (⟨Binary32.ofInt (-2), 0⟩, ⟨1, 0⟩)), false) := by rfl
  have hprod : planeDistance (exactPoint ⟨1, 0⟩) (1 : Binary32).toRat
        (exactPoint ⟨Binary32.ofInt (-2), 0⟩) *
      planeDistance (exactPoint ⟨1, 0⟩) (1 : Binary32).toRat
        (exactPoint ⟨Binary32.ofInt 2, 0⟩) < 0 := by
    norm_num [planeDistance, DotProduct2D, exactPoint, Binary32.toRat_zero,
      Binary32.toRat_one, Binary32.toRat_ofInt]
  have h := (Clip_outputs_binary32 ⟨1, 0⟩ 1
    (⟨Binary32.ofInt (-2), 0⟩, ⟨Binary32.ofInt 2, 0⟩)).2
    ⟨Binary32.isFinite_one, Binary32.isFinite_zero⟩ Binary32.isFinite_one
    ⟨Binary32.isFinite_ofInt _, Binary32.isFinite_zero⟩
    ⟨Binary32.isFinite_ofInt _, Binary32.isFinite_zero⟩ 2
    (⟨Binary32.ofInt (-2), 0⟩, ⟨1, 0⟩) hrun
  exact ⟨hrun, hprod, (h.2.2.2.2 hprod).2, (h.2.2.1 (by norm_num)).1,
    (h.2.2.2.1 (by norm_num)).2⟩

/-- C29: in `ApplyPointImpulse` the edge selected by the search loop has a separation
`(point - edge.vert0) . edge.normal` that is the loop's final `separation` and is `≤ radius`,
so the rejection test `> radius` of the face region never succeeds: whenever the face
region is reached (separation not below `MIN_SEPARATION`, `dot0 > 0`, `dot1 > 0`) the
collision information is computed and there is no early return. -/
theorem face_rejection_unreachable (Normalize2D : CPoint → Except Fault CPoint)
    (point : CPoint) (radius : ℚ) (w : World) (pSprite : SpriteRef) (sep : ℚ) (e : CEdge)
    (h : ApplyPointImpulseLoop point radius (w.get pSprite).collisionSprite.outerEdge
      (-FLT_MAX) none = some (sep, some e)) :
    e ∈ (w.get pSprite).collisionSprite.outerEdge ∧
      sep = DotProduct2D (point - e.pVert0) e.normal ∧
      ¬ (DotProduct2D (point - e.pVert0) e.normal > radius) ∧
      (¬ sep < MIN_SEPARATION →
        0 < DotProduct2D (point - e.pVert0) (e.pVert1 - e.pVert0) →
        0 < DotProduct2D (point - e.pVert1) (e.pVert0 - e.pVert1) →
        ApplyPointImpulseContact Normalize2D point radius sep (some e) =
          Except.ok (some (-e.normal, point + -e.normal * radius, radius - sep))) := by
  obtain ⟨hmem, hsep, hle⟩ := ApplyPointImpulseLoop_selected point radius _ sep e h
  have hnot : ¬ (DotProduct2D (point - e.pVert0) e.normal > radius) := not_lt.mpr hle
  refine ⟨hmem, hsep, hnot, ?_⟩
  intro h1 h2 h3
  unfold ApplyPointImpulseContact
  simp only [if_neg h1, deref, bind, Except.bind, pure, Except.pure, if_neg (not_le.mpr h2),
    if_neg (not_le.mpr h3), if_neg hnot]

/-- Witness of C29: the point `(3/2, 1/2)` with radius 1 in front of the right edge of the
unit square. -/
theorem face_rejection_unreachable_witness :
    (⟨⟨0 + 1, 1⟩, ⟨0 + 1, 0⟩, ⟨1, 0⟩⟩ : CEdge) ∈
        (pointWorld.get SpriteRef.A).collisionSprite.outerEdge ∧
      (1 / 2 : ℚ) = DotProduct2D ((⟨3/2, 1/2⟩ : CPoint) -
        (⟨⟨0 + 1, 1⟩, ⟨0 + 1, 0⟩, ⟨1, 0⟩⟩ : CEdge).pVert0)
        (⟨⟨0 + 1, 1⟩, ⟨0 + 1, 0⟩, ⟨1, 0⟩⟩ : CEdge).normal ∧
      ¬ (DotProduct2D ((⟨3/2, 1/2⟩ : CPoint) -
        (⟨⟨0 + 1, 1⟩, ⟨0 + 1, 0⟩, ⟨1, 0⟩⟩ : CEdge).pVert0)
        (⟨⟨0 + 1, 1⟩, ⟨0 + 1, 0⟩, ⟨1, 0⟩⟩ : CEdge).normal > 1) ∧
      (¬ (1 / 2 : ℚ) < MIN_SEPARATION →
        0 < DotProduct2D ((⟨3/2, 1/2⟩ : CPoint) -
            (⟨⟨0 + 1, 1⟩, ⟨0 + 1, 0⟩, ⟨1, 0⟩⟩ : CEdge).pVert0)
          ((⟨⟨0 + 1, 1⟩, ⟨0 + 1, 0⟩, ⟨1, 0⟩⟩ : CEdge).pVert1 -
            (⟨⟨0 + 1, 1⟩, ⟨0 + 1, 0⟩, ⟨1, 0⟩⟩ : CEdge).pVert0) →
        0 < DotProduct2D ((⟨3/2, 1/2⟩ : CPoint) -
            (⟨⟨0 + 1, 1⟩, ⟨0 + 1, 0⟩, ⟨1, 0⟩⟩ : CEdge).pVert1)
          ((⟨⟨0 + 1, 1⟩, ⟨0 + 1, 0⟩, ⟨1, 0⟩⟩ : CEdge).pVert0 -
            (⟨⟨0 + 1, 1⟩, ⟨0 + 1, 0⟩, ⟨1, 0⟩⟩ : CEdge).pVert1) →
        ApplyPointImpulseContact (fun p => Except.ok p) ⟨3/2, 1/2⟩ 1 (1 / 2)
            (some ⟨⟨0 + 1, 1⟩, ⟨0 + 1, 0⟩, ⟨1, 0⟩⟩) =
          Except.ok (some (-(⟨⟨0 + 1, 1⟩, ⟨0 + 1, 0⟩, ⟨1, 0⟩⟩ : CEdge).normal,
            (⟨3/2, 1/2⟩ : CPoint) + -(⟨⟨0 + 1, 1⟩, ⟨0 + 1, 0⟩, ⟨1, 0⟩⟩ : CEdge).normal * (1 : ℚ),
            1 - 1 / 2))) :=
  face_rejection_unreachable (fun p => Except.ok p) ⟨3/2, 1/2⟩ 1 pointWorld SpriteRef.A (1 / 2)
    ⟨⟨0 + 1, 1⟩, ⟨0 + 1, 0⟩, ⟨1, 0⟩⟩
    (by norm_num [ApplyPointImpulseLoop, pointWorld, overlapWorld, World.get, sqSprite,
      sqEdges, DotProduct2D, FLT_MAX])

/-- Counterexample to C30 as stated: for the focus coordinate `x = 2147483647`, a value of
the 32-bit type `int`, the multiple is `17747798`, the remainder `89` exceeds 60, the
multiple becomes `17747799`, and `xMult * PLANET_SECTOR_SIZE = 2147483679` is outside the
range of `int`: the new centre is not computed. -/
theorem huge_focus_centre_overflows :
    INT_MIN ≤ 2147483647 ∧ (2147483647 : Int) ≤ INT_MAX ∧
      Int.tdiv 2147483647 PLANET_SECTOR_SIZE = 17747798 ∧
      adjustMult (Int.tmod 2147483647 PLANET_SECTOR_SIZE)
        (Int.tdiv 2147483647 PLANET_SECTOR_SIZE) 2147483647 = Except.ok 17747799 ∧
      INT_MAX < 17747799 * PLANET_SECTOR_SIZE ∧
      GenerateNewCenter 2147483647 0 = Except.error Fault.signedOverflow := by
  refine ⟨by decide, by decide, by decide, rfl, by decide, rfl⟩

/-- C30 (amended): for every focus whose coordinates `x`, `y` have absolute value at most
`2147483618`, the new centre is computed and each of its coordinates is a multiple of
`PLANET_SECTOR_SIZE = 121` nearest to the focus coordinate:
`|x - newCenter.x| ≤ 60` and no multiple of 121 is nearer (and likewise for `y`). -/
theorem new_centre_is_nearest_multiple (x y : Int)
    (hx1 : -2147483618 ≤ x) (hx2 : x ≤ 2147483618)
    (hy1 : -2147483618 ≤ y) (hy2 : y ≤ 2147483618) :
    ∃ cx cy mx my : Int, GenerateNewCenter x y = Except.ok (cx, cy) ∧
      cx = mx * PLANET_SECTOR_SIZE ∧ cy = my * PLANET_SECTOR_SIZE ∧
      |x - cx| ≤ 60 ∧ |y - cy| ≤ 60 ∧
      (∀ k : Int, |x - cx| ≤ |x - k * PLANET_SECTOR_SIZE|) ∧
      (∀ k : Int, |y - cy| ≤ |y - k * PLANET_SECTOR_SIZE|) := by
  have hsize : PLANET_SECTOR_SIZE = 121 := rfl
  have hnear : ∀ v : Int, |v - (v + 60) / 121 * 121| ≤ 60 ∧
      ∀ k : Int, |v - (v + 60) / 121 * 121| ≤ |v - k * 121| := by
    intro v
    have h60 : |v - (v + 60) / 121 * 121| ≤ 60 := abs_le.mpr ⟨by omega, by omega⟩
    refine ⟨h60, fun k => ?_⟩
    by_cases hk : k = (v + 60) / 121
    · rw [hk]
    · have h61 : 61 ≤ |v - k * 121| := by
        rw [le_abs]
        omega
      omega
  rw [hsize]
  exact ⟨(x + 60) / 121 * 121, (y + 60) / 121 * 121, (x + 60) / 121, (y + 60) / 121,
    GenerateNewCenter_eq x y hx1 hx2 hy1 hy2, rfl, rfl, (hnear x).1, (hnear y).1,
    (hnear x).2, (hnear y).2⟩

/-- Witness of C30 (amended): the focus `(200, -61)`, with new centre `(242, -121)`. -/
theorem new_centre_is_nearest_multiple_witness :
    ∃ cx cy mx my : Int, GenerateNewCenter 200 (-61) = Except.ok (cx, cy) ∧
      cx = mx * PLANET_SECTOR_SIZE ∧ cy = my * PLANET_SECTOR_SIZE ∧
      |200 - cx| ≤ 60 ∧ |-61 - cy| ≤ 60 ∧
      (∀ k : Int, |200 - cx| ≤ |200 - k * PLANET_SECTOR_SIZE|) ∧
      (∀ k : Int, |-61 - cy| ≤ |-61 - k * PLANET_SECTOR_SIZE|) :=
  new_centre_is_nearest_multiple 200 (-61) (by norm_num) (by norm_num) (by norm_num)
    (by norm_num)
